import Mathlib

/-!
# MiniRTOS: a shallow embedding of the kernel and its verification

The kernel state of MiniRTOS (`os_task.c`, `os_sched.c`, `os_utils_list.c`,
`os_utils_event.c`, `os_sem.c`, `os_msg_q.c`) is embedded as a record of typed
heaps.  Pointers are natural numbers, `0` is the null pointer.  Every C
function becomes a state-passing function into `Except Fault`:

* a failed `Q_ASSERT` / `Q_REQUIRE` is `Fault.assertion`,
* a dereference of the null pointer is `Fault.nullDeref`,
* every `while` loop of the source is a recursion on a fuel argument, and
  `Fault.fuel` is returned when the fuel is used up.

`OS_ENTER_CRITICAL` / `OS_EXIT_CRITICAL` only save and restore the interrupt
mask; the embedding is sequential, so they do not appear.
-/

namespace MiniRTOS

/-! ## Constants (`os.h`, `os_utils_event.h`, `os_utils_list.h`) -/

def NO_TIMEOUT : Nat := 0xffffffff
def OS_EVENT_TBL_SIZE : Nat := 8
def HIGHEST_PRIOTITY_USED : Nat := 8
def OS_MAX_EVENTS : Nat := 8
def OS_MAX_MQ : Nat := 8

def OS_ERR_OTHER : Nat := 128
def OS_ERR_NONE : Nat := 0
def OS_ERR_EVENT_TYPE : Nat := 1
def OS_ERR_Q_FULL : Nat := 2
def OS_ERR_SEM_OVF : Nat := 100

def OS_EVENT_TYPE_UNUSED : Nat := 0
def OS_EVENT_TYPE_SEM : Nat := 1
def OS_EVENT_TYPE_MQ : Nat := 2

def OS_STAT_PEND_OK : Nat := 0
def OS_STATE_SEM : Nat := 1
def OS_STAT_MQ : Nat := 2

def OS_TASK_PENDING : Nat := 0
def OS_NO_TASK_PENDING : Nat := 1

def READY_TASK_LIST : Nat := 1
def DELAYED_TASK_LIST : Nat := 2
def WAITING_TASK_LIST : Nat := 3

def MAX_TASK_PRIORITY : Nat := 8
def MAX_TASKS_IN_LIST : Nat := MAX_TASK_PRIORITY + 1

/-! ## Machine arithmetic -/

/-- The value `1U << b` style shift on 32-bit unsigned operands.  A shift count
of 32 or more (only produced by `PRIORITY_TO_BIT(0)`) yields 0, as the ARM
register shift does. -/
def shl32 (a b : Nat) : Nat := if b < 32 then (a <<< b) % 2 ^ 32 else 0

/-- Bitwise complement `~a` of a 32-bit unsigned value. -/
def not32 (a : Nat) : Nat := 0xffffffff ^^^ (a % 2 ^ 32)

/-- Unsigned 32-bit subtraction `a - 1U`. -/
def dec32 (a : Nat) : Nat := (a + (2 ^ 32 - 1)) % 2 ^ 32

/-- The macro `PRIORITY_TO_BIT(index)`, `(1U << (index - 1U))`. -/
def PRIORITY_TO_BIT (index : Nat) : Nat := shl32 1 (dec32 index)

/-- Count of leading zero bits among the lowest `k` bits of `x`, scanning from
bit `k - 1` downwards. -/
def clzFrom : Nat → Nat → Nat
  | 0, _ => 0
  | k + 1, x => if x.testBit k then 0 else clzFrom k x + 1

/-- The compiler builtin `__builtin_clz` on a 32-bit operand. -/
def builtin_clz (x : Nat) : Nat := clzFrom 32 x

/-- The macro `LOG2(x)`, `(32U - __builtin_clz(x))`. -/
def LOG2 (x : Nat) : Nat := 32 - builtin_clz x

/-! ## Data model (`os.h`, `os_utils_list.h`) -/

/-- Task control block `OS_TCB`. -/
structure OS_TCB where
  OS_TcbSp : Nat
  OS_TcbTimeout : Nat
  OS_TcbPrio : Nat
  OS_TcbEcbPtr : Nat
  OS_TcbState : Nat
  OS_TcbStatePend : Nat
  OS_TcbMQMsg : Nat
  OS_TcbName : String
  deriving DecidableEq

/-- Event control block `OS_EVENT`. -/
structure OS_EVENT where
  OS_EventType : Nat
  OS_EventPtr : Nat
  OS_EventCnt : Nat
  OS_EventName : String
  deriving DecidableEq

/-- Message queue control block `OS_MQ`.  Ring pointers count `void *` cells. -/
structure OS_MQ where
  OS_MQPtr : Nat
  OS_MQStart : Nat
  OS_MQEnd : Nat
  OS_MQIn : Nat
  OS_MQOut : Nat
  OS_MQSize : Nat
  OS_MQEntries : Nat
  deriving DecidableEq

/-- List node `Task_List_Node`. -/
structure Task_List_Node where
  prev : Nat
  next : Nat
  pTcb : Nat
  deriving DecidableEq

/-- The structure `Task_List`: one head pointer per priority and the bitmap. -/
structure Task_List where
  TaskList : Nat → Nat
  TaskRriorityBitMap : Nat

/-- The three task lists. -/
inductive ListId where
  | ready
  | delayed
  | waiting
  deriving DecidableEq

/-- Ways in which an execution of kernel code stops without returning. -/
inductive Fault where
  | assertion
  | nullDeref
  | fuel
  deriving DecidableEq

/-- The kernel state: typed heaps addressed by pointer, and the globals. -/
structure Kernel where
  tcb : Nat → OS_TCB
  node : Nat → Task_List_Node
  ecb : Nat → OS_EVENT
  mqcb : Nat → OS_MQ
  mem : Nat → Nat
  ReadyTaskList : Task_List
  DelayedTaskList : Task_List
  WaitingTaskList : Task_List
  OS_Tcb_Curr : Nat
  OS_Tcb_Next : Nat
  OSEventFreeList : Nat
  OS_MQcb_FreeList : Nat
  pendSV : Bool

/-- Result of one pass through a blocking service. -/
inductive WaitOutcome where
  | returned (msg : Nat) (err : Nat)
  | parked
  deriving DecidableEq

/-! ## Heap access -/

/-- Modelled from the spec: `Q_ASSERT` / `Q_REQUIRE` of `qassert.h` (not in the
sources): a contract violation invokes the assertion hook, which halts. -/
def Q_ASSERT (c : Prop) [Decidable c] : Except Fault Unit :=
  if c then .ok () else .error .assertion

def rdNode (s : Kernel) (p : Nat) : Except Fault Task_List_Node :=
  if p = 0 then .error .nullDeref else .ok (s.node p)

def rdTcb (s : Kernel) (p : Nat) : Except Fault OS_TCB :=
  if p = 0 then .error .nullDeref else .ok (s.tcb p)

def rdEcb (s : Kernel) (p : Nat) : Except Fault OS_EVENT :=
  if p = 0 then .error .nullDeref else .ok (s.ecb p)

def rdMq (s : Kernel) (p : Nat) : Except Fault OS_MQ :=
  if p = 0 then .error .nullDeref else .ok (s.mqcb p)

def wrNode (s : Kernel) (p : Nat) (v : Task_List_Node) : Except Fault Kernel :=
  if p = 0 then .error .nullDeref else .ok { s with node := Function.update s.node p v }

def wrTcb (s : Kernel) (p : Nat) (v : OS_TCB) : Except Fault Kernel :=
  if p = 0 then .error .nullDeref else .ok { s with tcb := Function.update s.tcb p v }

def wrEcb (s : Kernel) (p : Nat) (v : OS_EVENT) : Except Fault Kernel :=
  if p = 0 then .error .nullDeref else .ok { s with ecb := Function.update s.ecb p v }

def wrMq (s : Kernel) (p : Nat) (v : OS_MQ) : Except Fault Kernel :=
  if p = 0 then .error .nullDeref else .ok { s with mqcb := Function.update s.mqcb p v }

/-- Assignment `p->next = v`. -/
def setNext (s : Kernel) (p v : Nat) : Except Fault Kernel :=
  wrNode s p { s.node p with next := v }

/-- Assignment `p->prev = v`. -/
def setPrev (s : Kernel) (p v : Nat) : Except Fault Kernel :=
  wrNode s p { s.node p with prev := v }

def Kernel.getList (s : Kernel) : ListId → Task_List
  | .ready => s.ReadyTaskList
  | .delayed => s.DelayedTaskList
  | .waiting => s.WaitingTaskList

def Kernel.setList (s : Kernel) (L : ListId) (v : Task_List) : Kernel :=
  match L with
  | .ready => { s with ReadyTaskList := v }
  | .delayed => { s with DelayedTaskList := v }
  | .waiting => { s with WaitingTaskList := v }

/-- Assignment `taskList[index] = v` in list `L`. -/
def Kernel.setHead (s : Kernel) (L : ListId) (index v : Nat) : Kernel :=
  s.setList L { s.getList L with TaskList := Function.update (s.getList L).TaskList index v }

/-- Assignment to `TaskRriorityBitMap` of list `L`. -/
def Kernel.setBitMap (s : Kernel) (L : ListId) (v : Nat) : Kernel :=
  s.setList L { s.getList L with TaskRriorityBitMap := v }

/-- The static function `getTaskList` of `os_utils_list.c`; `none` is its null result. -/
def getTaskList (whichList : Nat) : Option ListId :=
  if whichList = READY_TASK_LIST then some .ready
  else if whichList = DELAYED_TASK_LIST then some .delayed
  else if whichList = WAITING_TASK_LIST then some .waiting
  else none

/-- The list selector constant of a list. -/
def ListId.code : ListId → Nat
  | .ready => READY_TASK_LIST
  | .delayed => DELAYED_TASK_LIST
  | .waiting => WAITING_TASK_LIST

/-! ## Task list store (`os_utils_list.c`) -/

/-- The loop `while (tempTask->next != 0) tempTask = tempTask->next;`. -/
def lastNode (s : Kernel) : Nat → Nat → Except Fault Nat
  | 0, _ => .error .fuel
  | fuel + 1, t => do
    let nd ← rdNode s t
    if nd.next ≠ 0 then lastNode s fuel nd.next else pure t

/-- The function `os_utilsAddTaskToListByNode`. -/
def os_utilsAddTaskToListByNode (fuel : Nat) (pTaskNode toWhichTaskList : Nat) (s : Kernel) :
    Except Fault Kernel := do
  let nd ← rdNode s pTaskNode
  let t ← rdTcb s nd.pTcb
  let index := t.OS_TcbPrio
  Q_ASSERT (0 < index ∧ index < MAX_TASK_PRIORITY)
  match getTaskList toWhichTaskList with
  | none => .error .assertion
  | some L =>
    let s1 ←
      if (s.getList L).TaskList index = 0 then
        pure (s.setHead L index pTaskNode)
      else do
        let tempTask ← lastNode s fuel ((s.getList L).TaskList index)
        let s2 ← setNext s tempTask pTaskNode
        setPrev s2 pTaskNode tempTask
    let bit := PRIORITY_TO_BIT index
    pure (s1.setBitMap L ((s1.getList L).TaskRriorityBitMap ||| bit))

/-- The unlink performed by `os_utilsRemoveFromWaitingListHPT` on a matching node:
the four cases (only one, first, last, middle), then both links are cleared. -/
def hptUnlink (s : Kernel) (index pTcb pTask : Nat) : Except Fault Kernel := do
  let nd ← rdNode s pTask
  let s1 ←
    if nd.next = 0 ∧ nd.prev = 0 then do
      let s2 := s.setHead .waiting index 0
      let t ← rdTcb s2 pTcb
      let bit := shl32 1 (dec32 t.OS_TcbPrio)
      pure (s2.setBitMap .waiting (s2.WaitingTaskList.TaskRriorityBitMap &&& not32 bit))
    else if nd.prev = 0 then do
      let s2 := s.setHead .waiting index nd.next
      setPrev s2 nd.next 0
    else if nd.next = 0 then
      setNext s nd.prev 0
    else do
      let s2 ← setNext s nd.prev nd.next
      setPrev s2 nd.next nd.prev
  let s3 ← setPrev s1 pTask 0
  setNext s3 pTask 0

/-- The inner loop `while (pTask != 0)` of `os_utilsRemoveFromWaitingListHPT`;
`none` means the slot was walked to its end without a match. -/
def hptInner (s : Kernel) (pEvent index pTcb : Nat) : Nat → Nat → Except Fault (Option (Nat × Kernel))
  | 0, _ => .error .fuel
  | fuel + 1, pTask =>
    if pTask = 0 then pure none
    else do
      let t ← rdTcb s (s.node pTask).pTcb
      if t.OS_TcbEcbPtr = pEvent then do
        let s1 ← hptUnlink s index pTcb pTask
        pure (some (pTask, s1))
      else hptInner s pEvent index pTcb fuel (s.node pTask).next

/-- The outer loop `while (workingSet != 0U)` of `os_utilsRemoveFromWaitingListHPT`. -/
def hptOuter (inner : Nat) (pEvent : Nat) (s : Kernel) : Nat → Nat → Except Fault (Nat × Kernel)
  | 0, _ => .error .fuel
  | fuel + 1, workingSet =>
    if workingSet = 0 then pure (0, s)
    else do
      let index := LOG2 workingSet
      let pTask := s.WaitingTaskList.TaskList index
      let nd ← rdNode s pTask
      let pTcb := nd.pTcb
      Q_ASSERT (pTcb ≠ 0)
      let t ← rdTcb s pTcb
      let bit := shl32 1 (dec32 t.OS_TcbPrio)
      match ← hptInner s pEvent index pTcb inner pTask with
      | some r => pure r
      | none => hptOuter inner pEvent s fuel (workingSet &&& not32 bit)

/-- The function `os_utilsRemoveFromWaitingListHPT`; the returned pointer is 0
when no task waits for the event. -/
def os_utilsRemoveFromWaitingListHPT (fuel : Nat) (pEvent : Nat) (s : Kernel) :
    Except Fault (Nat × Kernel) :=
  hptOuter fuel pEvent s fuel s.WaitingTaskList.TaskRriorityBitMap

/-- The loop `while ((pWalkTask->pTcb != task_tcb) && (pWalkTask))` of
`os_utilsRemoveFromListByTaskTcb`: the node is read before the null test. -/
def findByTcb (s : Kernel) (task_tcb : Nat) : Nat → Nat → Except Fault Nat
  | 0, _ => .error .fuel
  | fuel + 1, pWalkTask => do
    let nd ← rdNode s pWalkTask
    if nd.pTcb ≠ task_tcb ∧ pWalkTask ≠ 0 then findByTcb s task_tcb fuel nd.next
    else pure pWalkTask

/-- The function `os_utilsRemoveFromListByTaskTcb`; the returned pointer is 0
when the source returns the null node. -/
def os_utilsRemoveFromListByTaskTcb (fuel : Nat) (task_tcb fromWhichList : Nat) (s : Kernel) :
    Except Fault (Nat × Kernel) := do
  let t ← rdTcb s task_tcb
  let index := t.OS_TcbPrio
  Q_ASSERT (0 < index ∧ index ≤ MAX_TASK_PRIORITY)
  let bit := PRIORITY_TO_BIT index
  match getTaskList fromWhichList with
  | none => .error .assertion
  | some L =>
    let head := (s.getList L).TaskList index
    let hd ← rdNode s head
    if hd.next = 0 then
      if hd.pTcb = task_tcb then
        let s1 := s.setHead L index 0
        pure (head, s1.setBitMap L ((s1.getList L).TaskRriorityBitMap &&& not32 bit))
      else pure (0, s)
    else do
      let pWalkTask ← findByTcb s task_tcb fuel head
      if pWalkTask = 0 then pure (0, s)
      else do
        let nd ← rdNode s pWalkTask
        let s1 ←
          if nd.next = 0 then
            setNext s nd.prev 0
          else if nd.prev = 0 then do
            let s2 ← setPrev s nd.next 0
            pure (s2.setHead L index nd.next)
          else do
            let s2 ← setNext s nd.prev nd.next
            setPrev s2 nd.next nd.prev
        let s3 ← setPrev s1 pWalkTask 0
        let s4 ← setNext s3 pWalkTask 0
        pure (pWalkTask, s4)

/-! ## Scheduler (`os_sched.c`) -/

/-- The loop `while (nextTask)` of `os_schedGetNextTaskToRun`, with the code
after it (the head of the slot is chosen when the current task is not found). -/
def schedWalk (s : Kernel) (index : Nat) : Nat → Nat → Except Fault Nat
  | 0, _ => .error .fuel
  | fuel + 1, nextTask =>
    if nextTask = 0 then do
      let hd ← rdNode s (s.ReadyTaskList.TaskList index)
      pure hd.pTcb
    else
      if (s.node nextTask).pTcb = s.OS_Tcb_Curr then do
        let nxt := if (s.node nextTask).next ≠ 0 then (s.node nextTask).next
                   else s.ReadyTaskList.TaskList index
        let nd ← rdNode s nxt
        pure nd.pTcb
      else schedWalk s index fuel (s.node nextTask).next

/-- The function `os_schedGetNextTaskToRun`. -/
def os_schedGetNextTaskToRun (fuel : Nat) (s : Kernel) : Except Fault Nat := do
  let index := LOG2 s.ReadyTaskList.TaskRriorityBitMap
  let nextTask := s.ReadyTaskList.TaskList index
  Q_ASSERT (nextTask ≠ 0)
  schedWalk s index fuel nextTask

/-- Modelled from the spec: the macro `TRIGER_PENDSV_INT` of `os_sched.h` (not
in the sources) requests the deferred context switch; the request is the flag
`pendSV`. -/
def TRIGER_PENDSV_INT (s : Kernel) : Kernel := { s with pendSV := true }

/-- The function `OS_sched`. -/
def OS_sched (fuel : Nat) (s : Kernel) : Except Fault Kernel := do
  let nextTcb ←
    if s.ReadyTaskList.TaskRriorityBitMap = 0 then do
      let hd ← rdNode s (s.ReadyTaskList.TaskList 0)
      pure hd.pTcb
    else do
      let t ← os_schedGetNextTaskToRun fuel s
      Q_ASSERT (t ≠ 0)
      pure t
  if nextTcb ≠ s.OS_Tcb_Curr then
    pure (TRIGER_PENDSV_INT { s with OS_Tcb_Next := nextTcb })
  else pure s

/-! ## Event helpers (`os_utils_event.c`) -/

/-- Address of `OSEventTbl[i]`, counted in control blocks; the table starts at
address 1 so that 0 stays the null pointer. -/
def OSEventTbl (i : Nat) : Nat := i + 1

/-- Address of `OS_MQcb_Tbl[i]`, counted in control blocks. -/
def OS_MQcb_Tbl (i : Nat) : Nat := i + 1

/-- The loop of `OS_InitEventList` over `index = from .. OS_MAX_EVENTS - 2`. -/
def initEventLoop (ecb : Nat → OS_EVENT) : Nat → Nat → Nat → OS_EVENT
  | 0, _ => ecb
  | n + 1, index =>
    initEventLoop
      (Function.update ecb (OSEventTbl index)
        { ecb (OSEventTbl index) with
          OS_EventType := OS_EVENT_TYPE_UNUSED
          OS_EventPtr := OSEventTbl (index + 1)
          OS_EventName := "?" })
      n (index + 1)

/-- The call `OS_MemClr(&OSEventTbl[0], sizeof(OSEventTbl))`. -/
def clearEventTbl (ecb : Nat → OS_EVENT) : Nat → OS_EVENT :=
  fun a => if 1 ≤ a ∧ a ≤ OS_MAX_EVENTS then ⟨0, 0, 0, ""⟩ else ecb a

/-- The function `OS_InitEventList`. -/
def OS_InitEventList (s : Kernel) : Kernel :=
  let e1 := initEventLoop (clearEventTbl s.ecb) (OS_MAX_EVENTS - 1) 0
  let last := OSEventTbl (OS_MAX_EVENTS - 1)
  let e2 := Function.update e1 last
    { e1 last with OS_EventType := OS_EVENT_TYPE_UNUSED, OS_EventPtr := 0, OS_EventName := "?" }
  { s with ecb := e2, OSEventFreeList := OSEventTbl 0 }

/-- The function `OS_EventTaskWait`. -/
def OS_EventTaskWait (fuel : Nat) (tcb_curr : Nat) (s : Kernel) : Except Fault Kernel := do
  let (taskListNode, s1) ← os_utilsRemoveFromListByTaskTcb fuel tcb_curr READY_TASK_LIST s
  Q_ASSERT (taskListNode ≠ 0)
  os_utilsAddTaskToListByNode fuel taskListNode WAITING_TASK_LIST s1

/-- The function `OS_EventTaskReady`; `pMsg`, `msk` and `pend_state` are not
used by its body. -/
def OS_EventTaskReady (fuel : Nat) (pEvent _pMsg _msk _pend_state : Nat) (s : Kernel) :
    Except Fault (Nat × Kernel) := do
  let (pTaskListNode, s1) ← os_utilsRemoveFromWaitingListHPT fuel pEvent s
  if pTaskListNode ≠ 0 then do
    let s2 ← os_utilsAddTaskToListByNode fuel pTaskListNode READY_TASK_LIST s1
    pure (OS_TASK_PENDING, s2)
  else pure (OS_NO_TASK_PENDING, s1)

/-! ## Semaphore (`os_sem.c`) -/

/-- The function `OS_Sem_Create`; returns the ECB pointer (0 when the pool is empty). -/
def OS_Sem_Create (cnt : Nat) (se_name : String) (s : Kernel) : Nat × Kernel :=
  let pEvent := s.OSEventFreeList
  let s1 := if s.OSEventFreeList ≠ 0 then
      { s with OSEventFreeList := (s.ecb s.OSEventFreeList).OS_EventPtr }
    else s
  if pEvent ≠ 0 then
    let e : OS_EVENT :=
      { OS_EventType := OS_EVENT_TYPE_SEM
        OS_EventCnt := cnt % 2 ^ 16
        OS_EventPtr := 0
        OS_EventName := se_name }
    (pEvent, { s1 with ecb := Function.update s1.ecb pEvent e })
  else (pEvent, s1)

/-- The function `OS_Sem_Wait`; the first component is the value stored in `*pErr`. -/
def OS_Sem_Wait (fuel : Nat) (pEvent timeout : Nat) (s : Kernel) : Except Fault (Nat × Kernel) := do
  let e ← rdEcb s pEvent
  if e.OS_EventType ≠ OS_EVENT_TYPE_SEM then pure (OS_ERR_EVENT_TYPE, s)
  else if e.OS_EventCnt > 0 then do
    let s1 ← wrEcb s pEvent { e with OS_EventCnt := (e.OS_EventCnt + (2 ^ 16 - 1)) % 2 ^ 16 }
    pure (OS_ERR_NONE, s1)
  else do
    let c ← rdTcb s s.OS_Tcb_Curr
    let s1 ← wrTcb s s.OS_Tcb_Curr
      { c with
        OS_TcbState := c.OS_TcbState ||| OS_STATE_SEM
        OS_TcbStatePend := OS_STAT_PEND_OK
        OS_TcbTimeout := timeout
        OS_TcbEcbPtr := pEvent }
    let s2 ← OS_EventTaskWait fuel s1.OS_Tcb_Curr s1
    let s3 ← OS_sched fuel s2
    pure (OS_ERR_NONE, s3)

/-- The function `OS_Sem_Post`; the first component is the returned status. -/
def OS_Sem_Post (fuel : Nat) (pEvent : Nat) (s : Kernel) : Except Fault (Nat × Kernel) := do
  let e ← rdEcb s pEvent
  if e.OS_EventType ≠ OS_EVENT_TYPE_SEM then pure (OS_ERR_EVENT_TYPE, s)
  else if s.WaitingTaskList.TaskRriorityBitMap ≠ 0 then do
    let (_, s1) ← OS_EventTaskReady fuel pEvent 0 OS_STATE_SEM OS_STAT_PEND_OK s
    let s2 ← OS_sched fuel s1
    pure (OS_ERR_NONE, s2)
  else if e.OS_EventCnt < 65535 then do
    let s1 ← wrEcb s pEvent { e with OS_EventCnt := (e.OS_EventCnt + 1) % 2 ^ 16 }
    pure (OS_ERR_NONE, s1)
  else pure (OS_ERR_SEM_OVF, s)

/-! ## Message queue (`os_msg_q.c`) -/

/-- The function `OS_MsgQ_Send`; the first component is the returned status. -/
def OS_MsgQ_Send (fuel : Nat) (pEvent pMsg : Nat) (s : Kernel) : Except Fault (Nat × Kernel) := do
  let e ← rdEcb s pEvent
  if e.OS_EventType ≠ OS_EVENT_TYPE_MQ then pure (OS_ERR_EVENT_TYPE, s)
  else do
    let pMq := e.OS_EventPtr
    let q ← rdMq s pMq
    if q.OS_MQEntries ≥ q.OS_MQSize then pure (OS_ERR_Q_FULL, s)
    else do
      let s1 := { s with mem := Function.update s.mem q.OS_MQIn pMsg }
      let q1 := { q with OS_MQIn := q.OS_MQIn + 1, OS_MQEntries := (q.OS_MQEntries + 1) % 2 ^ 16 }
      let q2 := if q1.OS_MQIn = q1.OS_MQEnd then { q1 with OS_MQIn := q1.OS_MQStart } else q1
      let s2 ← wrMq s1 pMq q2
      if s2.WaitingTaskList.TaskRriorityBitMap ≠ 0 then do
        let (status, s3) ← OS_EventTaskReady fuel pEvent pMsg OS_STAT_MQ OS_STAT_PEND_OK s2
        if status = OS_TASK_PENDING then do
          let s4 ← OS_sched fuel s3
          pure (OS_ERR_NONE, s4)
        else pure (OS_ERR_NONE, s3)
      else pure (OS_ERR_NONE, s2)

/-- One pass of the `while(1)` loop of `OS_MsgQ_Wait` (preceded by the type
check): either the function returns a message and `*pErr`, or the caller is
parked on the event and the loop is re-entered when the task runs again. -/
def OS_MsgQ_Wait (fuel : Nat) (pEvent timeout : Nat) (s : Kernel) :
    Except Fault (WaitOutcome × Kernel) := do
  let e ← rdEcb s pEvent
  if e.OS_EventType ≠ OS_EVENT_TYPE_MQ then pure (.returned 0 OS_ERR_EVENT_TYPE, s)
  else do
    let pMsgQ := e.OS_EventPtr
    let q ← rdMq s pMsgQ
    if q.OS_MQEntries > 0 then do
      let pMessage := s.mem q.OS_MQOut
      let q1 := { q with OS_MQOut := q.OS_MQOut + 1,
                         OS_MQEntries := (q.OS_MQEntries + (2 ^ 16 - 1)) % 2 ^ 16 }
      let q2 := if q1.OS_MQOut = q1.OS_MQEnd then { q1 with OS_MQOut := q1.OS_MQStart } else q1
      let s1 ← wrMq s pMsgQ q2
      pure (.returned pMessage OS_ERR_NONE, s1)
    else do
      let c ← rdTcb s s.OS_Tcb_Curr
      let s1 ← wrTcb s s.OS_Tcb_Curr { c with OS_TcbTimeout := timeout, OS_TcbEcbPtr := pEvent }
      let s2 ← OS_EventTaskWait fuel s1.OS_Tcb_Curr s1
      let s3 ← OS_sched fuel s2
      pure (.parked, s3)

/-! ## Task list store, continued (`os_utils_list.c`) -/

/-- The function `os_utilsTaskListInit`: the nine heads of each list and the
three bitmaps are cleared. -/
def os_utilsTaskListInit (s : Kernel) : Kernel :=
  let clr (l : Task_List) : Task_List :=
    { TaskList := fun i => if i < MAX_TASKS_IN_LIST then 0 else l.TaskList i
      TaskRriorityBitMap := 0 }
  { s with
    ReadyTaskList := clr s.ReadyTaskList
    DelayedTaskList := clr s.DelayedTaskList
    WaitingTaskList := clr s.WaitingTaskList }

/-- The function `os_utilsAddTaskToReadyListByTcb`.  `pTempTask` is the pointer
returned by the call of `malloc` (0 when the allocation fails); the first
component of the result is the returned status.  The bitmap bit is set only in
the branch that fills an empty slot. -/
def os_utilsAddTaskToReadyListByTcb (fuel : Nat) (task_tcb pTempTask : Nat) (s : Kernel) :
    Except Fault (Nat × Kernel) := do
  let t ← rdTcb s task_tcb
  let index := t.OS_TcbPrio
  Q_ASSERT (index ≤ MAX_TASK_PRIORITY)
  if pTempTask = 0 then pure (OS_ERR_OTHER, s)
  else do
    let s1 ← wrNode s pTempTask { prev := 0, next := 0, pTcb := task_tcb }
    let bit := PRIORITY_TO_BIT index
    if s1.ReadyTaskList.TaskList index = 0 then
      let s2 := s1.setHead .ready index pTempTask
      pure (OS_ERR_NONE, s2.setBitMap .ready (s2.ReadyTaskList.TaskRriorityBitMap ||| bit))
    else do
      let pWalkTask ← lastNode s1 fuel (s1.ReadyTaskList.TaskList index)
      let s2 ← setNext s1 pWalkTask pTempTask
      let s3 ← setPrev s2 pTempTask pWalkTask
      pure (OS_ERR_NONE, s3)

/-- The function `os_utilsAddTaskToDelayedListByNode`: both links of the node
are cleared before it is appended. -/
def os_utilsAddTaskToDelayedListByNode (fuel : Nat) (pTaskNode : Nat) (s : Kernel) :
    Except Fault Kernel := do
  let nd ← rdNode s pTaskNode
  let t ← rdTcb s nd.pTcb
  let index := t.OS_TcbPrio
  Q_ASSERT (0 < index ∧ index ≤ MAX_TASK_PRIORITY)
  let s1 ← setPrev s pTaskNode 0
  let s2 ← setNext s1 pTaskNode 0
  let bit := PRIORITY_TO_BIT index
  let s3 ←
    if s2.DelayedTaskList.TaskList index = 0 then
      pure (s2.setHead .delayed index pTaskNode)
    else do
      let pWalkTask ← lastNode s2 fuel (s2.DelayedTaskList.TaskList index)
      let s4 ← setNext s2 pWalkTask pTaskNode
      setPrev s4 pTaskNode pWalkTask
  pure (s3.setBitMap .delayed (s3.DelayedTaskList.TaskRriorityBitMap ||| bit))

/-- The function `os_utilsRemoveFromListByTaskNode`.  The test for "only task in
the list" reads the head of the slot, and in that branch the head is the node
that is cleared and returned. -/
def os_utilsRemoveFromListByTaskNode (taskToBeRemove fromWhichList : Nat) (s : Kernel) :
    Except Fault (Nat × Kernel) := do
  Q_ASSERT (taskToBeRemove ≠ 0)
  let nd ← rdNode s taskToBeRemove
  let t ← rdTcb s nd.pTcb
  let index := t.OS_TcbPrio
  Q_ASSERT (0 < index ∧ index ≤ MAX_TASK_PRIORITY)
  let bit := PRIORITY_TO_BIT index
  match getTaskList fromWhichList with
  | none => .error .assertion
  | some L =>
    let head := (s.getList L).TaskList index
    let hd ← rdNode s head
    let (pTaskNode, s1) ←
      if hd.next = 0 then
        let s2 := s.setHead L index 0
        pure (head, s2.setBitMap L ((s2.getList L).TaskRriorityBitMap &&& not32 bit))
      else if nd.prev = 0 then do
        let s2 ← setPrev s nd.next 0
        pure (taskToBeRemove, s2.setHead L index nd.next)
      else if nd.next = 0 then do
        let s2 ← setNext s nd.prev 0
        pure (taskToBeRemove, s2)
      else do
        let s2 ← setNext s nd.prev nd.next
        let s3 ← setPrev s2 nd.next nd.prev
        pure (taskToBeRemove, s3)
    let s4 ← setNext s1 pTaskNode 0
    let s5 ← setPrev s4 pTaskNode 0
    pure (pTaskNode, s5)

/-! ## Tick handler (`os_sched.c`) -/

/-- The statements of `OS_tick` executed for one node: the timeout of its TCB is
decremented, and when it reaches zero the node is removed from Delayed and
inserted into Ready. -/
def tickNode (fuel : Nat) (tempTask : Nat) (s : Kernel) : Except Fault Kernel := do
  let nd ← rdNode s tempTask
  let pTcp := nd.pTcb
  let t ← rdTcb s pTcp
  let s1 ← wrTcb s pTcp { t with OS_TcbTimeout := dec32 t.OS_TcbTimeout }
  if (s1.tcb pTcp).OS_TcbTimeout = 0 then do
    let (pTask, s2) ← os_utilsRemoveFromListByTaskNode tempTask DELAYED_TASK_LIST s1
    Q_ASSERT (pTask ≠ 0)
    os_utilsAddTaskToListByNode fuel pTask READY_TASK_LIST s2
  else pure s1

/-- The loop `while (tempTask != 0)` of `OS_tick` over a priority group with more
than one task; the successor is read after the node has been handled. -/
def tickInner (inner : Nat) : Nat → Nat → Kernel → Except Fault Kernel
  | 0, _, _ => .error .fuel
  | fuel + 1, tempTask, s =>
    if tempTask = 0 then pure s
    else do
      let s1 ← tickNode inner tempTask s
      tickInner inner fuel (s1.node tempTask).next s1

/-- The loop `while (workingSet != 0U)` of `OS_tick`. -/
def tickOuter (inner : Nat) : Nat → Nat → Kernel → Except Fault Kernel
  | 0, _, _ => .error .fuel
  | fuel + 1, workingSet, s =>
    if workingSet = 0 then pure s
    else do
      let index := LOG2 workingSet
      let tempTask := s.DelayedTaskList.TaskList index
      let nd ← rdNode s tempTask
      let pTcp := nd.pTcb
      Q_ASSERT (pTcp ≠ 0 ∧ (s.tcb pTcp).OS_TcbTimeout ≠ 0)
      let bit := shl32 1 (dec32 (s.tcb pTcp).OS_TcbPrio)
      let s1 ←
        if nd.next = 0 then tickNode inner tempTask s
        else tickInner inner inner tempTask s
      tickOuter inner fuel (workingSet &&& not32 bit) s1

/-- The function `OS_tick`. -/
def OS_tick (fuel : Nat) (s : Kernel) : Except Fault Kernel :=
  tickOuter fuel fuel s.DelayedTaskList.TaskRriorityBitMap s

/-- The function `SysTick_Handler`: `OS_tick` followed by `OS_sched`. -/
def SysTick_Handler (fuel : Nat) (s : Kernel) : Except Fault Kernel := do
  let s1 ← OS_tick fuel s
  OS_sched fuel s1

/-! ## Task factory (`os_task.c`) -/

/-- Pointer decrement `--sp` on a `uint32_t *` held as a byte address. -/
def decSp (sp : Nat) : Nat := (sp + (2 ^ 32 - 4)) % 2 ^ 32

/-- The statement `*(--sp) = v`.  The memory is addressed in 32-bit words, so
the word at byte address `a` is cell `a / 4`. -/
def pushWord (st : Nat × Kernel) (v : Nat) : Nat × Kernel :=
  (decSp st.1, { st.2 with mem := Function.update st.2.mem (decSp st.1 / 4) v })

/-- The sixteen words of the fabricated exception frame, in the order in which
`OS_Task_Create` stores them: xPSR, PC, LR, R12, R3 .. R0, R11 .. R4. -/
def initialFrame (threadHandler : Nat) : List Nat :=
  [shl32 1 24, threadHandler, 0xE, 0xC, 3, 2, 1, 0, 0xB, 0xA, 9, 8, 7, 6, 5, 4]

/-- The loop `for (sp = sp - 1U; sp >= stk_limit; --sp) *sp = 0xDEADBEEFU;`,
entered with `sp` already decremented once. -/
def fillStack (stk_limit : Nat) : Nat → Nat → Kernel → Except Fault Kernel
  | 0, _, _ => .error .fuel
  | fuel + 1, sp, s =>
    if sp ≥ stk_limit then
      fillStack stk_limit fuel (decSp sp)
        { s with mem := Function.update s.mem (sp / 4) 0xDEADBEEF }
    else pure s

/-- The function `OS_Task_Create`.  `pNode` is the pointer returned by the call
of `malloc` inside `os_utilsAddTaskToReadyListByTcb`. -/
def OS_Task_Create (fuel : Nat) (myTcb prio threadHandler stkSto stkSize pNode : Nat)
    (s : Kernel) : Except Fault Kernel := do
  let sp0 := (stkSto + stkSize) % 2 ^ 32 / 8 * 8
  Q_ASSERT (prio < MAX_TASKS_IN_LIST)
  let (sp, s1) := (initialFrame threadHandler).foldl pushWord (sp0, s)
  let c ← rdTcb s1 myTcb
  let s2 ← wrTcb s1 myTcb { c with OS_TcbSp := sp }
  let stk_limit := (dec32 stkSto / 8 + 1) * 8 % 2 ^ 32
  let s3 ← fillStack stk_limit fuel (decSp sp) s2
  let s4 ← wrTcb s3 myTcb { s3.tcb myTcb with OS_TcbPrio := prio }
  let (addStatus, s5) ← os_utilsAddTaskToReadyListByTcb fuel myTcb pNode s4
  Q_ASSERT (addStatus = OS_ERR_NONE)
  pure s5

/-! ## Message queue pool (`os_msg_q.c`) -/

/-- The loop of `OS_MsgQ_Init` over `index = from .. OS_MAX_MQ - 2`, which links
each MQCB to the next one. -/
def initMqLoop (mqcb : Nat → OS_MQ) : Nat → Nat → Nat → OS_MQ
  | 0, _ => mqcb
  | n + 1, index =>
    initMqLoop
      (Function.update mqcb (OS_MQcb_Tbl index)
        { mqcb (OS_MQcb_Tbl index) with OS_MQPtr := OS_MQcb_Tbl (index + 1) })
      n (index + 1)

/-- The call `OS_MemClr(&OS_MQcb_Tbl[0], sizeof(OS_MQcb_Tbl))`. -/
def clearMqTbl (mqcb : Nat → OS_MQ) : Nat → OS_MQ :=
  fun a => if 1 ≤ a ∧ a ≤ OS_MAX_MQ then ⟨0, 0, 0, 0, 0, 0, 0⟩ else mqcb a

/-- The function `OS_MsgQ_Init`. -/
def OS_MsgQ_Init (s : Kernel) : Kernel :=
  let q1 := initMqLoop (clearMqTbl s.mqcb) (OS_MAX_MQ - 1) 0
  let last := OS_MQcb_Tbl (OS_MAX_MQ - 1)
  let q2 := Function.update q1 last { q1 last with OS_MQPtr := 0 }
  { s with mqcb := q2, OS_MQcb_FreeList := OS_MQcb_Tbl 0 }

/-- The function `OS_MsgQ_Create`; returns the ECB pointer.  With an empty ECB
pool the source stores through the null pointer `pEvent`. -/
def OS_MsgQ_Create (start size : Nat) (s : Kernel) : Except Fault (Nat × Kernel) := do
  let pEvent := s.OSEventFreeList
  let s1 := if s.OSEventFreeList ≠ 0 then
      { s with OSEventFreeList := (s.ecb s.OSEventFreeList).OS_EventPtr }
    else s
  if pEvent ≠ 0 then
    let pMsgQ := s1.OS_MQcb_FreeList
    if pMsgQ ≠ 0 then
      let s2 := { s1 with OS_MQcb_FreeList := (s1.mqcb s1.OS_MQcb_FreeList).OS_MQPtr }
      let q : OS_MQ :=
        { s2.mqcb pMsgQ with
          OS_MQStart := start
          OS_MQEnd := start + size % 2 ^ 16
          OS_MQIn := start
          OS_MQOut := start
          OS_MQSize := size % 2 ^ 16
          OS_MQEntries := 0 }
      let e : OS_EVENT :=
        { OS_EventType := OS_EVENT_TYPE_MQ
          OS_EventCnt := 0
          OS_EventPtr := pMsgQ
          OS_EventName := "MsgQ" }
      pure (pEvent, { s2 with mqcb := Function.update s2.mqcb pMsgQ q
                              ecb := Function.update s2.ecb pEvent e })
    else pure (pEvent, s1)
  else do
    let s2 ← wrEcb s1 pEvent { s1.ecb pEvent with OS_EventPtr := s1.OSEventFreeList }
    pure (0, { s2 with OSEventFreeList := pEvent })

/-! ## Kernel start, delay and context switch (`os_task.c`) -/

/-- The function `OS_Init`.  `idleTask` is the address of the idle TCB,
`main_idleTask` the address of the idle function and `pNode` the list node that
`malloc` returns for the idle task.  The macro
`SET_PENDSV_INT_PRIO_TO_LOWEST_LEVEL` writes an interrupt-controller register
that is not part of the kernel state. -/
def OS_Init (fuel : Nat) (stkSto stkSize idleTask main_idleTask pNode : Nat) (s : Kernel) :
    Except Fault Kernel :=
  let s1 := OS_InitEventList s
  let s2 := OS_MsgQ_Init s1
  let s3 := os_utilsTaskListInit s2
  OS_Task_Create fuel idleTask 0 main_idleTask stkSto stkSize pNode s3

/-- The function `OS_Delay`. -/
def OS_Delay (fuel : Nat) (ticks : Nat) (s : Kernel) : Except Fault Kernel := do
  let hd ← rdNode s (s.ReadyTaskList.TaskList 0)
  Q_ASSERT (s.OS_Tcb_Curr ≠ hd.pTcb)
  let c ← rdTcb s s.OS_Tcb_Curr
  let s1 ← wrTcb s s.OS_Tcb_Curr { c with OS_TcbTimeout := ticks }
  let (tempTask, s2) ← os_utilsRemoveFromListByTaskTcb fuel s1.OS_Tcb_Curr READY_TASK_LIST s1
  Q_ASSERT (tempTask ≠ 0)
  let s3 ← os_utilsAddTaskToDelayedListByNode fuel tempTask s2
  OS_sched fuel s3

/-- The precondition of `OS_Delay`, its first statement
`Q_REQUIRE(OS_Tcb_Curr != ReadyTaskList.TaskList[0]->pTcb)`: the head of Ready
slot 0 is read and compared with the current task.  Nothing is written and no
state is produced. -/
def OS_Delay_precondition (s : Kernel) : Except Fault Unit := do
  let hd ← rdNode s (s.ReadyTaskList.TaskList 0)
  Q_ASSERT (s.OS_Tcb_Curr ≠ hd.pTcb)

/-- The statements of `OS_Delay` behind the precondition, from the store
`OS_Tcb_Curr->OS_TcbTimeout = ticks` to the call of `OS_sched`. -/
def OS_Delay_body (fuel : Nat) (ticks : Nat) (s : Kernel) : Except Fault Kernel := do
  let c ← rdTcb s s.OS_Tcb_Curr
  let s1 ← wrTcb s s.OS_Tcb_Curr { c with OS_TcbTimeout := ticks }
  let (tempTask, s2) ← os_utilsRemoveFromListByTaskTcb fuel s1.OS_Tcb_Curr READY_TASK_LIST s1
  Q_ASSERT (tempTask ≠ 0)
  let s3 ← os_utilsAddTaskToDelayedListByNode fuel tempTask s2
  OS_sched fuel s3

/-- Modelled from the spec: the PendSV handler (the context switch routine of the
port layer, not in the sources).  It stores the stack pointer `sp` of the
preempted task in the current TCB, when there is one, and advances
`current = next`; taking the exception clears the pending request.  The
register save and restore act on the CPU, which the kernel state does not
record. -/
def PendSV_Handler (sp : Nat) (s : Kernel) : Kernel :=
  let c := s.tcb s.OS_Tcb_Curr
  let tcb1 := if s.OS_Tcb_Curr ≠ 0 then
      Function.update s.tcb s.OS_Tcb_Curr { c with OS_TcbSp := sp }
    else s.tcb
  { s with tcb := tcb1, OS_Tcb_Curr := s.OS_Tcb_Next, pendSV := false }

/-! ## Well-formed task lists

The predicates below describe the linked structure of the task lists against
an abstract shape: for each list and priority, the sequence of node pointers
of the slot, head first. -/

/-- The segment predicate `Seg nd pv h l e`: following `next` from `h` visits
exactly the nodes of `l`, in order, and then reaches `e`; each node is non-null
and its `prev` is its predecessor (`pv` for the first node). -/
def Seg (nd : Nat → Task_List_Node) : Nat → Nat → List Nat → Nat → Prop
  | _, h, [], e => h = e
  | pv, h, n :: l, e => h = n ∧ n ≠ 0 ∧ (nd n).prev = pv ∧ Seg nd n (nd n).next l e

instance Seg.dec (nd : Nat → Task_List_Node) :
    (l : List Nat) → (pv h e : Nat) → Decidable (Seg nd pv h l e)
  | [], _, h, e => inferInstanceAs (Decidable (h = e))
  | n :: l, pv, h, e =>
    have := Seg.dec nd l n (nd n).next e
    inferInstanceAs (Decidable (h = n ∧ n ≠ 0 ∧ (nd n).prev = pv ∧ Seg nd n (nd n).next l e))

/-- Node heap after unlinking `n` whose neighbours are `a` (before) and `b` (after). -/
def unlinkNd (nd : Nat → Task_List_Node) (a n b : Nat) : Nat → Task_List_Node :=
  let nd1 := if a ≠ 0 then Function.update nd a { nd a with next := b } else nd
  let nd2 := if b ≠ 0 then Function.update nd1 b { nd1 b with prev := a } else nd1
  Function.update nd2 n { prev := 0, next := 0, pTcb := (nd n).pTcb }

/-- Node heap after linking `n` behind the last node `x` of a slot. -/
def appendNd (nd : Nat → Task_List_Node) (x n : Nat) : Nat → Task_List_Node :=
  let nd1 := Function.update nd x { nd x with next := n }
  Function.update nd1 n { nd1 n with prev := x }


/-- Last element of `l`, or `pv` when `l` is empty. -/
def lastOr : Nat → List Nat → Nat
  | pv, [] => pv
  | _, x :: l => lastOr x l

/-- The abstract content of the three lists: the node sequence of every slot. -/
abbrev Shape := ListId → Nat → List Nat

/-- The shape `sh` with slot `p` of list `L` replaced by `l`. -/
def Shape.set (sh : Shape) (L : ListId) (p : Nat) (l : List Nat) : Shape :=
  fun L' p' => if L' = L ∧ p' = p then l else sh L' p'

/-- All slots of the three lists. -/
def slotList : List (ListId × Nat) :=
  [ListId.ready, ListId.delayed, ListId.waiting].flatMap fun L =>
    (List.range MAX_TASKS_IN_LIST).map fun p => (L, p)

/-- All nodes on the three lists. -/
def allNodes (sh : Shape) : List Nat := slotList.flatMap fun x => sh x.1 x.2

/-- List `L` is well formed with slot contents `ch`: every slot is a
null-terminated doubly linked chain of the nodes `ch p`, every node of slot `p`
refers to a TCB of priority `p`, and bit `p - 1` of the bitmap is set exactly
when slot `p` is non-empty (`p = 1 .. MAX_TASK_PRIORITY`, no higher bit set). -/
def ListWF (s : Kernel) (L : ListId) (ch : Nat → List Nat) : Prop :=
  (∀ p, p < MAX_TASKS_IN_LIST →
      Seg s.node 0 ((s.getList L).TaskList p) (ch p) 0 ∧
      ∀ n ∈ ch p, (s.node n).pTcb ≠ 0 ∧ (s.tcb (s.node n).pTcb).OS_TcbPrio = p) ∧
    (s.getList L).TaskRriorityBitMap < 2 ^ MAX_TASK_PRIORITY ∧
    ∀ p, p < MAX_TASK_PRIORITY →
      ((s.getList L).TaskRriorityBitMap.testBit p = true ↔ (s.getList L).TaskList (p + 1) ≠ 0)

instance (s : Kernel) (L : ListId) (ch : Nat → List Nat) : Decidable (ListWF s L ch) := by
  unfold ListWF; infer_instance

/-- The three lists are well formed with shape `sh`. -/
def Lists (s : Kernel) (sh : Shape) : Prop :=
  ListWF s .ready (sh .ready) ∧ ListWF s .delayed (sh .delayed) ∧ ListWF s .waiting (sh .waiting)

instance (s : Kernel) (sh : Shape) : Decidable (Lists s sh) := by
  unfold Lists; infer_instance

/-- Well-formed kernel lists: the three lists are well formed and no node occurs
twice, neither within a slot nor in two slots. -/
def WF (s : Kernel) (sh : Shape) : Prop := Lists s sh ∧ (allNodes sh).Nodup

instance (s : Kernel) (sh : Shape) : Decidable (WF s sh) := by
  unfold WF; infer_instance

/-- Node `n` belongs to a task whose event back-pointer is `e`. -/
def waitsOn (s : Kernel) (e n : Nat) : Prop := (s.tcb (s.node n).pTcb).OS_TcbEcbPtr = e

instance (s : Kernel) (e n : Nat) : Decidable (waitsOn s e n) := by
  unfold waitsOn; infer_instance

/-- State after `os_utilsAddTaskToListByNode` has linked node `n` into slot `p`
of list `L`, whose last node was `x` (`x = 0`: the slot was empty). -/
def addState (s : Kernel) (L : ListId) (p n x : Nat) : Kernel :=
  let s1 := if x = 0 then s.setHead L p n else { s with node := appendNd s.node x n }
  s1.setBitMap L ((s1.getList L).TaskRriorityBitMap ||| PRIORITY_TO_BIT p)

/-- State after node `n`, with neighbours `a` and `b`, has been unlinked from
slot `p` of list `L`: the head moves when `n` was first, and the bitmap bit is
cleared when `n` was alone. -/
def removeState (s : Kernel) (L : ListId) (p a n b : Nat) : Kernel :=
  let s0 : Kernel := { s with node := unlinkNd s.node a n b }
  if a = 0 then
    if b = 0 then
      (s0.setHead L p 0).setBitMap L ((s.getList L).TaskRriorityBitMap &&& not32 (PRIORITY_TO_BIT p))
    else s0.setHead L p b
  else s0

/-- State after `OS_sched` has selected the TCB `t`: `OS_Tcb_Next` is written and
the PendSV request raised exactly when `t` differs from the current TCB. -/
def schedState (s : Kernel) (t : Nat) : Kernel :=
  if t ≠ s.OS_Tcb_Curr then TRIGER_PENDSV_INT { s with OS_Tcb_Next := t } else s

/-- Waiting holds tasks of priority 1 to 7 only: every insertion into Waiting goes
through `os_utilsAddTaskToListByNode`, which asserts `0 < prio < MAX_TASK_PRIORITY`. -/
def WaitingSlots (sh : Shape) : Prop :=
  sh .waiting 0 = [] ∧ sh .waiting MAX_TASK_PRIORITY = []

instance (sh : Shape) : Decidable (WaitingSlots sh) := by
  unfold WaitingSlots; infer_instance

/-- The shape after the task of node `n` has moved from slot `p` of list `L`
(where it stood between `l1` and `l2`) to the tail of slot `p` of list `L'`. -/
def Shape.move (sh : Shape) (L L' : ListId) (p : Nat) (l1 : List Nat) (n : Nat) (l2 : List Nat) :
    Shape :=
  (sh.set L p (l1 ++ l2)).set L' p ((sh.set L p (l1 ++ l2)) L' p ++ [n])

/-- The MQCB after one message has been inserted at `in`: `in` advances by one
cell and wraps to the ring base at the ring end, the fill count grows by one. -/
def mqPut (q : OS_MQ) : OS_MQ :=
  let q1 := { q with OS_MQIn := q.OS_MQIn + 1, OS_MQEntries := (q.OS_MQEntries + 1) % 2 ^ 16 }
  if q1.OS_MQIn = q1.OS_MQEnd then { q1 with OS_MQIn := q1.OS_MQStart } else q1

/-- State after `OS_MsgQ_Send` has stored `m` in the ring of the MQCB at `pq`. -/
def putState (s : Kernel) (pq m : Nat) : Kernel :=
  { s with mem := Function.update s.mem (s.mqcb pq).OS_MQIn m
           mqcb := Function.update s.mqcb pq (mqPut (s.mqcb pq)) }

/-- The MQCB after the oldest message has been extracted at `out`: `out` advances
by one cell and wraps to the ring base at the ring end, the fill count drops by
one. -/
def mqGet (q : OS_MQ) : OS_MQ :=
  let q1 := { q with OS_MQOut := q.OS_MQOut + 1,
                     OS_MQEntries := (q.OS_MQEntries + (2 ^ 16 - 1)) % 2 ^ 16 }
  if q1.OS_MQOut = q1.OS_MQEnd then { q1 with OS_MQOut := q1.OS_MQStart } else q1

/-- State after `OS_MsgQ_Wait` has taken a message from the ring of the MQCB at `pq`. -/
def getState (s : Kernel) (pq : Nat) : Kernel :=
  { s with mqcb := Function.update s.mqcb pq (mqGet (s.mqcb pq)) }

/-- State after `OS_Sem_Wait` has written the pend fields of the current TCB,
before the task is moved to Waiting. -/
def semPendState (s : Kernel) (pEvent timeout : Nat) : Kernel :=
  let c := s.tcb s.OS_Tcb_Curr
  let c1 : OS_TCB :=
    { c with
      OS_TcbState := c.OS_TcbState ||| OS_STATE_SEM
      OS_TcbStatePend := OS_STAT_PEND_OK
      OS_TcbTimeout := timeout
      OS_TcbEcbPtr := pEvent }
  { s with tcb := Function.update s.tcb s.OS_Tcb_Curr c1 }

/-- Successive calls of `OS_Sem_Create`, one per argument pair `(cnt, name)`;
returns the ECB pointers in call order and the final state. -/
def createMany : List (Nat × String) → Kernel → List Nat × Kernel
  | [], s => ([], s)
  | a :: rest, s =>
    let r := OS_Sem_Create a.1 a.2 s
    let r2 := createMany rest r.2
    (r.1 :: r2.1, r2.2)

/-- The ECB free list threads the table entries `j, j + 1, ..` in order (it is
empty for `j = OS_MAX_EVENTS` and beyond). -/
def FreeFrom (j : Nat) (s : Kernel) : Prop :=
  s.OSEventFreeList = (if j < OS_MAX_EVENTS then OSEventTbl j else 0) ∧
    (∀ i, j ≤ i → i + 1 < OS_MAX_EVENTS → (s.ecb (OSEventTbl i)).OS_EventPtr = OSEventTbl (i + 1)) ∧
    (j < OS_MAX_EVENTS → (s.ecb (OSEventTbl (OS_MAX_EVENTS - 1))).OS_EventPtr = 0)

/-- The Waiting list is empty: no bit in its bitmap, no node in any slot. -/
def WaitingEmpty (s : Kernel) : Prop :=
  s.WaitingTaskList.TaskRriorityBitMap = 0 ∧
    ∀ p, p < MAX_TASKS_IN_LIST → s.WaitingTaskList.TaskList p = 0

instance (s : Kernel) : Decidable (WaitingEmpty s) := by
  unfold WaitingEmpty; infer_instance

/-- A state with every heap cell, list head, bitmap and global zero. -/
def zeroState : Kernel :=
  { tcb := fun _ => ⟨0, 0, 0, 0, 0, 0, 0, ""⟩
    node := fun _ => ⟨0, 0, 0⟩
    ecb := fun _ => ⟨0, 0, 0, ""⟩
    mqcb := fun _ => ⟨0, 0, 0, 0, 0, 0, 0⟩
    mem := fun _ => 0
    ReadyTaskList := ⟨fun _ => 0, 0⟩
    DelayedTaskList := ⟨fun _ => 0, 0⟩
    WaitingTaskList := ⟨fun _ => 0, 0⟩
    OS_Tcb_Curr := 0
    OS_Tcb_Next := 0
    OSEventFreeList := 0
    OS_MQcb_FreeList := 0
    pendSV := false }

/-- A sample state.  TCBs: 1 idle (priority 0), 2 and 5 at priority 3 on Ready
(2 is running), 3 at priority 5 parked on the semaphore ECB 1, 4 at priority 5
parked on the queue ECB 2.  ECB 3 is a semaphore with counter 3 and no waiter,
ECB 4 an empty queue of capacity 3 with its cursors on the last ring cell, ECB 5
a queue of capacity 0.  Nodes 11, 12, 15, 13, 14 carry TCBs 1, 2, 5, 3, 4. -/
def demoState : Kernel :=
  { tcb := fun a =>
      if a = 1 then ⟨0, 0, 0, 0, 0, 0, 0, "idle"⟩
      else if a = 2 then ⟨0, 0, 3, 0, 0, 0, 0, "lo"⟩
      else if a = 3 then ⟨0, NO_TIMEOUT, 5, 1, 1, 0, 0, "hi"⟩
      else if a = 4 then ⟨0, NO_TIMEOUT, 5, 2, 0, 0, 0, "rx"⟩
      else if a = 5 then ⟨0, 0, 3, 0, 0, 0, 0, "peer"⟩
      else ⟨0, 0, 0, 0, 0, 0, 0, ""⟩
    node := fun a =>
      if a = 11 then ⟨0, 0, 1⟩
      else if a = 12 then ⟨0, 15, 2⟩
      else if a = 15 then ⟨12, 0, 5⟩
      else if a = 13 then ⟨0, 14, 3⟩
      else if a = 14 then ⟨13, 0, 4⟩
      else ⟨0, 0, 0⟩
    ecb := fun a =>
      if a = 1 then ⟨OS_EVENT_TYPE_SEM, 0, 0, "S"⟩
      else if a = 2 then ⟨OS_EVENT_TYPE_MQ, 1, 0, "MsgQ"⟩
      else if a = 3 then ⟨OS_EVENT_TYPE_SEM, 0, 3, "T"⟩
      else if a = 4 then ⟨OS_EVENT_TYPE_MQ, 2, 0, "MsgQ"⟩
      else if a = 5 then ⟨OS_EVENT_TYPE_MQ, 3, 0, "MsgQ"⟩
      else ⟨0, 0, 0, ""⟩
    mqcb := fun a =>
      if a = 1 then ⟨0, 100, 102, 100, 100, 2, 0⟩
      else if a = 2 then ⟨0, 200, 203, 202, 202, 3, 0⟩
      else if a = 3 then ⟨0, 300, 300, 300, 300, 0, 0⟩
      else ⟨0, 0, 0, 0, 0, 0, 0⟩
    mem := fun _ => 0
    ReadyTaskList := ⟨fun p => if p = 0 then 11 else if p = 3 then 12 else 0, 4⟩
    DelayedTaskList := ⟨fun _ => 0, 0⟩
    WaitingTaskList := ⟨fun p => if p = 5 then 13 else 0, 16⟩
    OS_Tcb_Curr := 2
    OS_Tcb_Next := 2
    OSEventFreeList := 6
    OS_MQcb_FreeList := 4
    pendSV := false }

/-- The shape of the lists of `demoState`. -/
def demoShape : Shape := fun L p =>
  match L, p with
  | .ready, 0 => [11]
  | .ready, 3 => [12, 15]
  | .waiting, 5 => [13, 14]
  | _, _ => []

/-- The sample state with the idle task running. -/
def idleState : Kernel := { demoState with OS_Tcb_Curr := 1 }

/-- What a test observes of a post or send: the status and a counter. -/
def observe (r : Except Fault (Nat × Kernel)) (f : Kernel → Nat) : Option (Nat × Nat) :=
  match r with
  | .ok (st, s) => some (st, f s)
  | .error _ => none


/-- Successive calls of `OS_MsgQ_Send` on one event, one per message; returns the
statuses in call order and the final state. -/
def sendMany (fuel e : Nat) : List Nat → Kernel → Except Fault (List Nat × Kernel)
  | [], s => pure ([], s)
  | m :: ms, s => do
    let (st, s1) ← OS_MsgQ_Send fuel e m s
    let (sts, s2) ← sendMany fuel e ms s1
    pure (st :: sts, s2)

/-- Successive calls of `OS_MsgQ_Wait` on one event, `n` of them; returns the
outcomes in call order and the final state. -/
def waitMany (fuel e timeout : Nat) : Nat → Kernel → Except Fault (List WaitOutcome × Kernel)
  | 0, s => pure ([], s)
  | n + 1, s => do
    let (r, s1) ← OS_MsgQ_Wait fuel e timeout s
    let (rs, s2) ← waitMany fuel e timeout n s1
    pure (r :: rs, s2)

/-- The ring of the MQCB at `pq` has base `st` and capacity `N`, its `out` cursor
stands `o` cells above the base, and the ring holds the messages `pend`, oldest
first, in the cells from `out` onwards (with wrap-around). -/
def RingHolds (s : Kernel) (pq st N o : Nat) (pend : List Nat) : Prop :=
  (s.mqcb pq).OS_MQStart = st ∧ (s.mqcb pq).OS_MQEnd = st + N ∧ (s.mqcb pq).OS_MQSize = N ∧
    (s.mqcb pq).OS_MQOut = st + o ∧ (s.mqcb pq).OS_MQIn = st + (o + pend.length) % N ∧
    (s.mqcb pq).OS_MQEntries = pend.length ∧ pend.length ≤ N ∧ (0 < N → o < N) ∧
    ∀ j, j < pend.length → s.mem (st + (o + j) % N) = pend.getD j 0

/-- The event `e` is a message queue on the MQCB at `pq`, the lists are well
formed with shape `sh`, and no task on Waiting has its back-pointer on `e`. -/
def QueueIdle (s : Kernel) (sh : Shape) (e pq : Nat) : Prop :=
  WF s sh ∧ (s.ecb e).OS_EventType = OS_EVENT_TYPE_MQ ∧ (s.ecb e).OS_EventPtr = pq ∧
    ∀ q, q < MAX_TASKS_IN_LIST → ∀ k ∈ sh .waiting q, ¬ waitsOn s e k

/-- The state `s'` has the ECBs, the MQCBs, the ring cells and the two free lists
of `s`: what the task-list operations and the scheduler leave alone. -/
def SameObjs (s s' : Kernel) : Prop :=
  s'.ecb = s.ecb ∧ s'.mqcb = s.mqcb ∧ s'.mem = s.mem ∧
    s'.OSEventFreeList = s.OSEventFreeList ∧ s'.OS_MQcb_FreeList = s.OS_MQcb_FreeList

/-- The ring invariant of an MQCB: `end = base + capacity`, the fill count is at
most the capacity, both cursors lie in `[base, end)`, and the distance from `out`
to `in` equals the fill count modulo the capacity. -/
def RingInv (q : OS_MQ) : Prop :=
  q.OS_MQEnd = q.OS_MQStart + q.OS_MQSize ∧ q.OS_MQSize < 2 ^ 16 ∧
    q.OS_MQEntries ≤ q.OS_MQSize ∧
    q.OS_MQStart ≤ q.OS_MQIn ∧ q.OS_MQIn < q.OS_MQEnd ∧
    q.OS_MQStart ≤ q.OS_MQOut ∧ q.OS_MQOut < q.OS_MQEnd ∧
    ((q.OS_MQIn : Int) - (q.OS_MQOut : Int)) % (q.OS_MQSize : Int)
      = (q.OS_MQEntries : Int) % (q.OS_MQSize : Int)

instance (q : OS_MQ) : Decidable (RingInv q) := by
  unfold RingInv; infer_instance

/-- The states reached from `s0` by calls of `OS_MsgQ_Send` and passes of
`OS_MsgQ_Wait` that return, on any event, with any message and timeout. -/
inductive MsgQReach (s0 : Kernel) : Kernel → Prop
  | start : MsgQReach s0 s0
  | send (fuel e m st : Nat) (s s' : Kernel) :
      MsgQReach s0 s → OS_MsgQ_Send fuel e m s = .ok (st, s') → MsgQReach s0 s'
  | wait (fuel e timeout : Nat) (r : WaitOutcome) (s s' : Kernel) :
      MsgQReach s0 s → OS_MsgQ_Wait fuel e timeout s = .ok (r, s') → MsgQReach s0 s'

/-- The state after `OS_Init` on the zero state: idle TCB at address 1, idle stack
of 200 bytes at address 1000, idle function at address 500, list node 11. -/
def bootState : Kernel :=
  match OS_Init 100 1000 200 1 500 11 zeroState with
  | .ok k => k
  | .error _ => zeroState

/-- The state after `OS_Init` and eight calls of `OS_Sem_Create`, which use up the
ECB pool. -/
def noEcbState : Kernel := (createMany (List.replicate 8 (0, "S")) bootState).2

/-! ## Reachable states -/

/-- No TCB is referenced by two nodes on the lists. -/
def TcbNodup (s : Kernel) (sh : Shape) : Prop :=
  ((allNodes sh).map fun n => (s.node n).pTcb).Nodup

instance (s : Kernel) (sh : Shape) : Decidable (TcbNodup s sh) := by
  unfold TcbNodup; infer_instance

/-- The TCB `t` is referenced by a node on list `L`. -/
def OnList (s : Kernel) (sh : Shape) (L : ListId) (t : Nat) : Prop :=
  ∃ p, p < MAX_TASKS_IN_LIST ∧ ∃ n ∈ sh L p, (s.node n).pTcb = t

instance (s : Kernel) (sh : Shape) (L : ListId) (t : Nat) : Decidable (OnList s sh L t) := by
  unfold OnList; infer_instance

/-- The bitmap invariant of one list: for every priority `p = 1 .. 8`, bit `p - 1`
of the bitmap is set exactly when the head of slot `p` is not null. -/
def ListBitmapInv (l : Task_List) : Prop :=
  ∀ p, p < MAX_TASKS_IN_LIST → 1 ≤ p →
    (l.TaskRriorityBitMap.testBit (p - 1) = true ↔ l.TaskList p ≠ 0)

instance (l : Task_List) : Decidable (ListBitmapInv l) := by
  unfold ListBitmapInv; infer_instance

/-- The bitmap invariant of the three lists. -/
def BitmapInv (s : Kernel) : Prop :=
  ListBitmapInv s.ReadyTaskList ∧ ListBitmapInv s.DelayedTaskList ∧
    ListBitmapInv s.WaitingTaskList

instance (s : Kernel) : Decidable (BitmapInv s) := by
  unfold BitmapInv; infer_instance

/-- The lists of `(s', sh')` are well formed and hold the nodes of `(s, sh)`,
every node with the TCB it had; the current task is the same. -/
def Evolves (s : Kernel) (sh : Shape) (s' : Kernel) (sh' : Shape) : Prop :=
  WF s' sh' ∧ WaitingSlots sh' ∧ (allNodes sh').Perm (allNodes sh) ∧
    (∀ k, (s'.node k).pTcb = (s.node k).pTcb) ∧ s'.OS_Tcb_Curr = s.OS_Tcb_Curr

/-- Every node on Ready in `sh` is on Ready, in the same slot, in `sh'`. -/
def ReadyKept (sh sh' : Shape) : Prop :=
  ∀ p, p < MAX_TASKS_IN_LIST → ∀ n ∈ sh .ready p, n ∈ sh' .ready p

/-- The scheduler outputs `OS_Tcb_Next` and the PendSV request are unchanged. -/
def FlagsSame (s s' : Kernel) : Prop :=
  s'.OS_Tcb_Next = s.OS_Tcb_Next ∧ s'.pendSV = s.pendSV

/-- A kernel state together with the history that the usage rules refer to: the
pointers returned by `malloc` so far, the TCBs passed to `OS_Task_Create` so
far, and whether the PendSV handler has run (the first dispatch is over). -/
structure World where
  k : Kernel
  nodes : List Nat
  tasks : List Nat
  dispatched : Bool

/-- What a returning kernel service does to well-formed lists `(s, sh)`: the
lists of the result are a rearrangement of them, and either Ready has kept all
its nodes and the scheduler outputs are unchanged, or a context switch to a
task on Ready is requested. -/
def Preserves (s : Kernel) (sh : Shape) (s' : Kernel) : Prop :=
  ∃ sh', Evolves s sh s' sh' ∧
    ((ReadyKept sh sh' ∧ FlagsSame s s') ∨
      (s'.pendSV = true ∧ OnList s' sh' .ready s'.OS_Tcb_Next))

/-- The invariant of the reachable states: the lists are well formed for some
shape, Waiting holds priorities 1 to 7 only, no TCB has two nodes, the nodes on
the lists are allocated nodes of created tasks, a requested context switch
leads to a task on Ready, and after the first dispatch the current task is on
Ready unless a context switch is requested. -/
def Inv (w : World) : Prop :=
  ∃ sh, WF w.k sh ∧ WaitingSlots sh ∧ TcbNodup w.k sh ∧
    (∀ n ∈ allNodes sh, n ∈ w.nodes ∧ (w.k.node n).pTcb ∈ w.tasks) ∧
    (w.k.pendSV = true → OnList w.k sh .ready w.k.OS_Tcb_Next) ∧
    (w.dispatched = true → w.k.pendSV = false → OnList w.k sh .ready w.k.OS_Tcb_Curr)

/-- One step of the system: a kernel service that returns, or the PendSV
handler, which runs only while its request is pending.  `malloc` returns a
pointer it has not returned before; with `once` set, a TCB is passed to
`OS_Task_Create` at most once. -/
inductive Step (once : Bool) : World → World → Prop
  | create (w : World) (fuel myTcb prio threadHandler stkSto stkSize pNode : Nat) (k' : Kernel) :
      pNode ∉ w.nodes → (once = true → myTcb ∉ w.tasks) →
      OS_Task_Create fuel myTcb prio threadHandler stkSto stkSize pNode w.k = .ok k' →
      Step once w ⟨k', pNode :: w.nodes, myTcb :: w.tasks, w.dispatched⟩
  | delay (w : World) (fuel ticks : Nat) (k' : Kernel) :
      OS_Delay fuel ticks w.k = .ok k' → Step once w { w with k := k' }
  | tick (w : World) (fuel : Nat) (k' : Kernel) :
      OS_tick fuel w.k = .ok k' → Step once w { w with k := k' }
  | sched (w : World) (fuel : Nat) (k' : Kernel) :
      OS_sched fuel w.k = .ok k' → Step once w { w with k := k' }
  | pendSV (w : World) (sp : Nat) :
      w.k.pendSV = true → Step once w ⟨PendSV_Handler sp w.k, w.nodes, w.tasks, true⟩
  | semCreate (w : World) (cnt : Nat) (se_name : String) :
      Step once w { w with k := (OS_Sem_Create cnt se_name w.k).2 }
  | semWait (w : World) (fuel pEvent timeout err : Nat) (k' : Kernel) :
      OS_Sem_Wait fuel pEvent timeout w.k = .ok (err, k') → Step once w { w with k := k' }
  | semPost (w : World) (fuel pEvent status : Nat) (k' : Kernel) :
      OS_Sem_Post fuel pEvent w.k = .ok (status, k') → Step once w { w with k := k' }
  | mqCreate (w : World) (start size pEvent : Nat) (k' : Kernel) :
      OS_MsgQ_Create start size w.k = .ok (pEvent, k') → Step once w { w with k := k' }
  | mqSend (w : World) (fuel pEvent pMsg status : Nat) (k' : Kernel) :
      OS_MsgQ_Send fuel pEvent pMsg w.k = .ok (status, k') → Step once w { w with k := k' }
  | mqWait (w : World) (fuel pEvent timeout : Nat) (r : WaitOutcome) (k' : Kernel) :
      OS_MsgQ_Wait fuel pEvent timeout w.k = .ok (r, k') → Step once w { w with k := k' }

/-- The world `w` is the result of `OS_Init`, called in a state `s0` without a
pending context switch (the heaps and the other globals of `s0` are
arbitrary): the idle TCB and its list node are the only ones known. -/
def Booted (w : World) : Prop :=
  ∃ fuel stkSto stkSize idleTask main_idleTask pNode s0,
    s0.pendSV = false ∧
    OS_Init fuel stkSto stkSize idleTask main_idleTask pNode s0 = .ok w.k ∧
    w.nodes = [pNode] ∧ w.tasks = [idleTask] ∧ w.dispatched = false

/-- The states reachable from `OS_Init`. -/
inductive Reach (once : Bool) : World → Prop
  | init (w : World) : Booted w → Reach once w
  | step (w w' : World) : Reach once w → Step once w w' → Reach once w'

/-- The result state of a returning call, for building sample runs. -/
def stateOf (r : Except Fault Kernel) : Kernel :=
  match r with
  | .ok k => k
  | .error _ => zeroState

/-- The result state of a returning call that also yields a value. -/
def stateOf2 {α : Type} (r : Except Fault (α × Kernel)) : Kernel :=
  match r with
  | .ok (_, k) => k
  | .error _ => zeroState

/-- Whether a call returns. -/
def returns {α : Type} (r : Except Fault α) : Bool :=
  match r with
  | .ok _ => true
  | .error _ => false

/-- The value returned by a call that also yields a state, for sample runs. -/
def valueOf {α : Type} (r : Except Fault (α × Kernel)) : Option α :=
  match r with
  | .ok (a, _) => some a
  | .error _ => none

/-! ## A sample run

After `OS_Init`: task TCB 2 is created with priority 3 (list node 12), the
scheduler selects it and the context switch makes it current; it creates the
semaphore ECB 1 with counter 0 and waits on it, which parks it on Waiting slot
3 and switches to the idle task.  Then TCB 2 is passed to `OS_Task_Create` a
second time, with priority 5 (list node 13), and the semaphore is posted. -/

def trace1 : Kernel := stateOf (OS_Task_Create 100 2 3 600 2000 200 12 bootState)
def trace2 : Kernel := stateOf (OS_sched 100 trace1)
def trace3 : Kernel := PendSV_Handler 0 trace2
def trace4 : Kernel := (OS_Sem_Create 0 "S" trace3).2
def trace5 : Kernel := stateOf2 (OS_Sem_Wait 100 1 NO_TIMEOUT trace4)
def trace6 : Kernel := PendSV_Handler 0 trace5
def trace7 : Kernel := stateOf (OS_Task_Create 100 2 5 600 2000 200 13 trace6)
def trace8 : Kernel := stateOf2 (OS_Sem_Post 100 1 trace7)

def traceWorld0 : World := ⟨bootState, [11], [1], false⟩
def traceWorld1 : World := ⟨trace1, [12, 11], [2, 1], false⟩
def traceWorld2 : World := ⟨trace2, [12, 11], [2, 1], false⟩
def traceWorld3 : World := ⟨trace3, [12, 11], [2, 1], true⟩
def traceWorld4 : World := ⟨trace4, [12, 11], [2, 1], true⟩
def traceWorld5 : World := ⟨trace5, [12, 11], [2, 1], true⟩
def traceWorld6 : World := ⟨trace6, [12, 11], [2, 1], true⟩
def traceWorld7 : World := ⟨trace7, [13, 12, 11], [2, 2, 1], true⟩
def traceWorld8 : World := ⟨trace8, [13, 12, 11], [2, 2, 1], true⟩

/-- The lists of `trace3`: the idle node 11 in Ready slot 0, node 12 in Ready
slot 3. -/
def traceShape3 : Shape := fun L p =>
  if L = .ready ∧ p = 0 then [11] else if L = .ready ∧ p = 3 then [12] else []

/-! ## The fault of a call -/

/-- The fault with which a call stops, if it does not return. -/
def faultOf {α : Type} (r : Except Fault α) : Option Fault :=
  match r with
  | .ok _ => none
  | .error e => some e

/-! ## Sample runs for the tick handler

Two peers: after the creation of TCB 2 (`trace1`), TCB 3 is created with the
same priority 3 (list node 13); TCB 2 runs and calls `OS_Delay(1)`, then TCB 3
runs and calls `OS_Delay(2)`, then the idle task runs and `OS_tick` is called. -/

def peers1 : Kernel := stateOf (OS_Task_Create 100 3 3 700 3000 200 13 trace1)
def peers2 : Kernel := stateOf (OS_sched 100 peers1)
def peers3 : Kernel := PendSV_Handler 0 peers2
def peers4 : Kernel := stateOf (OS_Delay 100 1 peers3)
def peers5 : Kernel := PendSV_Handler 0 peers4
def peers6 : Kernel := stateOf (OS_Delay 100 2 peers5)
def peers7 : Kernel := PendSV_Handler 0 peers6
def peers8 : Kernel := stateOf (OS_tick 100 peers7)

def peersWorld1 : World := ⟨peers1, [13, 12, 11], [3, 2, 1], false⟩
def peersWorld2 : World := ⟨peers2, [13, 12, 11], [3, 2, 1], false⟩
def peersWorld3 : World := ⟨peers3, [13, 12, 11], [3, 2, 1], true⟩
def peersWorld4 : World := ⟨peers4, [13, 12, 11], [3, 2, 1], true⟩
def peersWorld5 : World := ⟨peers5, [13, 12, 11], [3, 2, 1], true⟩
def peersWorld6 : World := ⟨peers6, [13, 12, 11], [3, 2, 1], true⟩
def peersWorld7 : World := ⟨peers7, [13, 12, 11], [3, 2, 1], true⟩

/-! The top priority: after `OS_Init`, TCB 2 is created with priority 8 (list
node 12), runs, creates the semaphore ECB 1 with counter 0 (`top4`) and calls
`OS_Delay(1)`; then the idle task runs. -/

def top1 : Kernel := stateOf (OS_Task_Create 100 2 8 600 2000 200 12 bootState)
def top2 : Kernel := stateOf (OS_sched 100 top1)
def top3 : Kernel := PendSV_Handler 0 top2
def top4 : Kernel := (OS_Sem_Create 0 "S" top3).2
def top5 : Kernel := stateOf (OS_Delay 100 1 top4)
def top6 : Kernel := PendSV_Handler 0 top5

def topWorld1 : World := ⟨top1, [12, 11], [2, 1], false⟩
def topWorld2 : World := ⟨top2, [12, 11], [2, 1], false⟩
def topWorld3 : World := ⟨top3, [12, 11], [2, 1], true⟩
def topWorld4 : World := ⟨top4, [12, 11], [2, 1], true⟩
def topWorld5 : World := ⟨top5, [12, 11], [2, 1], true⟩
def topWorld6 : World := ⟨top6, [12, 11], [2, 1], true⟩

/-- The state `top4` after `os_utilsRemoveFromListByTaskTcb` has taken the node of
the running priority-8 task off Ready, as `OS_EventTaskWait` does. -/
def topUnlinked : Kernel := stateOf2 (os_utilsRemoveFromListByTaskTcb 100 2 READY_TASK_LIST top4)

/-! A wait with a finite timeout: in `trace4` the running TCB 2 (priority 3)
waits on the semaphore ECB 1 with timeout 1; then the idle task runs and
`OS_tick` is called twice. -/

def timed1 : Kernel := stateOf2 (OS_Sem_Wait 100 1 1 trace4)
def timed2 : Kernel := PendSV_Handler 0 timed1
def timed3 : Kernel := stateOf (OS_tick 100 timed2)
def timed4 : Kernel := stateOf (OS_tick 100 timed3)

def timedWorld1 : World := ⟨timed1, [12, 11], [2, 1], true⟩
def timedWorld2 : World := ⟨timed2, [12, 11], [2, 1], true⟩
def timedWorld3 : World := ⟨timed3, [12, 11], [2, 1], true⟩
def timedWorld4 : World := ⟨timed4, [12, 11], [2, 1], true⟩

/-- The lists of `timed2`: the idle node 11 in Ready slot 0, node 12 in Waiting
slot 3. -/
def timedShape : Shape := fun L p =>
  if L = .ready ∧ p = 0 then [11] else if L = .waiting ∧ p = 3 then [12] else []

/-- The lists of `bootState`: the idle node 11 in Ready slot 0. -/
def bootShape : Shape := fun L p => if L = .ready ∧ p = 0 then [11] else []

/-! ## Free-list walks and repeated ticks -/

/-- The pointers met when a free list is followed from `p` through the link
field `next` until the null pointer, at most `fuel` of them. -/
def chainFrom (next : Nat → Nat) : Nat → Nat → List Nat
  | 0, _ => []
  | fuel + 1, p => if p = 0 then [] else p :: chainFrom next fuel (next p)

/-- Successive calls of `OS_tick`, `k` of them. -/
def tickMany (fuel : Nat) : Nat → Kernel → Except Fault Kernel
  | 0, s => pure s
  | k + 1, s => do
    let s1 ← OS_tick fuel s
    tickMany fuel k s1

/-- What `OS_tick` leaves alone between `(s, sh)` and `(s', sh')`: every slot of
Waiting, the TCB of every task that is not on Delayed, and Delayed gains no
node. -/
def TickFrame (s : Kernel) (sh : Shape) (s' : Kernel) (sh' : Shape) : Prop :=
  (∀ q, sh' .waiting q = sh .waiting q) ∧
    (∀ q, q < MAX_TASKS_IN_LIST → ∀ n ∈ sh' .delayed q, n ∈ sh .delayed q) ∧
    (∀ t, ¬ OnList s sh .delayed t → s'.tcb t = s.tcb t)

/-! ## A sample run with three peers

After the creation of TCB 2 and TCB 3 with priority 3 (`peers1`), TCB 4 is
created with the same priority (list node 14); TCB 2 runs and calls
`OS_Delay(5)`, then TCB 3 runs. -/

def trio1 : Kernel := stateOf (OS_Task_Create 100 4 3 800 4000 200 14 peers1)
def trio2 : Kernel := stateOf (OS_sched 100 trio1)
def trio3 : Kernel := PendSV_Handler 0 trio2
def trio4 : Kernel := stateOf (OS_Delay 100 5 trio3)
def trio5 : Kernel := PendSV_Handler 0 trio4

def trioWorld1 : World := ⟨trio1, [14, 13, 12, 11], [4, 3, 2, 1], false⟩
def trioWorld2 : World := ⟨trio2, [14, 13, 12, 11], [4, 3, 2, 1], false⟩
def trioWorld3 : World := ⟨trio3, [14, 13, 12, 11], [4, 3, 2, 1], true⟩
def trioWorld4 : World := ⟨trio4, [14, 13, 12, 11], [4, 3, 2, 1], true⟩
def trioWorld5 : World := ⟨trio5, [14, 13, 12, 11], [4, 3, 2, 1], true⟩

/-- The lists of `trio5`: the idle node 11 in Ready slot 0, nodes 13 and 14 in
Ready slot 3, node 12 in Delayed slot 3. -/
def trioShape : Shape := fun L p =>
  if L = .ready ∧ p = 0 then [11] else if L = .ready ∧ p = 3 then [13, 14]
  else if L = .delayed ∧ p = 3 then [12] else []

/-- The sample state after `os_utilsRemoveFromListByTaskTcb` has taken the node
of TCB 5 off Ready: node 15 is on no list, with cleared links, on a TCB of
priority 3. -/
def spareState : Kernel :=
  stateOf2 (os_utilsRemoveFromListByTaskTcb 20 5 ListId.ready.code demoState)

/-- The shape of the lists of `spareState`. -/
def spareShape : Shape := demoShape.set .ready 3 [12]

/-! ## The two pools -/

/-- The MQCB free list threads the table entries `i, i + 1, ..` in order (it is
empty for `i = OS_MAX_MQ` and beyond). -/
def MqFreeFrom (i : Nat) (s : Kernel) : Prop :=
  s.OS_MQcb_FreeList = (if i < OS_MAX_MQ then OS_MQcb_Tbl i else 0) ∧
    (∀ k, i ≤ k → k + 1 < OS_MAX_MQ → (s.mqcb (OS_MQcb_Tbl k)).OS_MQPtr = OS_MQcb_Tbl (k + 1)) ∧
    (i < OS_MAX_MQ → (s.mqcb (OS_MQcb_Tbl (OS_MAX_MQ - 1))).OS_MQPtr = 0)

/-- The free ECBs: the blocks on the ECB free list, followed through
`OS_EventPtr`. -/
def freeEcbs (s : Kernel) : List Nat :=
  chainFrom (fun a => (s.ecb a).OS_EventPtr) (OS_MAX_EVENTS + 1) s.OSEventFreeList

/-- The free MQCBs: the blocks on the MQCB free list, followed through
`OS_MQPtr`. -/
def freeMqcbs (s : Kernel) : List Nat :=
  chainFrom (fun a => (s.mqcb a).OS_MQPtr) (OS_MAX_MQ + 1) s.OS_MQcb_FreeList

/-- The states reached from `OS_Init` through calls of `OS_Sem_Create` and
returning calls of `OS_MsgQ_Create`. -/
inductive PoolReach : Kernel → Prop
  | init (fuel stkSto stkSize idleTask main_idleTask pNode : Nat) (s0 s : Kernel) :
      OS_Init fuel stkSto stkSize idleTask main_idleTask pNode s0 = .ok s → PoolReach s
  | sem (s : Kernel) (cnt : Nat) (se_name : String) :
      PoolReach s → PoolReach (OS_Sem_Create cnt se_name s).2
  | mq (s : Kernel) (start size pEvent : Nat) (s' : Kernel) :
      PoolReach s → OS_MsgQ_Create start size s = .ok (pEvent, s') → PoolReach s'

/-- The state after `OS_Init` and one call of `OS_Sem_Create`. -/
def poolState : Kernel := (OS_Sem_Create 0 "S" bootState).2

/-! ## Delays that are never zero -/

/-- Every task on Delayed has a non-zero timeout. -/
def DelayedPos (s : Kernel) (sh : Shape) : Prop :=
  ∀ q, q < MAX_TASKS_IN_LIST → ∀ n ∈ sh .delayed q, (s.tcb (s.node n).pTcb).OS_TcbTimeout ≠ 0

instance (s : Kernel) (sh : Shape) : Decidable (DelayedPos s sh) := by
  unfold DelayedPos; infer_instance

/-- One step of the system with `OS_Delay` called with `ticks > 0` only: as
`Step`, with that restriction on the calls of `OS_Delay`. -/
inductive StepPos (once : Bool) : World → World → Prop
  | create (w : World) (fuel myTcb prio threadHandler stkSto stkSize pNode : Nat) (k' : Kernel) :
      pNode ∉ w.nodes → (once = true → myTcb ∉ w.tasks) →
      OS_Task_Create fuel myTcb prio threadHandler stkSto stkSize pNode w.k = .ok k' →
      StepPos once w ⟨k', pNode :: w.nodes, myTcb :: w.tasks, w.dispatched⟩
  | delay (w : World) (fuel ticks : Nat) (k' : Kernel) :
      0 < ticks → OS_Delay fuel ticks w.k = .ok k' → StepPos once w { w with k := k' }
  | tick (w : World) (fuel : Nat) (k' : Kernel) :
      OS_tick fuel w.k = .ok k' → StepPos once w { w with k := k' }
  | sched (w : World) (fuel : Nat) (k' : Kernel) :
      OS_sched fuel w.k = .ok k' → StepPos once w { w with k := k' }
  | pendSV (w : World) (sp : Nat) :
      w.k.pendSV = true → StepPos once w ⟨PendSV_Handler sp w.k, w.nodes, w.tasks, true⟩
  | semCreate (w : World) (cnt : Nat) (se_name : String) :
      StepPos once w { w with k := (OS_Sem_Create cnt se_name w.k).2 }
  | semWait (w : World) (fuel pEvent timeout err : Nat) (k' : Kernel) :
      OS_Sem_Wait fuel pEvent timeout w.k = .ok (err, k') → StepPos once w { w with k := k' }
  | semPost (w : World) (fuel pEvent status : Nat) (k' : Kernel) :
      OS_Sem_Post fuel pEvent w.k = .ok (status, k') → StepPos once w { w with k := k' }
  | mqCreate (w : World) (start size pEvent : Nat) (k' : Kernel) :
      OS_MsgQ_Create start size w.k = .ok (pEvent, k') → StepPos once w { w with k := k' }
  | mqSend (w : World) (fuel pEvent pMsg status : Nat) (k' : Kernel) :
      OS_MsgQ_Send fuel pEvent pMsg w.k = .ok (status, k') → StepPos once w { w with k := k' }
  | mqWait (w : World) (fuel pEvent timeout : Nat) (r : WaitOutcome) (k' : Kernel) :
      OS_MsgQ_Wait fuel pEvent timeout w.k = .ok (r, k') → StepPos once w { w with k := k' }

/-- The states reachable from `OS_Init` when `OS_Delay` is only called with
`ticks > 0`; with `once` set, a TCB is passed to `OS_Task_Create` at most
once. -/
inductive ReachPos (once : Bool) : World → Prop
  | init (w : World) : Booted w → ReachPos once w
  | step (w w' : World) : ReachPos once w → StepPos once w w' → ReachPos once w'

/-- The invariant of the states reachable under the usage rules: the invariant of
the lists, with every timeout on Delayed non-zero. -/
def PosInv (w : World) : Prop :=
  ∃ sh, WF w.k sh ∧ WaitingSlots sh ∧ TcbNodup w.k sh ∧
    (∀ n ∈ allNodes sh, n ∈ w.nodes ∧ (w.k.node n).pTcb ∈ w.tasks) ∧ DelayedPos w.k sh

/-- The sample run continued from `trace3`: TCB 2 calls `OS_Delay(5)`. -/
def nap4 : Kernel := stateOf (OS_Delay 100 5 trace3)

def napWorld4 : World := ⟨nap4, [12, 11], [2, 1], true⟩

/-! The run goes on with a second creation of TCB 2: the idle task runs and
passes TCB 2 to `OS_Task_Create` again (priority 3, list node 13); TCB 2 runs
and calls `OS_Delay(1)`; the idle task runs and the tick handler is called. -/

def twice5 : Kernel := PendSV_Handler 0 nap4
def twice6 : Kernel := stateOf (OS_Task_Create 100 2 3 600 2000 200 13 twice5)
def twice7 : Kernel := stateOf (OS_sched 100 twice6)
def twice8 : Kernel := PendSV_Handler 0 twice7
def twice9 : Kernel := stateOf (OS_Delay 100 1 twice8)
def twice10 : Kernel := PendSV_Handler 0 twice9
def twice11 : Kernel := stateOf (OS_tick 100 twice10)

def twiceWorld11 : World := ⟨twice11, [13, 12, 11], [2, 2, 1], true⟩

/-- One pass through the body of the loop `while (workingSet != 0U)` of
`OS_tick`, entered with a non-zero working set: the statements of `tickOuter`
between the loop test and the next loop test.  The result is the working set
and the state at the next test. -/
def tickPass (inner : Nat) (workingSet : Nat) (s : Kernel) : Except Fault (Nat × Kernel) := do
  let index := LOG2 workingSet
  let tempTask := s.DelayedTaskList.TaskList index
  let nd ← rdNode s tempTask
  let pTcp := nd.pTcb
  Q_ASSERT (pTcp ≠ 0 ∧ (s.tcb pTcp).OS_TcbTimeout ≠ 0)
  let bit := shl32 1 (dec32 (s.tcb pTcp).OS_TcbPrio)
  let s1 ←
    if nd.next = 0 then tickNode inner tempTask s
    else tickInner inner inner tempTask s
  pure (workingSet &&& not32 bit, s1)

/-- The test of the loop `while (workingSet != 0U)` is reached with working set
`ws` in state `s`, in a call of `OS_tick` made in state `s0`. -/
inductive TickAt (inner : Nat) (s0 : Kernel) : Nat → Kernel → Prop
  | entry : TickAt inner s0 s0.DelayedTaskList.TaskRriorityBitMap s0
  | pass (ws : Nat) (s : Kernel) (ws1 : Nat) (s1 : Kernel) :
      TickAt inner s0 ws s → ws ≠ 0 → tickPass inner ws s = .ok (ws1, s1) → TickAt inner s0 ws1 s1

/-- The condition of the assertion at the top of the loop of `OS_tick`, with the
working set `ws` in state `s`: the head of the selected slot is a node, its TCB
pointer is not null and the timeout of the TCB is not zero. -/
def tickAssertion (ws : Nat) (s : Kernel) : Prop :=
  s.DelayedTaskList.TaskList (LOG2 ws) ≠ 0 ∧
    (s.node (s.DelayedTaskList.TaskList (LOG2 ws))).pTcb ≠ 0 ∧
    (s.tcb (s.node (s.DelayedTaskList.TaskList (LOG2 ws))).pTcb).OS_TcbTimeout ≠ 0

instance (ws : Nat) (s : Kernel) : Decidable (tickAssertion ws s) := by
  unfold tickAssertion; infer_instance

/-! ## A post before the context switch

In `trace5` the running TCB 2 has parked itself on the semaphore ECB 1 and the
switch to the idle task is requested but not yet taken; the semaphore is posted
(by an interrupt handler), and then the PendSV handler runs. -/

def early1 : Kernel := stateOf2 (OS_Sem_Post 100 1 trace5)
def early2 : Kernel := PendSV_Handler 0 early1

def earlyWorld1 : World := ⟨early1, [12, 11], [2, 1], true⟩
def earlyWorld2 : World := ⟨early2, [12, 11], [2, 1], true⟩

/-! ## Sample runs with a message queue

After the creation of TCB 2 (priority 3, list node 12, `trace1`) a message
queue with a ring of 2 cells at address 5000 is created (ECB 1) and TCB 2 runs
and waits on the empty queue, which parks it; the idle task runs.  TCB 3 is
created with priority 5 (list node 13) and runs; it sends the message 77 to
the queue, receives from the queue and calls `OS_Delay(1)`; then TCB 2 runs
again and goes through the loop of `OS_MsgQ_Wait` once more. -/

def relay1 : Kernel := stateOf2 (OS_MsgQ_Create 5000 2 trace1)
def relay2 : Kernel := stateOf (OS_sched 100 relay1)
def relay3 : Kernel := PendSV_Handler 0 relay2
def relay4 : Kernel := stateOf2 (OS_MsgQ_Wait 100 1 NO_TIMEOUT relay3)
def relay5 : Kernel := PendSV_Handler 0 relay4
def relay6 : Kernel := stateOf (OS_Task_Create 100 3 5 700 3000 200 13 relay5)
def relay7 : Kernel := stateOf (OS_sched 100 relay6)
def relay8 : Kernel := PendSV_Handler 0 relay7
def relay9 : Kernel := stateOf2 (OS_MsgQ_Send 100 1 77 relay8)
def relay10 : Kernel := stateOf2 (OS_MsgQ_Wait 100 1 NO_TIMEOUT relay9)
def relay11 : Kernel := stateOf (OS_Delay 100 1 relay10)
def relay12 : Kernel := PendSV_Handler 0 relay11
def relay13 : Kernel := stateOf2 (OS_MsgQ_Wait 100 1 NO_TIMEOUT relay12)

def relayWorld1 : World := ⟨relay1, [12, 11], [2, 1], false⟩
def relayWorld2 : World := ⟨relay2, [12, 11], [2, 1], false⟩
def relayWorld3 : World := ⟨relay3, [12, 11], [2, 1], true⟩
def relayWorld4 : World := ⟨relay4, [12, 11], [2, 1], true⟩
def relayWorld5 : World := ⟨relay5, [12, 11], [2, 1], true⟩
def relayWorld6 : World := ⟨relay6, [13, 12, 11], [3, 2, 1], true⟩
def relayWorld7 : World := ⟨relay7, [13, 12, 11], [3, 2, 1], true⟩
def relayWorld8 : World := ⟨relay8, [13, 12, 11], [3, 2, 1], true⟩
def relayWorld9 : World := ⟨relay9, [13, 12, 11], [3, 2, 1], true⟩
def relayWorld10 : World := ⟨relay10, [13, 12, 11], [3, 2, 1], true⟩
def relayWorld11 : World := ⟨relay11, [13, 12, 11], [3, 2, 1], true⟩
def relayWorld12 : World := ⟨relay12, [13, 12, 11], [3, 2, 1], true⟩
def relayWorld13 : World := ⟨relay13, [13, 12, 11], [3, 2, 1], true⟩

/-! Two receivers on one queue: after the creation of TCB 2 (priority 3, list
node 12, `trace1`), TCB 3 is created with priority 5 (list node 13) and a
message queue with a ring of 2 cells at address 5000 is created (ECB 1).  TCB 3
runs and waits on the empty queue, then TCB 2 runs and waits on it too; the
idle task runs and the message 77 is sent to the queue. -/

def duo1 : Kernel := stateOf (OS_Task_Create 100 3 5 700 3000 200 13 trace1)
def duo2 : Kernel := stateOf2 (OS_MsgQ_Create 5000 2 duo1)
def duo3 : Kernel := stateOf (OS_sched 100 duo2)
def duo4 : Kernel := PendSV_Handler 0 duo3
def duo5 : Kernel := stateOf2 (OS_MsgQ_Wait 100 1 NO_TIMEOUT duo4)
def duo6 : Kernel := PendSV_Handler 0 duo5
def duo7 : Kernel := stateOf2 (OS_MsgQ_Wait 100 1 NO_TIMEOUT duo6)
def duo8 : Kernel := PendSV_Handler 0 duo7
def duo9 : Kernel := stateOf2 (OS_MsgQ_Send 100 1 77 duo8)

def duoWorld1 : World := ⟨duo1, [13, 12, 11], [3, 2, 1], false⟩
def duoWorld2 : World := ⟨duo2, [13, 12, 11], [3, 2, 1], false⟩
def duoWorld3 : World := ⟨duo3, [13, 12, 11], [3, 2, 1], false⟩
def duoWorld4 : World := ⟨duo4, [13, 12, 11], [3, 2, 1], true⟩
def duoWorld5 : World := ⟨duo5, [13, 12, 11], [3, 2, 1], true⟩
def duoWorld6 : World := ⟨duo6, [13, 12, 11], [3, 2, 1], true⟩
def duoWorld7 : World := ⟨duo7, [13, 12, 11], [3, 2, 1], true⟩
def duoWorld8 : World := ⟨duo8, [13, 12, 11], [3, 2, 1], true⟩
def duoWorld9 : World := ⟨duo9, [13, 12, 11], [3, 2, 1], true⟩

/-! ## Basic facts about the fault monad and heap access -/

@[simp] theorem Q_ASSERT_true {c : Prop} [Decidable c] (h : c) : Q_ASSERT c = .ok () := by
  simp [Q_ASSERT, h]

@[simp] theorem rdNode_ok (s : Kernel) {p : Nat} (h : p ≠ 0) : rdNode s p = .ok (s.node p) := by
  simp [rdNode, h]

@[simp] theorem rdTcb_ok (s : Kernel) {p : Nat} (h : p ≠ 0) : rdTcb s p = .ok (s.tcb p) := by
  simp [rdTcb, h]

@[simp] theorem rdEcb_ok (s : Kernel) {p : Nat} (h : p ≠ 0) : rdEcb s p = .ok (s.ecb p) := by
  simp [rdEcb, h]

@[simp] theorem rdMq_ok (s : Kernel) {p : Nat} (h : p ≠ 0) : rdMq s p = .ok (s.mqcb p) := by
  simp [rdMq, h]

@[simp] theorem ok_bind {α β : Type} (a : α) (f : α → Except Fault β) :
    (Except.ok a >>= f) = f a := rfl

@[simp] theorem error_bind {α β : Type} (e : Fault) (f : α → Except Fault β) :
    ((Except.error e : Except Fault α) >>= f) = Except.error e := rfl

@[simp] theorem pure_eq_ok {α : Type} (a : α) : (pure a : Except Fault α) = Except.ok a := rfl

/-! ## Bitmap arithmetic -/

theorem clzFrom_spec (k x : Nat) :
    clzFrom k x ≤ k ∧ (clzFrom k x < k → x.testBit (k - 1 - clzFrom k x) = true) ∧
      (∀ i, k - clzFrom k x ≤ i → i < k → x.testBit i = false) := by
  induction k with
  | zero => simp [clzFrom]
  | succ k ih =>
    obtain ⟨h1, h2, h3⟩ := ih
    by_cases hb : x.testBit k = true
    · simp [clzFrom, hb]
      intro i h4 h5; omega
    · simp only [clzFrom, hb]
      simp only [Bool.false_eq_true, ↓reduceIte]
      refine ⟨by omega, ?_, ?_⟩
      · intro h
        have := h2 (by omega)
        have e : k + 1 - 1 - (clzFrom k x + 1) = k - 1 - clzFrom k x := by omega
        rw [e]; exact this
      · intro i h4 h5
        by_cases hik : i = k
        · subst hik; simpa using hb
        · exact h3 i (by omega) (by omega)

theorem LOG2_spec (x : Nat) (h0 : x ≠ 0) (h32 : x < 2 ^ 32) :
    1 ≤ LOG2 x ∧ LOG2 x ≤ 32 ∧ x.testBit (LOG2 x - 1) = true ∧
      ∀ i, LOG2 x ≤ i → x.testBit i = false := by
  obtain ⟨h1, h2, h3⟩ := clzFrom_spec 32 x
  have hlt : clzFrom 32 x < 32 := by
    by_contra hc
    have hc' : clzFrom 32 x = 32 := by omega
    apply h0
    apply Nat.eq_of_testBit_eq
    intro i
    simp only [Nat.zero_testBit]
    by_cases hi : i < 32
    · exact h3 i (by omega) hi
    · exact Nat.testBit_lt_two_pow (lt_of_lt_of_le h32 (Nat.pow_le_pow_right (by norm_num) (by omega)))
  unfold LOG2 builtin_clz
  refine ⟨by omega, by omega, ?_, ?_⟩
  · have := h2 hlt
    have e : 32 - clzFrom 32 x - 1 = 32 - 1 - clzFrom 32 x := by omega
    rw [e]; exact this
  · intro i hi
    by_cases hi2 : i < 32
    · exact h3 i hi hi2
    · exact Nat.testBit_lt_two_pow (lt_of_lt_of_le h32 (Nat.pow_le_pow_right (by norm_num) (by omega)))

theorem PRIORITY_TO_BIT_eq (p : Nat) (h1 : 1 ≤ p) (h2 : p ≤ 32) :
    shl32 1 (dec32 p) = 2 ^ (p - 1) := by
  have e : dec32 p = p - 1 := by unfold dec32; omega
  rw [e]
  unfold shl32
  have : p - 1 < 32 := by omega
  simp only [this, ↓reduceIte, Nat.one_shiftLeft]
  exact Nat.mod_eq_of_lt (Nat.pow_lt_pow_right (by norm_num) this)

theorem testBit_clear (x k i : Nat) (hx : x < 2 ^ 32) (hk : k < 32) :
    (x &&& not32 (2 ^ k)).testBit i = (x.testBit i && decide (i ≠ k)) := by
  unfold not32
  have e : (2:Nat) ^ k % 2 ^ 32 = 2 ^ k := Nat.mod_eq_of_lt (Nat.pow_lt_pow_right (by norm_num) hk)
  have e2 : (0xffffffff : Nat) = 2 ^ 32 - 1 := by norm_num
  rw [e, e2, Nat.testBit_and, Nat.testBit_xor, Nat.testBit_two_pow_sub_one, Nat.testBit_two_pow]
  by_cases hi : i < 32
  · by_cases hik : i = k
    · subst hik; simp [hi]
    · have : ¬ k = i := fun h => hik h.symm
      simp [hi, hik, this]
  · have : x.testBit i = false :=
      Nat.testBit_lt_two_pow (lt_of_lt_of_le hx (Nat.pow_le_pow_right (by norm_num) (by omega)))
    simp [this]

theorem testBit_set (x k i : Nat) :
    (x ||| 2 ^ k).testBit i = (x.testBit i || decide (i = k)) := by
  rw [Nat.testBit_or, Nat.testBit_two_pow]
  by_cases h : i = k
  · subst h; simp
  · have : ¬ k = i := fun h' => h h'.symm
    simp [h, this]

theorem lt_two_pow_of_bits (x n : Nat) (h : ∀ i, n ≤ i → x.testBit i = false) : x < 2 ^ n :=
  Nat.lt_pow_two_of_testBit x (by intro i hi; simp [h i hi])

/-! ## Chains of list nodes -/

theorem lastOr_mem (x : Nat) (l : List Nat) (h : l ≠ []) : lastOr x l ∈ l := by
  induction l generalizing x with
  | nil => exact absurd rfl h
  | cons y l ih =>
    cases l with
    | nil => simp [lastOr]
    | cons z l => exact List.mem_cons_of_mem _ (ih y (by simp))

theorem lastOr_append_singleton (pv x : Nat) (l : List Nat) : lastOr pv (l ++ [x]) = x := by
  induction l generalizing pv with
  | nil => rfl
  | cons y l ih => exact ih y

theorem unlinkNd_pTcb (nd : Nat → Task_List_Node) (a n b k : Nat) :
    (unlinkNd nd a n b k).pTcb = (nd k).pTcb := by
  unfold unlinkNd
  by_cases ha : a = 0 <;> by_cases hb : b = 0 <;> by_cases hkn : k = n <;>
    by_cases hka : k = a <;> by_cases hkb : k = b <;> simp_all [Function.update_apply]

theorem unlinkNd_of_ne (nd : Nat → Task_List_Node) {a n b k : Nat}
    (h1 : k ≠ n) (h2 : k ≠ a) (h3 : k ≠ b) : unlinkNd nd a n b k = nd k := by
  unfold unlinkNd
  by_cases ha : a = 0 <;> by_cases hb : b = 0 <;> by_cases hkn : k = n <;>
    by_cases hka : k = a <;> by_cases hkb : k = b <;> simp_all [Function.update_apply]

theorem unlinkNd_prev_of_ne (nd : Nat → Task_List_Node) {a n b k : Nat}
    (h1 : k ≠ n) (h3 : k ≠ b) : (unlinkNd nd a n b k).prev = (nd k).prev := by
  unfold unlinkNd
  by_cases ha : a = 0 <;> by_cases hb : b = 0 <;> by_cases hkn : k = n <;>
    by_cases hka : k = a <;> by_cases hkb : k = b <;> simp_all [Function.update_apply]

theorem unlinkNd_next_of_ne (nd : Nat → Task_List_Node) {a n b k : Nat}
    (h1 : k ≠ n) (h2 : k ≠ a) : (unlinkNd nd a n b k).next = (nd k).next := by
  unfold unlinkNd
  by_cases ha : a = 0 <;> by_cases hb : b = 0 <;> by_cases hkn : k = n <;>
    by_cases hka : k = a <;> by_cases hkb : k = b <;> simp_all [Function.update_apply]

theorem unlinkNd_next_a (nd : Nat → Task_List_Node) {a n b : Nat}
    (h0 : a ≠ 0) (h1 : a ≠ n) (h2 : a ≠ b) : (unlinkNd nd a n b a).next = b := by
  unfold unlinkNd
  by_cases hb : b = 0 <;> simp_all [Function.update_apply]

theorem unlinkNd_prev_b (nd : Nat → Task_List_Node) {a n b : Nat}
    (h0 : b ≠ 0) (h1 : b ≠ n) : (unlinkNd nd a n b b).prev = a := by
  unfold unlinkNd
  by_cases ha : a = 0 <;> by_cases hab : b = a <;> simp_all [Function.update_apply]

theorem unlinkNd_self (nd : Nat → Task_List_Node) (a n b : Nat) :
    unlinkNd nd a n b n = { prev := 0, next := 0, pTcb := (nd n).pTcb } := by
  unfold unlinkNd
  simp

theorem Seg_congr {nd nd' : Nat → Task_List_Node} {l : List Nat} (h : ∀ n ∈ l, nd' n = nd n)
    (pv hd e : Nat) : Seg nd' pv hd l e ↔ Seg nd pv hd l e := by
  induction l generalizing pv hd with
  | nil => simp [Seg]
  | cons n l ih =>
    have hn : nd' n = nd n := h n (List.mem_cons_self _ _)
    simp only [Seg, hn]
    rw [ih (fun m hm => h m (List.mem_cons_of_mem _ hm))]

theorem Seg_ne_zero {nd : Nat → Task_List_Node} {l : List Nat} {pv hd e : Nat}
    (h : Seg nd pv hd l e) : ∀ n ∈ l, n ≠ 0 := by
  induction l generalizing pv hd with
  | nil => simp
  | cons n l ih =>
    obtain ⟨_, h2, _, h4⟩ := h
    intro m hm
    rcases List.mem_cons.mp hm with rfl | hm
    · exact h2
    · exact ih h4 m hm

theorem Seg_head {nd : Nat → Task_List_Node} {l : List Nat} {pv hd e : Nat}
    (h : Seg nd pv hd l e) : hd = l.headD e := by
  cases l with
  | nil => exact h
  | cons n l => exact h.1

theorem Seg_head_eq_zero {nd : Nat → Task_List_Node} {l : List Nat} {pv hd : Nat}
    (h : Seg nd pv hd l 0) : hd = 0 ↔ l = [] := by
  cases l with
  | nil => simp [Seg] at h; simp [h]
  | cons n l => obtain ⟨h1, h2, _⟩ := h; subst h1; simp [h2]

/-- Links of a member of a chain: `prev` is the predecessor, `next` the successor. -/
theorem Seg_links {nd : Nat → Task_List_Node} {l1 l2 : List Nat} {pv hd n : Nat}
    (h : Seg nd pv hd (l1 ++ n :: l2) 0) :
    (nd n).prev = lastOr pv l1 ∧ (nd n).next = l2.headD 0 := by
  induction l1 generalizing pv hd with
  | nil =>
    obtain ⟨_, _, h3, h4⟩ := h
    exact ⟨h3, Seg_head h4⟩
  | cons x l1 ih =>
    obtain ⟨_, _, _, h4⟩ := h
    exact ih h4

theorem headD_ne_of_not_mem {x : Nat} {l : List Nat} (h0 : x ≠ 0) (h : x ∉ l) : x ≠ l.headD 0 := by
  cases l with
  | nil => simpa using h0
  | cons m l => simp only [List.headD_cons]; exact fun e => h (by simp [e])

theorem Seg_unlink {nd : Nat → Task_List_Node} {l1 l2 : List Nat} {pv hd n : Nat}
    (h : Seg nd pv hd (l1 ++ n :: l2) 0) (hnd : (l1 ++ n :: l2).Nodup)
    (hpv : pv ∉ l1 ++ n :: l2) :
    Seg (unlinkNd nd (lastOr pv l1) n (l2.headD 0)) pv
      (if l1 = [] then l2.headD 0 else hd) (l1 ++ l2) 0 := by
  induction l1 generalizing pv hd with
  | nil =>
    obtain ⟨h1, h2, h3, h4⟩ := h
    simp only [List.nil_append, lastOr, ↓reduceIte]
    cases l2 with
    | nil => simp [Seg]
    | cons m l2 =>
      obtain ⟨g1, g2, g3, g4⟩ := h4
      simp only [List.nil_append, List.nodup_cons, List.mem_cons, not_or] at hnd hpv
      obtain ⟨⟨hnm, hnl⟩, hml, hl⟩ := hnd
      obtain ⟨hpn, hpm, hpl⟩ := hpv
      have hmn : m ≠ n := fun e => hnm e.symm
      have hmp : m ≠ pv := fun e => hpm e.symm
      simp only [List.headD_cons, Seg]
      refine ⟨trivial, g2, unlinkNd_prev_b nd g2 hmn, ?_⟩
      rw [unlinkNd_next_of_ne nd hmn hmp]
      refine (Seg_congr ?_ _ _ _).mpr g4
      intro k hk
      exact unlinkNd_of_ne nd (fun e => hnl (e ▸ hk)) (fun e => hpl (e ▸ hk)) (fun e => hml (e ▸ hk))
  | cons x l1 ih =>
    obtain ⟨h1, h2, h3, h4⟩ := h
    simp only [List.cons_append, List.nodup_cons] at hnd
    obtain ⟨hx, hnd'⟩ := hnd
    have IH := ih h4 hnd' hx
    have hxn : x ≠ n := fun e => hx (by simp [e])
    have hxl2 : x ∉ l2 := fun e => hx (by simp [e])
    have hxl1 : x ∉ l1 := fun e => hx (by simp [e])
    have hxb : x ≠ l2.headD 0 := headD_ne_of_not_mem h2 hxl2
    simp only [List.cons_append, Seg, reduceCtorEq, ↓reduceIte, lastOr]
    refine ⟨h1, h2, ?_, ?_⟩
    · rw [unlinkNd_prev_of_ne nd hxn hxb]; exact h3
    · have hnext : (unlinkNd nd (lastOr x l1) n (l2.headD 0) x).next
          = if l1 = [] then l2.headD 0 else (nd x).next := by
        cases l1 with
        | nil =>
          simp only [lastOr, ↓reduceIte]
          exact unlinkNd_next_a nd h2 hxn hxb
        | cons y l1 =>
          have hxa : x ≠ lastOr x (y :: l1) := by
            intro e
            apply hxl1
            have := lastOr_mem x (y :: l1) (by simp)
            rw [← e] at this; exact this
          simp only [reduceCtorEq, ↓reduceIte]
          exact unlinkNd_next_of_ne nd hxn hxa
      rw [hnext]
      exact IH

theorem Seg_append {nd : Nat → Task_List_Node} {l : List Nat} {pv hd x n : Nat}
    (h : Seg nd pv hd (l ++ [x]) 0) (hnd : (l ++ [x]).Nodup) (hn0 : n ≠ 0)
    (hn : n ∉ l ++ [x]) (hnext : (nd n).next = 0) :
    Seg (appendNd nd x n) pv hd (l ++ [x] ++ [n]) 0 := by
  induction l generalizing pv hd with
  | nil =>
    obtain ⟨h1, h2, h3, h4⟩ := h
    have hnx : n ≠ x := fun e => hn (by simp [e])
    have hxn : x ≠ n := fun e => hnx e.symm
    simp only [List.nil_append, List.cons_append, Seg]
    refine ⟨h1, h2, ?_, ?_, hn0, ?_, ?_⟩ <;>
      simp [appendNd, Function.update_apply, hnx, hxn, h3, hnext]
  | cons y l ih =>
    obtain ⟨h1, h2, h3, h4⟩ := h
    have hny : n ≠ y := fun e => hn (by simp [e])
    have hyn : y ≠ n := fun e => hny e.symm
    have hn' : n ∉ l ++ [x] := fun e => hn (by simp at e ⊢; tauto)
    simp only [List.cons_append, List.nodup_cons] at hnd
    have hyx : y ≠ x := fun e => hnd.1 (by simp [e])
    have IH := ih h4 hnd.2 hn'
    simp only [List.cons_append, Seg]
    refine ⟨h1, h2, ?_, ?_⟩
    · simp [appendNd, Function.update_apply, hyn, hyx, h3]
    · have : (appendNd nd x n y).next = (nd y).next := by
        simp [appendNd, Function.update_apply, hyn, hyx]
      rw [this]; exact IH

/-! ## Task list store: insertion -/

@[simp] theorem getTaskList_code (L : ListId) : getTaskList L.code = some L := by
  cases L <;> simp [getTaskList, ListId.code, READY_TASK_LIST, DELAYED_TASK_LIST, WAITING_TASK_LIST]

@[simp] theorem getList_setList_same (s : Kernel) (L : ListId) (v : Task_List) :
    (s.setList L v).getList L = v := by
  cases L <;> rfl

theorem getList_setList_ne (s : Kernel) {L L' : ListId} (v : Task_List) (h : L' ≠ L) :
    (s.setList L v).getList L' = s.getList L' := by
  cases L <;> cases L' <;> first | rfl | exact absurd rfl h

@[simp] theorem setList_node (s : Kernel) (L : ListId) (v : Task_List) :
    (s.setList L v).node = s.node := by cases L <;> rfl
@[simp] theorem setList_tcb (s : Kernel) (L : ListId) (v : Task_List) :
    (s.setList L v).tcb = s.tcb := by cases L <;> rfl
@[simp] theorem setList_ecb (s : Kernel) (L : ListId) (v : Task_List) :
    (s.setList L v).ecb = s.ecb := by cases L <;> rfl
@[simp] theorem setList_mqcb (s : Kernel) (L : ListId) (v : Task_List) :
    (s.setList L v).mqcb = s.mqcb := by cases L <;> rfl
@[simp] theorem setList_mem (s : Kernel) (L : ListId) (v : Task_List) :
    (s.setList L v).mem = s.mem := by cases L <;> rfl
@[simp] theorem setList_curr (s : Kernel) (L : ListId) (v : Task_List) :
    (s.setList L v).OS_Tcb_Curr = s.OS_Tcb_Curr := by cases L <;> rfl

theorem lastNode_spec (s : Kernel) {l : List Nat} {pv hd x : Nat}
    (h : Seg s.node pv hd (l ++ [x]) 0) (fuel : Nat) (hf : l.length < fuel) :
    lastNode s fuel hd = .ok x := by
  induction l generalizing pv hd fuel with
  | nil =>
    obtain ⟨h1, h2, h3, h4⟩ := h
    subst h1
    cases fuel with
    | zero => simp at hf
    | succ fuel =>
      simp only [Seg] at h4
      simp [lastNode, h2, h4]
  | cons y l ih =>
    obtain ⟨h1, h2, h3, h4⟩ := h
    subst h1
    cases fuel with
    | zero => simp at hf
    | succ fuel =>
      have hne : (s.node hd).next ≠ 0 := by
        have := Seg_head h4
        rw [this]
        cases l <;> simp [Seg] at h4 ⊢ <;> tauto
      simp only [lastNode, rdNode_ok s h2, ok_bind, hne, ne_eq, not_false_eq_true, ↓reduceIte]
      exact ih h4 fuel (by simp at hf; omega)

theorem add_eq (s : Kernel) (L : ListId) (fuel p n : Nat) (l : List Nat)
    (hn0 : n ≠ 0) (ht : (s.node n).pTcb ≠ 0)
    (hp : (s.tcb (s.node n).pTcb).OS_TcbPrio = p) (hp0 : 0 < p) (hp8 : p < MAX_TASK_PRIORITY)
    (hch : Seg s.node 0 ((s.getList L).TaskList p) l 0) (hf : l.length ≤ fuel) :
    os_utilsAddTaskToListByNode fuel n L.code s = .ok (addState s L p n (lastOr 0 l)) := by
  unfold os_utilsAddTaskToListByNode
  simp only [rdNode_ok s hn0, ok_bind, rdTcb_ok s ht, hp, Q_ASSERT_true (And.intro hp0 hp8),
    getTaskList_code]
  rcases List.eq_nil_or_concat l with rfl | ⟨l', x, rfl⟩
  · have h0 : (s.getList L).TaskList p = 0 := hch
    simp [h0, addState, lastOr]
  · have hx : x ≠ 0 := Seg_ne_zero hch x (by simp)
    have hh : (s.getList L).TaskList p ≠ 0 := by
      intro e
      have := (Seg_head_eq_zero hch).mp e
      simp at this
    rw [List.concat_eq_append] at hch hf ⊢
    have hl := lastNode_spec s hch fuel (by simp at hf; omega)
    rw [lastOr_append_singleton]
    simp [hh, hl, addState, hx, setNext, setPrev, wrNode, hn0, appendNd]


@[simp] theorem setList_next (s : Kernel) (L : ListId) (v : Task_List) :
    (s.setList L v).OS_Tcb_Next = s.OS_Tcb_Next := by cases L <;> rfl
@[simp] theorem setList_efree (s : Kernel) (L : ListId) (v : Task_List) :
    (s.setList L v).OSEventFreeList = s.OSEventFreeList := by cases L <;> rfl
@[simp] theorem setList_qfree (s : Kernel) (L : ListId) (v : Task_List) :
    (s.setList L v).OS_MQcb_FreeList = s.OS_MQcb_FreeList := by cases L <;> rfl
@[simp] theorem setList_pendSV (s : Kernel) (L : ListId) (v : Task_List) :
    (s.setList L v).pendSV = s.pendSV := by cases L <;> rfl

@[simp] theorem getList_node_update (s : Kernel) (L : ListId) (nd : Nat → Task_List_Node) :
    ({ s with node := nd } : Kernel).getList L = s.getList L := by cases L <;> rfl

@[simp] theorem addState_tcb (s : Kernel) (L : ListId) (p n x : Nat) :
    (addState s L p n x).tcb = s.tcb := by
  unfold addState; split_ifs <;> simp [Kernel.setBitMap, Kernel.setHead]
@[simp] theorem addState_ecb (s : Kernel) (L : ListId) (p n x : Nat) :
    (addState s L p n x).ecb = s.ecb := by
  unfold addState; split_ifs <;> simp [Kernel.setBitMap, Kernel.setHead]
@[simp] theorem addState_mqcb (s : Kernel) (L : ListId) (p n x : Nat) :
    (addState s L p n x).mqcb = s.mqcb := by
  unfold addState; split_ifs <;> simp [Kernel.setBitMap, Kernel.setHead]
@[simp] theorem addState_mem (s : Kernel) (L : ListId) (p n x : Nat) :
    (addState s L p n x).mem = s.mem := by
  unfold addState; split_ifs <;> simp [Kernel.setBitMap, Kernel.setHead]
@[simp] theorem addState_curr (s : Kernel) (L : ListId) (p n x : Nat) :
    (addState s L p n x).OS_Tcb_Curr = s.OS_Tcb_Curr := by
  unfold addState; split_ifs <;> simp [Kernel.setBitMap, Kernel.setHead]
@[simp] theorem addState_next (s : Kernel) (L : ListId) (p n x : Nat) :
    (addState s L p n x).OS_Tcb_Next = s.OS_Tcb_Next := by
  unfold addState; split_ifs <;> simp [Kernel.setBitMap, Kernel.setHead]
@[simp] theorem addState_pendSV (s : Kernel) (L : ListId) (p n x : Nat) :
    (addState s L p n x).pendSV = s.pendSV := by
  unfold addState; split_ifs <;> simp [Kernel.setBitMap, Kernel.setHead]
@[simp] theorem addState_efree (s : Kernel) (L : ListId) (p n x : Nat) :
    (addState s L p n x).OSEventFreeList = s.OSEventFreeList := by
  unfold addState; split_ifs <;> simp [Kernel.setBitMap, Kernel.setHead]
@[simp] theorem addState_qfree (s : Kernel) (L : ListId) (p n x : Nat) :
    (addState s L p n x).OS_MQcb_FreeList = s.OS_MQcb_FreeList := by
  unfold addState; split_ifs <;> simp [Kernel.setBitMap, Kernel.setHead]

theorem addState_node (s : Kernel) (L : ListId) (p n x : Nat) :
    (addState s L p n x).node = if x = 0 then s.node else appendNd s.node x n := by
  unfold addState; split_ifs <;> simp [Kernel.setBitMap, Kernel.setHead]

theorem addState_getList_ne (s : Kernel) {L L' : ListId} (p n x : Nat) (h : L' ≠ L) :
    (addState s L p n x).getList L' = s.getList L' := by
  unfold addState
  split_ifs <;> simp [Kernel.setBitMap, Kernel.setHead, getList_setList_ne _ _ h]

theorem addState_head (s : Kernel) (L : ListId) (p n x q : Nat) :
    ((addState s L p n x).getList L).TaskList q =
      if x = 0 ∧ q = p then n else (s.getList L).TaskList q := by
  unfold addState
  by_cases hx : x = 0 <;> by_cases hq : q = p <;>
    simp [Kernel.setBitMap, Kernel.setHead, hx, hq, Function.update_apply]

theorem addState_bitmap (s : Kernel) (L : ListId) (p n x : Nat) :
    ((addState s L p n x).getList L).TaskRriorityBitMap =
      (s.getList L).TaskRriorityBitMap ||| PRIORITY_TO_BIT p := by
  unfold addState
  by_cases hx : x = 0 <;> simp [Kernel.setBitMap, Kernel.setHead, hx]

/-! ## Disjointness of the slots -/

theorem mem_slotList (L : ListId) (p : Nat) : (L, p) ∈ slotList ↔ p < MAX_TASKS_IN_LIST := by
  cases L <;> simp [slotList, MAX_TASKS_IN_LIST]

theorem mem_allNodes (sh : Shape) (k : Nat) :
    k ∈ allNodes sh ↔ ∃ L p, p < MAX_TASKS_IN_LIST ∧ k ∈ sh L p := by
  unfold allNodes
  rw [List.mem_flatMap]
  constructor
  · rintro ⟨⟨L, p⟩, hx, hk⟩
    exact ⟨L, p, (mem_slotList L p).mp hx, hk⟩
  · rintro ⟨L, p, hp, hk⟩
    exact ⟨(L, p), (mem_slotList L p).mpr hp, hk⟩

theorem slot_nodup {sh : Shape} (h : (allNodes sh).Nodup) (L : ListId) {p : Nat}
    (hp : p < MAX_TASKS_IN_LIST) : (sh L p).Nodup := by
  unfold allNodes at h
  exact (List.nodup_flatMap.mp h).1 (L, p) ((mem_slotList L p).mpr hp)

theorem slot_disjoint {sh : Shape} (h : (allNodes sh).Nodup) {L L' : ListId} {p q k : Nat}
    (hp : p < MAX_TASKS_IN_LIST) (hq : q < MAX_TASKS_IN_LIST)
    (hk : k ∈ sh L p) (hk' : k ∈ sh L' q) : L = L' ∧ p = q := by
  unfold allNodes at h
  have hpw := (List.nodup_flatMap.mp h).2
  by_contra hne
  have hne' : (L, p) ≠ (L', q) := by
    intro e; apply hne; simpa using e
  have hsym : Symmetric (fun a b : ListId × Nat => List.Disjoint (sh a.1 a.2) (sh b.1 b.2)) :=
    fun a b hab => hab.symm
  have := List.Pairwise.forall hsym hpw ((mem_slotList L p).mpr hp) ((mem_slotList L' q).mpr hq) hne'
  exact this hk hk'

theorem slotList_nodup : slotList.Nodup := by decide

theorem flatMap_perm_insert {α β : Type} [DecidableEq α] (l : List α) (hl : l.Nodup) (x : α)
    (hx : x ∈ l) (f g : α → List β) (n : β) (l1 l2 : List β)
    (hfx : f x = l1 ++ n :: l2) (hgx : g x = l1 ++ l2) (hgy : ∀ y, y ≠ x → g y = f y) :
    List.Perm (l.flatMap f) (n :: l.flatMap g) := by
  induction l with
  | nil => simp at hx
  | cons y l ih =>
    simp only [List.nodup_cons] at hl
    by_cases hyx : y = x
    · subst hyx
      have hrest : l.flatMap g = l.flatMap f := by
        apply List.flatMap_congr
        intro z hz
        exact hgy z (fun e => hl.1 (e ▸ hz))
      simp only [List.flatMap_cons, hfx, hgx, hrest, List.append_assoc, List.cons_append]
      exact List.perm_middle
    · have hx' : x ∈ l := by
        rcases List.mem_cons.mp hx with e | e
        · exact absurd e.symm hyx
        · exact e
      have IH := ih hl.2 hx'
      simp only [List.flatMap_cons, hgy y hyx]
      exact (List.Perm.append_left (f y) IH).trans List.perm_middle

theorem allNodes_set_remove (sh : Shape) (L : ListId) (p n : Nat) (l1 l2 : List Nat)
    (hp : p < MAX_TASKS_IN_LIST) (h : sh L p = l1 ++ n :: l2) :
    List.Perm (allNodes sh) (n :: allNodes (sh.set L p (l1 ++ l2))) := by
  unfold allNodes
  refine flatMap_perm_insert slotList slotList_nodup (L, p) ((mem_slotList L p).mpr hp) _ _ n l1 l2
    h ?_ ?_
  · simp [Shape.set]
  · rintro ⟨L', q⟩ hne
    have : ¬ (L' = L ∧ q = p) := fun e => hne (by simp [e.1, e.2])
    simp [Shape.set, this]

theorem allNodes_set_add (sh : Shape) (L : ListId) (p n : Nat)
    (hp : p < MAX_TASKS_IN_LIST) :
    List.Perm (allNodes (sh.set L p (sh L p ++ [n]))) (n :: allNodes sh) := by
  have h := allNodes_set_remove (sh.set L p (sh L p ++ [n])) L p n (sh L p) [] hp
    (by simp [Shape.set])
  refine h.trans (List.Perm.cons n (List.Perm.of_eq ?_))
  congr 1
  funext L' q
  by_cases e : L' = L ∧ q = p
  · simp [Shape.set, e]
  · simp [Shape.set, e]

theorem slot_length_le (sh : Shape) (L : ListId) {p : Nat} (hp : p < MAX_TASKS_IN_LIST) :
    (sh L p).length ≤ (allNodes sh).length := by
  have hmem := (mem_slotList L p).mpr hp
  unfold allNodes
  generalize slotList = l at hmem
  induction l with
  | nil => simp at hmem
  | cons y l ih =>
    simp only [List.flatMap_cons, List.length_append]
    rcases List.mem_cons.mp hmem with e | e
    · subst e; simp
    · have := ih e; omega

/-! ## Insertion preserves well-formedness -/

theorem WF.list {s : Kernel} {sh : Shape} (h : WF s sh) (L : ListId) : ListWF s L (sh L) := by
  cases L
  · exact h.1.1
  · exact h.1.2.1
  · exact h.1.2.2

theorem WF.seg {s : Kernel} {sh : Shape} (h : WF s sh) (L : ListId) {p : Nat}
    (hp : p < MAX_TASKS_IN_LIST) : Seg s.node 0 ((s.getList L).TaskList p) (sh L p) 0 :=
  ((h.list L).1 p hp).1

theorem lists_of_forall {s : Kernel} {sh : Shape} (h : ∀ L, ListWF s L (sh L)) : Lists s sh :=
  ⟨h .ready, h .delayed, h .waiting⟩

theorem PRIORITY_TO_BIT_pow {p : Nat} (h1 : 0 < p) (h2 : p ≤ MAX_TASK_PRIORITY) :
    PRIORITY_TO_BIT p = 2 ^ (p - 1) :=
  PRIORITY_TO_BIT_eq p h1 (by unfold MAX_TASK_PRIORITY at h2; omega)

theorem lastOr_eq_zero {l : List Nat} (h : ∀ k ∈ l, k ≠ 0) : lastOr 0 l = 0 ↔ l = [] := by
  constructor
  · intro e
    by_contra hne
    exact h _ (lastOr_mem 0 l hne) e
  · rintro rfl; rfl

theorem lastOr_zero_or_mem (l : List Nat) : lastOr 0 l = 0 ∨ lastOr 0 l ∈ l := by
  cases l with
  | nil => left; rfl
  | cons y l => right; exact lastOr_mem 0 _ (by simp)

theorem headD_zero_or_mem (l : List Nat) : l.headD 0 = 0 ∨ l.headD 0 ∈ l := by
  cases l <;> simp

theorem appendNd_pTcb (nd : Nat → Task_List_Node) (x n k : Nat) :
    (appendNd nd x n k).pTcb = (nd k).pTcb := by
  unfold appendNd
  by_cases h1 : k = n <;> by_cases h2 : k = x <;> simp_all [Function.update_apply]

theorem appendNd_of_ne (nd : Nat → Task_List_Node) {x n k : Nat} (h1 : k ≠ n) (h2 : k ≠ x) :
    appendNd nd x n k = nd k := by
  unfold appendNd
  simp [Function.update_apply, h1, h2]

theorem addState_node_pTcb (s : Kernel) (L : ListId) (p n x k : Nat) :
    ((addState s L p n x).node k).pTcb = (s.node k).pTcb := by
  rw [addState_node]; split_ifs
  · rfl
  · exact appendNd_pTcb _ _ _ _

theorem addState_node_of_ne (s : Kernel) (L : ListId) (p : Nat) {n x k : Nat}
    (h1 : k ≠ n) (h2 : k ≠ x) : (addState s L p n x).node k = s.node k := by
  rw [addState_node]; split_ifs
  · rfl
  · exact appendNd_of_ne _ h1 h2

theorem add_WF (s : Kernel) (sh : Shape) (L : ListId) (p n : Nat)
    (hwf : WF s sh) (hn0 : n ≠ 0) (hn : n ∉ allNodes sh)
    (ht : (s.node n).pTcb ≠ 0) (hp : (s.tcb (s.node n).pTcb).OS_TcbPrio = p)
    (hp0 : 0 < p) (hp8 : p ≤ MAX_TASK_PRIORITY)
    (hprev : (s.node n).prev = 0) (hnext : (s.node n).next = 0) :
    WF (addState s L p n (lastOr 0 (sh L p))) (sh.set L p (sh L p ++ [n])) := by
  have hp9 : p < MAX_TASKS_IN_LIST := by unfold MAX_TASKS_IN_LIST; omega
  have hnd := hwf.2
  have hnot : ∀ L' q, q < MAX_TASKS_IN_LIST → n ∉ sh L' q := fun L' q hq hm =>
    hn ((mem_allNodes sh n).mpr ⟨L', q, hq, hm⟩)
  have hsegp := hwf.seg L hp9
  have hnz : ∀ k ∈ sh L p, k ≠ 0 := Seg_ne_zero hsegp
  refine ⟨lists_of_forall fun L' => ⟨?_, ?_⟩, ?_⟩
  · -- chains and priorities
    intro q hq
    have hsegq := hwf.seg L' hq
    by_cases e : L' = L ∧ q = p
    · obtain ⟨rfl, rfl⟩ := e
      simp only [Shape.set, and_self, ↓reduceIte]
      constructor
      · rw [addState_head, addState_node]
        rcases List.eq_nil_or_concat (sh L' q) with e0 | ⟨l', x, e1⟩
        · simp [e0, lastOr, Seg, hn0, hprev, hnext]
        · rw [List.concat_eq_append] at e1
          have hx : x ≠ 0 := hnz x (by simp [e1])
          have hh : (s.getList L').TaskList q ≠ 0 := by
            intro e; have := (Seg_head_eq_zero hsegp).mp e; simp [e1] at this
          rw [e1] at hsegp ⊢
          rw [lastOr_append_singleton]
          simp only [hx, false_and, ↓reduceIte]
          exact Seg_append hsegp (by rw [← e1]; exact slot_nodup hnd L' hp9) hn0
            (by rw [← e1]; exact hnot L' q hp9) hnext
      · intro k hk
        rw [addState_node_pTcb, addState_tcb]
        rcases List.mem_append.mp hk with hk | hk
        · exact ((hwf.list L').1 q hq).2 k hk
        · simp only [List.mem_singleton] at hk; subst hk; exact ⟨ht, hp⟩
    · have e' : ¬ (L' = L ∧ q = p) := e
      simp only [Shape.set, e', ↓reduceIte]
      have hhead : ((addState s L p n (lastOr 0 (sh L p))).getList L').TaskList q
          = (s.getList L').TaskList q := by
        by_cases hL : L' = L
        · subst hL
          have : q ≠ p := fun h => e ⟨rfl, h⟩
          rw [addState_head]; simp [this]
        · rw [addState_getList_ne _ _ _ _ hL]
      have hframe : ∀ k ∈ sh L' q, (addState s L p n (lastOr 0 (sh L p))).node k = s.node k := by
        intro k hk
        refine addState_node_of_ne s L p (fun h => hnot L' q hq (h ▸ hk)) ?_
        rcases lastOr_zero_or_mem (sh L p) with h0 | hm
        · rw [h0]; exact Seg_ne_zero hsegq k hk
        · intro h
          have := slot_disjoint hnd hq hp9 hk (h ▸ hm)
          exact e this
      constructor
      · rw [hhead]; exact (Seg_congr hframe _ _ _).mpr hsegq
      · intro k hk
        rw [addState_node_pTcb, addState_tcb]
        exact ((hwf.list L').1 q hq).2 k hk
  · -- bitmap
    by_cases hL : L' = L
    · subst hL
      have hb := (hwf.list L').2
      rw [addState_bitmap, PRIORITY_TO_BIT_pow hp0 hp8]
      refine ⟨Nat.or_lt_two_pow hb.1 (Nat.pow_lt_pow_right (by norm_num) (by omega)), ?_⟩
      intro q hq
      rw [testBit_set, addState_head]
      by_cases hqp : q + 1 = p
      · have hq' : q = p - 1 := by omega
        simp only [hq', decide_True, Bool.or_true, true_iff]
        have hpp : p - 1 + 1 = p := by omega
        rw [hpp]
        by_cases hx : lastOr 0 (sh L' p) = 0
        · simp [hx, hn0]
        · simp only [hx, false_and, ↓reduceIte]
          intro e
          have := (Seg_head_eq_zero hsegp).mp e
          exact hx ((lastOr_eq_zero hnz).mpr this)
      · have hq' : q ≠ p - 1 := by omega
        simp only [hq', decide_False, Bool.or_false, hqp, and_false, ↓reduceIte]
        exact hb.2 q hq
    · rw [addState_getList_ne _ _ _ _ hL]
      exact (hwf.list L').2
  · exact (List.Perm.nodup_iff (allNodes_set_add sh L p n hp9)).mpr
      (List.nodup_cons.mpr ⟨hn, hnd⟩)

/-! ## Removal preserves well-formedness -/

@[simp] theorem removeState_tcb (s : Kernel) (L : ListId) (p a n b : Nat) :
    (removeState s L p a n b).tcb = s.tcb := by
  unfold removeState; split_ifs <;> simp [Kernel.setBitMap, Kernel.setHead]
@[simp] theorem removeState_ecb (s : Kernel) (L : ListId) (p a n b : Nat) :
    (removeState s L p a n b).ecb = s.ecb := by
  unfold removeState; split_ifs <;> simp [Kernel.setBitMap, Kernel.setHead]
@[simp] theorem removeState_mqcb (s : Kernel) (L : ListId) (p a n b : Nat) :
    (removeState s L p a n b).mqcb = s.mqcb := by
  unfold removeState; split_ifs <;> simp [Kernel.setBitMap, Kernel.setHead]
@[simp] theorem removeState_mem (s : Kernel) (L : ListId) (p a n b : Nat) :
    (removeState s L p a n b).mem = s.mem := by
  unfold removeState; split_ifs <;> simp [Kernel.setBitMap, Kernel.setHead]
@[simp] theorem removeState_curr (s : Kernel) (L : ListId) (p a n b : Nat) :
    (removeState s L p a n b).OS_Tcb_Curr = s.OS_Tcb_Curr := by
  unfold removeState; split_ifs <;> simp [Kernel.setBitMap, Kernel.setHead]
@[simp] theorem removeState_next (s : Kernel) (L : ListId) (p a n b : Nat) :
    (removeState s L p a n b).OS_Tcb_Next = s.OS_Tcb_Next := by
  unfold removeState; split_ifs <;> simp [Kernel.setBitMap, Kernel.setHead]
@[simp] theorem removeState_pendSV (s : Kernel) (L : ListId) (p a n b : Nat) :
    (removeState s L p a n b).pendSV = s.pendSV := by
  unfold removeState; split_ifs <;> simp [Kernel.setBitMap, Kernel.setHead]
@[simp] theorem removeState_efree (s : Kernel) (L : ListId) (p a n b : Nat) :
    (removeState s L p a n b).OSEventFreeList = s.OSEventFreeList := by
  unfold removeState; split_ifs <;> simp [Kernel.setBitMap, Kernel.setHead]
@[simp] theorem removeState_qfree (s : Kernel) (L : ListId) (p a n b : Nat) :
    (removeState s L p a n b).OS_MQcb_FreeList = s.OS_MQcb_FreeList := by
  unfold removeState; split_ifs <;> simp [Kernel.setBitMap, Kernel.setHead]

@[simp] theorem removeState_node (s : Kernel) (L : ListId) (p a n b : Nat) :
    (removeState s L p a n b).node = unlinkNd s.node a n b := by
  unfold removeState; split_ifs <;> simp [Kernel.setBitMap, Kernel.setHead]

theorem removeState_getList_ne (s : Kernel) {L L' : ListId} (p a n b : Nat) (h : L' ≠ L) :
    (removeState s L p a n b).getList L' = s.getList L' := by
  unfold removeState
  split_ifs <;> simp [Kernel.setBitMap, Kernel.setHead, getList_setList_ne _ _ h]

theorem removeState_head (s : Kernel) (L : ListId) (p a n b q : Nat) :
    ((removeState s L p a n b).getList L).TaskList q =
      if a = 0 ∧ q = p then b else (s.getList L).TaskList q := by
  unfold removeState
  by_cases ha : a = 0 <;> by_cases hb : b = 0 <;> by_cases hq : q = p <;>
    simp [Kernel.setBitMap, Kernel.setHead, ha, hb, hq, Function.update_apply]

theorem removeState_bitmap (s : Kernel) (L : ListId) (p a n b : Nat) :
    ((removeState s L p a n b).getList L).TaskRriorityBitMap =
      if a = 0 ∧ b = 0 then (s.getList L).TaskRriorityBitMap &&& not32 (PRIORITY_TO_BIT p)
      else (s.getList L).TaskRriorityBitMap := by
  unfold removeState
  by_cases ha : a = 0 <;> by_cases hb : b = 0 <;>
    simp [Kernel.setBitMap, Kernel.setHead, ha, hb]

theorem remove_WF (s : Kernel) (sh : Shape) (L : ListId) (p n : Nat) (l1 l2 : List Nat)
    (hwf : WF s sh) (hp0 : 0 < p) (hp8 : p ≤ MAX_TASK_PRIORITY) (hsh : sh L p = l1 ++ n :: l2) :
    WF (removeState s L p (lastOr 0 l1) n (l2.headD 0)) (sh.set L p (l1 ++ l2)) ∧
      n ∉ allNodes (sh.set L p (l1 ++ l2)) := by
  have hp9 : p < MAX_TASKS_IN_LIST := by unfold MAX_TASKS_IN_LIST; omega
  have hnd := hwf.2
  have hperm := allNodes_set_remove sh L p n l1 l2 hp9 hsh
  have hnd' := (List.Perm.nodup_iff hperm).mp hnd
  rw [List.nodup_cons] at hnd'
  refine ⟨⟨lists_of_forall fun L' => ⟨?_, ?_⟩, hnd'.2⟩, hnd'.1⟩
  all_goals
    have hsegp := hwf.seg L hp9
    rw [hsh] at hsegp
    have hnz := Seg_ne_zero hsegp
    have hndp : (l1 ++ n :: l2).Nodup := hsh ▸ slot_nodup hnd L hp9
    have hl1z : ∀ k ∈ l1, k ≠ 0 := fun k hk => hnz k (by simp [hk])
    have hn0 : n ≠ 0 := hnz n (by simp)
  · intro q hq
    have hsegq := hwf.seg L' hq
    by_cases e : L' = L ∧ q = p
    · obtain ⟨rfl, rfl⟩ := e
      simp only [Shape.set, and_self, ↓reduceIte, removeState_node, removeState_tcb]
      constructor
      · rw [removeState_head]
        have h0 : (0 : Nat) ∉ l1 ++ n :: l2 := fun h => hnz 0 h rfl
        have := Seg_unlink hsegp hndp h0
        have hiff := lastOr_eq_zero hl1z
        by_cases hl1 : l1 = []
        · simp only [hl1, ↓reduceIte] at this
          simp only [hiff.mpr hl1, and_self, ↓reduceIte, hl1]
          simpa [lastOr] using this
        · have ha : lastOr 0 l1 ≠ 0 := fun h => hl1 (hiff.mp h)
          simp only [hl1, ↓reduceIte] at this
          simpa [ha] using this
      · intro k hk
        rw [unlinkNd_pTcb]
        refine ((hwf.list L').1 q hq).2 k ?_
        rw [hsh]
        rcases List.mem_append.mp hk with h | h
        · simp [h]
        · simp [h]
    · have e' : ¬ (L' = L ∧ q = p) := e
      simp only [Shape.set, e', ↓reduceIte, removeState_node, removeState_tcb]
      have hhead : ((removeState s L p (lastOr 0 l1) n (l2.headD 0)).getList L').TaskList q
          = (s.getList L').TaskList q := by
        by_cases hL : L' = L
        · subst hL
          have : q ≠ p := fun h => e ⟨rfl, h⟩
          rw [removeState_head]; simp [this]
        · rw [removeState_getList_ne _ _ _ _ _ hL]
      have hkz := Seg_ne_zero hsegq
      have hnotin : ∀ k ∈ sh L' q, k ∉ l1 ++ n :: l2 := by
        intro k hk hk2
        exact e (slot_disjoint hnd hq hp9 hk (hsh ▸ hk2))
      have hframe : ∀ k ∈ sh L' q, unlinkNd s.node (lastOr 0 l1) n (l2.headD 0) k = s.node k := by
        intro k hk
        have hki := hnotin k hk
        refine unlinkNd_of_ne _ (fun h => hki (by simp [h])) ?_ ?_
        · rcases lastOr_zero_or_mem l1 with h0 | hm
          · rw [h0]; exact hkz k hk
          · intro h; exact hki (h ▸ List.mem_append_left _ hm)
        · rcases headD_zero_or_mem l2 with h0 | hm
          · rw [h0]; exact hkz k hk
          · intro h; exact hki (h ▸ List.mem_append_right _ (List.mem_cons_of_mem _ hm))
      constructor
      · rw [hhead]; exact (Seg_congr hframe _ _ _).mpr hsegq
      · intro k hk
        rw [unlinkNd_pTcb]
        exact ((hwf.list L').1 q hq).2 k hk
  · by_cases hL : L' = L
    · subst hL
      have hb := (hwf.list L').2
      have hb32 : (s.getList L').TaskRriorityBitMap < 2 ^ 32 :=
        lt_of_lt_of_le hb.1 (Nat.pow_le_pow_right (by norm_num) (by unfold MAX_TASK_PRIORITY; omega))
      have hhead : (s.getList L').TaskList p ≠ 0 := by
        intro e
        have := (Seg_head_eq_zero hsegp).mp e
        simp at this
      rw [removeState_bitmap, PRIORITY_TO_BIT_pow hp0 hp8]
      by_cases hab : lastOr 0 l1 = 0 ∧ l2.headD 0 = 0
      · simp only [hab, and_self, ↓reduceIte]
        refine ⟨lt_of_le_of_lt Nat.and_le_left hb.1, ?_⟩
        intro q hq
        rw [testBit_clear _ _ _ hb32 (by unfold MAX_TASK_PRIORITY at hp8; omega), removeState_head]
        by_cases hqp : q + 1 = p
        · have hq' : q = p - 1 := by omega
          have hpp : p - 1 + 1 = p := by omega
          simp [hq', hpp, hab]
        · have hq' : q ≠ p - 1 := by omega
          simp only [hq', ne_eq, not_false_eq_true, decide_True, Bool.and_true, hqp, and_false,
            ↓reduceIte]
          exact hb.2 q hq
      · simp only [hab, ↓reduceIte]
        refine ⟨hb.1, ?_⟩
        intro q hq
        rw [removeState_head]
        by_cases hc : lastOr 0 l1 = 0 ∧ q + 1 = p
        · have hb0 : l2.headD 0 ≠ 0 := fun h => hab ⟨hc.1, h⟩
          simp only [hc, and_self, ↓reduceIte, ne_eq, hb0, not_false_eq_true, iff_true]
          have := (hb.2 q hq).mpr (by rw [hc.2]; exact hhead)
          exact this
        · simp only [hc, ↓reduceIte]
          exact hb.2 q hq
    · rw [removeState_getList_ne _ _ _ _ _ hL]
      exact (hwf.list L').2

/-! ## The scan for the highest-priority waiter -/

theorem hptUnlink_eq (s : Kernel) (p pTcb a n b : Nat)
    (hn0 : n ≠ 0) (ha : (s.node n).prev = a) (hb : (s.node n).next = b)
    (han : a ≠ n) (hbn : b ≠ n)
    (ht : pTcb ≠ 0) (hprio : (s.tcb pTcb).OS_TcbPrio = p) :
    hptUnlink s p pTcb n = .ok (removeState s .waiting p a n b) := by
  unfold hptUnlink removeState
  have hna : n ≠ a := fun e => han e.symm
  have hnb : n ≠ b := fun e => hbn e.symm
  simp only [rdNode_ok s hn0, ok_bind, ha, hb]
  by_cases ha0 : a = 0 <;> by_cases hb0 : b = 0
  · subst ha0; subst hb0
    simp [Kernel.setHead, Kernel.setList, Kernel.setBitMap, Kernel.getList, rdTcb, ht, hprio,
      setPrev, setNext, wrNode, hn0, unlinkNd, PRIORITY_TO_BIT]
  · subst ha0
    simp [hb0, Kernel.setHead, Kernel.setList, Kernel.getList, setPrev, setNext, wrNode, hn0,
      unlinkNd, Function.update_apply, hnb]
  · subst hb0
    simp [ha0, setPrev, setNext, wrNode, hn0, unlinkNd, Function.update_apply, hna]
  · simp [ha0, hb0, setPrev, setNext, wrNode, hn0, unlinkNd, Function.update_apply, hna, hnb]

theorem hptInner_none (s : Kernel) (e index pTcb : Nat) {l : List Nat} {pv hd : Nat}
    (hseg : Seg s.node pv hd l 0)
    (hl : ∀ k ∈ l, (s.node k).pTcb ≠ 0 ∧ ¬ waitsOn s e k)
    (fuel : Nat) (hf : l.length < fuel) :
    hptInner s e index pTcb fuel hd = .ok none := by
  induction l generalizing pv hd fuel with
  | nil =>
    cases fuel with
    | zero => simp at hf
    | succ fuel =>
      have : hd = 0 := hseg
      simp [hptInner, this]
  | cons y l ih =>
    obtain ⟨h1, h2, h3, h4⟩ := hseg
    subst h1
    cases fuel with
    | zero => simp at hf
    | succ fuel =>
      have hy := hl hd (List.mem_cons_self _ _)
      have hw : ¬ (s.tcb (s.node hd).pTcb).OS_TcbEcbPtr = e := hy.2
      simp only [hptInner, h2, ↓reduceIte, rdTcb_ok s hy.1, ok_bind, hw]
      exact ih h4 (fun k hk => hl k (List.mem_cons_of_mem _ hk)) fuel (by simp at hf; omega)

theorem hptInner_found (s : Kernel) (e index pTcb : Nat) {l1 l2 : List Nat} {pv hd n : Nat}
    (hseg : Seg s.node pv hd (l1 ++ n :: l2) 0)
    (hl : ∀ k ∈ l1, (s.node k).pTcb ≠ 0 ∧ ¬ waitsOn s e k)
    (hn : (s.node n).pTcb ≠ 0) (hw : waitsOn s e n)
    (fuel : Nat) (hf : l1.length < fuel) :
    hptInner s e index pTcb fuel hd =
      (hptUnlink s index pTcb n >>= fun s1 => pure (some (n, s1))) := by
  induction l1 generalizing pv hd fuel with
  | nil =>
    obtain ⟨h1, h2, h3, h4⟩ := hseg
    subst h1
    cases fuel with
    | zero => simp at hf
    | succ fuel =>
      have hw' : (s.tcb (s.node hd).pTcb).OS_TcbEcbPtr = e := hw
      simp only [hptInner, h2, ↓reduceIte, rdTcb_ok s hn, ok_bind, hw']
  | cons y l ih =>
    obtain ⟨h1, h2, h3, h4⟩ := hseg
    subst h1
    cases fuel with
    | zero => simp at hf
    | succ fuel =>
      have hy := hl hd (List.mem_cons_self _ _)
      have hw' : ¬ (s.tcb (s.node hd).pTcb).OS_TcbEcbPtr = e := hy.2
      simp only [hptInner, h2, ↓reduceIte, rdTcb_ok s hy.1, ok_bind, hw']
      exact ih h4 (fun k hk => hl k (List.mem_cons_of_mem _ hk)) fuel (by simp at hf; omega)


/-- Facts about one pass of the outer scan: the slot selected by `LOG2`. -/
theorem hpt_slot (s : Kernel) (sh : Shape) (hwf : WF s sh) (ws : Nat) (h0 : ws ≠ 0)
    (hsub : ∀ i, ws.testBit i = true → s.WaitingTaskList.TaskRriorityBitMap.testBit i = true) :
    1 ≤ LOG2 ws ∧ LOG2 ws ≤ MAX_TASK_PRIORITY ∧ ws.testBit (LOG2 ws - 1) = true ∧
      (∀ i, LOG2 ws ≤ i → ws.testBit i = false) ∧
      ∃ y l, sh .waiting (LOG2 ws) = y :: l ∧ s.WaitingTaskList.TaskList (LOG2 ws) = y ∧ y ≠ 0 ∧
        (s.node y).pTcb ≠ 0 ∧ (s.tcb (s.node y).pTcb).OS_TcbPrio = LOG2 ws := by
  have hW := hwf.list .waiting
  have hbm : s.WaitingTaskList.TaskRriorityBitMap < 2 ^ MAX_TASK_PRIORITY := hW.2.1
  have hws8 : ws < 2 ^ MAX_TASK_PRIORITY := by
    apply lt_two_pow_of_bits
    intro i hi
    by_contra hc
    have hc' : ws.testBit i = true := by simpa using hc
    have := hsub i hc'
    rw [Nat.testBit_lt_two_pow (lt_of_lt_of_le hbm (Nat.pow_le_pow_right (by norm_num) hi))] at this
    exact Bool.false_ne_true this
  have hws32 : ws < 2 ^ 32 :=
    lt_of_lt_of_le hws8 (Nat.pow_le_pow_right (by norm_num) (by unfold MAX_TASK_PRIORITY; omega))
  obtain ⟨g1, g2, g3, g4⟩ := LOG2_spec ws h0 hws32
  have g8 : LOG2 ws ≤ MAX_TASK_PRIORITY := by
    by_contra hc
    have hlt : MAX_TASK_PRIORITY ≤ LOG2 ws - 1 := by omega
    rw [Nat.testBit_lt_two_pow (lt_of_lt_of_le hws8 (Nat.pow_le_pow_right (by norm_num) hlt))] at g3
    exact Bool.false_ne_true g3
  refine ⟨g1, g8, g3, g4, ?_⟩
  have hbit := hsub _ g3
  have hhead := (hW.2.2 (LOG2 ws - 1) (by omega)).mp hbit
  have e1 : LOG2 ws - 1 + 1 = LOG2 ws := by omega
  rw [e1] at hhead
  have hp9 : LOG2 ws < MAX_TASKS_IN_LIST := by unfold MAX_TASKS_IN_LIST; omega
  have hseg := hwf.seg .waiting hp9
  have hprio := (hW.1 _ hp9).2
  cases hsh : sh .waiting (LOG2 ws) with
  | nil =>
    rw [hsh] at hseg
    exact absurd hseg hhead
  | cons y l =>
    rw [hsh] at hseg hprio
    obtain ⟨h1, h2, -, -⟩ := hseg
    have := hprio y (List.mem_cons_self _ _)
    exact ⟨y, l, rfl, h1, h2, this.1, this.2⟩

theorem hptOuter_none (s : Kernel) (sh : Shape) (e inner : Nat) (hwf : WF s sh)
    (hno : ∀ q, q < MAX_TASKS_IN_LIST → ∀ k ∈ sh .waiting q, ¬ waitsOn s e k)
    (hinner : (allNodes sh).length < inner) :
    ∀ (k ws fuel : Nat), ws < 2 ^ k → k < fuel →
      (∀ i, ws.testBit i = true → s.WaitingTaskList.TaskRriorityBitMap.testBit i = true) →
      hptOuter inner e s fuel ws = .ok (0, s) := by
  intro k
  induction k with
  | zero =>
    intro ws fuel hws hf _
    have : ws = 0 := by simpa using hws
    subst this
    cases fuel with
    | zero => simp at hf
    | succ fuel => simp [hptOuter]
  | succ k ih =>
    intro ws fuel hws hf hsub
    cases fuel with
    | zero => simp at hf
    | succ fuel =>
      by_cases h0 : ws = 0
      · subst h0; simp [hptOuter]
      · obtain ⟨g1, g8, g3, g4, y, l, hsh, hhead, hy0, hyt, hyp⟩ := hpt_slot s sh hwf ws h0 hsub
        have hp9 : LOG2 ws < MAX_TASKS_IN_LIST := by unfold MAX_TASKS_IN_LIST; omega
        have hseg := hwf.seg .waiting hp9
        have hprio := ((hwf.list .waiting).1 _ hp9).2
        have hin := hptInner_none s e (LOG2 ws) (s.node y).pTcb hseg
          (fun k hk => ⟨(hprio k hk).1, hno _ hp9 k hk⟩) inner
          (lt_of_le_of_lt (slot_length_le sh .waiting hp9) hinner)
        have hhead' : (s.getList .waiting).TaskList (LOG2 ws) = y := hhead
        rw [hhead'] at hin
        have hbit : shl32 1 (dec32 (LOG2 ws)) = 2 ^ (LOG2 ws - 1) :=
          PRIORITY_TO_BIT_eq _ g1 (by unfold MAX_TASK_PRIORITY at g8; omega)
        have hws32 : ws < 2 ^ 32 := by
          apply lt_two_pow_of_bits
          intro i hi
          exact g4 i (by unfold MAX_TASK_PRIORITY at g8; omega)
        simp only [hptOuter, h0, ↓reduceIte, hhead, rdNode_ok s hy0, ok_bind, Q_ASSERT_true hyt,
          rdTcb_ok s hyt, hyp, hin, hbit]
        have hclr := fun i => testBit_clear ws (LOG2 ws - 1) i hws32
          (by unfold MAX_TASK_PRIORITY at g8; omega)
        apply ih
        · apply lt_two_pow_of_bits
          intro i hi
          rw [hclr]
          by_cases hik : i = LOG2 ws - 1
          · simp [hik]
          · have : LOG2 ws ≤ i := by
              by_contra hc
              have hlt : i < LOG2 ws - 1 := by omega
              have hk1 : LOG2 ws - 1 < k + 1 := by
                by_contra hc2
                have : ws.testBit (LOG2 ws - 1) = false :=
                  Nat.testBit_lt_two_pow
                    (lt_of_lt_of_le hws (Nat.pow_le_pow_right (by norm_num) (by omega)))
                rw [this] at g3
                exact Bool.false_ne_true g3
              omega
            simp [g4 i this]
        · omega
        · intro i hi
          rw [hclr] at hi
          simp only [Bool.and_eq_true] at hi
          exact hsub i hi.1


theorem hptOuter_found (s : Kernel) (sh : Shape) (e inner p n : Nat) (l1 l2 : List Nat)
    (hwf : WF s sh) (hp0 : 0 < p) (hp8 : p ≤ MAX_TASK_PRIORITY)
    (hsh : sh .waiting p = l1 ++ n :: l2) (hw : waitsOn s e n)
    (hl1 : ∀ k ∈ l1, ¬ waitsOn s e k)
    (hno : ∀ q, p < q → q < MAX_TASKS_IN_LIST → ∀ k ∈ sh .waiting q, ¬ waitsOn s e k)
    (hinner : (allNodes sh).length < inner) :
    ∀ (k ws fuel : Nat), ws < 2 ^ k → k ≤ fuel →
      (∀ i, ws.testBit i = true → s.WaitingTaskList.TaskRriorityBitMap.testBit i = true) →
      ws.testBit (p - 1) = true →
      hptOuter inner e s fuel ws =
        .ok (n, removeState s .waiting p (lastOr 0 l1) n (l2.headD 0)) := by
  have hp9' : p < MAX_TASKS_IN_LIST := by unfold MAX_TASKS_IN_LIST; omega
  intro k
  induction k with
  | zero =>
    intro ws fuel hws _ _ hbit
    have : ws = 0 := by simpa using hws
    subst this
    simp at hbit
  | succ k ih =>
    intro ws fuel hws hf hsub hbitp
    have h0 : ws ≠ 0 := by
      intro e0; subst e0; simp at hbitp
    cases fuel with
    | zero => omega
    | succ fuel =>
      obtain ⟨g1, g8, g3, g4, y, l, hshy, hhead, hy0, hyt, hyp⟩ := hpt_slot s sh hwf ws h0 hsub
      have hp9 : LOG2 ws < MAX_TASKS_IN_LIST := by unfold MAX_TASKS_IN_LIST; omega
      have hseg := hwf.seg .waiting hp9
      have hprio := ((hwf.list .waiting).1 _ hp9).2
      have hhead' : (s.getList .waiting).TaskList (LOG2 ws) = y := hhead
      have hbit : shl32 1 (dec32 (LOG2 ws)) = 2 ^ (LOG2 ws - 1) :=
        PRIORITY_TO_BIT_eq _ g1 (by unfold MAX_TASK_PRIORITY at g8; omega)
      have hws32 : ws < 2 ^ 32 := by
        apply lt_two_pow_of_bits
        intro i hi
        exact g4 i (by unfold MAX_TASK_PRIORITY at g8; omega)
      have hple : p ≤ LOG2 ws := by
        by_contra hc
        have := g4 (p - 1) (by omega)
        rw [this] at hbitp
        exact Bool.false_ne_true hbitp
      simp only [hptOuter, h0, ↓reduceIte, hhead, rdNode_ok s hy0, ok_bind, Q_ASSERT_true hyt,
        rdTcb_ok s hyt, hyp, hbit]
      by_cases hip : LOG2 ws = p
      · rw [hip] at hseg hprio hhead' hyp ⊢
        rw [hsh] at hseg hprio
        have hnd : (l1 ++ n :: l2).Nodup := hsh ▸ slot_nodup hwf.2 .waiting hp9'
        have hnz := Seg_ne_zero hseg
        have hn0 : n ≠ 0 := hnz n (by simp)
        have hlinks := Seg_links hseg
        have han : lastOr 0 l1 ≠ n := by
          rcases lastOr_zero_or_mem l1 with h | h
          · rw [h]; exact fun e => hn0 e.symm
          · intro e
            rw [e] at h
            have := List.nodup_append.mp hnd
            exact this.2.2 h (List.mem_cons_self _ _)
        have hbn : l2.headD 0 ≠ n := by
          rcases headD_zero_or_mem l2 with h | h
          · rw [h]; exact fun e => hn0 e.symm
          · intro e
            rw [e] at h
            have := (List.nodup_append.mp hnd).2.1
            exact (List.nodup_cons.mp this).1 h
        rw [hhead'] at hseg
        have hin := hptInner_found s e p (s.node y).pTcb hseg
          (fun k hk => ⟨(hprio k (by simp [hk])).1, hl1 k hk⟩) (hprio n (by simp)).1 hw inner
          (lt_of_le_of_lt (by
            have := slot_length_le sh .waiting hp9'
            rw [hsh] at this
            simp at this ⊢
            omega) hinner)
        rw [hin, hptUnlink_eq s p (s.node y).pTcb _ n _ hn0 hlinks.1 hlinks.2 han hbn hyt hyp]
        rfl
      · have hin := hptInner_none s e (LOG2 ws) (s.node y).pTcb hseg
          (fun k hk => ⟨(hprio k hk).1, hno _ (by omega) hp9 k hk⟩) inner
          (lt_of_le_of_lt (slot_length_le sh .waiting hp9) hinner)
        rw [hhead'] at hin
        simp only [hin]
        have hclr := fun i => testBit_clear ws (LOG2 ws - 1) i hws32
          (by unfold MAX_TASK_PRIORITY at g8; omega)
        apply ih
        · apply lt_two_pow_of_bits
          intro i hi
          rw [hclr]
          by_cases hik : i = LOG2 ws - 1
          · simp [hik]
          · have : LOG2 ws ≤ i := by
              by_contra hc
              have hk1 : LOG2 ws - 1 < k + 1 := by
                by_contra hc2
                have : ws.testBit (LOG2 ws - 1) = false :=
                  Nat.testBit_lt_two_pow
                    (lt_of_lt_of_le hws (Nat.pow_le_pow_right (by norm_num) (by omega)))
                rw [this] at g3
                exact Bool.false_ne_true g3
              omega
            simp [g4 i this]
        · omega
        · intro i hi
          rw [hclr] at hi
          simp only [Bool.and_eq_true] at hi
          exact hsub i hi.1
        · rw [hclr]
          have : p - 1 ≠ LOG2 ws - 1 := by omega
          simp [hbitp, this]

/-- The scan `os_utilsRemoveFromWaitingListHPT` finds nothing and changes nothing
when no task on Waiting has its event back-pointer equal to the event. -/
theorem HPT_none (s : Kernel) (sh : Shape) (e fuel : Nat) (hwf : WF s sh)
    (hno : ∀ q, q < MAX_TASKS_IN_LIST → ∀ k ∈ sh .waiting q, ¬ waitsOn s e k)
    (hfuel : (allNodes sh).length + MAX_TASKS_IN_LIST ≤ fuel) :
    os_utilsRemoveFromWaitingListHPT fuel e s = .ok (0, s) := by
  unfold os_utilsRemoveFromWaitingListHPT
  unfold MAX_TASKS_IN_LIST at hfuel
  exact hptOuter_none s sh e fuel hwf hno (by omega) MAX_TASK_PRIORITY _ fuel
    (hwf.list .waiting).2.1 (by omega) (fun i hi => hi)

/-- The scan `os_utilsRemoveFromWaitingListHPT` unlinks the first matching node of
the highest-priority slot that holds a match. -/
theorem HPT_found (s : Kernel) (sh : Shape) (e fuel p n : Nat) (l1 l2 : List Nat)
    (hwf : WF s sh) (hp0 : 0 < p) (hp8 : p ≤ MAX_TASK_PRIORITY)
    (hsh : sh .waiting p = l1 ++ n :: l2) (hw : waitsOn s e n)
    (hl1 : ∀ k ∈ l1, ¬ waitsOn s e k)
    (hno : ∀ q, p < q → q < MAX_TASKS_IN_LIST → ∀ k ∈ sh .waiting q, ¬ waitsOn s e k)
    (hfuel : (allNodes sh).length + MAX_TASKS_IN_LIST ≤ fuel) :
    os_utilsRemoveFromWaitingListHPT fuel e s =
      .ok (n, removeState s .waiting p (lastOr 0 l1) n (l2.headD 0)) := by
  unfold os_utilsRemoveFromWaitingListHPT
  unfold MAX_TASKS_IN_LIST at hfuel
  have hp9 : p < MAX_TASKS_IN_LIST := by unfold MAX_TASKS_IN_LIST; omega
  refine hptOuter_found s sh e fuel p n l1 l2 hwf hp0 hp8 hsh hw hl1 hno (by omega)
    MAX_TASK_PRIORITY _ fuel (hwf.list .waiting).2.1 (by omega) (fun i hi => hi) ?_
  have hhead : s.WaitingTaskList.TaskList p ≠ 0 := by
    intro e0
    have hseg := hwf.seg .waiting hp9
    have := (Seg_head_eq_zero hseg).mp e0
    rw [hsh] at this
    simp at this
  have := ((hwf.list .waiting).2.2 (p - 1) (by omega)).mpr
  have e1 : p - 1 + 1 = p := by omega
  rw [e1] at this
  exact this hhead

/-! ## The scheduler -/

@[simp] theorem schedState_tcb (s : Kernel) (t : Nat) : (schedState s t).tcb = s.tcb := by
  unfold schedState TRIGER_PENDSV_INT; split_ifs <;> rfl
@[simp] theorem schedState_node (s : Kernel) (t : Nat) : (schedState s t).node = s.node := by
  unfold schedState TRIGER_PENDSV_INT; split_ifs <;> rfl
@[simp] theorem schedState_ecb (s : Kernel) (t : Nat) : (schedState s t).ecb = s.ecb := by
  unfold schedState TRIGER_PENDSV_INT; split_ifs <;> rfl
@[simp] theorem schedState_mqcb (s : Kernel) (t : Nat) : (schedState s t).mqcb = s.mqcb := by
  unfold schedState TRIGER_PENDSV_INT; split_ifs <;> rfl
@[simp] theorem schedState_mem (s : Kernel) (t : Nat) : (schedState s t).mem = s.mem := by
  unfold schedState TRIGER_PENDSV_INT; split_ifs <;> rfl
@[simp] theorem schedState_curr (s : Kernel) (t : Nat) :
    (schedState s t).OS_Tcb_Curr = s.OS_Tcb_Curr := by
  unfold schedState TRIGER_PENDSV_INT; split_ifs <;> rfl
@[simp] theorem schedState_efree (s : Kernel) (t : Nat) :
    (schedState s t).OSEventFreeList = s.OSEventFreeList := by
  unfold schedState TRIGER_PENDSV_INT; split_ifs <;> rfl
@[simp] theorem schedState_qfree (s : Kernel) (t : Nat) :
    (schedState s t).OS_MQcb_FreeList = s.OS_MQcb_FreeList := by
  unfold schedState TRIGER_PENDSV_INT; split_ifs <;> rfl
@[simp] theorem schedState_getList (s : Kernel) (t : Nat) (L : ListId) :
    (schedState s t).getList L = s.getList L := by
  unfold schedState TRIGER_PENDSV_INT; split_ifs <;> cases L <;> rfl

theorem schedState_WF {s : Kernel} {sh : Shape} (t : Nat) (h : WF s sh) :
    WF (schedState s t) sh := by
  refine ⟨lists_of_forall fun L => ?_, h.2⟩
  have := h.list L
  unfold ListWF at this ⊢
  simpa using this

theorem schedWalk_spec (s : Kernel) (index y : Nat) (full : List Nat)
    (hy : s.ReadyTaskList.TaskList index = y) (hy0 : y ≠ 0) (hyf : y ∈ full)
    {l : List Nat} {pv hd : Nat} (hseg : Seg s.node pv hd l 0) (hsub : ∀ k ∈ l, k ∈ full)
    (fuel : Nat) (hf : l.length < fuel) :
    ∃ m ∈ full, schedWalk s index fuel hd = .ok (s.node m).pTcb := by
  induction l generalizing pv hd fuel with
  | nil =>
    cases fuel with
    | zero => simp at hf
    | succ fuel =>
      have : hd = 0 := hseg
      exact ⟨y, hyf, by simp [schedWalk, this, hy, hy0]⟩
  | cons x l ih =>
    obtain ⟨h1, h2, h3, h4⟩ := hseg
    subst h1
    cases fuel with
    | zero => simp at hf
    | succ fuel =>
      by_cases hc : (s.node hd).pTcb = s.OS_Tcb_Curr
      · by_cases hn : (s.node hd).next = 0
        · exact ⟨y, hyf, by simp [schedWalk, h2, hc, hn, hy, hy0]⟩
        · have hmem : (s.node hd).next ∈ l := by
            have := Seg_head h4
            cases l with
            | nil => exact absurd this hn
            | cons z l => simp only [List.headD_cons] at this; rw [this]; exact List.mem_cons_self _ _
          exact ⟨(s.node hd).next, hsub _ (List.mem_cons_of_mem _ hmem),
            by simp [schedWalk, h2, hc, hn]⟩
      · obtain ⟨m, hm, hres⟩ := ih h4 (fun k hk => hsub k (List.mem_cons_of_mem _ hk)) fuel
          (by simp at hf; omega)
        exact ⟨m, hm, by simp [schedWalk, h2, hc, hres]⟩

/-- The scheduler returns on well-formed lists, provided the idle node is in
Ready slot 0 when the Ready bitmap is zero: it only selects a TCB, writes
`OS_Tcb_Next` and raises the PendSV request. -/
theorem OS_sched_ok (s : Kernel) (sh : Shape) (fuel : Nat) (hwf : WF s sh)
    (hidle : s.ReadyTaskList.TaskRriorityBitMap = 0 → sh .ready 0 ≠ [])
    (hfuel : (allNodes sh).length + MAX_TASKS_IN_LIST ≤ fuel) :
    ∃ t, OS_sched fuel s = .ok (schedState s t) := by
  have hR := hwf.list .ready
  unfold OS_sched
  by_cases hb : s.ReadyTaskList.TaskRriorityBitMap = 0
  · have h09 : 0 < MAX_TASKS_IN_LIST := by unfold MAX_TASKS_IN_LIST; omega
    have hseg := hwf.seg .ready h09
    have hh : s.ReadyTaskList.TaskList 0 ≠ 0 := fun e => hidle hb ((Seg_head_eq_zero hseg).mp e)
    refine ⟨(s.node (s.ReadyTaskList.TaskList 0)).pTcb, ?_⟩
    simp only [hb, ↓reduceIte, rdNode_ok s hh, ok_bind, pure_eq_ok]
    unfold schedState
    split_ifs <;> rfl
  · have hb32 : s.ReadyTaskList.TaskRriorityBitMap < 2 ^ 32 :=
      lt_of_lt_of_le hR.2.1 (Nat.pow_le_pow_right (by norm_num) (by unfold MAX_TASK_PRIORITY; omega))
    obtain ⟨g1, g2, g3, g4⟩ := LOG2_spec _ hb hb32
    have hbm : s.ReadyTaskList.TaskRriorityBitMap < 2 ^ MAX_TASK_PRIORITY := hR.2.1
    have g8 : LOG2 s.ReadyTaskList.TaskRriorityBitMap ≤ MAX_TASK_PRIORITY := by
      by_contra hc
      have hlt : MAX_TASK_PRIORITY ≤ LOG2 s.ReadyTaskList.TaskRriorityBitMap - 1 := by omega
      rw [Nat.testBit_lt_two_pow (lt_of_lt_of_le hbm (Nat.pow_le_pow_right (by norm_num) hlt))] at g3
      exact Bool.false_ne_true g3
    have hp9 : LOG2 s.ReadyTaskList.TaskRriorityBitMap < MAX_TASKS_IN_LIST := by
      unfold MAX_TASKS_IN_LIST; omega
    have hhead := (hR.2.2 (LOG2 s.ReadyTaskList.TaskRriorityBitMap - 1) (by omega)).mp g3
    have e1 : LOG2 s.ReadyTaskList.TaskRriorityBitMap - 1 + 1
        = LOG2 s.ReadyTaskList.TaskRriorityBitMap := by omega
    rw [e1] at hhead
    have hseg := hwf.seg .ready hp9
    have hprio := (hR.1 _ hp9).2
    have hmem : s.ReadyTaskList.TaskList (LOG2 s.ReadyTaskList.TaskRriorityBitMap)
        ∈ sh .ready (LOG2 s.ReadyTaskList.TaskRriorityBitMap) := by
      have := Seg_head hseg
      cases hsh : sh .ready (LOG2 s.ReadyTaskList.TaskRriorityBitMap) with
      | nil => rw [hsh] at this; exact absurd this hhead
      | cons z l =>
        rw [hsh] at this
        simp only [List.headD_cons] at this
        have e2 : s.ReadyTaskList.TaskList (LOG2 s.ReadyTaskList.TaskRriorityBitMap) = z := this
        rw [e2]; exact List.mem_cons_self _ _
    obtain ⟨m, hm, hres⟩ := schedWalk_spec s _ _ _ rfl hhead hmem hseg (fun k hk => hk) fuel
      (by
        have := slot_length_le sh .ready hp9
        unfold MAX_TASKS_IN_LIST at hfuel
        omega)
    refine ⟨(s.node m).pTcb, ?_⟩
    have hm0 := (hprio m hm).1
    have hhead' : (s.getList .ready).TaskList (LOG2 s.ReadyTaskList.TaskRriorityBitMap) ≠ 0 := hhead
    have hres' : schedWalk s (LOG2 s.ReadyTaskList.TaskRriorityBitMap) fuel
        (s.ReadyTaskList.TaskList (LOG2 s.ReadyTaskList.TaskRriorityBitMap))
          = .ok (s.node m).pTcb := hres
    have hhead2 : s.ReadyTaskList.TaskList (LOG2 s.ReadyTaskList.TaskRriorityBitMap) ≠ 0 := hhead
    simp only [hb, ↓reduceIte, os_schedGetNextTaskToRun, Q_ASSERT_true hhead2, ok_bind, hres',
      Q_ASSERT_true hm0, pure_eq_ok]
    unfold schedState
    split_ifs <;> rfl

/-! ## Waking the highest-priority waiter -/

/-- Well-formedness only depends on the list nodes, the TCBs and the three lists. -/
theorem WF_congr {s s' : Kernel} {sh : Shape} (hn : s'.node = s.node) (ht : s'.tcb = s.tcb)
    (hl : ∀ L, s'.getList L = s.getList L) (h : WF s sh) : WF s' sh := by
  refine ⟨lists_of_forall fun L => ?_, h.2⟩
  have := h.list L
  unfold ListWF at this ⊢
  rw [hn, ht, hl L]
  exact this

theorem first_split {α : Type} (P : α → Prop) [DecidablePred P] (l : List α)
    (h : ∃ k ∈ l, P k) : ∃ l1 n l2, l = l1 ++ n :: l2 ∧ P n ∧ ∀ k ∈ l1, ¬ P k := by
  induction l with
  | nil => simp at h
  | cons x l ih =>
    by_cases hx : P x
    · exact ⟨[], x, l, rfl, hx, by simp⟩
    · obtain ⟨k, hk, hpk⟩ := h
      have : ∃ k ∈ l, P k := by
        rcases List.mem_cons.mp hk with e | e
        · subst e; exact absurd hpk hx
        · exact ⟨k, e, hpk⟩
      obtain ⟨l1, n, l2, e, hn, hl1⟩ := ih this
      refine ⟨x :: l1, n, l2, by simp [e], hn, ?_⟩
      intro k hk
      rcases List.mem_cons.mp hk with e | e
      · subst e; exact hx
      · exact hl1 k e

/-- The waiter selected by the scan exists as soon as some task on Waiting has
its event back-pointer equal to the event. -/
theorem exists_hpt_choice (s : Kernel) (sh : Shape) (e : Nat)
    (h : ∃ q k, q < MAX_TASKS_IN_LIST ∧ k ∈ sh .waiting q ∧ waitsOn s e k) :
    ∃ p l1 n l2, p < MAX_TASKS_IN_LIST ∧ sh .waiting p = l1 ++ n :: l2 ∧ waitsOn s e n ∧
      (∀ k ∈ l1, ¬ waitsOn s e k) ∧
      (∀ q, p < q → q < MAX_TASKS_IN_LIST → ∀ k ∈ sh .waiting q, ¬ waitsOn s e k) := by
  obtain ⟨q, k, hq, hk, hw⟩ := h
  let P : Nat → Prop := fun q => ∃ k ∈ sh .waiting q, waitsOn s e k
  have hPq : P q := ⟨k, hk, hw⟩
  have hq8 : q ≤ MAX_TASK_PRIORITY := by unfold MAX_TASKS_IN_LIST at hq; omega
  have hspec : P (Nat.findGreatest P MAX_TASK_PRIORITY) := Nat.findGreatest_spec hq8 hPq
  have hle : Nat.findGreatest P MAX_TASK_PRIORITY ≤ MAX_TASK_PRIORITY := Nat.findGreatest_le _
  obtain ⟨l1, n, l2, e1, hn, hl1⟩ := first_split (fun k => waitsOn s e k) _ hspec
  refine ⟨Nat.findGreatest P MAX_TASK_PRIORITY, l1, n, l2, by unfold MAX_TASKS_IN_LIST; omega,
    e1, hn, hl1, ?_⟩
  intro q' hlt hq' k' hk' hw'
  exact Nat.findGreatest_is_greatest hlt (by unfold MAX_TASKS_IN_LIST at hq'; omega) ⟨k', hk', hw'⟩

/-- Moving a node from Waiting to Ready: the effect of `OS_EventTaskReady` when
the scan finds a waiter. -/
theorem OS_EventTaskReady_found (s : Kernel) (sh : Shape) (e msg msk pend fuel p n : Nat)
    (l1 l2 : List Nat) (hwf : WF s sh) (hp0 : 0 < p) (hp8 : p < MAX_TASK_PRIORITY)
    (hsh : sh .waiting p = l1 ++ n :: l2) (hw : waitsOn s e n)
    (hl1 : ∀ k ∈ l1, ¬ waitsOn s e k)
    (hno : ∀ q, p < q → q < MAX_TASKS_IN_LIST → ∀ k ∈ sh .waiting q, ¬ waitsOn s e k)
    (hfuel : (allNodes sh).length + MAX_TASKS_IN_LIST ≤ fuel) :
    ∃ s', OS_EventTaskReady fuel e msg msk pend s = .ok (OS_TASK_PENDING, s') ∧
      WF s' (sh.move .waiting .ready p l1 n l2) ∧
      s'.tcb = s.tcb ∧ s'.ecb = s.ecb ∧ s'.mqcb = s.mqcb ∧ s'.mem = s.mem ∧
      s'.OS_Tcb_Curr = s.OS_Tcb_Curr ∧ s'.OS_Tcb_Next = s.OS_Tcb_Next ∧ s'.pendSV = s.pendSV ∧
      s'.OSEventFreeList = s.OSEventFreeList ∧ s'.OS_MQcb_FreeList = s.OS_MQcb_FreeList ∧
      ∀ k, (s'.node k).pTcb = (s.node k).pTcb := by
  have hp8' : p ≤ MAX_TASK_PRIORITY := by omega
  have hp9 : p < MAX_TASKS_IN_LIST := by unfold MAX_TASKS_IN_LIST; omega
  have hfound := HPT_found s sh e fuel p n l1 l2 hwf hp0 hp8' hsh hw hl1 hno hfuel
  obtain ⟨hwf1, hnot1⟩ := remove_WF s sh .waiting p n l1 l2 hwf hp0 hp8' hsh
  have hn0 : n ≠ 0 := Seg_ne_zero (hwf.seg .waiting hp9) n (by rw [hsh]; simp)
  have hnprio := ((hwf.list .waiting).1 p hp9).2 n (by rw [hsh]; simp)
  set s1 := removeState s .waiting p (lastOr 0 l1) n (l2.headD 0) with hs1
  set sh1 := sh.set .waiting p (l1 ++ l2) with hsh1
  have hnode1 : s1.node n = { prev := 0, next := 0, pTcb := (s.node n).pTcb } := by
    rw [hs1, removeState_node, unlinkNd_self]
  have ht1 : (s1.node n).pTcb ≠ 0 := by rw [hnode1]; exact hnprio.1
  have hp1 : (s1.tcb (s1.node n).pTcb).OS_TcbPrio = p := by
    rw [hnode1, hs1, removeState_tcb]; exact hnprio.2
  have hlen : (sh1 .ready p).length ≤ fuel := by
    have h1 : (sh1 .ready p).length ≤ (allNodes sh1).length := slot_length_le sh1 .ready hp9
    have h2 : (allNodes sh).length = (allNodes sh1).length + 1 := by
      simpa using (allNodes_set_remove sh .waiting p n l1 l2 hp9 hsh).length_eq
    omega
  have hadd := add_eq s1 .ready fuel p n (sh1 .ready p) hn0 ht1 hp1 hp0 hp8
    (hwf1.seg .ready hp9) hlen
  have hwf2 := add_WF s1 sh1 .ready p n hwf1 hn0 hnot1 ht1 hp1 hp0 hp8'
    (by rw [hnode1]) (by rw [hnode1])
  refine ⟨addState s1 .ready p n (lastOr 0 (sh1 .ready p)), ?_, hwf2, ?_⟩
  · unfold OS_EventTaskReady
    simp only [hfound, ok_bind, ne_eq, hn0, not_false_eq_true, ↓reduceIte]
    have hcode : ListId.ready.code = READY_TASK_LIST := rfl
    rw [← hcode, hadd]
    rfl
  · simp [hs1, addState_node_pTcb, unlinkNd_pTcb]

/-- The call `OS_EventTaskReady` finds nothing and changes nothing when no task
on Waiting has its event back-pointer equal to the event. -/
theorem OS_EventTaskReady_none (s : Kernel) (sh : Shape) (e msg msk pend fuel : Nat)
    (hwf : WF s sh)
    (hno : ∀ q, q < MAX_TASKS_IN_LIST → ∀ k ∈ sh .waiting q, ¬ waitsOn s e k)
    (hfuel : (allNodes sh).length + MAX_TASKS_IN_LIST ≤ fuel) :
    OS_EventTaskReady fuel e msg msk pend s = .ok (OS_NO_TASK_PENDING, s) := by
  unfold OS_EventTaskReady
  simp [HPT_none s sh e fuel hwf hno hfuel]

theorem move_length (sh : Shape) (L L' : ListId) (p n : Nat) (l1 l2 : List Nat)
    (hp : p < MAX_TASKS_IN_LIST) (hsh : sh L p = l1 ++ n :: l2) :
    (allNodes (sh.move L L' p l1 n l2)).length = (allNodes sh).length := by
  have h1 : (allNodes sh).length = (allNodes (sh.set L p (l1 ++ l2))).length + 1 := by
    simpa using (allNodes_set_remove sh L p n l1 l2 hp hsh).length_eq
  have h2 : (allNodes (sh.move L L' p l1 n l2)).length
      = (allNodes (sh.set L p (l1 ++ l2))).length + 1 := by
    simpa [Shape.move] using (allNodes_set_add (sh.set L p (l1 ++ l2)) L' p n hp).length_eq
  omega

/-! ## Semaphore: the paths that do not touch the task lists -/

/-- C4: for a semaphore ECB with counter `c > 0`, `OS_Sem_Wait` stores
`OS_ERR_NONE` in `*pErr`, leaves the counter at `c - 1`, and changes neither the
three task lists with their bitmaps, nor the list nodes, nor any TCB. -/
theorem OS_Sem_Wait_available (fuel e timeout : Nat) (s : Kernel) (he : e ≠ 0)
    (htype : (s.ecb e).OS_EventType = OS_EVENT_TYPE_SEM)
    (hpos : 0 < (s.ecb e).OS_EventCnt) (hu16 : (s.ecb e).OS_EventCnt < 2 ^ 16) :
    ∃ s', OS_Sem_Wait fuel e timeout s = .ok (OS_ERR_NONE, s') ∧
      (s'.ecb e).OS_EventCnt = (s.ecb e).OS_EventCnt - 1 ∧
      s'.ReadyTaskList = s.ReadyTaskList ∧ s'.DelayedTaskList = s.DelayedTaskList ∧
      s'.WaitingTaskList = s.WaitingTaskList ∧ s'.node = s.node ∧ s'.tcb = s.tcb ∧
      s'.OS_Tcb_Curr = s.OS_Tcb_Curr := by
  have h : ((s.ecb e).OS_EventCnt + 65535) % 65536 = (s.ecb e).OS_EventCnt - 1 := by
    norm_num at hu16; omega
  simp [OS_Sem_Wait, he, htype, hpos, wrEcb, h]

/-! ## Semaphore post -/

theorem bitmap_ne_zero (s : Kernel) (sh : Shape) (hwf : WF s sh) (L : ListId) (p k : Nat)
    (hp0 : 0 < p) (hp8 : p ≤ MAX_TASK_PRIORITY) (hk : k ∈ sh L p) :
    (s.getList L).TaskRriorityBitMap ≠ 0 := by
  have hp9 : p < MAX_TASKS_IN_LIST := by unfold MAX_TASKS_IN_LIST; omega
  have hseg := hwf.seg L hp9
  have hhead : (s.getList L).TaskList p ≠ 0 := by
    intro e0
    have := (Seg_head_eq_zero hseg).mp e0
    rw [this] at hk
    simp at hk
  have := ((hwf.list L).2.2 (p - 1) (by omega)).mpr
  have e1 : p - 1 + 1 = p := by omega
  rw [e1] at this
  have hbit := this hhead
  intro e
  rw [e] at hbit
  simp at hbit

/-- C2: on well-formed lists, when some task on Waiting has its event
back-pointer equal to the semaphore ECB, `OS_Sem_Post` returns `OS_ERR_NONE`,
leaves the counter unchanged and moves exactly one node from Waiting to the tail
of its Ready slot: the first-queued waiter for the ECB in the highest-priority
Waiting slot that holds one; every other slot keeps its content. -/
theorem OS_Sem_Post_wakes_waiter (s : Kernel) (sh : Shape) (e fuel : Nat)
    (hwf : WF s sh) (hslots : WaitingSlots sh)
    (he : e ≠ 0) (htype : (s.ecb e).OS_EventType = OS_EVENT_TYPE_SEM)
    (hfuel : (allNodes sh).length + MAX_TASKS_IN_LIST ≤ fuel)
    (hwait : ∃ q k, q < MAX_TASKS_IN_LIST ∧ k ∈ sh .waiting q ∧ waitsOn s e k) :
    ∃ p l1 n l2 s',
      sh .waiting p = l1 ++ n :: l2 ∧ waitsOn s e n ∧ (∀ k ∈ l1, ¬ waitsOn s e k) ∧
      (∀ q, p < q → q < MAX_TASKS_IN_LIST → ∀ k ∈ sh .waiting q, ¬ waitsOn s e k) ∧
      OS_Sem_Post fuel e s = .ok (OS_ERR_NONE, s') ∧
      (s'.ecb e).OS_EventCnt = (s.ecb e).OS_EventCnt ∧
      WF s' (sh.move .waiting .ready p l1 n l2) ∧
      (∀ k, (s'.node k).pTcb = (s.node k).pTcb) ∧ s'.tcb = s.tcb ∧ s'.ecb = s.ecb := by
  obtain ⟨p, l1, n, l2, hp9, hsh, hw, hl1, hno⟩ := exists_hpt_choice s sh e hwait
  have hp0 : 0 < p := by
    rcases Nat.eq_zero_or_pos p with h | h
    · subst h; rw [hslots.1] at hsh; simp at hsh
    · exact h
  have hp8 : p < MAX_TASK_PRIORITY := by
    have : p ≠ MAX_TASK_PRIORITY := by
      intro h; subst h; rw [hslots.2] at hsh; simp at hsh
    unfold MAX_TASKS_IN_LIST at hp9; omega
  obtain ⟨s1, hready, hwf1, ht, hecb, -, -, -, -, -, -, -, hpt⟩ :=
    OS_EventTaskReady_found s sh e 0 OS_STATE_SEM OS_STAT_PEND_OK fuel p n l1 l2 hwf hp0 hp8
      hsh hw hl1 hno hfuel
  have hrb : s1.ReadyTaskList.TaskRriorityBitMap ≠ 0 :=
    bitmap_ne_zero s1 _ hwf1 .ready p n hp0 (le_of_lt hp8) (by simp [Shape.move, Shape.set])
  obtain ⟨t, hsched⟩ := OS_sched_ok s1 _ fuel hwf1 (fun h => absurd h hrb)
    (by rw [move_length sh _ _ p n l1 l2 hp9 hsh]; exact hfuel)
  have hbm : s.WaitingTaskList.TaskRriorityBitMap ≠ 0 :=
    bitmap_ne_zero s sh hwf .waiting p n hp0 (le_of_lt hp8) (by rw [hsh]; simp)
  refine ⟨p, l1, n, l2, schedState s1 t, hsh, hw, hl1, hno, ?_, ?_, schedState_WF t hwf1, ?_,
    ?_, ?_⟩
  · unfold OS_Sem_Post
    simp [he, htype, hbm, hready, hsched]
  · simp [hecb]
  · simpa using hpt
  · simp [ht]
  · simp [hecb]

/-- The lost post: on well-formed lists, when Waiting is non-empty but holds no
task whose event back-pointer is the semaphore ECB, `OS_Sem_Post` returns
`OS_ERR_NONE` and leaves the counter, like every ECB, unchanged. -/
theorem OS_Sem_Post_other_waiters (s : Kernel) (sh : Shape) (e fuel : Nat)
    (hwf : WF s sh) (hidle : s.ReadyTaskList.TaskRriorityBitMap = 0 → sh .ready 0 ≠ [])
    (he : e ≠ 0) (htype : (s.ecb e).OS_EventType = OS_EVENT_TYPE_SEM)
    (hfuel : (allNodes sh).length + MAX_TASKS_IN_LIST ≤ fuel)
    (hbm : s.WaitingTaskList.TaskRriorityBitMap ≠ 0)
    (hno : ∀ q, q < MAX_TASKS_IN_LIST → ∀ k ∈ sh .waiting q, ¬ waitsOn s e k) :
    ∃ s', OS_Sem_Post fuel e s = .ok (OS_ERR_NONE, s') ∧ s'.ecb = s.ecb := by
  obtain ⟨t, hsched⟩ := OS_sched_ok s sh fuel hwf hidle hfuel
  refine ⟨schedState s t, ?_, by simp⟩
  unfold OS_Sem_Post
  simp [he, htype, hbm, OS_EventTaskReady_none s sh e _ _ _ fuel hwf hno hfuel, hsched]

/-- The increment path of `OS_Sem_Post`: with a zero Waiting bitmap and a counter
below 65535 the counter is incremented. -/
theorem OS_Sem_Post_increments (s : Kernel) (e fuel : Nat)
    (he : e ≠ 0) (htype : (s.ecb e).OS_EventType = OS_EVENT_TYPE_SEM)
    (hbm : s.WaitingTaskList.TaskRriorityBitMap = 0) (hc : (s.ecb e).OS_EventCnt < 65535) :
    ∃ s', OS_Sem_Post fuel e s = .ok (OS_ERR_NONE, s') ∧
      (s'.ecb e).OS_EventCnt = (s.ecb e).OS_EventCnt + 1 := by
  have h : ((s.ecb e).OS_EventCnt + 1) % 65536 = (s.ecb e).OS_EventCnt + 1 := by omega
  simp [OS_Sem_Post, he, htype, hbm, hc, wrEcb, h]


/-! ## Message queue send -/

theorem putState_WF {s : Kernel} {sh : Shape} (pq m : Nat) (h : WF s sh) :
    WF (putState s pq m) sh :=
  WF_congr rfl rfl (fun L => by cases L <;> rfl) h

/-- What `OS_MsgQ_Send` does before it looks at the Waiting list: the type check,
the full test, and the insertion into the ring. -/
theorem OS_MsgQ_Send_put (s : Kernel) (e m fuel : Nat) (he : e ≠ 0)
    (htype : (s.ecb e).OS_EventType = OS_EVENT_TYPE_MQ) (hq : (s.ecb e).OS_EventPtr ≠ 0)
    (hfill : (s.mqcb (s.ecb e).OS_EventPtr).OS_MQEntries < (s.mqcb (s.ecb e).OS_EventPtr).OS_MQSize) :
    OS_MsgQ_Send fuel e m s =
      (if (putState s (s.ecb e).OS_EventPtr m).WaitingTaskList.TaskRriorityBitMap ≠ 0 then do
        let (status, s3) ← OS_EventTaskReady fuel e m OS_STAT_MQ OS_STAT_PEND_OK
          (putState s (s.ecb e).OS_EventPtr m)
        if status = OS_TASK_PENDING then do
          let s4 ← OS_sched fuel s3
          pure (OS_ERR_NONE, s4)
        else pure (OS_ERR_NONE, s3)
      else pure (OS_ERR_NONE, putState s (s.ecb e).OS_EventPtr m)) := by
  unfold OS_MsgQ_Send
  have hnf : ¬ (s.mqcb (s.ecb e).OS_EventPtr).OS_MQEntries ≥ (s.mqcb (s.ecb e).OS_EventPtr).OS_MQSize := by
    omega
  simp only [rdEcb_ok s he, ok_bind, htype, ne_eq, not_true_eq_false, ↓reduceIte, rdMq_ok s hq, hnf,
    wrMq, hq]
  rfl

/-- With no waiter for the event, `OS_MsgQ_Send` on a queue that is not full only
stores the message in the ring. -/
theorem OS_MsgQ_Send_no_waiter (s : Kernel) (sh : Shape) (e m fuel : Nat)
    (hwf : WF s sh) (he : e ≠ 0)
    (htype : (s.ecb e).OS_EventType = OS_EVENT_TYPE_MQ) (hq : (s.ecb e).OS_EventPtr ≠ 0)
    (hfill : (s.mqcb (s.ecb e).OS_EventPtr).OS_MQEntries < (s.mqcb (s.ecb e).OS_EventPtr).OS_MQSize)
    (hno : ∀ q, q < MAX_TASKS_IN_LIST → ∀ k ∈ sh .waiting q, ¬ waitsOn s e k)
    (hfuel : (allNodes sh).length + MAX_TASKS_IN_LIST ≤ fuel) :
    OS_MsgQ_Send fuel e m s = .ok (OS_ERR_NONE, putState s (s.ecb e).OS_EventPtr m) := by
  rw [OS_MsgQ_Send_put s e m fuel he htype hq hfill]
  have hnone := OS_EventTaskReady_none (putState s (s.ecb e).OS_EventPtr m) sh e m OS_STAT_MQ
    OS_STAT_PEND_OK fuel (putState_WF _ _ hwf) hno hfuel
  split_ifs with hb
  · simp [hnone, OS_NO_TASK_PENDING, OS_TASK_PENDING]
  · rfl

/-- C7: for a message-queue ECB with `fill < capacity` and no task waiting on it,
`OS_MsgQ_Send` returns `OS_ERR_NONE`, stores the message in the cell addressed by
the old `in`, advances `in` by one cell with wrap-around to the ring base at the
ring end, increments the fill count by one, and leaves `out`, the ring bounds,
the other cells, the three task lists, the list nodes and the TCBs unchanged. -/
theorem OS_MsgQ_Send_enqueues (s : Kernel) (sh : Shape) (e m fuel : Nat)
    (hwf : WF s sh) (he : e ≠ 0)
    (htype : (s.ecb e).OS_EventType = OS_EVENT_TYPE_MQ) (hq : (s.ecb e).OS_EventPtr ≠ 0)
    (hfill : (s.mqcb (s.ecb e).OS_EventPtr).OS_MQEntries < (s.mqcb (s.ecb e).OS_EventPtr).OS_MQSize)
    (hu16 : (s.mqcb (s.ecb e).OS_EventPtr).OS_MQSize < 2 ^ 16)
    (hno : ∀ q, q < MAX_TASKS_IN_LIST → ∀ k ∈ sh .waiting q, ¬ waitsOn s e k)
    (hfuel : (allNodes sh).length + MAX_TASKS_IN_LIST ≤ fuel) :
    ∃ s', OS_MsgQ_Send fuel e m s = .ok (OS_ERR_NONE, s') ∧
      s'.mem (s.mqcb (s.ecb e).OS_EventPtr).OS_MQIn = m ∧
      (∀ a, a ≠ (s.mqcb (s.ecb e).OS_EventPtr).OS_MQIn → s'.mem a = s.mem a) ∧
      (s'.mqcb (s.ecb e).OS_EventPtr).OS_MQIn =
        (if (s.mqcb (s.ecb e).OS_EventPtr).OS_MQIn + 1 = (s.mqcb (s.ecb e).OS_EventPtr).OS_MQEnd
          then (s.mqcb (s.ecb e).OS_EventPtr).OS_MQStart
          else (s.mqcb (s.ecb e).OS_EventPtr).OS_MQIn + 1) ∧
      (s'.mqcb (s.ecb e).OS_EventPtr).OS_MQEntries =
        (s.mqcb (s.ecb e).OS_EventPtr).OS_MQEntries + 1 ∧
      (s'.mqcb (s.ecb e).OS_EventPtr).OS_MQOut = (s.mqcb (s.ecb e).OS_EventPtr).OS_MQOut ∧
      (s'.mqcb (s.ecb e).OS_EventPtr).OS_MQStart = (s.mqcb (s.ecb e).OS_EventPtr).OS_MQStart ∧
      (s'.mqcb (s.ecb e).OS_EventPtr).OS_MQEnd = (s.mqcb (s.ecb e).OS_EventPtr).OS_MQEnd ∧
      (s'.mqcb (s.ecb e).OS_EventPtr).OS_MQSize = (s.mqcb (s.ecb e).OS_EventPtr).OS_MQSize ∧
      s'.ReadyTaskList = s.ReadyTaskList ∧ s'.DelayedTaskList = s.DelayedTaskList ∧
      s'.WaitingTaskList = s.WaitingTaskList ∧ s'.node = s.node ∧ s'.tcb = s.tcb := by
  refine ⟨_, OS_MsgQ_Send_no_waiter s sh e m fuel hwf he htype hq hfill hno hfuel, ?_⟩
  have hmod : ((s.mqcb (s.ecb e).OS_EventPtr).OS_MQEntries + 1) % 2 ^ 16
      = (s.mqcb (s.ecb e).OS_EventPtr).OS_MQEntries + 1 := Nat.mod_eq_of_lt (by omega)
  refine ⟨by simp [putState], ?_, ?_, ?_, ?_, ?_, ?_, ?_, rfl, rfl, rfl, rfl, rfl⟩
  · intro a ha; simp [putState, Function.update_apply, ha]
  all_goals
    simp only [putState, mqPut, Function.update_same]
    split_ifs <;> simp_all

/-- C8: for a message-queue ECB whose fill count has reached the capacity (a
queue of capacity 0 included), `OS_MsgQ_Send` returns `OS_ERR_Q_FULL` and leaves
the whole kernel state (MQCB, ring cells, task lists) unchanged. -/
theorem OS_MsgQ_Send_full (s : Kernel) (e m fuel : Nat) (he : e ≠ 0)
    (htype : (s.ecb e).OS_EventType = OS_EVENT_TYPE_MQ) (hq : (s.ecb e).OS_EventPtr ≠ 0)
    (hfull : (s.mqcb (s.ecb e).OS_EventPtr).OS_MQEntries = (s.mqcb (s.ecb e).OS_EventPtr).OS_MQSize) :
    OS_MsgQ_Send fuel e m s = .ok (OS_ERR_Q_FULL, s) := by
  unfold OS_MsgQ_Send
  simp [he, htype, hq, hfull]


/-- With a message in the ring, `OS_MsgQ_Wait` returns the message at `out` and
`OS_ERR_NONE` in its first pass, without touching the task lists. -/
theorem OS_MsgQ_Wait_available (s : Kernel) (e timeout fuel : Nat) (he : e ≠ 0)
    (htype : (s.ecb e).OS_EventType = OS_EVENT_TYPE_MQ) (hq : (s.ecb e).OS_EventPtr ≠ 0)
    (hfill : 0 < (s.mqcb (s.ecb e).OS_EventPtr).OS_MQEntries) :
    OS_MsgQ_Wait fuel e timeout s =
      .ok (.returned (s.mem (s.mqcb (s.ecb e).OS_EventPtr).OS_MQOut) OS_ERR_NONE,
        getState s (s.ecb e).OS_EventPtr) := by
  unfold OS_MsgQ_Wait
  simp only [rdEcb_ok s he, ok_bind, htype, ne_eq, not_true_eq_false, ↓reduceIte, rdMq_ok s hq,
    gt_iff_lt, hfill, wrMq, hq]
  rfl

/-- C10: round trip.  On an empty queue (fill 0, `in = out`) of capacity at least
1 with no waiter, `OS_MsgQ_Send` of `m` followed by `OS_MsgQ_Wait` with
`NO_TIMEOUT` by the same task returns `m` with `*pErr = OS_ERR_NONE` in its first
pass (the caller is not parked: lists, nodes and TCBs are as before the send),
and leaves the fill count 0 and `in` equal to `out`. -/
theorem OS_MsgQ_round_trip (s : Kernel) (sh : Shape) (e m fuel : Nat)
    (hwf : WF s sh) (he : e ≠ 0)
    (htype : (s.ecb e).OS_EventType = OS_EVENT_TYPE_MQ) (hq : (s.ecb e).OS_EventPtr ≠ 0)
    (hempty : (s.mqcb (s.ecb e).OS_EventPtr).OS_MQEntries = 0)
    (hio : (s.mqcb (s.ecb e).OS_EventPtr).OS_MQIn = (s.mqcb (s.ecb e).OS_EventPtr).OS_MQOut)
    (hcap : 1 ≤ (s.mqcb (s.ecb e).OS_EventPtr).OS_MQSize)
    (hno : ∀ q, q < MAX_TASKS_IN_LIST → ∀ k ∈ sh .waiting q, ¬ waitsOn s e k)
    (hfuel : (allNodes sh).length + MAX_TASKS_IN_LIST ≤ fuel) :
    ∃ s1 s2, OS_MsgQ_Send fuel e m s = .ok (OS_ERR_NONE, s1) ∧
      s1.OS_Tcb_Curr = s.OS_Tcb_Curr ∧
      OS_MsgQ_Wait fuel e NO_TIMEOUT s1 = .ok (.returned m OS_ERR_NONE, s2) ∧
      (s2.mqcb (s.ecb e).OS_EventPtr).OS_MQEntries = 0 ∧
      (s2.mqcb (s.ecb e).OS_EventPtr).OS_MQIn = (s2.mqcb (s.ecb e).OS_EventPtr).OS_MQOut ∧
      s2.ReadyTaskList = s.ReadyTaskList ∧ s2.DelayedTaskList = s.DelayedTaskList ∧
      s2.WaitingTaskList = s.WaitingTaskList ∧ s2.node = s.node ∧ s2.tcb = s.tcb ∧
      s2.OS_Tcb_Curr = s.OS_Tcb_Curr := by
  have hsend := OS_MsgQ_Send_no_waiter s sh e m fuel hwf he htype hq (by omega) hno hfuel
  have h1 : (putState s (s.ecb e).OS_EventPtr m).ecb = s.ecb := rfl
  have h2 : ((putState s (s.ecb e).OS_EventPtr m).mqcb (s.ecb e).OS_EventPtr).OS_MQEntries = 1 := by
    simp only [putState, mqPut, Function.update_same, hempty]
    split_ifs <;> rfl
  have h3 : ((putState s (s.ecb e).OS_EventPtr m).mqcb (s.ecb e).OS_EventPtr).OS_MQOut
      = (s.mqcb (s.ecb e).OS_EventPtr).OS_MQIn := by
    simp only [putState, mqPut, Function.update_same]
    split_ifs <;> simp [hio]
  have h4 : (putState s (s.ecb e).OS_EventPtr m).mem (s.mqcb (s.ecb e).OS_EventPtr).OS_MQIn = m := by
    simp [putState]
  have hwait := OS_MsgQ_Wait_available (putState s (s.ecb e).OS_EventPtr m) e NO_TIMEOUT fuel he
    (by rw [h1]; exact htype) (by rw [h1]; exact hq) (by rw [h1, h2]; exact Nat.one_pos)
  rw [h1, h3, h4] at hwait
  refine ⟨_, _, hsend, rfl, hwait, ?_, ?_, rfl, rfl, rfl, rfl, rfl, rfl⟩
  · simp only [getState, mqGet, Function.update_same, h2]
    split_ifs <;> rfl
  · simp only [getState, mqGet, Function.update_same, h3]
    simp only [putState, mqPut, Function.update_same]
    split_ifs <;> simp_all


/-! ## Parking the current task on an event -/

theorem findByTcb_spec (s : Kernel) (t : Nat) {l1 l2 : List Nat} {pv hd n : Nat}
    (hseg : Seg s.node pv hd (l1 ++ n :: l2) 0)
    (hl1 : ∀ k ∈ l1, (s.node k).pTcb ≠ t) (hn : (s.node n).pTcb = t)
    (fuel : Nat) (hf : l1.length < fuel) :
    findByTcb s t fuel hd = .ok n := by
  induction l1 generalizing pv hd fuel with
  | nil =>
    obtain ⟨h1, h2, -, -⟩ := hseg
    subst h1
    cases fuel with
    | zero => simp at hf
    | succ fuel => simp [findByTcb, h2, hn]
  | cons y l ih =>
    obtain ⟨h1, h2, -, h4⟩ := hseg
    subst h1
    cases fuel with
    | zero => simp at hf
    | succ fuel =>
      have hy := hl1 hd (List.mem_cons_self _ _)
      simp only [findByTcb, rdNode_ok s h2, ok_bind, ne_eq, hy, not_false_eq_true, h2, and_self,
        ↓reduceIte]
      exact ih h4 (fun k hk => hl1 k (List.mem_cons_of_mem _ hk)) fuel (by simp at hf; omega)

theorem removeByTcb_eq (s : Kernel) (L : ListId) (fuel t p n : Nat) (l1 l2 : List Nat)
    (ht : t ≠ 0) (hprio : (s.tcb t).OS_TcbPrio = p) (hp0 : 0 < p) (hp8 : p ≤ MAX_TASK_PRIORITY)
    (hseg : Seg s.node 0 ((s.getList L).TaskList p) (l1 ++ n :: l2) 0)
    (hnd : (l1 ++ n :: l2).Nodup)
    (hl1 : ∀ k ∈ l1, (s.node k).pTcb ≠ t) (hn : (s.node n).pTcb = t)
    (hf : l1.length < fuel) :
    os_utilsRemoveFromListByTaskTcb fuel t L.code s =
      .ok (n, removeState s L p (lastOr 0 l1) n (l2.headD 0)) := by
  have hnz := Seg_ne_zero hseg
  have hn0 : n ≠ 0 := hnz n (by simp)
  have hlinks := Seg_links hseg
  have hhead : (s.getList L).TaskList p ≠ 0 := by
    intro e0
    have := (Seg_head_eq_zero hseg).mp e0
    simp at this
  have han : lastOr 0 l1 ≠ n := by
    rcases lastOr_zero_or_mem l1 with h | h
    · rw [h]; exact fun e => hn0 e.symm
    · intro e
      rw [e] at h
      exact (List.nodup_append.mp hnd).2.2 h (List.mem_cons_self _ _)
  have hbn : l2.headD 0 ≠ n := by
    rcases headD_zero_or_mem l2 with h | h
    · rw [h]; exact fun e => hn0 e.symm
    · intro e
      rw [e] at h
      exact (List.nodup_cons.mp (List.nodup_append.mp hnd).2.1).1 h
  have hna : n ≠ lastOr 0 l1 := fun e => han e.symm
  have hnb : n ≠ l2.headD 0 := fun e => hbn e.symm
  have hl1z : ∀ k ∈ l1, k ≠ 0 := fun k hk => hnz k (by simp [hk])
  have hl2z : ∀ k ∈ l2, k ≠ 0 := fun k hk => hnz k (by simp [hk])
  unfold os_utilsRemoveFromListByTaskTcb
  simp only [rdTcb_ok s ht, ok_bind, hprio, Q_ASSERT_true (And.intro hp0 hp8), getTaskList_code,
    rdNode_ok s hhead]
  by_cases hsingle : (s.node ((s.getList L).TaskList p)).next = 0
  · -- the slot holds one node: it is `n`
    have hl1e : l1 = [] := by
      cases l1 with
      | nil => rfl
      | cons x l1 =>
        obtain ⟨h1, -, -, h4⟩ := hseg
        rw [h1] at hsingle
        have := Seg_head h4
        rw [hsingle] at this
        cases l1 with
        | nil => simp at this; exact absurd this.symm hn0
        | cons z l1 =>
          simp at this
          exact absurd this.symm (hnz z (by simp))
    subst hl1e
    obtain ⟨h1, -, h3, h4⟩ := hseg
    have h1' : (s.getList L).TaskList p = n := h1
    rw [h1'] at hsingle ⊢
    have hl2e : l2 = [] := by
      have := Seg_head h4
      rw [hsingle] at this
      cases l2 with
      | nil => rfl
      | cons z l2 => simp at this; exact absurd this.symm (hl2z z (by simp))
    subst hl2e
    have hnode : unlinkNd s.node 0 n 0 = s.node := by
      unfold unlinkNd
      simp only [ne_eq, not_true_eq_false, ↓reduceIte]
      apply Function.update_eq_self_iff.mpr
      cases hnn : s.node n
      simp [hnn] at h3 hsingle
      simp [h3, hsingle]
    simp only [hsingle, ↓reduceIte, hn, pure_eq_ok, removeState, lastOr, List.headD_nil, hnode]
    cases L <;> simp [Kernel.setHead, Kernel.setBitMap, Kernel.setList, Kernel.getList]
  · have hfind := findByTcb_spec s t hseg hl1 hn fuel hf
    have hz : l2.headD 0 = 0 → lastOr 0 l1 ≠ 0 := by
      intro hb0 e0
      have hl1e := (lastOr_eq_zero hl1z).mp e0
      subst hl1e
      obtain ⟨h1, -, -, -⟩ := hseg
      have h1' : (s.getList L).TaskList p = n := h1
      rw [h1', hlinks.2, hb0] at hsingle
      exact hsingle rfl
    obtain ⟨hA, hB⟩ := hlinks
    simp only [hsingle, ↓reduceIte, hfind, ok_bind, hn0, rdNode_ok s hn0, hA, hB]
    generalize lastOr 0 l1 = a at *
    generalize l2.headD 0 = b at *
    by_cases hb0 : b = 0
    · have ha0 := hz hb0
      simp [hb0, ha0, setNext, setPrev, wrNode, hn0, removeState, unlinkNd,
        Function.update_apply, hna]
    · by_cases ha0 : a = 0
      · simp only [hb0, ↓reduceIte, ha0, setPrev, wrNode, ok_bind, pure_eq_ok, setNext, hn0,
          removeState]
        cases L <;>
          simp [Kernel.setHead, Kernel.setList, Kernel.getList, unlinkNd, hb0,
            Function.update_apply, hnb, ha0]
      · simp [hb0, ha0, setNext, setPrev, wrNode, hn0, removeState, unlinkNd,
          Function.update_apply, hna, hnb]


/-- Well-formedness survives a change of TCB fields other than the priority. -/
theorem WF_tcb {s s' : Kernel} {sh : Shape} (hn : s'.node = s.node)
    (hp : ∀ t, (s'.tcb t).OS_TcbPrio = (s.tcb t).OS_TcbPrio)
    (hl : ∀ L, s'.getList L = s.getList L) (h : WF s sh) : WF s' sh := by
  refine ⟨lists_of_forall fun L => ?_, h.2⟩
  have := h.list L
  unfold ListWF at this ⊢
  rw [hn, hl L]
  refine ⟨fun p hp9 => ⟨(this.1 p hp9).1, fun n hn' => ?_⟩, this.2⟩
  rw [hp]
  exact (this.1 p hp9).2 n hn'

/-- Moving the node of TCB `t` from Ready to Waiting: the effect of
`OS_EventTaskWait` for a task of priority 1 to 7 that is on Ready. -/
theorem OS_EventTaskWait_spec (s : Kernel) (sh : Shape) (t fuel p n : Nat) (l1 l2 : List Nat)
    (hwf : WF s sh) (ht : t ≠ 0) (hprio : (s.tcb t).OS_TcbPrio = p)
    (hp0 : 0 < p) (hp8 : p < MAX_TASK_PRIORITY)
    (hsh : sh .ready p = l1 ++ n :: l2) (hn : (s.node n).pTcb = t)
    (hl1 : ∀ k ∈ l1, (s.node k).pTcb ≠ t)
    (hfuel : (allNodes sh).length + MAX_TASKS_IN_LIST ≤ fuel) :
    ∃ s', OS_EventTaskWait fuel t s = .ok s' ∧
      WF s' (sh.move .ready .waiting p l1 n l2) ∧
      s'.tcb = s.tcb ∧ s'.ecb = s.ecb ∧ s'.mqcb = s.mqcb ∧ s'.mem = s.mem ∧
      s'.OS_Tcb_Curr = s.OS_Tcb_Curr ∧ s'.OS_Tcb_Next = s.OS_Tcb_Next ∧ s'.pendSV = s.pendSV ∧
      s'.OSEventFreeList = s.OSEventFreeList ∧ s'.OS_MQcb_FreeList = s.OS_MQcb_FreeList ∧
      ∀ k, (s'.node k).pTcb = (s.node k).pTcb := by
  have hp8' : p ≤ MAX_TASK_PRIORITY := by omega
  have hp9 : p < MAX_TASKS_IN_LIST := by unfold MAX_TASKS_IN_LIST; omega
  have hseg := hwf.seg .ready hp9
  rw [hsh] at hseg
  have hnd : (l1 ++ n :: l2).Nodup := hsh ▸ slot_nodup hwf.2 .ready hp9
  have hlen1 : l1.length < fuel := by
    have := slot_length_le sh .ready hp9
    rw [hsh] at this
    simp at this
    omega
  have hrem := removeByTcb_eq s .ready fuel t p n l1 l2 ht hprio hp0 hp8' hseg hnd hl1 hn hlen1
  obtain ⟨hwf1, hnot1⟩ := remove_WF s sh .ready p n l1 l2 hwf hp0 hp8' hsh
  have hn0 : n ≠ 0 := Seg_ne_zero hseg n (by simp)
  have hnode1 : (removeState s .ready p (lastOr 0 l1) n (l2.headD 0)).node n
      = { prev := 0, next := 0, pTcb := (s.node n).pTcb } := by
    rw [removeState_node, unlinkNd_self]
  have ht1 : ((removeState s .ready p (lastOr 0 l1) n (l2.headD 0)).node n).pTcb ≠ 0 := by
    rw [hnode1]; simp [hn, ht]
  have hp1 : ((removeState s .ready p (lastOr 0 l1) n (l2.headD 0)).tcb
      ((removeState s .ready p (lastOr 0 l1) n (l2.headD 0)).node n).pTcb).OS_TcbPrio = p := by
    rw [hnode1, removeState_tcb]; simp [hn, hprio]
  have hlen : ((sh.set .ready p (l1 ++ l2)) .waiting p).length ≤ fuel := by
    have h1 : ((sh.set .ready p (l1 ++ l2)) .waiting p).length
        ≤ (allNodes (sh.set .ready p (l1 ++ l2))).length := slot_length_le _ .waiting hp9
    have h2 : (allNodes sh).length = (allNodes (sh.set .ready p (l1 ++ l2))).length + 1 := by
      simpa using (allNodes_set_remove sh .ready p n l1 l2 hp9 hsh).length_eq
    omega
  have hadd := add_eq _ .waiting fuel p n _ hn0 ht1 hp1 hp0 hp8 (hwf1.seg .waiting hp9) hlen
  have hwf2 := add_WF _ _ .waiting p n hwf1 hn0 hnot1 ht1 hp1 hp0 hp8'
    (by rw [hnode1]) (by rw [hnode1])
  refine ⟨_, ?_, hwf2, ?_⟩
  · unfold OS_EventTaskWait
    have hcode : ListId.ready.code = READY_TASK_LIST := rfl
    have hcode2 : ListId.waiting.code = WAITING_TASK_LIST := rfl
    rw [← hcode, hrem]
    simp only [ok_bind, Q_ASSERT_true hn0]
    rw [← hcode2, hadd]
  · simp [addState_node_pTcb, unlinkNd_pTcb]

/-- What `OS_Sem_Wait` does on a semaphore with counter 0: it writes the pend
fields of the current TCB, parks the task and calls the scheduler. -/
theorem OS_Sem_Wait_pend (s : Kernel) (e timeout fuel : Nat) (he : e ≠ 0)
    (htype : (s.ecb e).OS_EventType = OS_EVENT_TYPE_SEM) (hcnt : (s.ecb e).OS_EventCnt = 0)
    (hcur : s.OS_Tcb_Curr ≠ 0) :
    OS_Sem_Wait fuel e timeout s = (do
      let s2 ← OS_EventTaskWait fuel s.OS_Tcb_Curr (semPendState s e timeout)
      let s3 ← OS_sched fuel s2
      pure (OS_ERR_NONE, s3)) := by
  unfold OS_Sem_Wait
  simp only [rdEcb_ok s he, ok_bind, htype, ne_eq, not_true_eq_false, ↓reduceIte, hcnt,
    gt_iff_lt, lt_self_iff_false, rdTcb_ok s hcur, wrTcb, hcur]
  rfl

/-- C5 (amended): for a semaphore ECB with counter 0, `OS_Sem_Wait` called by a
current task of priority 1 to 7 that is on Ready removes the task's node from
Ready, appends it to the tail of the Waiting slot of its priority, sets the
TCB's event back-pointer to the ECB, its timeout to the argument, its pend
status to `OS_STAT_PEND_OK` and the semaphore bit in its state, leaves every
other TCB and every ECB unchanged, and the counter stays 0. -/
theorem OS_Sem_Wait_parks (s : Kernel) (sh : Shape) (e timeout fuel : Nat)
    (hwf : WF s sh) (hidle : sh .ready 0 ≠ []) (he : e ≠ 0)
    (htype : (s.ecb e).OS_EventType = OS_EVENT_TYPE_SEM) (hcnt : (s.ecb e).OS_EventCnt = 0)
    (hcur : s.OS_Tcb_Curr ≠ 0) (hp0 : 0 < (s.tcb s.OS_Tcb_Curr).OS_TcbPrio)
    (hp8 : (s.tcb s.OS_Tcb_Curr).OS_TcbPrio < MAX_TASK_PRIORITY)
    (hon : ∃ k ∈ sh .ready (s.tcb s.OS_Tcb_Curr).OS_TcbPrio, (s.node k).pTcb = s.OS_Tcb_Curr)
    (hfuel : (allNodes sh).length + MAX_TASKS_IN_LIST ≤ fuel) :
    ∃ l1 n l2 s',
      sh .ready (s.tcb s.OS_Tcb_Curr).OS_TcbPrio = l1 ++ n :: l2 ∧
      (s.node n).pTcb = s.OS_Tcb_Curr ∧ (∀ k ∈ l1, (s.node k).pTcb ≠ s.OS_Tcb_Curr) ∧
      OS_Sem_Wait fuel e timeout s = .ok (OS_ERR_NONE, s') ∧
      WF s' (sh.move .ready .waiting (s.tcb s.OS_Tcb_Curr).OS_TcbPrio l1 n l2) ∧
      (s'.tcb s.OS_Tcb_Curr).OS_TcbEcbPtr = e ∧
      (s'.tcb s.OS_Tcb_Curr).OS_TcbTimeout = timeout ∧
      (s'.tcb s.OS_Tcb_Curr).OS_TcbStatePend = OS_STAT_PEND_OK ∧
      (s'.tcb s.OS_Tcb_Curr).OS_TcbState = (s.tcb s.OS_Tcb_Curr).OS_TcbState ||| OS_STATE_SEM ∧
      (s'.tcb s.OS_Tcb_Curr).OS_TcbPrio = (s.tcb s.OS_Tcb_Curr).OS_TcbPrio ∧
      (∀ t, t ≠ s.OS_Tcb_Curr → s'.tcb t = s.tcb t) ∧
      (∀ k, (s'.node k).pTcb = (s.node k).pTcb) ∧
      s'.ecb = s.ecb ∧ (s'.ecb e).OS_EventCnt = 0 := by
  obtain ⟨l1, n, l2, hsh, hn, hl1⟩ :=
    first_split (fun k => (s.node k).pTcb = s.OS_Tcb_Curr) _ hon
  obtain ⟨s1, hs1⟩ : ∃ s1 : Kernel, s1 = semPendState s e timeout := ⟨_, rfl⟩
  have hprio1 : ∀ t, (s1.tcb t).OS_TcbPrio = (s.tcb t).OS_TcbPrio := by
    intro t
    by_cases h : t = s.OS_Tcb_Curr
    · subst h; simp [hs1, semPendState]
    · simp [hs1, semPendState, Function.update_apply, h]
  have hwf1 : WF s1 sh :=
    WF_tcb (by rw [hs1]; rfl) hprio1 (fun L => by rw [hs1]; cases L <;> rfl) hwf
  have hcur1 : s1.OS_Tcb_Curr = s.OS_Tcb_Curr := by rw [hs1]; rfl
  have hnode1 : s1.node = s.node := by rw [hs1]; rfl
  obtain ⟨s2, hwait, hwf2, ht2, hecb2, -, -, hcur2, -, -, -, -, hpt2⟩ :=
    OS_EventTaskWait_spec s1 sh s.OS_Tcb_Curr fuel _ n l1 l2 hwf1 hcur (hprio1 _) hp0 hp8 hsh
      (by rw [hnode1]; exact hn) (by rw [hnode1]; exact hl1) hfuel
  have hp9 : (s.tcb s.OS_Tcb_Curr).OS_TcbPrio < MAX_TASKS_IN_LIST := by
    unfold MAX_TASKS_IN_LIST; omega
  have hidle2 : (sh.move .ready .waiting (s.tcb s.OS_Tcb_Curr).OS_TcbPrio l1 n l2) .ready 0 ≠ [] := by
    have h2 : ¬ (0 = (s.tcb s.OS_Tcb_Curr).OS_TcbPrio) := by omega
    simpa [Shape.move, Shape.set, h2] using hidle
  obtain ⟨t, hsched⟩ := OS_sched_ok s2 _ fuel hwf2 (fun _ => hidle2)
    (by rw [move_length sh _ _ _ n l1 l2 hp9 hsh]; exact hfuel)
  refine ⟨l1, n, l2, schedState s2 t, hsh, hn, hl1, ?_, schedState_WF t hwf2, ?_⟩
  · rw [OS_Sem_Wait_pend s e timeout fuel he htype hcnt hcur, ← hs1, hwait]
    simp [hsched]
  · simp only [schedState_tcb, schedState_node, schedState_ecb, ht2, hecb2, hpt2]
    rw [hs1]
    refine ⟨?_, ?_, ?_, ?_, ?_, ?_, ?_, rfl, hcnt⟩ <;> simp [semPendState]
    intro t ht
    simp [Function.update_apply, ht]


/-! ## The ECB pool -/

theorem OS_InitEventList_free (s : Kernel) : FreeFrom 0 (OS_InitEventList s) := by
  refine ⟨by simp [OS_InitEventList, OS_MAX_EVENTS], ?_, ?_⟩
  · intro i _ hi
    have hi' : i < 7 := by unfold OS_MAX_EVENTS at hi; omega
    interval_cases i <;>
      simp [OS_InitEventList, initEventLoop, clearEventTbl, OSEventTbl, OS_MAX_EVENTS,
        Function.update_apply]
  · intro _
    simp [OS_InitEventList, OSEventTbl, OS_MAX_EVENTS]

theorem OS_Sem_Create_step (s : Kernel) (j cnt : Nat) (name : String) (h : FreeFrom j s) :
    FreeFrom (j + 1) (OS_Sem_Create cnt name s).2 ∧
      (j < OS_MAX_EVENTS → (OS_Sem_Create cnt name s).1 = OSEventTbl j ∧
        ((OS_Sem_Create cnt name s).2.ecb (OSEventTbl j)) =
          { OS_EventType := OS_EVENT_TYPE_SEM, OS_EventPtr := 0, OS_EventCnt := cnt % 2 ^ 16,
            OS_EventName := name }) ∧
      (OS_MAX_EVENTS ≤ j → OS_Sem_Create cnt name s = (0, s)) := by
  obtain ⟨h1, h2, h3⟩ := h
  by_cases hj : j < OS_MAX_EVENTS
  · have hfree : s.OSEventFreeList = OSEventTbl j := by simp [h1, hj]
    have hne : OSEventTbl j ≠ 0 := by simp [OSEventTbl]
    refine ⟨⟨?_, ?_, ?_⟩, fun _ => ⟨?_, ?_⟩, fun h => absurd hj (by omega)⟩
    · simp only [OS_Sem_Create, hfree, ne_eq, hne, not_false_eq_true, ↓reduceIte]
      by_cases hj1 : j + 1 < OS_MAX_EVENTS
      · simp [hj1, h2 j (le_refl _) hj1]
      · have : j = OS_MAX_EVENTS - 1 := by omega
        subst this
        simp [hj1, h3 hj]
    · intro i hji hi
      have : OSEventTbl i ≠ OSEventTbl j := by simp [OSEventTbl]; omega
      simp only [OS_Sem_Create, hfree, ne_eq, hne, not_false_eq_true, ↓reduceIte,
        Function.update_apply, this]
      exact h2 i (by omega) hi
    · intro hj1
      have : OSEventTbl (OS_MAX_EVENTS - 1) ≠ OSEventTbl j := by simp [OSEventTbl]; omega
      simp only [OS_Sem_Create, hfree, ne_eq, hne, not_false_eq_true, ↓reduceIte,
        Function.update_apply, this]
      exact h3 hj
    · simp [OS_Sem_Create, hfree, hne]
    · simp [OS_Sem_Create, hfree, hne]
  · have hfree : s.OSEventFreeList = 0 := by simp [h1, hj]
    have hres : OS_Sem_Create cnt name s = (0, s) := by
      simp [OS_Sem_Create, hfree]
    refine ⟨?_, fun h => absurd h hj, fun _ => hres⟩
    rw [hres]
    have hj1 : ¬ j + 1 < OS_MAX_EVENTS := by omega
    refine ⟨by simp [hfree, hj1], ?_, fun h => absurd h hj1⟩
    intro i hji hi
    omega

theorem createMany_free (pre : List (Nat × String)) (s : Kernel) (j : Nat) (h : FreeFrom j s) :
    FreeFrom (j + pre.length) (createMany pre s).2 ∧
      ∀ x ∈ (createMany pre s).1, x < OSEventTbl (j + pre.length) := by
  induction pre generalizing s j with
  | nil => simpa [createMany] using h
  | cons a rest ih =>
    obtain ⟨hstep, hlt, hge⟩ := OS_Sem_Create_step s j a.1 a.2 h
    obtain ⟨ih1, ih2⟩ := ih (OS_Sem_Create a.1 a.2 s).2 (j + 1) hstep
    have e : j + 1 + rest.length = j + (a :: rest).length := by simp; omega
    rw [e] at ih1 ih2
    refine ⟨ih1, ?_⟩
    intro x hx
    simp only [createMany, List.mem_cons] at hx
    rcases hx with hx | hx
    · by_cases hj : j < OS_MAX_EVENTS
      · rw [hx, (hlt hj).1]; simp [OSEventTbl]
      · rw [hx, hge (by omega)]; simp [OSEventTbl]
    · exact ih2 x hx

/-- C6: starting from the state left by `OS_InitEventList`, each of the first
`OS_MAX_EVENTS` (8) calls of `OS_Sem_Create` returns a non-null ECB, different
from every ECB returned before, of type semaphore, with the requested counter
(zero allowed) and the given name; every later call returns null and leaves the
whole kernel state, ECB table and free list included, unchanged. -/
theorem OS_Sem_Create_pool (s : Kernel) (pre : List (Nat × String)) (cnt : Nat) (name : String)
    (hcnt : cnt < 2 ^ 16) :
    (pre.length < OS_MAX_EVENTS →
      (OS_Sem_Create cnt name (createMany pre (OS_InitEventList s)).2).1 ≠ 0 ∧
      (OS_Sem_Create cnt name (createMany pre (OS_InitEventList s)).2).1
        ∉ (createMany pre (OS_InitEventList s)).1 ∧
      (OS_Sem_Create cnt name (createMany pre (OS_InitEventList s)).2).2.ecb
        (OS_Sem_Create cnt name (createMany pre (OS_InitEventList s)).2).1 =
          { OS_EventType := OS_EVENT_TYPE_SEM, OS_EventPtr := 0, OS_EventCnt := cnt,
            OS_EventName := name }) ∧
    (OS_MAX_EVENTS ≤ pre.length →
      OS_Sem_Create cnt name (createMany pre (OS_InitEventList s)).2 =
        (0, (createMany pre (OS_InitEventList s)).2)) := by
  obtain ⟨hfree, hold⟩ := createMany_free pre (OS_InitEventList s) 0 (OS_InitEventList_free s)
  rw [Nat.zero_add] at hfree hold
  obtain ⟨-, hlt, hge⟩ := OS_Sem_Create_step _ pre.length cnt name hfree
  refine ⟨fun h => ?_, hge⟩
  obtain ⟨h1, h2⟩ := hlt h
  rw [h1]
  refine ⟨by simp [OSEventTbl], fun hmem => absurd (hold _ hmem) (lt_irrefl _), ?_⟩
  rw [h2, Nat.mod_eq_of_lt hcnt]


/-! ## Semaphore overflow -/

/-- C3: a semaphore created with count 65534 while the Waiting list is empty
accepts one post (`OS_ERR_NONE`, counter 65535) and refuses the next
(`OS_ERR_SEM_OVF`, state unchanged); in general, with an empty Waiting list, a
post on a counter equal to 65535 returns `OS_ERR_SEM_OVF` and changes no kernel
state, and no post moves a counter downwards or beyond 65535. -/
theorem OS_Sem_Post_overflow (s : Kernel) (name : String) (fuel : Nat)
    (hfree : s.OSEventFreeList ≠ 0) (hw : WaitingEmpty s) :
    (∃ s1, OS_Sem_Post fuel (OS_Sem_Create 65534 name s).1 (OS_Sem_Create 65534 name s).2
          = .ok (OS_ERR_NONE, s1) ∧
        (s1.ecb (OS_Sem_Create 65534 name s).1).OS_EventCnt = 65535 ∧
        OS_Sem_Post fuel (OS_Sem_Create 65534 name s).1 s1 = .ok (OS_ERR_SEM_OVF, s1)) ∧
      (∀ t e, e ≠ 0 → WaitingEmpty t → (t.ecb e).OS_EventType = OS_EVENT_TYPE_SEM →
        (t.ecb e).OS_EventCnt = 65535 → OS_Sem_Post fuel e t = .ok (OS_ERR_SEM_OVF, t)) ∧
      (∀ t e r t', WaitingEmpty t → (t.ecb e).OS_EventCnt ≤ 65535 →
        OS_Sem_Post fuel e t = .ok (r, t') →
        (t.ecb e).OS_EventCnt ≤ (t'.ecb e).OS_EventCnt ∧ (t'.ecb e).OS_EventCnt ≤ 65535) := by
  refine ⟨?_, ?_, ?_⟩
  · have hbm : s.WaitingTaskList.TaskRriorityBitMap = 0 := hw.1
    simp [OS_Sem_Create, hfree, OS_Sem_Post, rdEcb, wrEcb, hbm]
  · intro t e he ht htype hc
    have hbm : t.WaitingTaskList.TaskRriorityBitMap = 0 := ht.1
    simp [OS_Sem_Post, he, htype, hbm, hc]
  · intro t e r t' ht hc hpost
    have hbm : t.WaitingTaskList.TaskRriorityBitMap = 0 := ht.1
    unfold OS_Sem_Post at hpost
    by_cases he : e = 0
    · simp [rdEcb, he] at hpost
    · simp only [rdEcb_ok t he, ok_bind, hbm, ne_eq, not_true_eq_false, ↓reduceIte] at hpost
      by_cases htype : (t.ecb e).OS_EventType = OS_EVENT_TYPE_SEM
      · by_cases hlt : (t.ecb e).OS_EventCnt < 65535
        · have hmod : ((t.ecb e).OS_EventCnt + 1) % 65536 = (t.ecb e).OS_EventCnt + 1 := by omega
          simp [htype, hlt, wrEcb, he, hmod] at hpost
          obtain ⟨-, rfl⟩ := hpost
          simp
          omega
        · simp [htype, hlt] at hpost
          obtain ⟨-, rfl⟩ := hpost
          exact ⟨le_refl _, hc⟩
      · simp [htype] at hpost
        obtain ⟨-, rfl⟩ := hpost
        exact ⟨le_refl _, hc⟩


/-! ## Kind validation -/

/-- C14: `OS_Sem_Wait` and `OS_Sem_Post` on an ECB whose type is not semaphore, and
`OS_MsgQ_Send` and `OS_MsgQ_Wait` on an ECB whose type is not message queue,
report `OS_ERR_EVENT_TYPE` (as status for post and send, in `*pErr` for the
waits, `OS_MsgQ_Wait` returning the null message) and return the state they
were called in: no ECB, MQCB, TCB, task list or bitmap is changed. -/
theorem kind_validation_atomic (s : Kernel) (e1 e2 timeout m fuel : Nat)
    (h1 : e1 ≠ 0) (hs : (s.ecb e1).OS_EventType ≠ OS_EVENT_TYPE_SEM)
    (h2 : e2 ≠ 0) (hq : (s.ecb e2).OS_EventType ≠ OS_EVENT_TYPE_MQ) :
    OS_Sem_Wait fuel e1 timeout s = .ok (OS_ERR_EVENT_TYPE, s) ∧
    OS_Sem_Post fuel e1 s = .ok (OS_ERR_EVENT_TYPE, s) ∧
    OS_MsgQ_Send fuel e2 m s = .ok (OS_ERR_EVENT_TYPE, s) ∧
    OS_MsgQ_Wait fuel e2 timeout s = .ok (.returned 0 OS_ERR_EVENT_TYPE, s) := by
  refine ⟨?_, ?_, ?_, ?_⟩
  · simp [OS_Sem_Wait, rdEcb_ok s h1, hs]
  · simp [OS_Sem_Post, rdEcb_ok s h1, hs]
  · simp [OS_MsgQ_Send, rdEcb_ok s h2, hq]
  · simp [OS_MsgQ_Wait, rdEcb_ok s h2, hq]

/-! ## The scheduler: which task is selected -/

/-- The highest set bit of a working set taken from the bitmap of a well-formed
list addresses a non-empty slot whose tasks have that priority. -/
theorem top_slot (s : Kernel) (sh : Shape) (hwf : WF s sh) (L : ListId) (ws : Nat) (h0 : ws ≠ 0)
    (hsub : ∀ i, ws.testBit i = true → (s.getList L).TaskRriorityBitMap.testBit i = true) :
    1 ≤ LOG2 ws ∧ LOG2 ws ≤ MAX_TASK_PRIORITY ∧ ws.testBit (LOG2 ws - 1) = true ∧
      (∀ i, LOG2 ws ≤ i → ws.testBit i = false) ∧
      ∃ y l, sh L (LOG2 ws) = y :: l ∧ (s.getList L).TaskList (LOG2 ws) = y ∧ y ≠ 0 ∧
        (s.node y).pTcb ≠ 0 ∧ (s.tcb (s.node y).pTcb).OS_TcbPrio = LOG2 ws := by
  have hW := hwf.list L
  have hbm : (s.getList L).TaskRriorityBitMap < 2 ^ MAX_TASK_PRIORITY := hW.2.1
  have hws8 : ws < 2 ^ MAX_TASK_PRIORITY := by
    apply lt_two_pow_of_bits
    intro i hi
    by_contra hc
    have hc' : ws.testBit i = true := by simpa using hc
    have := hsub i hc'
    rw [Nat.testBit_lt_two_pow (lt_of_lt_of_le hbm (Nat.pow_le_pow_right (by norm_num) hi))] at this
    exact Bool.false_ne_true this
  have hws32 : ws < 2 ^ 32 :=
    lt_of_lt_of_le hws8 (Nat.pow_le_pow_right (by norm_num) (by unfold MAX_TASK_PRIORITY; omega))
  obtain ⟨g1, g2, g3, g4⟩ := LOG2_spec ws h0 hws32
  have g8 : LOG2 ws ≤ MAX_TASK_PRIORITY := by
    by_contra hc
    have hlt : MAX_TASK_PRIORITY ≤ LOG2 ws - 1 := by omega
    rw [Nat.testBit_lt_two_pow (lt_of_lt_of_le hws8 (Nat.pow_le_pow_right (by norm_num) hlt))] at g3
    exact Bool.false_ne_true g3
  refine ⟨g1, g8, g3, g4, ?_⟩
  have hbit := hsub _ g3
  have hhead := (hW.2.2 (LOG2 ws - 1) (by omega)).mp hbit
  have e1 : LOG2 ws - 1 + 1 = LOG2 ws := by omega
  rw [e1] at hhead
  have hp9 : LOG2 ws < MAX_TASKS_IN_LIST := by unfold MAX_TASKS_IN_LIST; omega
  have hseg := hwf.seg L hp9
  have hprio := (hW.1 _ hp9).2
  cases hsh : sh L (LOG2 ws) with
  | nil =>
    rw [hsh] at hseg
    exact absurd hseg hhead
  | cons y l =>
    rw [hsh] at hseg hprio
    obtain ⟨h1, h2, -, -⟩ := hseg
    have := hprio y (List.mem_cons_self _ _)
    exact ⟨y, l, rfl, h1, h2, this.1, this.2⟩

/-- In a well-formed list every slot above the highest set bit of the bitmap is
empty. -/
theorem slots_above_empty (s : Kernel) (sh : Shape) (hwf : WF s sh) (L : ListId)
    (h0 : (s.getList L).TaskRriorityBitMap ≠ 0) (q : Nat)
    (hq : LOG2 (s.getList L).TaskRriorityBitMap < q) (hq9 : q < MAX_TASKS_IN_LIST) :
    sh L q = [] := by
  obtain ⟨g1, -, -, g4, -⟩ := top_slot s sh hwf L _ h0 (fun _ h => h)
  have hW := hwf.list L
  have hbit := g4 (q - 1) (by omega)
  have hiff := hW.2.2 (q - 1) (by unfold MAX_TASKS_IN_LIST at hq9; omega)
  have e1 : q - 1 + 1 = q := by omega
  rw [e1] at hiff
  have hhead : (s.getList L).TaskList q = 0 := by
    by_contra hc
    have := hiff.mpr hc
    rw [hbit] at this
    exact Bool.false_ne_true this
  exact (Seg_head_eq_zero (hwf.seg L hq9)).mp hhead

/-- The walk of `os_schedGetNextTaskToRun` over a chain that does not hold the
current task ends at the head of the slot. -/
theorem schedWalk_absent (s : Kernel) (index : Nat)
    (hh : s.ReadyTaskList.TaskList index ≠ 0)
    {l : List Nat} {pv hd : Nat} (hseg : Seg s.node pv hd l 0)
    (hno : ∀ k ∈ l, (s.node k).pTcb ≠ s.OS_Tcb_Curr)
    (fuel : Nat) (hf : l.length < fuel) :
    schedWalk s index fuel hd = .ok (s.node (s.ReadyTaskList.TaskList index)).pTcb := by
  induction l generalizing pv hd fuel with
  | nil =>
    cases fuel with
    | zero => simp at hf
    | succ fuel =>
      have : hd = 0 := hseg
      simp [schedWalk, this, hh]
  | cons x l ih =>
    obtain ⟨h1, h2, h3, h4⟩ := hseg
    subst h1
    cases fuel with
    | zero => simp at hf
    | succ fuel =>
      have hc := hno hd (List.mem_cons_self _ _)
      have := ih h4 (fun k hk => hno k (List.mem_cons_of_mem _ hk)) fuel (by simp at hf; omega)
      simp [schedWalk, h2, hc, this]

/-- The walk of `os_schedGetNextTaskToRun` over a chain whose first node of the
current task is at position `i`: the task of the next node is returned, or the
task of the head of the slot when that node is the last one. -/
theorem schedWalk_present (s : Kernel) (index : Nat)
    (hh : s.ReadyTaskList.TaskList index ≠ 0)
    {l : List Nat} {pv hd : Nat} (hseg : Seg s.node pv hd l 0) (i : Nat) (hi : i < l.length)
    (hcur : (s.node (l.getD i 0)).pTcb = s.OS_Tcb_Curr)
    (hfirst : ∀ j, j < i → (s.node (l.getD j 0)).pTcb ≠ s.OS_Tcb_Curr)
    (fuel : Nat) (hf : i < fuel) :
    schedWalk s index fuel hd =
      .ok (if i + 1 < l.length then (s.node (l.getD (i + 1) 0)).pTcb
           else (s.node (s.ReadyTaskList.TaskList index)).pTcb) := by
  induction l generalizing pv hd fuel i with
  | nil => simp at hi
  | cons x l ih =>
    obtain ⟨h1, h2, h3, h4⟩ := hseg
    subst h1
    cases fuel with
    | zero => omega
    | succ fuel =>
      cases i with
      | zero =>
        have hc : (s.node hd).pTcb = s.OS_Tcb_Curr := by simpa using hcur
        cases l with
        | nil =>
          have hn : (s.node hd).next = 0 := h4
          simp [schedWalk, h2, hc, hn, hh]
        | cons y l' =>
          obtain ⟨e1, e2, -, -⟩ := h4
          have hn : (s.node hd).next ≠ 0 := by rw [e1]; exact e2
          simp [schedWalk, h2, hc, e1, e2]
      | succ i =>
        have hc : (s.node hd).pTcb ≠ s.OS_Tcb_Curr := by
          have := hfirst 0 (by omega)
          simpa using this
        have hi' : i < l.length := by simpa using hi
        have := ih h4 i hi' (by simpa using hcur)
          (fun j hj => by have := hfirst (j + 1) (by omega); simpa using this) fuel (by omega)
        simp only [schedWalk, h2, ↓reduceIte, hc, this, List.length_cons, List.getD_cons_succ,
          add_lt_add_iff_right]

/-- The result of `os_schedGetNextTaskToRun` on well-formed lists with a non-zero
Ready bitmap, by the position of the current task in the highest occupied slot. -/
theorem getNext_spec (s : Kernel) (sh : Shape) (fuel : Nat) (hwf : WF s sh)
    (hb : s.ReadyTaskList.TaskRriorityBitMap ≠ 0) :
    ∃ y l, sh .ready (LOG2 s.ReadyTaskList.TaskRriorityBitMap) = y :: l ∧
      s.ReadyTaskList.TaskList (LOG2 s.ReadyTaskList.TaskRriorityBitMap) = y ∧
      ((∀ k ∈ y :: l, (s.node k).pTcb ≠ s.OS_Tcb_Curr) → (y :: l).length < fuel →
        os_schedGetNextTaskToRun fuel s = .ok (s.node y).pTcb) ∧
      (∀ i, i < (y :: l).length → (s.node ((y :: l).getD i 0)).pTcb = s.OS_Tcb_Curr →
        (∀ j, j < i → (s.node ((y :: l).getD j 0)).pTcb ≠ s.OS_Tcb_Curr) → i < fuel →
        os_schedGetNextTaskToRun fuel s =
          .ok (s.node ((y :: l).getD ((i + 1) % (y :: l).length) 0)).pTcb) := by
  obtain ⟨g1, g8, -, -, y, l, hsh, hy, hy0, -, -⟩ :=
    top_slot s sh hwf .ready _ hb (fun _ h => h)
  have hy' : s.ReadyTaskList.TaskList (LOG2 s.ReadyTaskList.TaskRriorityBitMap) = y := hy
  have hp9 : LOG2 s.ReadyTaskList.TaskRriorityBitMap < MAX_TASKS_IN_LIST := by
    unfold MAX_TASKS_IN_LIST; omega
  have hseg := hwf.seg .ready hp9
  rw [hsh] at hseg
  have hseg' : Seg s.node 0 (s.ReadyTaskList.TaskList (LOG2 s.ReadyTaskList.TaskRriorityBitMap))
      (y :: l) 0 := hseg
  have hh : s.ReadyTaskList.TaskList (LOG2 s.ReadyTaskList.TaskRriorityBitMap) ≠ 0 := by
    rw [hy']; exact hy0
  refine ⟨y, l, hsh, hy', ?_, ?_⟩
  · intro hno hf
    unfold os_schedGetNextTaskToRun
    simp only [Q_ASSERT_true hh, ok_bind]
    rw [schedWalk_absent s _ hh hseg' hno fuel hf, hy']
  · intro i hi hcur hfirst hf
    unfold os_schedGetNextTaskToRun
    simp only [Q_ASSERT_true hh, ok_bind]
    rw [schedWalk_present s _ hh hseg' i hi hcur hfirst fuel hf, hy']
    by_cases hlast : i + 1 < (y :: l).length
    · rw [if_pos hlast, Nat.mod_eq_of_lt hlast]
    · have e : i + 1 = (y :: l).length := by omega
      rw [if_neg hlast, e, Nat.mod_self]
      rfl

/-- C16: with a non-zero Ready bitmap, `p = LOG2 (Ready bitmap)` is the highest
occupied Ready slot, and for its tasks `t0 .. t(n-1)` in list order
`os_schedGetNextTaskToRun` returns `t((i + 1) mod n)` when the current task is
`t_i` (its first node in the slot, which is its only one when each task has one
node), and the head `t0` when the current task is not in slot `p`. -/
theorem round_robin_rule (s : Kernel) (sh : Shape) (fuel p : Nat) (l : List Nat)
    (hwf : WF s sh) (hb : s.ReadyTaskList.TaskRriorityBitMap ≠ 0)
    (hp : p = LOG2 s.ReadyTaskList.TaskRriorityBitMap) (hl : l = sh .ready p)
    (hfuel : l.length < fuel) :
    l ≠ [] ∧ (∀ q, p < q → q < MAX_TASKS_IN_LIST → sh .ready q = []) ∧
    (∀ i, i < l.length → (s.node (l.getD i 0)).pTcb = s.OS_Tcb_Curr →
      (∀ j, j < i → (s.node (l.getD j 0)).pTcb ≠ s.OS_Tcb_Curr) →
      os_schedGetNextTaskToRun fuel s = .ok (s.node (l.getD ((i + 1) % l.length) 0)).pTcb) ∧
    ((∀ k ∈ l, (s.node k).pTcb ≠ s.OS_Tcb_Curr) →
      os_schedGetNextTaskToRun fuel s = .ok (s.node (l.getD 0 0)).pTcb) := by
  obtain ⟨y, l', hsh, -, habs, hpres⟩ := getNext_spec s sh fuel hwf hb
  have hl' : l = y :: l' := by rw [hl, hp, hsh]
  subst hp
  refine ⟨by rw [hl']; simp, fun q hq hq9 => slots_above_empty s sh hwf .ready hb q hq hq9, ?_, ?_⟩
  · intro i hi hcur hfirst
    rw [hl'] at hi hcur hfirst ⊢
    exact hpres i hi hcur hfirst (by rw [hl'] at hfuel; omega)
  · intro hno
    rw [hl'] at hno hfuel ⊢
    exact habs hno hfuel

/-- The selection made by `OS_sched` on well-formed lists: the head of Ready slot
0 when the Ready bitmap is zero, otherwise the result of
`os_schedGetNextTaskToRun`, which belongs to a node of the highest occupied
Ready slot. -/
theorem OS_sched_select (s : Kernel) (sh : Shape) (fuel : Nat) (hwf : WF s sh)
    (hfuel : (allNodes sh).length + MAX_TASKS_IN_LIST ≤ fuel) :
    (s.ReadyTaskList.TaskRriorityBitMap = 0 → sh .ready 0 ≠ [] →
      OS_sched fuel s = .ok (schedState s (s.node (s.ReadyTaskList.TaskList 0)).pTcb)) ∧
    (s.ReadyTaskList.TaskRriorityBitMap ≠ 0 →
      ∃ n ∈ sh .ready (LOG2 s.ReadyTaskList.TaskRriorityBitMap),
        os_schedGetNextTaskToRun fuel s = .ok (s.node n).pTcb ∧
        OS_sched fuel s = .ok (schedState s (s.node n).pTcb) ∧
        ∀ q, q < MAX_TASKS_IN_LIST → ∀ k ∈ sh .ready q,
          (s.tcb (s.node k).pTcb).OS_TcbPrio ≤ (s.tcb (s.node n).pTcb).OS_TcbPrio) := by
  constructor
  · intro hb hidle
    have h09 : 0 < MAX_TASKS_IN_LIST := by unfold MAX_TASKS_IN_LIST; omega
    have hseg := hwf.seg .ready h09
    have hh : s.ReadyTaskList.TaskList 0 ≠ 0 := fun e => hidle ((Seg_head_eq_zero hseg).mp e)
    unfold OS_sched
    simp only [hb, ↓reduceIte, rdNode_ok s hh, ok_bind, pure_eq_ok]
    unfold schedState
    split_ifs <;> rfl
  · intro hb
    obtain ⟨g1, g8, -, -, y, l, hsh, hy, hy0, -, -⟩ :=
      top_slot s sh hwf .ready _ hb (fun _ h => h)
    have hp9 : LOG2 s.ReadyTaskList.TaskRriorityBitMap < MAX_TASKS_IN_LIST := by
      unfold MAX_TASKS_IN_LIST; omega
    have hseg := hwf.seg .ready hp9
    have hy' : s.ReadyTaskList.TaskList (LOG2 s.ReadyTaskList.TaskRriorityBitMap) = y := hy
    have hmem : y ∈ sh .ready (LOG2 s.ReadyTaskList.TaskRriorityBitMap) := by
      rw [hsh]; exact List.mem_cons_self _ _
    obtain ⟨m, hm, hres⟩ := schedWalk_spec s _ y _ hy' hy0 hmem hseg (fun k hk => hk) fuel
      (by
        have := slot_length_le sh .ready hp9
        unfold MAX_TASKS_IN_LIST at hfuel
        omega)
    have hprio := ((hwf.list .ready).1 _ hp9).2
    have hm0 := (hprio m hm).1
    have hh : s.ReadyTaskList.TaskList (LOG2 s.ReadyTaskList.TaskRriorityBitMap) ≠ 0 := by
      rw [hy']; exact hy0
    have hres' : schedWalk s (LOG2 s.ReadyTaskList.TaskRriorityBitMap) fuel
        (s.ReadyTaskList.TaskList (LOG2 s.ReadyTaskList.TaskRriorityBitMap))
          = .ok (s.node m).pTcb := hres
    have hnext : os_schedGetNextTaskToRun fuel s = .ok (s.node m).pTcb := by
      unfold os_schedGetNextTaskToRun
      simp only [Q_ASSERT_true hh, ok_bind, hres']
    refine ⟨m, hm, hnext, ?_, ?_⟩
    · unfold OS_sched
      simp only [hb, ↓reduceIte, hnext, ok_bind, Q_ASSERT_true hm0, pure_eq_ok]
      unfold schedState
      split_ifs <;> rfl
    · intro q hq k hk
      rw [(((hwf.list .ready).1 q hq).2 k hk).2, (hprio m hm).2]
      by_contra hc
      have hlt : LOG2 (s.getList .ready).TaskRriorityBitMap < q := Nat.lt_of_not_le hc
      have := slots_above_empty s sh hwf .ready hb q hlt hq
      rw [this] at hk
      simp at hk

/-- C15: on well-formed lists, when the Ready bitmap is zero `OS_sched` selects the
TCB at the head of Ready slot 0 (the idle task); otherwise the TCB it selects,
the result of `os_schedGetNextTaskToRun`, belongs to a node of Ready slot
`LOG2 (Ready bitmap)`, and no task on Ready has a priority greater than the
priority of the selected task. -/
theorem strict_priority_selection (s : Kernel) (sh : Shape) (fuel : Nat) (hwf : WF s sh)
    (hfuel : (allNodes sh).length + MAX_TASKS_IN_LIST ≤ fuel) :
    (s.ReadyTaskList.TaskRriorityBitMap = 0 → sh .ready 0 ≠ [] →
      OS_sched fuel s = .ok (schedState s (s.node (s.ReadyTaskList.TaskList 0)).pTcb)) ∧
    (s.ReadyTaskList.TaskRriorityBitMap ≠ 0 →
      ∃ n ∈ sh .ready (LOG2 s.ReadyTaskList.TaskRriorityBitMap),
        os_schedGetNextTaskToRun fuel s = .ok (s.node n).pTcb ∧
        OS_sched fuel s = .ok (schedState s (s.node n).pTcb) ∧
        ∀ q, q < MAX_TASKS_IN_LIST → ∀ k ∈ sh .ready q,
          (s.tcb (s.node k).pTcb).OS_TcbPrio ≤ (s.tcb (s.node n).pTcb).OS_TcbPrio) :=
  OS_sched_select s sh fuel hwf hfuel

/-- C17: on well-formed lists `OS_sched` returns; with `t` the TCB it selects, it
writes `OS_Tcb_Next := t` and raises the PendSV request when `t` differs from
`OS_Tcb_Curr`, leaves `OS_Tcb_Next` and the request flag as they were when `t`
is `OS_Tcb_Curr`, and in both cases leaves `OS_Tcb_Curr`, the three task lists
with their bitmaps, the list nodes and the TCBs unchanged. -/
theorem OS_sched_frame (s : Kernel) (sh : Shape) (fuel : Nat) (hwf : WF s sh)
    (hidle : s.ReadyTaskList.TaskRriorityBitMap = 0 → sh .ready 0 ≠ [])
    (hfuel : (allNodes sh).length + MAX_TASKS_IN_LIST ≤ fuel) :
    ∃ t s', OS_sched fuel s = .ok s' ∧
      ((s.ReadyTaskList.TaskRriorityBitMap = 0 ∧
          t = (s.node (s.ReadyTaskList.TaskList 0)).pTcb) ∨
        (s.ReadyTaskList.TaskRriorityBitMap ≠ 0 ∧ os_schedGetNextTaskToRun fuel s = .ok t)) ∧
      (t ≠ s.OS_Tcb_Curr → s'.OS_Tcb_Next = t ∧ s'.pendSV = true) ∧
      (t = s.OS_Tcb_Curr → s'.OS_Tcb_Next = s.OS_Tcb_Next ∧ s'.pendSV = s.pendSV) ∧
      s'.OS_Tcb_Curr = s.OS_Tcb_Curr ∧
      s'.ReadyTaskList = s.ReadyTaskList ∧ s'.DelayedTaskList = s.DelayedTaskList ∧
      s'.WaitingTaskList = s.WaitingTaskList ∧ s'.node = s.node ∧ s'.tcb = s.tcb := by
  have hframe : ∀ t, (t ≠ s.OS_Tcb_Curr →
        (schedState s t).OS_Tcb_Next = t ∧ (schedState s t).pendSV = true) ∧
      (t = s.OS_Tcb_Curr →
        (schedState s t).OS_Tcb_Next = s.OS_Tcb_Next ∧ (schedState s t).pendSV = s.pendSV) ∧
      (schedState s t).OS_Tcb_Curr = s.OS_Tcb_Curr ∧
      (schedState s t).ReadyTaskList = s.ReadyTaskList ∧
      (schedState s t).DelayedTaskList = s.DelayedTaskList ∧
      (schedState s t).WaitingTaskList = s.WaitingTaskList ∧
      (schedState s t).node = s.node ∧ (schedState s t).tcb = s.tcb := by
    intro t
    unfold schedState TRIGER_PENDSV_INT
    by_cases h : t = s.OS_Tcb_Curr <;> simp [h]
  obtain ⟨h0, h1⟩ := OS_sched_select s sh fuel hwf hfuel
  by_cases hb : s.ReadyTaskList.TaskRriorityBitMap = 0
  · exact ⟨_, _, h0 hb (hidle hb), Or.inl ⟨hb, rfl⟩, hframe _⟩
  · obtain ⟨n, -, hnext, hs, -⟩ := h1 hb
    exact ⟨_, _, hs, Or.inr ⟨hb, hnext⟩, hframe _⟩

/-! ## The ring of a message queue -/

theorem mqPut_fields (q : OS_MQ) :
    (mqPut q).OS_MQPtr = q.OS_MQPtr ∧ (mqPut q).OS_MQStart = q.OS_MQStart ∧
    (mqPut q).OS_MQEnd = q.OS_MQEnd ∧ (mqPut q).OS_MQOut = q.OS_MQOut ∧
    (mqPut q).OS_MQSize = q.OS_MQSize ∧
    (mqPut q).OS_MQEntries = (q.OS_MQEntries + 1) % 2 ^ 16 ∧
    (mqPut q).OS_MQIn = if q.OS_MQIn + 1 = q.OS_MQEnd then q.OS_MQStart else q.OS_MQIn + 1 := by
  dsimp only [mqPut]
  split_ifs <;> exact ⟨rfl, rfl, rfl, rfl, rfl, rfl, rfl⟩

theorem mqGet_fields (q : OS_MQ) :
    (mqGet q).OS_MQPtr = q.OS_MQPtr ∧ (mqGet q).OS_MQStart = q.OS_MQStart ∧
    (mqGet q).OS_MQEnd = q.OS_MQEnd ∧ (mqGet q).OS_MQIn = q.OS_MQIn ∧
    (mqGet q).OS_MQSize = q.OS_MQSize ∧
    (mqGet q).OS_MQEntries = (q.OS_MQEntries + (2 ^ 16 - 1)) % 2 ^ 16 ∧
    (mqGet q).OS_MQOut = if q.OS_MQOut + 1 = q.OS_MQEnd then q.OS_MQStart else q.OS_MQOut + 1 := by
  dsimp only [mqGet]
  split_ifs <;> exact ⟨rfl, rfl, rfl, rfl, rfl, rfl, rfl⟩

theorem dec16 (n : Nat) (h0 : 0 < n) (h : n < 2 ^ 16) : (n + (2 ^ 16 - 1)) % 2 ^ 16 = n - 1 := by
  have e : n + (2 ^ 16 - 1) = n - 1 + 2 ^ 16 := by
    have : (2 : Nat) ^ 16 = 65536 := by norm_num
    omega
  rw [e, Nat.add_mod_right]
  exact Nat.mod_eq_of_lt (by omega)

theorem ring_mod_succ (x N : Nat) (h : x % N + 1 ≠ N) (hN : 0 < N) : (x + 1) % N = x % N + 1 := by
  have h1 : x % N < N := Nat.mod_lt _ hN
  rw [Nat.add_mod]
  by_cases h1N : N = 1
  · subst h1N; omega
  · have : 1 % N = 1 := Nat.mod_eq_of_lt (by omega)
    rw [this]
    exact Nat.mod_eq_of_lt (by omega)

theorem ring_mod_wrap (x N : Nat) (h : x % N + 1 = N) : (x + 1) % N = 0 := by
  rw [Nat.add_mod]
  by_cases h1N : N = 1
  · subst h1N; simp [Nat.mod_one]
  · have hN : 1 < N := by omega
    have : 1 % N = 1 := Nat.mod_eq_of_lt hN
    rw [this, h]
    exact Nat.mod_self N

theorem ring_cell_ne (o j k N : Nat) (hj : j < k) (hk : k < N) : (o + j) % N ≠ (o + k) % N := by
  intro h
  have h1 : j ≡ k [MOD N] := Nat.ModEq.add_left_cancel' o h
  have h2 : j % N = k % N := h1
  rw [Nat.mod_eq_of_lt (by omega), Nat.mod_eq_of_lt hk] at h2
  omega

theorem ring_shift (o j N : Nat) : ((o + 1) % N + j) % N = (o + (j + 1)) % N := by
  rw [Nat.add_mod ((o + 1) % N), Nat.mod_mod, ← Nat.add_mod]
  congr 1
  omega

/-- Storing a message in a ring that is not full. -/
theorem RingHolds_put (s : Kernel) (pq st N o m : Nat) (pend : List Nat)
    (h : RingHolds s pq st N o pend) (hlt : pend.length < N) (hN : N < 2 ^ 16) :
    RingHolds (putState s pq m) pq st N o (pend ++ [m]) := by
  obtain ⟨h1, h2, h3, h4, h5, h6, h7, h8, h9⟩ := h
  have hN0 : 0 < N := by omega
  have hq : (putState s pq m).mqcb pq = mqPut (s.mqcb pq) := by simp [putState]
  have hmem : (putState s pq m).mem = Function.update s.mem (st + (o + pend.length) % N) m := by
    simp [putState, h5]
  obtain ⟨-, f1, f2, f3, f4, f5, f6⟩ := mqPut_fields (s.mqcb pq)
  have hlen : (pend ++ [m]).length = pend.length + 1 := by simp
  have hin : (mqPut (s.mqcb pq)).OS_MQIn = st + (o + (pend.length + 1)) % N := by
    rw [f6, h5, h2, h1]
    by_cases hw : (o + pend.length) % N + 1 = N
    · have e : st + (o + pend.length) % N + 1 = st + N := by omega
      rw [if_pos e]
      have := ring_mod_wrap _ _ hw
      rw [Nat.add_assoc] at this
      rw [this]
      rfl
    · have e : ¬ st + (o + pend.length) % N + 1 = st + N := by omega
      rw [if_neg e]
      have := ring_mod_succ _ _ hw hN0
      rw [Nat.add_assoc] at this
      rw [this, Nat.add_assoc]
  refine ⟨by rw [hq, f1, h1], by rw [hq, f2, h2], by rw [hq, f4, h3], by rw [hq, f3, h4],
    by rw [hq, hin, hlen], ?_, by rw [hlen]; omega, h8, ?_⟩
  · rw [hq, f5, h6, hlen]
    exact Nat.mod_eq_of_lt (by omega)
  · intro j hj
    rw [hmem]
    rw [hlen] at hj
    by_cases hjl : j = pend.length
    · subst hjl
      rw [Function.update_same, List.getD_append_right _ _ _ _ (le_refl _)]
      simp
    · have hjlt : j < pend.length := by omega
      have hne : st + (o + j) % N ≠ st + (o + pend.length) % N := by
        have := ring_cell_ne o j pend.length N hjlt hlt
        omega
      rw [Function.update_noteq hne, h9 j hjlt, List.getD_append _ _ _ _ hjlt]

/-- Taking the oldest message from a ring that is not empty. -/
theorem RingHolds_get (s : Kernel) (pq st N o m : Nat) (pend : List Nat)
    (h : RingHolds s pq st N o (m :: pend)) (hN : N < 2 ^ 16) :
    s.mem (s.mqcb pq).OS_MQOut = m ∧ RingHolds (getState s pq) pq st N ((o + 1) % N) pend := by
  obtain ⟨h1, h2, h3, h4, h5, h6, h7, h8, h9⟩ := h
  simp only [List.length_cons] at h5 h6 h7 h9
  have hN0 : 0 < N := by omega
  have ho := h8 hN0
  have hq : (getState s pq).mqcb pq = mqGet (s.mqcb pq) := by simp [getState]
  have hmem : (getState s pq).mem = s.mem := rfl
  obtain ⟨-, f1, f2, f3, f4, f5, f6⟩ := mqGet_fields (s.mqcb pq)
  have hout : (mqGet (s.mqcb pq)).OS_MQOut = st + (o + 1) % N := by
    rw [f6, h4, h2, h1]
    by_cases hw : o + 1 = N
    · have e : st + o + 1 = st + N := by omega
      rw [if_pos e, hw, Nat.mod_self]
      rfl
    · have e : ¬ st + o + 1 = st + N := by omega
      rw [if_neg e, Nat.mod_eq_of_lt (by omega), Nat.add_assoc]
  constructor
  · rw [h4]
    have := h9 0 (by omega)
    rw [Nat.add_zero, Nat.mod_eq_of_lt ho] at this
    rw [this]
    rfl
  · refine ⟨by rw [hq, f1, h1], by rw [hq, f2, h2], by rw [hq, f4, h3], by rw [hq, hout],
      ?_, ?_, by omega, fun _ => Nat.mod_lt _ hN0, ?_⟩
    · rw [hq, f3, h5, ring_shift]
    · rw [hq, f5, h6, dec16 _ (by omega) (by omega)]
      rfl
    · intro j hj
      rw [hmem, ring_shift]
      have := h9 (j + 1) (by omega)
      rw [this]
      rfl

/-- A send to a queue whose fill count has reached the capacity changes nothing. -/
theorem OS_MsgQ_Send_at_capacity (s : Kernel) (e m fuel : Nat) (he : e ≠ 0)
    (htype : (s.ecb e).OS_EventType = OS_EVENT_TYPE_MQ) (hq : (s.ecb e).OS_EventPtr ≠ 0)
    (hfull : (s.mqcb (s.ecb e).OS_EventPtr).OS_MQSize ≤ (s.mqcb (s.ecb e).OS_EventPtr).OS_MQEntries) :
    OS_MsgQ_Send fuel e m s = .ok (OS_ERR_Q_FULL, s) := by
  unfold OS_MsgQ_Send
  simp [he, htype, hq, hfull]

theorem QueueIdle_put {s : Kernel} {sh : Shape} {e pq : Nat} (m : Nat) (h : QueueIdle s sh e pq) :
    QueueIdle (putState s pq m) sh e pq :=
  ⟨putState_WF _ _ h.1, h.2.1, h.2.2.1, h.2.2.2⟩

/-- Sends to a queue without a waiting receiver: the messages are stored until
the ring is full, the remaining sends are rejected. -/
theorem sendMany_spec (sh : Shape) (e pq st N o fuel : Nat) (he : e ≠ 0) (hpq : pq ≠ 0)
    (hN : N < 2 ^ 16) (hfuel : (allNodes sh).length + MAX_TASKS_IN_LIST ≤ fuel)
    (ms : List Nat) (s : Kernel) (pend : List Nat)
    (hidle : QueueIdle s sh e pq) (hring : RingHolds s pq st N o pend) :
    ∃ s', sendMany fuel e ms s =
        .ok (List.replicate (min ms.length (N - pend.length)) OS_ERR_NONE ++
             List.replicate (ms.length - min ms.length (N - pend.length)) OS_ERR_Q_FULL, s') ∧
      QueueIdle s' sh e pq ∧ RingHolds s' pq st N o (pend ++ ms.take (N - pend.length)) := by
  induction ms generalizing s pend with
  | nil => exact ⟨s, by simp [sendMany], hidle, by simpa using hring⟩
  | cons m ms ih =>
    obtain ⟨hwf, htype, hptr, hno⟩ := hidle
    have hq : (s.ecb e).OS_EventPtr ≠ 0 := by rw [hptr]; exact hpq
    by_cases hlt : pend.length < N
    · have hfill : (s.mqcb (s.ecb e).OS_EventPtr).OS_MQEntries
          < (s.mqcb (s.ecb e).OS_EventPtr).OS_MQSize := by
        rw [hptr, hring.2.2.2.2.2.1, hring.2.2.1]; exact hlt
      have hsend := OS_MsgQ_Send_no_waiter s sh e m fuel hwf he htype hq hfill hno hfuel
      rw [hptr] at hsend
      obtain ⟨s', hs', hidle', hring'⟩ := ih (putState s pq m) (pend ++ [m])
        (QueueIdle_put m ⟨hwf, htype, hptr, hno⟩) (RingHolds_put s pq st N o m pend hring hlt hN)
      have hlen : (pend ++ [m]).length = pend.length + 1 := by simp
      rw [hlen] at hs' hring'
      refine ⟨s', ?_, hidle', ?_⟩
      · simp only [sendMany, hsend, ok_bind, hs', pure_eq_ok, List.length_cons]
        have e1 : min (ms.length + 1) (N - pend.length)
            = min ms.length (N - (pend.length + 1)) + 1 := by omega
        have e2 : ms.length + 1 - (min ms.length (N - (pend.length + 1)) + 1)
            = ms.length - min ms.length (N - (pend.length + 1)) := by omega
        rw [e1, e2, List.replicate_succ]
        rfl
      · have e3 : N - pend.length = (N - (pend.length + 1)) + 1 := by omega
        rw [e3, List.take_succ_cons]
        simpa using hring'
    · have hfull : (s.mqcb (s.ecb e).OS_EventPtr).OS_MQSize
          ≤ (s.mqcb (s.ecb e).OS_EventPtr).OS_MQEntries := by
        rw [hptr, hring.2.2.2.2.2.1, hring.2.2.1]; omega
      have hsend := OS_MsgQ_Send_at_capacity s e m fuel he htype hq hfull
      obtain ⟨s', hs', hidle', hring'⟩ := ih s pend ⟨hwf, htype, hptr, hno⟩ hring
      have e0 : N - pend.length = 0 := by omega
      rw [e0] at hs' hring' ⊢
      refine ⟨s', ?_, hidle', by simpa using hring'⟩
      simp only [sendMany, hsend, ok_bind, hs', pure_eq_ok, List.length_cons]
      simp only [Nat.min_zero, List.replicate_zero, List.nil_append, Nat.sub_zero,
        List.replicate_succ]

/-- Waits on a queue that holds messages return them oldest first. -/
theorem waitMany_spec (e pq st N fuel timeout : Nat) (he : e ≠ 0) (hpq : pq ≠ 0) (hN : N < 2 ^ 16)
    (n : Nat) (s : Kernel) (o : Nat) (pend : List Nat) (hn : n ≤ pend.length)
    (htype : (s.ecb e).OS_EventType = OS_EVENT_TYPE_MQ) (hptr : (s.ecb e).OS_EventPtr = pq)
    (hring : RingHolds s pq st N o pend) :
    ∃ s', waitMany fuel e timeout n s =
      .ok ((pend.take n).map fun m => WaitOutcome.returned m OS_ERR_NONE, s') := by
  induction n generalizing s o pend with
  | zero => exact ⟨s, by simp [waitMany]⟩
  | succ n ih =>
    cases pend with
    | nil => simp at hn
    | cons m pend =>
      have hq : (s.ecb e).OS_EventPtr ≠ 0 := by rw [hptr]; exact hpq
      have hfill : 0 < (s.mqcb (s.ecb e).OS_EventPtr).OS_MQEntries := by
        rw [hptr, hring.2.2.2.2.2.1]; simp
      have hwait := OS_MsgQ_Wait_available s e timeout fuel he htype hq hfill
      rw [hptr] at hwait
      obtain ⟨hm, hring'⟩ := RingHolds_get s pq st N o m pend hring hN
      rw [hm] at hwait
      obtain ⟨s', hs'⟩ := ih (getState s pq) ((o + 1) % N) pend (by simpa using hn) htype hptr
        hring'
      exact ⟨s', by simp [waitMany, hwait, hs']⟩

/-- C11: FIFO with bounded capacity.  For a message-queue ECB on a queue of
capacity `N` that is empty (fill 0, `in = out` anywhere in the ring) and has no
task waiting on it, sending the messages `ms` returns `OS_ERR_NONE` for the
first `min k N` of them and `OS_ERR_Q_FULL` for the rest (`k` the number of
messages), and the following `min k N` calls of `OS_MsgQ_Wait` return the first
`min k N` messages in the order sent, each with `OS_ERR_NONE`. -/
theorem fifo_bounded_capacity (s : Kernel) (sh : Shape) (e fuel timeout N : Nat) (ms : List Nat)
    (hwf : WF s sh) (he : e ≠ 0)
    (htype : (s.ecb e).OS_EventType = OS_EVENT_TYPE_MQ) (hq : (s.ecb e).OS_EventPtr ≠ 0)
    (hsize : (s.mqcb (s.ecb e).OS_EventPtr).OS_MQSize = N) (hN : N < 2 ^ 16)
    (hend : (s.mqcb (s.ecb e).OS_EventPtr).OS_MQEnd = (s.mqcb (s.ecb e).OS_EventPtr).OS_MQStart + N)
    (hempty : (s.mqcb (s.ecb e).OS_EventPtr).OS_MQEntries = 0)
    (hcur : (s.mqcb (s.ecb e).OS_EventPtr).OS_MQIn = (s.mqcb (s.ecb e).OS_EventPtr).OS_MQOut)
    (hlo : (s.mqcb (s.ecb e).OS_EventPtr).OS_MQStart ≤ (s.mqcb (s.ecb e).OS_EventPtr).OS_MQOut)
    (hhi : 0 < N →
      (s.mqcb (s.ecb e).OS_EventPtr).OS_MQOut < (s.mqcb (s.ecb e).OS_EventPtr).OS_MQEnd)
    (hno : ∀ q, q < MAX_TASKS_IN_LIST → ∀ k ∈ sh .waiting q, ¬ waitsOn s e k)
    (hfuel : (allNodes sh).length + MAX_TASKS_IN_LIST ≤ fuel) :
    ∃ s1 s2,
      sendMany fuel e ms s =
        .ok (List.replicate (min ms.length N) OS_ERR_NONE ++
             List.replicate (ms.length - min ms.length N) OS_ERR_Q_FULL, s1) ∧
      waitMany fuel e timeout (min ms.length N) s1 =
        .ok ((ms.take (min ms.length N)).map fun m => WaitOutcome.returned m OS_ERR_NONE, s2) := by
  set pq := (s.ecb e).OS_EventPtr with hpq
  set st := (s.mqcb pq).OS_MQStart with hst
  have hring : RingHolds s pq st N ((s.mqcb pq).OS_MQOut - st) [] := by
    refine ⟨rfl, hend, hsize, by omega, ?_, hempty, by simp, fun h => by have := hhi h; omega,
      by simp⟩
    simp only [List.length_nil, Nat.add_zero]
    by_cases h0 : 0 < N
    · have := hhi h0
      rw [Nat.mod_eq_of_lt (by omega)]
      omega
    · have : N = 0 := by omega
      subst this
      rw [Nat.mod_zero]
      omega
  obtain ⟨s1, hs1, hidle1, hring1⟩ := sendMany_spec sh e pq st N _ fuel he hq hN hfuel ms s []
    ⟨hwf, htype, rfl, hno⟩ hring
  simp only [List.length_nil, Nat.sub_zero, List.nil_append] at hs1 hring1
  obtain ⟨s2, hs2⟩ := waitMany_spec e pq st N fuel timeout he hq hN (min ms.length N) s1 _
    (ms.take N) (by simp [List.length_take]) hidle1.2.1 hidle1.2.2.1 hring1
  refine ⟨s1, s2, hs1, ?_⟩
  rw [hs2, List.take_take, Nat.min_assoc, Nat.min_self]

/-! ## Inversion of the fault monad -/

theorem bind_eq_ok {α β : Type} (x : Except Fault α) (f : α → Except Fault β) (b : β) :
    (x >>= f) = .ok b ↔ ∃ a, x = .ok a ∧ f a = .ok b := by
  cases x with
  | error e => simp [bind, Except.bind]
  | ok a => simp [bind, Except.bind]

theorem Q_ASSERT_eq_ok (c : Prop) [Decidable c] (u : Unit) : Q_ASSERT c = .ok u ↔ c := by
  unfold Q_ASSERT
  split_ifs with h <;> simp [h]

theorem rdNode_eq_ok (s : Kernel) (p : Nat) (v : Task_List_Node) :
    rdNode s p = .ok v ↔ p ≠ 0 ∧ s.node p = v := by
  unfold rdNode
  split_ifs with h <;> simp [h]

theorem rdTcb_eq_ok (s : Kernel) (p : Nat) (v : OS_TCB) :
    rdTcb s p = .ok v ↔ p ≠ 0 ∧ s.tcb p = v := by
  unfold rdTcb
  split_ifs with h <;> simp [h]

theorem rdEcb_eq_ok (s : Kernel) (p : Nat) (v : OS_EVENT) :
    rdEcb s p = .ok v ↔ p ≠ 0 ∧ s.ecb p = v := by
  unfold rdEcb
  split_ifs with h <;> simp [h]

theorem rdMq_eq_ok (s : Kernel) (p : Nat) (v : OS_MQ) :
    rdMq s p = .ok v ↔ p ≠ 0 ∧ s.mqcb p = v := by
  unfold rdMq
  split_ifs with h <;> simp [h]

theorem wrNode_eq_ok (s : Kernel) (p : Nat) (v : Task_List_Node) (s' : Kernel) :
    wrNode s p v = .ok s' ↔ p ≠ 0 ∧ { s with node := Function.update s.node p v } = s' := by
  unfold wrNode
  split_ifs with h <;> simp [h]

theorem wrTcb_eq_ok (s : Kernel) (p : Nat) (v : OS_TCB) (s' : Kernel) :
    wrTcb s p v = .ok s' ↔ p ≠ 0 ∧ { s with tcb := Function.update s.tcb p v } = s' := by
  unfold wrTcb
  split_ifs with h <;> simp [h]

theorem wrEcb_eq_ok (s : Kernel) (p : Nat) (v : OS_EVENT) (s' : Kernel) :
    wrEcb s p v = .ok s' ↔ p ≠ 0 ∧ { s with ecb := Function.update s.ecb p v } = s' := by
  unfold wrEcb
  split_ifs with h <;> simp [h]

theorem wrMq_eq_ok (s : Kernel) (p : Nat) (v : OS_MQ) (s' : Kernel) :
    wrMq s p v = .ok s' ↔ p ≠ 0 ∧ { s with mqcb := Function.update s.mqcb p v } = s' := by
  unfold wrMq
  split_ifs with h <;> simp [h]

theorem setNext_eq_ok (s : Kernel) (p v : Nat) (s' : Kernel) :
    setNext s p v = .ok s' ↔
      p ≠ 0 ∧ { s with node := Function.update s.node p { s.node p with next := v } } = s' := by
  unfold setNext
  exact wrNode_eq_ok _ _ _ _

theorem setPrev_eq_ok (s : Kernel) (p v : Nat) (s' : Kernel) :
    setPrev s p v = .ok s' ↔
      p ≠ 0 ∧ { s with node := Function.update s.node p { s.node p with prev := v } } = s' := by
  unfold setPrev
  exact wrNode_eq_ok _ _ _ _

theorem pure_eq_ok_iff {α : Type} (a b : α) : (pure a : Except Fault α) = .ok b ↔ a = b := by
  simp [pure, Except.pure]

theorem error_ne_ok {α : Type} (e : Fault) (b : α) : (Except.error e : Except Fault α) = .ok b ↔ False := by
  simp

/-! ## What the list operations leave alone -/

theorem SameObjs.refl (s : Kernel) : SameObjs s s := ⟨rfl, rfl, rfl, rfl, rfl⟩

theorem SameObjs.trans {s1 s2 s3 : Kernel} (h1 : SameObjs s1 s2) (h2 : SameObjs s2 s3) :
    SameObjs s1 s3 :=
  ⟨h2.1.trans h1.1, h2.2.1.trans h1.2.1, h2.2.2.1.trans h1.2.2.1, h2.2.2.2.1.trans h1.2.2.2.1,
    h2.2.2.2.2.trans h1.2.2.2.2⟩

theorem SameObjs_node (s : Kernel) (nd : Nat → Task_List_Node) : SameObjs s { s with node := nd } :=
  ⟨rfl, rfl, rfl, rfl, rfl⟩

theorem SameObjs_tcb (s : Kernel) (t : Nat → OS_TCB) : SameObjs s { s with tcb := t } :=
  ⟨rfl, rfl, rfl, rfl, rfl⟩

theorem SameObjs_setList (s : Kernel) (L : ListId) (v : Task_List) : SameObjs s (s.setList L v) := by
  cases L <;> exact ⟨rfl, rfl, rfl, rfl, rfl⟩

theorem SameObjs_setHead (s : Kernel) (L : ListId) (i v : Nat) : SameObjs s (s.setHead L i v) :=
  SameObjs_setList _ _ _

theorem SameObjs_setBitMap (s : Kernel) (L : ListId) (v : Nat) : SameObjs s (s.setBitMap L v) :=
  SameObjs_setList _ _ _

theorem setNext_same {s s' : Kernel} {p v : Nat} (h : setNext s p v = .ok s') : SameObjs s s' := by
  rw [setNext_eq_ok] at h
  rw [← h.2]
  exact SameObjs_node _ _

theorem setPrev_same {s s' : Kernel} {p v : Nat} (h : setPrev s p v = .ok s') : SameObjs s s' := by
  rw [setPrev_eq_ok] at h
  rw [← h.2]
  exact SameObjs_node _ _

theorem wrNode_same {s s' : Kernel} {p : Nat} {v : Task_List_Node} (h : wrNode s p v = .ok s') :
    SameObjs s s' := by
  rw [wrNode_eq_ok] at h
  rw [← h.2]
  exact SameObjs_node _ _

theorem wrTcb_same {s s' : Kernel} {p : Nat} {v : OS_TCB} (h : wrTcb s p v = .ok s') :
    SameObjs s s' := by
  rw [wrTcb_eq_ok] at h
  rw [← h.2]
  exact SameObjs_tcb _ _

theorem add_same {fuel n L : Nat} {s s' : Kernel}
    (h : os_utilsAddTaskToListByNode fuel n L s = .ok s') : SameObjs s s' := by
  unfold os_utilsAddTaskToListByNode at h
  simp only [bind_eq_ok, Q_ASSERT_eq_ok] at h
  obtain ⟨nd, -, t, -, -, -, h⟩ := h
  split at h
  · simp at h
  · rename_i L' _
    split_ifs at h
    · simp only [bind_eq_ok, pure_eq_ok_iff] at h
      obtain ⟨s1, h1, h2⟩ := h
      rw [← h2, ← h1]
      exact (SameObjs_setHead _ _ _ _).trans (SameObjs_setBitMap _ _ _)
    · simp only [bind_eq_ok, pure_eq_ok_iff] at h
      obtain ⟨x, -, s2, h3, s3, h4, h5⟩ := h
      rw [← h5]
      exact ((setNext_same h3).trans (setPrev_same h4)).trans (SameObjs_setBitMap _ _ _)

theorem OS_sched_inv {fuel : Nat} {s s' : Kernel} (h : OS_sched fuel s = .ok s') :
    ∃ t, s' = schedState s t ∧
      ((s.ReadyTaskList.TaskRriorityBitMap = 0 ∧ s.ReadyTaskList.TaskList 0 ≠ 0 ∧
          t = (s.node (s.ReadyTaskList.TaskList 0)).pTcb) ∨
        (s.ReadyTaskList.TaskRriorityBitMap ≠ 0 ∧ os_schedGetNextTaskToRun fuel s = .ok t ∧
          t ≠ 0)) := by
  unfold OS_sched at h
  split_ifs at h with hb
  · simp only [bind_eq_ok, rdNode_eq_ok, pure_eq_ok_iff] at h
    obtain ⟨hd, ⟨h0, h1⟩, t, h2, h3⟩ := h
    refine ⟨t, ?_, Or.inl ⟨hb, h0, by rw [← h2, ← h1]⟩⟩
    unfold schedState
    split_ifs at h3 ⊢
    · rw [pure_eq_ok_iff] at h3; exact h3.symm
    · rw [pure_eq_ok_iff] at h3; exact h3.symm
  · simp only [bind_eq_ok, Q_ASSERT_eq_ok, pure_eq_ok_iff] at h
    obtain ⟨t', h1, -, h2, t, h3, h4⟩ := h
    subst h3
    refine ⟨t', ?_, Or.inr ⟨hb, h1, h2⟩⟩
    unfold schedState
    split_ifs at h4 ⊢
    · rw [pure_eq_ok_iff] at h4; exact h4.symm
    · rw [pure_eq_ok_iff] at h4; exact h4.symm

theorem schedState_same (s : Kernel) (t : Nat) : SameObjs s (schedState s t) := by
  unfold schedState TRIGER_PENDSV_INT
  split_ifs <;> exact ⟨rfl, rfl, rfl, rfl, rfl⟩

theorem OS_sched_same {fuel : Nat} {s s' : Kernel} (h : OS_sched fuel s = .ok s') :
    SameObjs s s' := by
  obtain ⟨t, rfl, -⟩ := OS_sched_inv h
  exact schedState_same s t

theorem removeByTcb_same {fuel t L n : Nat} {s s' : Kernel}
    (h : os_utilsRemoveFromListByTaskTcb fuel t L s = .ok (n, s')) : SameObjs s s' := by
  unfold os_utilsRemoveFromListByTaskTcb at h
  simp only [bind_eq_ok, Q_ASSERT_eq_ok] at h
  obtain ⟨tc, -, -, -, h⟩ := h
  split at h
  · simp at h
  · rename_i L' _
    simp only [bind_eq_ok] at h
    obtain ⟨hd, -, h⟩ := h
    split_ifs at h
    · simp only [pure_eq_ok_iff, Prod.mk.injEq] at h
      rw [← h.2]
      exact (SameObjs_setHead _ _ _ _).trans (SameObjs_setBitMap _ _ _)
    · simp only [pure_eq_ok_iff, Prod.mk.injEq] at h
      rw [← h.2]
      exact SameObjs.refl _
    · simp only [bind_eq_ok] at h
      obtain ⟨w, -, h⟩ := h
      split_ifs at h
      · simp only [pure_eq_ok_iff, Prod.mk.injEq] at h
        rw [← h.2]
        exact SameObjs.refl _
      · simp only [bind_eq_ok, pure_eq_ok_iff, Prod.mk.injEq] at h
        obtain ⟨nd, -, h⟩ := h
        split_ifs at h
        · simp only [bind_eq_ok, pure_eq_ok_iff, Prod.mk.injEq] at h
          obtain ⟨s1, h1, s3, h3, s4, h4, -, h5⟩ := h
          rw [← h5]
          exact ((setNext_same h1).trans (setPrev_same h3)).trans (setNext_same h4)
        · simp only [bind_eq_ok, pure_eq_ok_iff, Prod.mk.injEq] at h
          obtain ⟨s2, h1, s1, h2, s3, h3, s4, h4, -, h5⟩ := h
          rw [← h5]
          refine (((setPrev_same h1).trans ?_).trans (setPrev_same h3)).trans (setNext_same h4)
          rw [← h2]
          exact SameObjs_setHead _ _ _ _
        · simp only [bind_eq_ok, pure_eq_ok_iff, Prod.mk.injEq] at h
          obtain ⟨s2, h1, s1, h2, s3, h3, s4, h4, -, h5⟩ := h
          rw [← h5]
          exact (((setNext_same h1).trans (setPrev_same h2)).trans (setPrev_same h3)).trans
            (setNext_same h4)

theorem hptUnlink_same {index pTcb pTask : Nat} {s s' : Kernel}
    (h : hptUnlink s index pTcb pTask = .ok s') : SameObjs s s' := by
  unfold hptUnlink at h
  simp only [bind_eq_ok] at h
  obtain ⟨nd, -, h⟩ := h
  split_ifs at h
  · simp only [bind_eq_ok, pure_eq_ok_iff] at h
    obtain ⟨t, -, s1, h1, s3, h3, h4⟩ := h
    refine ((?_ : SameObjs s s1).trans (setPrev_same h3)).trans (setNext_same h4)
    rw [← h1]
    exact (SameObjs_setHead _ _ _ _).trans (SameObjs_setBitMap _ _ _)
  · simp only [bind_eq_ok, pure_eq_ok_iff] at h
    obtain ⟨s1, h1, s3, h3, h4⟩ := h
    exact (((SameObjs_setHead _ _ _ _).trans (setPrev_same h1)).trans (setPrev_same h3)).trans
      (setNext_same h4)
  · simp only [bind_eq_ok, pure_eq_ok_iff] at h
    obtain ⟨s1, h1, s3, h3, h4⟩ := h
    exact ((setNext_same h1).trans (setPrev_same h3)).trans (setNext_same h4)
  · simp only [bind_eq_ok, pure_eq_ok_iff] at h
    obtain ⟨s1, h1, s2, h2, s3, h3, h4⟩ := h
    exact (((setNext_same h1).trans (setPrev_same h2)).trans (setPrev_same h3)).trans
      (setNext_same h4)

theorem hptInner_same {e index pTcb : Nat} {s : Kernel} (fuel pTask : Nat) {n : Nat} {s' : Kernel}
    (h : hptInner s e index pTcb fuel pTask = .ok (some (n, s'))) : SameObjs s s' := by
  induction fuel generalizing pTask with
  | zero => simp [hptInner] at h
  | succ fuel ih =>
    unfold hptInner at h
    split_ifs at h
    · simp [pure_eq_ok_iff] at h
    · simp only [bind_eq_ok] at h
      obtain ⟨t, -, h⟩ := h
      split_ifs at h
      · simp only [bind_eq_ok, pure_eq_ok_iff, Option.some.injEq, Prod.mk.injEq] at h
        obtain ⟨s1, h1, -, h2⟩ := h
        rw [← h2]
        exact hptUnlink_same h1
      · exact ih _ h

theorem hptOuter_same {inner e : Nat} {s : Kernel} (fuel ws : Nat) {n : Nat} {s' : Kernel}
    (h : hptOuter inner e s fuel ws = .ok (n, s')) : SameObjs s s' := by
  induction fuel generalizing ws with
  | zero => simp [hptOuter] at h
  | succ fuel ih =>
    unfold hptOuter at h
    split_ifs at h
    · simp only [pure_eq_ok_iff, Prod.mk.injEq] at h
      rw [← h.2]
      exact SameObjs.refl _
    · simp only [bind_eq_ok, Q_ASSERT_eq_ok] at h
      obtain ⟨nd, -, -, -, t, -, r, hr, h⟩ := h
      cases r with
      | none => exact ih _ h
      | some r =>
        obtain ⟨n', s1⟩ := r
        simp only [pure_eq_ok_iff, Prod.mk.injEq] at h
        rw [← h.2]
        exact hptInner_same _ _ hr

theorem HPT_same {fuel e n : Nat} {s s' : Kernel}
    (h : os_utilsRemoveFromWaitingListHPT fuel e s = .ok (n, s')) : SameObjs s s' :=
  hptOuter_same _ _ h

theorem OS_EventTaskWait_same {fuel t : Nat} {s s' : Kernel}
    (h : OS_EventTaskWait fuel t s = .ok s') : SameObjs s s' := by
  unfold OS_EventTaskWait at h
  simp only [bind_eq_ok, Q_ASSERT_eq_ok] at h
  obtain ⟨⟨n, s1⟩, h1, -, -, h2⟩ := h
  exact (removeByTcb_same h1).trans (add_same h2)

theorem OS_EventTaskReady_same {fuel e a b c st : Nat} {s s' : Kernel}
    (h : OS_EventTaskReady fuel e a b c s = .ok (st, s')) : SameObjs s s' := by
  unfold OS_EventTaskReady at h
  simp only [bind_eq_ok] at h
  obtain ⟨⟨n, s1⟩, h1, h⟩ := h
  split_ifs at h
  · simp only [bind_eq_ok, pure_eq_ok_iff, Prod.mk.injEq] at h
    obtain ⟨s2, h2, -, h3⟩ := h
    rw [← h3]
    exact (HPT_same h1).trans (add_same h2)
  · simp only [pure_eq_ok_iff, Prod.mk.injEq] at h
    rw [← h.2]
    exact HPT_same h1

/-- What a returning `OS_MsgQ_Send` does to the ECBs and MQCBs: nothing, or one
message is put into the ring of the queue of the event, which was not full. -/
theorem OS_MsgQ_Send_inv {fuel e m st : Nat} {s s' : Kernel}
    (h : OS_MsgQ_Send fuel e m s = .ok (st, s')) :
    s'.ecb = s.ecb ∧
      (s'.mqcb = s.mqcb ∨
        ((s.mqcb (s.ecb e).OS_EventPtr).OS_MQEntries < (s.mqcb (s.ecb e).OS_EventPtr).OS_MQSize ∧
          s'.mqcb = Function.update s.mqcb (s.ecb e).OS_EventPtr
            (mqPut (s.mqcb (s.ecb e).OS_EventPtr)))) := by
  by_cases he : e = 0
  · simp [OS_MsgQ_Send, rdEcb, he] at h
  by_cases htype : (s.ecb e).OS_EventType = OS_EVENT_TYPE_MQ
  swap
  · simp only [OS_MsgQ_Send, rdEcb_ok s he, ok_bind, ne_eq, htype, not_false_eq_true, ↓reduceIte,
      pure_eq_ok_iff, Prod.mk.injEq] at h
    rw [← h.2]
    exact ⟨rfl, Or.inl rfl⟩
  by_cases hq : (s.ecb e).OS_EventPtr = 0
  · simp [OS_MsgQ_Send, rdEcb_ok s he, htype, rdMq, hq] at h
  by_cases hfill : (s.mqcb (s.ecb e).OS_EventPtr).OS_MQEntries
      < (s.mqcb (s.ecb e).OS_EventPtr).OS_MQSize
  swap
  · have hge : (s.mqcb (s.ecb e).OS_EventPtr).OS_MQEntries
        ≥ (s.mqcb (s.ecb e).OS_EventPtr).OS_MQSize := by omega
    simp only [OS_MsgQ_Send, rdEcb_ok s he, ok_bind, ne_eq, htype, not_true_eq_false, ↓reduceIte,
      rdMq_ok s hq, hge, pure_eq_ok_iff, Prod.mk.injEq] at h
    rw [← h.2]
    exact ⟨rfl, Or.inl rfl⟩
  rw [OS_MsgQ_Send_put s e m fuel he htype hq hfill] at h
  have key : SameObjs (putState s (s.ecb e).OS_EventPtr m) s' := by
    split_ifs at h
    · simp only [bind_eq_ok] at h
      obtain ⟨⟨status, s3⟩, h3, h⟩ := h
      split_ifs at h
      · simp only [bind_eq_ok, pure_eq_ok_iff, Prod.mk.injEq] at h
        obtain ⟨s4, h4, -, h5⟩ := h
        rw [← h5]
        exact (OS_EventTaskReady_same h3).trans (OS_sched_same h4)
      · simp only [pure_eq_ok_iff, Prod.mk.injEq] at h
        rw [← h.2]
        exact OS_EventTaskReady_same h3
    · simp only [pure_eq_ok_iff, Prod.mk.injEq] at h
      rw [← h.2]
      exact SameObjs.refl _
  refine ⟨?_, Or.inr ⟨hfill, ?_⟩⟩
  · rw [key.1]; rfl
  · rw [key.2.1]; rfl

/-- What a returning pass of `OS_MsgQ_Wait` does to the ECBs and MQCBs: nothing,
or one message is taken from the ring of the queue of the event, which was not
empty. -/
theorem OS_MsgQ_Wait_inv {fuel e timeout : Nat} {r : WaitOutcome} {s s' : Kernel}
    (h : OS_MsgQ_Wait fuel e timeout s = .ok (r, s')) :
    s'.ecb = s.ecb ∧
      (s'.mqcb = s.mqcb ∨
        (0 < (s.mqcb (s.ecb e).OS_EventPtr).OS_MQEntries ∧
          s'.mqcb = Function.update s.mqcb (s.ecb e).OS_EventPtr
            (mqGet (s.mqcb (s.ecb e).OS_EventPtr)))) := by
  by_cases he : e = 0
  · simp [OS_MsgQ_Wait, rdEcb, he] at h
  by_cases htype : (s.ecb e).OS_EventType = OS_EVENT_TYPE_MQ
  swap
  · simp only [OS_MsgQ_Wait, rdEcb_ok s he, ok_bind, ne_eq, htype, not_false_eq_true, ↓reduceIte,
      pure_eq_ok_iff, Prod.mk.injEq] at h
    rw [← h.2]
    exact ⟨rfl, Or.inl rfl⟩
  by_cases hq : (s.ecb e).OS_EventPtr = 0
  · simp [OS_MsgQ_Wait, rdEcb_ok s he, htype, rdMq, hq] at h
  by_cases hfill : 0 < (s.mqcb (s.ecb e).OS_EventPtr).OS_MQEntries
  · rw [OS_MsgQ_Wait_available s e timeout fuel he htype hq hfill] at h
    simp only [Except.ok.injEq, Prod.mk.injEq] at h
    rw [← h.2]
    exact ⟨rfl, Or.inr ⟨hfill, rfl⟩⟩
  · have hnot : ¬ (s.mqcb (s.ecb e).OS_EventPtr).OS_MQEntries > 0 := hfill
    simp only [OS_MsgQ_Wait, rdEcb_ok s he, ok_bind, ne_eq, htype, not_true_eq_false, ↓reduceIte,
      rdMq_ok s hq, hnot, bind_eq_ok, rdTcb_eq_ok, pure_eq_ok_iff, Prod.mk.injEq] at h
    obtain ⟨c, -, s1, h1, s2, h2, s3, h3, -, h4⟩ := h
    have key := ((wrTcb_same h1).trans (OS_EventTaskWait_same h2)).trans (OS_sched_same h3)
    rw [← h4]
    exact ⟨key.1, Or.inl key.2.1⟩

/-! ## The ring invariant -/

theorem RingInv_put (q : OS_MQ) (h : RingInv q) (hlt : q.OS_MQEntries < q.OS_MQSize) :
    RingInv (mqPut q) := by
  obtain ⟨h1, h2, h3, h4, h5, h6, h7, h8⟩ := h
  obtain ⟨-, f1, f2, f3, f4, f5, f6⟩ := mqPut_fields q
  have he : (mqPut q).OS_MQEntries = q.OS_MQEntries + 1 := by
    rw [f5]; exact Nat.mod_eq_of_lt (by omega)
  have hmod : ((q.OS_MQIn : Int) - q.OS_MQOut) ≡ (q.OS_MQEntries : Int) [ZMOD q.OS_MQSize] := h8
  have hN0 : ((q.OS_MQSize : Nat) : Int) ≡ 0 [ZMOD q.OS_MQSize] := by simp [Int.ModEq]
  unfold RingInv
  rw [f1, f2, f3, f4, he, f6]
  refine ⟨h1, h2, by omega, ?_, ?_, h6, h7, ?_⟩
  · split_ifs <;> omega
  · split_ifs <;> omega
  · show _ ≡ _ [ZMOD _]
    split_ifs with hw
    · have e1 : ((q.OS_MQStart : Nat) : Int) - q.OS_MQOut
          = ((q.OS_MQIn : Int) - q.OS_MQOut + 1) - (q.OS_MQSize : Int) := by
        have : (q.OS_MQIn : Int) + 1 = (q.OS_MQStart : Int) + (q.OS_MQSize : Int) := by
          rw [h1] at hw; exact_mod_cast hw
        linarith
      rw [e1]
      have := ((hmod.add_right 1).sub hN0)
      simpa using this
    · have := hmod.add_right 1
      push_cast
      have e2 : ((q.OS_MQIn : Int) + 1 - q.OS_MQOut) = (q.OS_MQIn : Int) - q.OS_MQOut + 1 := by ring
      rw [e2]
      exact this

theorem RingInv_get (q : OS_MQ) (h : RingInv q) (hpos : 0 < q.OS_MQEntries) :
    RingInv (mqGet q) := by
  obtain ⟨h1, h2, h3, h4, h5, h6, h7, h8⟩ := h
  obtain ⟨-, f1, f2, f3, f4, f5, f6⟩ := mqGet_fields q
  have he : (mqGet q).OS_MQEntries = q.OS_MQEntries - 1 := by
    rw [f5]; exact dec16 _ hpos (by omega)
  have hmod : ((q.OS_MQIn : Int) - q.OS_MQOut) ≡ (q.OS_MQEntries : Int) [ZMOD q.OS_MQSize] := h8
  have hN0 : ((q.OS_MQSize : Nat) : Int) ≡ 0 [ZMOD q.OS_MQSize] := by simp [Int.ModEq]
  unfold RingInv
  rw [f1, f2, f3, f4, he, f6]
  refine ⟨h1, h2, by omega, h4, h5, ?_, ?_, ?_⟩
  · split_ifs <;> omega
  · split_ifs <;> omega
  · show _ ≡ _ [ZMOD _]
    have hcast : ((q.OS_MQEntries - 1 : Nat) : Int) = (q.OS_MQEntries : Int) - 1 := by
      rw [Nat.cast_sub hpos]; simp
    rw [hcast]
    split_ifs with hw
    · have e1 : (q.OS_MQIn : Int) - ((q.OS_MQStart : Nat) : Int)
          = ((q.OS_MQIn : Int) - q.OS_MQOut - 1) + (q.OS_MQSize : Int) := by
        have : (q.OS_MQOut : Int) + 1 = (q.OS_MQStart : Int) + (q.OS_MQSize : Int) := by
          rw [h1] at hw; exact_mod_cast hw
        linarith
      rw [e1]
      have := ((hmod.sub_right 1).add hN0)
      simpa using this
    · have := hmod.sub_right 1
      push_cast
      have e2 : ((q.OS_MQIn : Int) - (q.OS_MQOut + 1)) = (q.OS_MQIn : Int) - q.OS_MQOut - 1 := by
        ring
      rw [e2]
      exact this

theorem RingInv_full (q : OS_MQ) (h : RingInv q) (hfull : q.OS_MQEntries = q.OS_MQSize) :
    q.OS_MQIn = q.OS_MQOut := by
  obtain ⟨h1, h2, h3, h4, h5, h6, h7, h8⟩ := h
  rw [hfull, Int.emod_self] at h8
  have hdvd : (q.OS_MQSize : Int) ∣ (q.OS_MQIn : Int) - q.OS_MQOut := Int.dvd_of_emod_eq_zero h8
  obtain ⟨c, hc⟩ := hdvd
  have hlt1 : (q.OS_MQIn : Int) - q.OS_MQOut < q.OS_MQSize := by omega
  have hlt2 : -(q.OS_MQSize : Int) < (q.OS_MQIn : Int) - q.OS_MQOut := by omega
  have hpos : (0 : Int) < q.OS_MQSize := by omega
  have hc0 : c = 0 := by
    rw [hc] at hlt1 hlt2
    have h3 : c < 1 := by
      by_contra hcon
      have : (q.OS_MQSize : Int) * 1 ≤ q.OS_MQSize * c :=
        Int.mul_le_mul_of_nonneg_left (by omega) (le_of_lt hpos)
      omega
    have h4 : -1 < c := by
      by_contra hcon
      have : (q.OS_MQSize : Int) * c ≤ q.OS_MQSize * (-1) :=
        Int.mul_le_mul_of_nonneg_left (by omega) (le_of_lt hpos)
      omega
    omega
  rw [hc0] at hc
  simp at hc
  omega

/-- The MQCB at `pq` keeps its ring invariant, its base and its capacity along
sends and waits. -/
theorem MsgQReach_inv (s0 : Kernel) (pq : Nat) (h0 : RingInv (s0.mqcb pq)) (s : Kernel)
    (h : MsgQReach s0 s) :
    s.ecb = s0.ecb ∧ RingInv (s.mqcb pq) ∧ (s.mqcb pq).OS_MQStart = (s0.mqcb pq).OS_MQStart ∧
      (s.mqcb pq).OS_MQSize = (s0.mqcb pq).OS_MQSize := by
  induction h with
  | start => exact ⟨rfl, h0, rfl, rfl⟩
  | send fuel e m st s s' _ hsend ih =>
    obtain ⟨i1, i2, i3, i4⟩ := ih
    obtain ⟨g1, g2⟩ := OS_MsgQ_Send_inv hsend
    refine ⟨g1.trans i1, ?_⟩
    rcases g2 with g2 | ⟨hlt, g2⟩
    · rw [g2]; exact ⟨i2, i3, i4⟩
    · rw [g2]
      by_cases hp : pq = (s.ecb e).OS_EventPtr
      · subst hp
        rw [Function.update_same]
        obtain ⟨-, f1, -, -, f4, -, -⟩ := mqPut_fields (s.mqcb (s.ecb e).OS_EventPtr)
        exact ⟨RingInv_put _ i2 hlt, f1.trans i3, f4.trans i4⟩
      · rw [Function.update_noteq hp]; exact ⟨i2, i3, i4⟩
  | wait fuel e timeout r s s' _ hwait ih =>
    obtain ⟨i1, i2, i3, i4⟩ := ih
    obtain ⟨g1, g2⟩ := OS_MsgQ_Wait_inv hwait
    refine ⟨g1.trans i1, ?_⟩
    rcases g2 with g2 | ⟨hpos, g2⟩
    · rw [g2]; exact ⟨i2, i3, i4⟩
    · rw [g2]
      by_cases hp : pq = (s.ecb e).OS_EventPtr
      · subst hp
        rw [Function.update_same]
        obtain ⟨-, f1, -, -, f4, -, -⟩ := mqGet_fields (s.mqcb (s.ecb e).OS_EventPtr)
        exact ⟨RingInv_get _ i2 hpos, f1.trans i3, f4.trans i4⟩
      · rw [Function.update_noteq hp]; exact ⟨i2, i3, i4⟩

/-- The result of `OS_MsgQ_Create` when both pools hold a free block. -/
theorem OS_MsgQ_Create_ok (s : Kernel) (start size : Nat)
    (hE : s.OSEventFreeList ≠ 0) (hQ : s.OS_MQcb_FreeList ≠ 0) :
    ∃ s1, OS_MsgQ_Create start size s = .ok (s.OSEventFreeList, s1) ∧
      s1.ecb s.OSEventFreeList = ⟨OS_EVENT_TYPE_MQ, s.OS_MQcb_FreeList, 0, "MsgQ"⟩ ∧
      s1.mqcb s.OS_MQcb_FreeList =
        ⟨(s.mqcb s.OS_MQcb_FreeList).OS_MQPtr, start, start + size % 2 ^ 16, start, start,
          size % 2 ^ 16, 0⟩ ∧
      s1.OSEventFreeList = (s.ecb s.OSEventFreeList).OS_EventPtr ∧
      s1.OS_MQcb_FreeList = (s.mqcb s.OS_MQcb_FreeList).OS_MQPtr := by
  unfold OS_MsgQ_Create
  simp only [ne_eq, hE, not_false_eq_true, ↓reduceIte, hQ, pure_eq_ok]
  refine ⟨_, rfl, ?_, ?_, rfl, rfl⟩
  · simp
  · simp

/-- C12 (amended): for a capacity `N` of at least 1, `OS_MsgQ_Create start N` with a
free ECB and a free MQCB returns the ECB, whose MQCB has base `= in = out =
start`, `end = start + N`, capacity `N` and fill 0; and in every state reached
from there by sends and waits the ECB is unchanged and the MQCB keeps its base
and capacity and satisfies `fill ≤ N`, both cursors in `[base, end)`,
`(in - out) mod N = fill mod N`, and `in = out` when `fill = N`. -/
theorem ring_invariant (s : Kernel) (start N : Nat) (hN1 : 1 ≤ N) (hN : N < 2 ^ 16)
    (hE : s.OSEventFreeList ≠ 0) (hQ : s.OS_MQcb_FreeList ≠ 0) :
    ∃ s1, OS_MsgQ_Create start N s = .ok (s.OSEventFreeList, s1) ∧
      (s1.ecb s.OSEventFreeList).OS_EventType = OS_EVENT_TYPE_MQ ∧
      (s1.ecb s.OSEventFreeList).OS_EventPtr = s.OS_MQcb_FreeList ∧
      (s1.mqcb s.OS_MQcb_FreeList).OS_MQStart = start ∧
      (s1.mqcb s.OS_MQcb_FreeList).OS_MQIn = start ∧
      (s1.mqcb s.OS_MQcb_FreeList).OS_MQOut = start ∧
      (s1.mqcb s.OS_MQcb_FreeList).OS_MQEnd = start + N ∧
      (s1.mqcb s.OS_MQcb_FreeList).OS_MQSize = N ∧
      (s1.mqcb s.OS_MQcb_FreeList).OS_MQEntries = 0 ∧
      ∀ s2, MsgQReach s1 s2 →
        s2.ecb s.OSEventFreeList = s1.ecb s.OSEventFreeList ∧
        (s2.mqcb s.OS_MQcb_FreeList).OS_MQStart = start ∧
        (s2.mqcb s.OS_MQcb_FreeList).OS_MQEnd = start + N ∧
        (s2.mqcb s.OS_MQcb_FreeList).OS_MQSize = N ∧
        (s2.mqcb s.OS_MQcb_FreeList).OS_MQEntries ≤ N ∧
        start ≤ (s2.mqcb s.OS_MQcb_FreeList).OS_MQIn ∧
        (s2.mqcb s.OS_MQcb_FreeList).OS_MQIn < start + N ∧
        start ≤ (s2.mqcb s.OS_MQcb_FreeList).OS_MQOut ∧
        (s2.mqcb s.OS_MQcb_FreeList).OS_MQOut < start + N ∧
        (((s2.mqcb s.OS_MQcb_FreeList).OS_MQIn : Int) - (s2.mqcb s.OS_MQcb_FreeList).OS_MQOut) % N
          = ((s2.mqcb s.OS_MQcb_FreeList).OS_MQEntries : Int) % N ∧
        ((s2.mqcb s.OS_MQcb_FreeList).OS_MQEntries = N →
          (s2.mqcb s.OS_MQcb_FreeList).OS_MQIn = (s2.mqcb s.OS_MQcb_FreeList).OS_MQOut) := by
  obtain ⟨s1, hc, he, hq, -, -⟩ := OS_MsgQ_Create_ok s start N hE hQ
  have hmod : N % 2 ^ 16 = N := Nat.mod_eq_of_lt hN
  rw [hmod] at hq
  refine ⟨s1, hc, by rw [he], by rw [he], by rw [hq], by rw [hq], by rw [hq], by rw [hq],
    by rw [hq], by rw [hq], ?_⟩
  intro s2 hreach
  have h0 : RingInv (s1.mqcb s.OS_MQcb_FreeList) := by
    rw [hq]
    unfold RingInv
    refine ⟨rfl, hN, Nat.zero_le _, le_refl _, ?_, le_refl _, ?_, ?_⟩
    · show start < start + N
      omega
    · show start < start + N
      omega
    · simp
  obtain ⟨i1, i2, i3, i4⟩ := MsgQReach_inv s1 _ h0 s2 hreach
  have hst : (s2.mqcb s.OS_MQcb_FreeList).OS_MQStart = start := by rw [i3, hq]
  have hsz : (s2.mqcb s.OS_MQcb_FreeList).OS_MQSize = N := by rw [i4, hq]
  have hfull := RingInv_full _ i2
  obtain ⟨j1, j2, j3, j4, j5, j6, j7, j8⟩ := i2
  rw [hst, hsz] at j1
  rw [hsz] at j3 j8 hfull
  rw [hst] at j4 j6
  rw [j1] at j5 j7
  exact ⟨by rw [i1], hst, j1, hsz, j3, j4, j5, j6, j7, j8, hfull⟩

/-! ## Inversion of the list walks -/

theorem Seg_nil_of_zero {nd : Nat → Task_List_Node} {l : List Nat} {pv : Nat}
    (h : Seg nd pv 0 l 0) : l = [] := by
  cases l with
  | nil => rfl
  | cons x l =>
    obtain ⟨h1, h2, -, -⟩ := h
    exact absurd h1.symm h2

/-- A returning walk to the last node has visited the whole chain. -/
theorem lastNode_inv (s : Kernel) {l : List Nat} {pv hd x : Nat} (hseg : Seg s.node pv hd l 0)
    (fuel : Nat) (h : lastNode s fuel hd = .ok x) : l ≠ [] ∧ l.length ≤ fuel := by
  induction l generalizing pv hd fuel with
  | nil =>
    have h0 : hd = 0 := hseg
    subst h0
    cases fuel <;> simp [lastNode, rdNode] at h
  | cons y l ih =>
    obtain ⟨h1, h2, -, h4⟩ := hseg
    subst h1
    cases fuel with
    | zero => simp [lastNode] at h
    | succ fuel =>
      simp only [lastNode, rdNode_ok s h2, ok_bind] at h
      split_ifs at h with hn
      · have := ih h4 fuel h
        exact ⟨by simp, by simp; exact this.2⟩
      · have hn0 : (s.node hd).next = 0 := by simpa using hn
        rw [hn0] at h4
        have := Seg_nil_of_zero h4
        subst this
        exact ⟨by simp, by simp⟩

/-- A returning search for the node of a TCB has found the first such node of the
chain. -/
theorem findByTcb_inv (s : Kernel) (t : Nat) {l : List Nat} {pv hd w : Nat}
    (hseg : Seg s.node pv hd l 0) (fuel : Nat) (h : findByTcb s t fuel hd = .ok w) :
    ∃ l1 l2, l = l1 ++ w :: l2 ∧ (s.node w).pTcb = t ∧ (∀ k ∈ l1, (s.node k).pTcb ≠ t) ∧
      l1.length < fuel := by
  induction l generalizing pv hd fuel with
  | nil =>
    have h0 : hd = 0 := hseg
    subst h0
    cases fuel <;> simp [findByTcb, rdNode] at h
  | cons y l ih =>
    obtain ⟨h1, h2, -, h4⟩ := hseg
    subst h1
    cases fuel with
    | zero => simp [findByTcb] at h
    | succ fuel =>
      simp only [findByTcb, rdNode_ok s h2, ok_bind] at h
      split_ifs at h with hc
      · obtain ⟨l1, l2, e, hw, hl1, hf⟩ := ih h4 fuel h
        refine ⟨hd :: l1, l2, by simp [e], hw, ?_, by simp; omega⟩
        intro k hk
        rcases List.mem_cons.mp hk with e' | e'
        · subst e'; exact hc.1
        · exact hl1 k e'
      · rw [pure_eq_ok_iff] at h
        subst h
        have : (s.node hd).pTcb = t := by
          by_contra hne
          exact hc ⟨hne, h2⟩
        exact ⟨[], l, rfl, this, by simp, by simp⟩

/-- A returning walk of the scheduler has selected the TCB of a node of the slot. -/
theorem schedWalk_inv (s : Kernel) (index : Nat) (full : List Nat)
    (hyf : s.ReadyTaskList.TaskList index ∈ full)
    {l : List Nat} {pv hd : Nat} (hseg : Seg s.node pv hd l 0) (hsub : ∀ k ∈ l, k ∈ full)
    (fuel t : Nat) (h : schedWalk s index fuel hd = .ok t) :
    ∃ m ∈ full, t = (s.node m).pTcb := by
  induction l generalizing pv hd fuel with
  | nil =>
    have h0 : hd = 0 := hseg
    subst h0
    cases fuel with
    | zero => simp [schedWalk] at h
    | succ fuel =>
      simp only [schedWalk, ↓reduceIte, bind_eq_ok, rdNode_eq_ok, pure_eq_ok_iff] at h
      obtain ⟨nd, ⟨-, e1⟩, e2⟩ := h
      exact ⟨_, hyf, by rw [← e2, ← e1]⟩
  | cons x l ih =>
    obtain ⟨h1, h2, h3, h4⟩ := hseg
    subst h1
    cases fuel with
    | zero => simp [schedWalk] at h
    | succ fuel =>
      simp only [schedWalk, h2, ↓reduceIte] at h
      split_ifs at h with hc hn
      · simp only [bind_eq_ok, rdNode_eq_ok, pure_eq_ok_iff] at h
        obtain ⟨nd, ⟨-, e1⟩, e2⟩ := h
        have hmem : (s.node hd).next ∈ l := by
          have := Seg_head h4
          cases l with
          | nil => exact absurd this hn
          | cons z l => simp only [List.headD_cons] at this; rw [this]; exact List.mem_cons_self _ _
        exact ⟨_, hsub _ (List.mem_cons_of_mem _ hmem), by rw [← e2, ← e1]⟩
      · simp only [bind_eq_ok, rdNode_eq_ok, pure_eq_ok_iff] at h
        obtain ⟨nd, ⟨-, e1⟩, e2⟩ := h
        exact ⟨_, hyf, by rw [← e2, ← e1]⟩
      · exact ih h4 (fun k hk => hsub k (List.mem_cons_of_mem _ hk)) fuel h

/-- A returning `OS_sched` on well-formed lists has selected a TCB that is on
Ready. -/
theorem OS_sched_on_ready (s : Kernel) (sh : Shape) (hwf : WF s sh) {fuel : Nat} {s' : Kernel}
    (h : OS_sched fuel s = .ok s') :
    ∃ t, s' = schedState s t ∧ OnList s sh .ready t := by
  obtain ⟨t, hs, hsel⟩ := OS_sched_inv h
  refine ⟨t, hs, ?_⟩
  rcases hsel with ⟨-, hh, ht⟩ | ⟨hb, hnext, -⟩
  · have h09 : 0 < MAX_TASKS_IN_LIST := by unfold MAX_TASKS_IN_LIST; omega
    have hseg := hwf.seg .ready h09
    refine ⟨0, h09, s.ReadyTaskList.TaskList 0, ?_, ht.symm⟩
    have := Seg_head hseg
    cases hsh : sh .ready 0 with
    | nil => rw [hsh] at hseg; exact absurd hseg hh
    | cons z l =>
      rw [hsh] at this
      simp only [List.headD_cons] at this
      have e2 : s.ReadyTaskList.TaskList 0 = z := this
      rw [e2]; exact List.mem_cons_self _ _
  · obtain ⟨g1, g8, -, -, y, l, hsh, hy, hy0, -, -⟩ :=
      top_slot s sh hwf .ready _ hb (fun _ h => h)
    have hp9 : LOG2 s.ReadyTaskList.TaskRriorityBitMap < MAX_TASKS_IN_LIST := by
      unfold MAX_TASKS_IN_LIST; omega
    have hseg := hwf.seg .ready hp9
    have hy' : s.ReadyTaskList.TaskList (LOG2 s.ReadyTaskList.TaskRriorityBitMap) = y := hy
    unfold os_schedGetNextTaskToRun at hnext
    simp only [bind_eq_ok, Q_ASSERT_eq_ok] at hnext
    obtain ⟨-, -, hwalk⟩ := hnext
    have hseg' : Seg s.node 0 (s.ReadyTaskList.TaskList (LOG2 s.ReadyTaskList.TaskRriorityBitMap))
        (sh .ready (LOG2 s.ReadyTaskList.TaskRriorityBitMap)) 0 := hseg
    obtain ⟨m, hm, ht⟩ := schedWalk_inv s _ (sh .ready (LOG2 s.ReadyTaskList.TaskRriorityBitMap))
      (by rw [hy', hsh]; exact List.mem_cons_self _ _) hseg' (fun k hk => hk) fuel t hwalk
    exact ⟨_, hp9, m, hm, ht.symm⟩

/-- A returning insertion into a well-formed list has linked the node behind the
last node of the slot of its priority, which is between 1 and 7. -/
theorem add_inv (s : Kernel) (sh : Shape) (L : ListId) (hwf : WF s sh) {fuel n : Nat}
    {s' : Kernel} (h : os_utilsAddTaskToListByNode fuel n L.code s = .ok s') :
    n ≠ 0 ∧ (s.node n).pTcb ≠ 0 ∧ 0 < (s.tcb (s.node n).pTcb).OS_TcbPrio ∧
      (s.tcb (s.node n).pTcb).OS_TcbPrio < MAX_TASK_PRIORITY ∧
      s' = addState s L (s.tcb (s.node n).pTcb).OS_TcbPrio n
        (lastOr 0 (sh L (s.tcb (s.node n).pTcb).OS_TcbPrio)) := by
  have h0 := h
  unfold os_utilsAddTaskToListByNode at h
  simp only [bind_eq_ok, Q_ASSERT_eq_ok, rdNode_eq_ok, rdTcb_eq_ok] at h
  obtain ⟨nd, ⟨hn0, hnd⟩, t, ⟨ht0, ht⟩, -, ⟨hp0, hp8⟩, h⟩ := h
  subst hnd
  subst ht
  have hp9 : (s.tcb (s.node n).pTcb).OS_TcbPrio < MAX_TASKS_IN_LIST := by
    unfold MAX_TASKS_IN_LIST; omega
  have hseg := hwf.seg L hp9
  have hlen : (sh L (s.tcb (s.node n).pTcb).OS_TcbPrio).length ≤ fuel := by
    simp only [getTaskList_code] at h
    split_ifs at h with hh
    · have := (Seg_head_eq_zero hseg).mp hh
      rw [this]; simp
    · simp only [bind_eq_ok] at h
      obtain ⟨x, hx, -⟩ := h
      exact (lastNode_inv s hseg fuel hx).2
  have := add_eq s L fuel _ n _ hn0 ht0 rfl hp0 hp8 hseg hlen
  rw [this] at h0
  exact ⟨hn0, ht0, hp0, hp8, (Except.ok.inj h0).symm⟩

/-- With one node in the slot, `os_utilsRemoveFromListByTaskTcb` does not enter its
loop: the result does not depend on the fuel. -/
theorem removeByTcb_single (s : Kernel) (L : ListId) (t fuel fuel' : Nat)
    (h : (s.node ((s.getList L).TaskList (s.tcb t).OS_TcbPrio)).next = 0) :
    os_utilsRemoveFromListByTaskTcb fuel t L.code s
      = os_utilsRemoveFromListByTaskTcb fuel' t L.code s := by
  unfold os_utilsRemoveFromListByTaskTcb
  by_cases ht : t = 0
  · simp [rdTcb, ht]
  simp only [rdTcb_ok s ht, ok_bind, getTaskList_code]
  by_cases ha : 0 < (s.tcb t).OS_TcbPrio ∧ (s.tcb t).OS_TcbPrio ≤ MAX_TASK_PRIORITY
  · simp only [Q_ASSERT_true ha, ok_bind]
    by_cases hh : (s.getList L).TaskList (s.tcb t).OS_TcbPrio = 0
    · simp [rdNode, hh]
    · simp only [rdNode_ok s hh, ok_bind, h, ↓reduceIte]
  · simp [Q_ASSERT, ha]

/-- A returning `os_utilsRemoveFromListByTaskTcb` with a non-null result on a
well-formed list has unlinked the first node of the TCB in the slot of its
priority. -/
theorem removeByTcb_inv (s : Kernel) (sh : Shape) (L : ListId) (hwf : WF s sh)
    {fuel t n : Nat} {s' : Kernel}
    (h : os_utilsRemoveFromListByTaskTcb fuel t L.code s = .ok (n, s')) (hn : n ≠ 0) :
    t ≠ 0 ∧ 0 < (s.tcb t).OS_TcbPrio ∧ (s.tcb t).OS_TcbPrio ≤ MAX_TASK_PRIORITY ∧
      ∃ l1 l2, sh L (s.tcb t).OS_TcbPrio = l1 ++ n :: l2 ∧ (s.node n).pTcb = t ∧
        (∀ k ∈ l1, (s.node k).pTcb ≠ t) ∧
        s' = removeState s L (s.tcb t).OS_TcbPrio (lastOr 0 l1) n (l2.headD 0) := by
  have h0 := h
  unfold os_utilsRemoveFromListByTaskTcb at h
  simp only [bind_eq_ok, Q_ASSERT_eq_ok, rdTcb_eq_ok, getTaskList_code, rdNode_eq_ok] at h
  obtain ⟨tc, ⟨ht0, htc⟩, -, ⟨hp0, hp8⟩, hd, ⟨hh, hhd⟩, h⟩ := h
  subst htc
  subst hhd
  have hp9 : (s.tcb t).OS_TcbPrio < MAX_TASKS_IN_LIST := by unfold MAX_TASKS_IN_LIST; omega
  have hseg := hwf.seg L hp9
  have hnd := slot_nodup hwf.2 L hp9
  refine ⟨ht0, hp0, hp8, ?_⟩
  split_ifs at h with hsingle hmatch
  · -- one node, which matches
    simp only [pure_eq_ok_iff, Prod.mk.injEq] at h
    have hsh : sh L (s.tcb t).OS_TcbPrio = [n] := by
      cases hl : sh L (s.tcb t).OS_TcbPrio with
      | nil => rw [hl] at hseg; exact absurd hseg hh
      | cons y l =>
        rw [hl] at hseg
        obtain ⟨e1, -, -, e4⟩ := hseg
        rw [e1] at hsingle h
        rw [hsingle] at e4
        rw [Seg_nil_of_zero e4, h.1]
    have hmatch' : (s.node n).pTcb = t := by rw [← h.1]; exact hmatch
    rw [hsh] at hseg hnd
    have := removeByTcb_eq s L 1 t _ n [] [] ht0 rfl hp0 hp8 (by simpa using hseg)
      (by simp) (by simp) hmatch' (by simp)
    rw [removeByTcb_single s L t fuel 1 hsingle, this] at h0
    simp only [Except.ok.injEq, Prod.mk.injEq] at h0
    exact ⟨[], [], by simp [hsh], hmatch', by simp, h0.2.symm⟩
  · simp only [pure_eq_ok_iff, Prod.mk.injEq] at h
    exact absurd h.1.symm hn
  · simp only [bind_eq_ok] at h
    obtain ⟨w, hfind, h⟩ := h
    split_ifs at h with hw0
    · simp only [pure_eq_ok_iff, Prod.mk.injEq] at h
      exact absurd h.1.symm hn
    · obtain ⟨l1, l2, hsh, hwt, hl1, hf⟩ := findByTcb_inv s t hseg fuel hfind
      rw [hsh] at hseg hnd
      have := removeByTcb_eq s L fuel t _ w l1 l2 ht0 rfl hp0 hp8 hseg hnd hl1 hwt hf
      rw [this] at h0
      simp only [Except.ok.injEq, Prod.mk.injEq] at h0
      obtain ⟨e1, e2⟩ := h0
      subst e1
      exact ⟨l1, l2, hsh, hwt, hl1, e2.symm⟩

/-! ## Moving a node between slots -/

theorem move_perm (sh : Shape) (L L' : ListId) (p n : Nat) (l1 l2 : List Nat)
    (hp : p < MAX_TASKS_IN_LIST) (hsh : sh L p = l1 ++ n :: l2) :
    (allNodes (sh.move L L' p l1 n l2)).Perm (allNodes sh) := by
  have h1 := allNodes_set_remove sh L p n l1 l2 hp hsh
  have h2 := allNodes_set_add (sh.set L p (l1 ++ l2)) L' p n hp
  exact h2.trans h1.symm

theorem move_other (sh : Shape) (L L' L'' : ListId) (p q n : Nat) (l1 l2 : List Nat)
    (h : ¬ (L'' = L ∧ q = p)) (h' : ¬ (L'' = L' ∧ q = p)) :
    (sh.move L L' p l1 n l2) L'' q = sh L'' q := by
  simp [Shape.move, Shape.set, h, h']

theorem move_target (sh : Shape) (L L' : ListId) (p n : Nat) (l1 l2 : List Nat) (hne : L' ≠ L) :
    (sh.move L L' p l1 n l2) L' p = sh L' p ++ [n] := by
  simp [Shape.move, Shape.set, hne]

theorem move_source (sh : Shape) (L L' : ListId) (p n : Nat) (l1 l2 : List Nat) (hne : L' ≠ L) :
    (sh.move L L' p l1 n l2) L p = l1 ++ l2 := by
  have hne' : L ≠ L' := fun e => hne e.symm
  simp [Shape.move, Shape.set, hne']

theorem WaitingSlots_move (sh : Shape) (L L' : ListId) (p n : Nat) (l1 l2 : List Nat)
    (hw : WaitingSlots sh) (hsh : sh L p = l1 ++ n :: l2)
    (hp : L' = .waiting → 0 < p ∧ p < MAX_TASK_PRIORITY) :
    WaitingSlots (sh.move L L' p l1 n l2) := by
  have key : ∀ q, sh .waiting q = [] → (q = 0 ∨ q = MAX_TASK_PRIORITY) →
      (sh.move L L' p l1 n l2) .waiting q = [] := by
    intro q hq hq'
    rw [move_other, hq]
    · rintro ⟨e1, e2⟩
      subst e1; subst e2
      rw [hsh] at hq
      simp at hq
    · rintro ⟨e1, e2⟩
      have := hp e1.symm
      subst e2
      rcases hq' with e | e
      · omega
      · omega
  exact ⟨key 0 hw.1 (Or.inl rfl), key _ hw.2 (Or.inr rfl)⟩

/-- The nodes on the lists and the TCBs they refer to are the same in `(s, sh)`
and `(s', sh')`. -/
theorem TcbNodup_perm {s s' : Kernel} {sh sh' : Shape}
    (hperm : (allNodes sh').Perm (allNodes sh))
    (hsame : ∀ k, (s'.node k).pTcb = (s.node k).pTcb) (h : TcbNodup s sh) : TcbNodup s' sh' := by
  unfold TcbNodup at h ⊢
  have e : (fun n => (s'.node n).pTcb) = fun n => (s.node n).pTcb := funext hsame
  rw [e]
  exact (List.Perm.nodup_iff (hperm.map _)).mpr h

theorem TcbNodup_inj {s : Kernel} {sh : Shape} (h : TcbNodup s sh) {a b : Nat}
    (ha : a ∈ allNodes sh) (hb : b ∈ allNodes sh) (e : (s.node a).pTcb = (s.node b).pTcb) :
    a = b :=
  List.inj_on_of_nodup_map h ha hb e

theorem OnList_iff (s : Kernel) (sh : Shape) (L : ListId) (t : Nat) :
    OnList s sh L t ↔ ∃ p n, p < MAX_TASKS_IN_LIST ∧ n ∈ sh L p ∧ (s.node n).pTcb = t := by
  unfold OnList
  constructor
  · rintro ⟨p, hp, n, hn, e⟩; exact ⟨p, n, hp, hn, e⟩
  · rintro ⟨p, n, hp, hn, e⟩; exact ⟨p, hp, n, hn, e⟩

/-! ## The scan of the Waiting list does not depend on spare fuel -/

theorem hptInner_mono (s : Kernel) (e index pTcb : Nat) (f f' pTask : Nat)
    (r : Option (Nat × Kernel)) (hle : f ≤ f')
    (h : hptInner s e index pTcb f pTask = .ok r) :
    hptInner s e index pTcb f' pTask = .ok r := by
  induction f generalizing f' pTask with
  | zero => simp [hptInner] at h
  | succ f ih =>
    cases f' with
    | zero => omega
    | succ f' =>
      unfold hptInner at h ⊢
      split_ifs at h ⊢ with h0
      · exact h
      · simp only [bind_eq_ok] at h ⊢
        obtain ⟨t, ht, h⟩ := h
        refine ⟨t, ht, ?_⟩
        split_ifs at h ⊢
        · exact h
        · exact ih f' _ (by omega) h

theorem hptOuter_mono (s : Kernel) (e i i' f f' ws : Nat) (r : Nat × Kernel)
    (hi : i ≤ i') (hle : f ≤ f') (h : hptOuter i e s f ws = .ok r) :
    hptOuter i' e s f' ws = .ok r := by
  induction f generalizing f' ws with
  | zero => simp [hptOuter] at h
  | succ f ih =>
    cases f' with
    | zero => omega
    | succ f' =>
      unfold hptOuter at h ⊢
      split_ifs at h ⊢ with h0
      · exact h
      · simp only [bind_eq_ok] at h ⊢
        obtain ⟨nd, hnd, u, hu, t, ht, o, ho, h⟩ := h
        refine ⟨nd, hnd, u, hu, t, ht, o, hptInner_mono _ _ _ _ _ _ _ _ hi ho, ?_⟩
        cases o with
        | none => exact ih f' _ (by omega) h
        | some x => exact h

/-- A returning scan of a well-formed Waiting list has changed nothing and
returned null, or has unlinked a node from a slot of priority 1 to 7. -/
theorem HPT_inv (s : Kernel) (sh : Shape) (hwf : WF s sh) (hws : WaitingSlots sh)
    {fuel e n : Nat} {s' : Kernel}
    (h : os_utilsRemoveFromWaitingListHPT fuel e s = .ok (n, s')) :
    (n = 0 ∧ s' = s) ∨
      ∃ p l1 l2, 0 < p ∧ p < MAX_TASK_PRIORITY ∧ sh .waiting p = l1 ++ n :: l2 ∧
        s' = removeState s .waiting p (lastOr 0 l1) n (l2.headD 0) := by
  unfold os_utilsRemoveFromWaitingListHPT at h
  have hbig := hptOuter_mono s e fuel (fuel + ((allNodes sh).length + MAX_TASKS_IN_LIST)) fuel
    (fuel + ((allNodes sh).length + MAX_TASKS_IN_LIST)) _ _ (by omega) (by omega) h
  have hbig' : os_utilsRemoveFromWaitingListHPT
      (fuel + ((allNodes sh).length + MAX_TASKS_IN_LIST)) e s = .ok (n, s') := hbig
  by_cases hex : ∃ q k, q < MAX_TASKS_IN_LIST ∧ k ∈ sh .waiting q ∧ waitsOn s e k
  · obtain ⟨p, l1, m, l2, hp9, hsh, hw, hl1, hno⟩ := exists_hpt_choice s sh e hex
    have hp0 : 0 < p := by
      by_contra hc
      have : p = 0 := by omega
      subst this
      rw [hws.1] at hsh
      simp at hsh
    have hp8 : p < MAX_TASK_PRIORITY := by
      by_contra hc
      have : p = MAX_TASK_PRIORITY := by unfold MAX_TASKS_IN_LIST at hp9; omega
      subst this
      rw [hws.2] at hsh
      simp at hsh
    have := HPT_found s sh e _ p m l1 l2 hwf hp0 (le_of_lt hp8) hsh hw hl1 hno
      (Nat.le_add_left _ fuel)
    rw [this] at hbig'
    simp only [Except.ok.injEq, Prod.mk.injEq] at hbig'
    obtain ⟨e1, e2⟩ := hbig'
    subst e1
    exact Or.inr ⟨p, l1, l2, hp0, hp8, hsh, e2.symm⟩
  · have hno : ∀ q, q < MAX_TASKS_IN_LIST → ∀ k ∈ sh .waiting q, ¬ waitsOn s e k :=
      fun q hq k hk hw => hex ⟨q, k, hq, hk, hw⟩
    have := HPT_none s sh e _ hwf hno (Nat.le_add_left _ fuel)
    rw [this] at hbig'
    simp only [Except.ok.injEq, Prod.mk.injEq] at hbig'
    exact Or.inl ⟨hbig'.1.symm, hbig'.2.symm⟩

/-! ## The effect of moving a node on the invariants -/

theorem Evolves_refl {s : Kernel} {sh : Shape} (hwf : WF s sh) (hws : WaitingSlots sh) :
    Evolves s sh s sh :=
  ⟨hwf, hws, List.Perm.refl _, fun _ => rfl, rfl⟩

theorem Evolves_trans {s1 s2 s3 : Kernel} {sh1 sh2 sh3 : Shape}
    (h1 : Evolves s1 sh1 s2 sh2) (h2 : Evolves s2 sh2 s3 sh3) : Evolves s1 sh1 s3 sh3 :=
  ⟨h2.1, h2.2.1, h2.2.2.1.trans h1.2.2.1, fun k => (h2.2.2.2.1 k).trans (h1.2.2.2.1 k),
    h2.2.2.2.2.trans h1.2.2.2.2⟩

theorem ReadyKept_refl (sh : Shape) : ReadyKept sh sh := fun _ _ _ h => h

theorem ReadyKept_trans {sh1 sh2 sh3 : Shape} (h1 : ReadyKept sh1 sh2) (h2 : ReadyKept sh2 sh3) :
    ReadyKept sh1 sh3 := fun p hp n hn => h2 p hp n (h1 p hp n hn)

theorem FlagsSame_refl (s : Kernel) : FlagsSame s s := ⟨rfl, rfl⟩

theorem FlagsSame_trans {s1 s2 s3 : Kernel} (h1 : FlagsSame s1 s2) (h2 : FlagsSame s2 s3) :
    FlagsSame s1 s3 := ⟨h2.1.trans h1.1, h2.2.trans h1.2⟩

/-- A state that differs from a well-formed one outside the nodes, the
priorities and the lists evolves from it. -/
theorem Evolves_of_frame {s s' : Kernel} {sh : Shape} (hwf : WF s sh) (hws : WaitingSlots sh)
    (hn : s'.node = s.node) (hp : ∀ t, (s'.tcb t).OS_TcbPrio = (s.tcb t).OS_TcbPrio)
    (hl : ∀ L, s'.getList L = s.getList L) (hc : s'.OS_Tcb_Curr = s.OS_Tcb_Curr) :
    Evolves s sh s' sh :=
  ⟨WF_tcb hn hp hl hwf, hws, List.Perm.refl _, fun k => by rw [hn], hc⟩

/-- Unlinking node `n` from slot `p` of list `L` and appending it to slot `p` of
another list `L'`. -/
theorem moved_evolves (s : Kernel) (sh : Shape) (hwf : WF s sh) (hws : WaitingSlots sh)
    (L L' : ListId) (p n : Nat) (l1 l2 : List Nat) (hp0 : 0 < p) (hp8 : p ≤ MAX_TASK_PRIORITY)
    (hL' : L' = .waiting → p < MAX_TASK_PRIORITY) (hsh : sh L p = l1 ++ n :: l2) :
    Evolves s sh
      (addState (removeState s L p (lastOr 0 l1) n (l2.headD 0)) L' p n
        (lastOr 0 ((sh.set L p (l1 ++ l2)) L' p)))
      (sh.move L L' p l1 n l2) := by
  have hp9 : p < MAX_TASKS_IN_LIST := by unfold MAX_TASKS_IN_LIST; omega
  obtain ⟨hwf1, hnot1⟩ := remove_WF s sh L p n l1 l2 hwf hp0 hp8 hsh
  have hn0 : n ≠ 0 := Seg_ne_zero (hwf.seg L hp9) n (by rw [hsh]; simp)
  have hnprio := ((hwf.list L).1 p hp9).2 n (by rw [hsh]; simp)
  set s1 := removeState s L p (lastOr 0 l1) n (l2.headD 0) with hs1
  set sh1 := sh.set L p (l1 ++ l2) with hsh1
  have hnode1 : s1.node n = { prev := 0, next := 0, pTcb := (s.node n).pTcb } := by
    rw [hs1, removeState_node, unlinkNd_self]
  have ht1 : (s1.node n).pTcb ≠ 0 := by rw [hnode1]; exact hnprio.1
  have hp1 : (s1.tcb (s1.node n).pTcb).OS_TcbPrio = p := by
    rw [hnode1, hs1, removeState_tcb]; exact hnprio.2
  have hwf2 := add_WF s1 sh1 L' p n hwf1 hn0 hnot1 ht1 hp1 hp0 hp8
    (by rw [hnode1]) (by rw [hnode1])
  refine ⟨hwf2, ?_, move_perm sh L L' p n l1 l2 hp9 hsh, ?_, ?_⟩
  · exact WaitingSlots_move sh L L' p n l1 l2 hws hsh (fun e => ⟨hp0, hL' e⟩)
  · intro k
    rw [addState_node_pTcb, hs1, removeState_node, unlinkNd_pTcb]
  · simp [hs1]

theorem moved_frame (s : Kernel) (L L' : ListId) (p a n b x : Nat) :
    (addState (removeState s L p a n b) L' p n x).tcb = s.tcb ∧
    FlagsSame s (addState (removeState s L p a n b) L' p n x) ∧
    SameObjs s (addState (removeState s L p a n b) L' p n x) := by
  refine ⟨by simp, ⟨by simp, by simp⟩, ⟨by simp, by simp, by simp, by simp, by simp⟩⟩

theorem move_ready_kept (sh : Shape) (L L' : ListId) (p n : Nat) (l1 l2 : List Nat)
    (hL : L ≠ .ready) : ReadyKept sh (sh.move L L' p l1 n l2) := by
  intro q _ k hk
  by_cases e : ListId.ready = L' ∧ q = p
  · obtain ⟨e1, e2⟩ := e
    subst e1; subst e2
    have hne : ListId.ready ≠ L := fun e => hL e.symm
    rw [move_target sh L .ready q n l1 l2 hne]
    exact List.mem_append_left _ hk
  · rw [move_other sh L L' .ready p q n l1 l2 (fun e' => hL e'.1.symm) e]
    exact hk

/-- After the first node of the TCB `t` has left Ready, `t` is not on Ready. -/
theorem off_ready_after_move (s s' : Kernel) (sh : Shape) (hnd : (allNodes sh).Nodup)
    (htn : TcbNodup s sh)
    (L' : ListId) (hL' : L' ≠ .ready) (p n : Nat) (l1 l2 : List Nat) (hp : p < MAX_TASKS_IN_LIST)
    (hsh : sh .ready p = l1 ++ n :: l2)
    (hsame : ∀ k, (s'.node k).pTcb = (s.node k).pTcb) :
    ¬ OnList s' (sh.move .ready L' p l1 n l2) .ready (s.node n).pTcb := by
  rintro ⟨q, hq, k, hk, hkt⟩
  rw [hsame] at hkt
  have hnin : n ∈ allNodes sh := (mem_allNodes sh n).mpr ⟨.ready, p, hp, by rw [hsh]; simp⟩
  by_cases e : q = p
  · subst e
    rw [move_source sh .ready L' q n l1 l2 hL'] at hk
    have hkin : k ∈ allNodes sh := (mem_allNodes sh k).mpr ⟨.ready, q, hp, by
      rw [hsh]
      rcases List.mem_append.mp hk with h | h
      · exact List.mem_append_left _ h
      · exact List.mem_append_right _ (List.mem_cons_of_mem _ h)⟩
    have hkn := TcbNodup_inj htn hkin hnin hkt
    subst hkn
    have hslot := slot_nodup hnd .ready hp
    rw [hsh] at hslot
    have h1 := List.nodup_append.mp hslot
    rcases List.mem_append.mp hk with h | h
    · exact h1.2.2 h (List.mem_cons_self _ _)
    · exact (List.nodup_cons.mp h1.2.1).1 h
  · rw [move_other sh .ready L' .ready p q n l1 l2 (fun e' => e e'.2)
      (fun e' => hL' e'.1.symm)] at hk
    have hkin : k ∈ allNodes sh := (mem_allNodes sh k).mpr ⟨.ready, q, hq, hk⟩
    have hkn := TcbNodup_inj htn hkin hnin hkt
    subst hkn
    have := slot_disjoint hnd hq hp hk (by rw [hsh]; simp)
    exact e this.2

/-- Nodes of Ready other than the moved one stay on Ready. -/
theorem others_kept_after_move (sh : Shape) (L' : ListId) (p n : Nat) (l1 l2 : List Nat)
    (hsh : sh .ready p = l1 ++ n :: l2) (q k : Nat) (hk : k ∈ sh .ready q) (hkn : k ≠ n)
    (hL' : L' ≠ .ready) :
    k ∈ (sh.move .ready L' p l1 n l2) .ready q := by
  by_cases e : q = p
  · subst e
    rw [move_source sh .ready L' q n l1 l2 hL']
    rw [hsh] at hk
    rcases List.mem_append.mp hk with h | h
    · exact List.mem_append_left _ h
    · rcases List.mem_cons.mp h with h | h
      · exact absurd h hkn
      · exact List.mem_append_right _ h
  · rw [move_other sh .ready L' .ready p q n l1 l2 (fun e' => e e'.2) (fun e' => hL' e'.1.symm)]
    exact hk

/-! ## What the services do to the invariants -/

theorem OnList_of_kept {s s' : Kernel} {sh sh' : Shape} (hk : ReadyKept sh sh')
    (hsame : ∀ k, (s'.node k).pTcb = (s.node k).pTcb) {t : Nat} (h : OnList s sh .ready t) :
    OnList s' sh' .ready t := by
  obtain ⟨p, hp, n, hn, e⟩ := h
  exact ⟨p, hp, n, hk p hp n hn, by rw [hsame, e]⟩

theorem Preserves_refl {s : Kernel} {sh : Shape} (hwf : WF s sh) (hws : WaitingSlots sh) :
    Preserves s sh s :=
  ⟨sh, Evolves_refl hwf hws, Or.inl ⟨ReadyKept_refl sh, FlagsSame_refl s⟩⟩

/-- A state that differs from a well-formed one outside the nodes, the priorities,
the lists and the scheduler variables. -/
theorem Preserves_of_frame {s s' : Kernel} {sh : Shape} (hwf : WF s sh) (hws : WaitingSlots sh)
    (hn : s'.node = s.node) (hp : ∀ t, (s'.tcb t).OS_TcbPrio = (s.tcb t).OS_TcbPrio)
    (hl : ∀ L, s'.getList L = s.getList L) (hc : s'.OS_Tcb_Curr = s.OS_Tcb_Curr)
    (hf : FlagsSame s s') : Preserves s sh s' :=
  ⟨sh, Evolves_of_frame hwf hws hn hp hl hc, Or.inl ⟨ReadyKept_refl sh, hf⟩⟩

/-- The scheduler at the end of a service.  Before it runs, either Ready has
kept its nodes and the scheduler outputs are those of the start, or the current
task has left Ready. -/
theorem sched_outcome {s s3 s' : Kernel} {sh sh3 : Shape} (hev : Evolves s sh s3 sh3)
    (hcase : (ReadyKept sh sh3 ∧ FlagsSame s s3) ∨ ¬ OnList s3 sh3 .ready s3.OS_Tcb_Curr)
    {fuel : Nat} (h : OS_sched fuel s3 = .ok s') : Preserves s sh s' := by
  obtain ⟨t, hs, hon⟩ := OS_sched_on_ready s3 sh3 hev.1 h
  have hev' : Evolves s sh s' sh3 := by
    rw [hs]
    exact ⟨schedState_WF t hev.1, hev.2.1, hev.2.2.1, fun k => by simp [hev.2.2.2.1 k],
      by simp [hev.2.2.2.2]⟩
  refine ⟨sh3, hev', ?_⟩
  by_cases ht : t = s3.OS_Tcb_Curr
  · have hs' : s' = s3 := by rw [hs]; unfold schedState; simp [ht]
    rcases hcase with hc | hc
    · exact Or.inl (by rw [hs']; exact hc)
    · exact absurd (ht ▸ hon) hc
  · right
    have hon' : OnList s' sh3 .ready t := by
      obtain ⟨p, hp, n, hn, e⟩ := hon
      exact ⟨p, hp, n, hn, by rw [hs]; simpa using e⟩
    have h1 : s'.pendSV = true := by rw [hs]; unfold schedState TRIGER_PENDSV_INT; simp [ht]
    have h2 : s'.OS_Tcb_Next = t := by rw [hs]; unfold schedState TRIGER_PENDSV_INT; simp [ht]
    exact ⟨h1, by rw [h2]; exact hon'⟩

/-- A returning `OS_EventTaskReady` on well-formed lists has changed nothing, or
has moved a node from Waiting to Ready. -/
theorem OS_EventTaskReady_inv (s : Kernel) (sh : Shape) (hwf : WF s sh) (hws : WaitingSlots sh)
    {fuel e a b c st : Nat} {s' : Kernel}
    (h : OS_EventTaskReady fuel e a b c s = .ok (st, s')) :
    ∃ sh', Evolves s sh s' sh' ∧ ReadyKept sh sh' ∧ FlagsSame s s' ∧ s'.tcb = s.tcb := by
  unfold OS_EventTaskReady at h
  simp only [bind_eq_ok] at h
  obtain ⟨⟨n, s1⟩, h1, h⟩ := h
  rcases HPT_inv s sh hwf hws h1 with ⟨hn, hs1⟩ | ⟨p, l1, l2, hp0, hp8, hsh, hs1⟩
  · subst hn; subst hs1
    simp only [ne_eq, not_true_eq_false, ↓reduceIte, pure_eq_ok_iff, Prod.mk.injEq] at h
    rw [← h.2]
    exact ⟨sh, Evolves_refl hwf hws, ReadyKept_refl sh, FlagsSame_refl _, rfl⟩
  · have hp9 : p < MAX_TASKS_IN_LIST := by unfold MAX_TASKS_IN_LIST; omega
    have hn0 : n ≠ 0 := Seg_ne_zero (hwf.seg .waiting hp9) n (by rw [hsh]; simp)
    simp only [ne_eq, hn0, not_false_eq_true, ↓reduceIte, bind_eq_ok, pure_eq_ok_iff,
      Prod.mk.injEq] at h
    obtain ⟨s2, h2, -, h3⟩ := h
    subst h3
    obtain ⟨hwf1, -⟩ := remove_WF s sh .waiting p n l1 l2 hwf hp0 (le_of_lt hp8) hsh
    have hcode : READY_TASK_LIST = ListId.ready.code := rfl
    rw [hcode] at h2
    rw [← hs1] at hwf1
    obtain ⟨-, -, -, -, hs2⟩ := add_inv s1 _ .ready hwf1 h2
    have hprio : (s1.tcb (s1.node n).pTcb).OS_TcbPrio = p := by
      rw [hs1, removeState_node, unlinkNd_self, removeState_tcb]
      exact (((hwf.list .waiting).1 p hp9).2 n (by rw [hsh]; simp)).2
    rw [hprio, hs1] at hs2
    rw [hs2]
    obtain ⟨f1, f2, -⟩ := moved_frame s .waiting .ready p (lastOr 0 l1) n (l2.headD 0)
      (lastOr 0 ((sh.set .waiting p (l1 ++ l2)) .ready p))
    exact ⟨_, moved_evolves s sh hwf hws .waiting .ready p n l1 l2 hp0 (le_of_lt hp8)
      (fun e => by cases e) hsh, move_ready_kept sh .waiting .ready p n l1 l2 (by decide),
      f2, f1⟩

/-- A returning `OS_EventTaskWait` on well-formed lists has moved the node of the
TCB from Ready to Waiting. -/
theorem OS_EventTaskWait_inv (s : Kernel) (sh : Shape) (hwf : WF s sh) (hws : WaitingSlots sh)
    (htn : TcbNodup s sh) {fuel t : Nat} {s' : Kernel}
    (h : OS_EventTaskWait fuel t s = .ok s') :
    ∃ sh', Evolves s sh s' sh' ∧ ¬ OnList s' sh' .ready t := by
  unfold OS_EventTaskWait at h
  simp only [bind_eq_ok, Q_ASSERT_eq_ok] at h
  obtain ⟨⟨n, s1⟩, h1, -, hn0, h2⟩ := h
  have hcode : READY_TASK_LIST = ListId.ready.code := rfl
  have hcode' : WAITING_TASK_LIST = ListId.waiting.code := rfl
  rw [hcode] at h1
  rw [hcode'] at h2
  obtain ⟨ht0, hp0, hp8, l1, l2, hsh, hnt, hl1, hs1⟩ := removeByTcb_inv s sh .ready hwf h1 hn0
  have hp9 : (s.tcb t).OS_TcbPrio < MAX_TASKS_IN_LIST := by unfold MAX_TASKS_IN_LIST; omega
  obtain ⟨hwf1, -⟩ := remove_WF s sh .ready _ n l1 l2 hwf hp0 hp8 hsh
  rw [← hs1] at hwf1
  obtain ⟨-, -, -, hlt, hs2⟩ := add_inv s1 _ .waiting hwf1 h2
  have hprio : (s1.tcb (s1.node n).pTcb).OS_TcbPrio = (s.tcb t).OS_TcbPrio := by
    rw [hs1, removeState_node, unlinkNd_self, removeState_tcb, hnt]
  rw [hprio] at hs2 hlt
  rw [hs1] at hs2
  rw [hs2]
  have hev := moved_evolves s sh hwf hws .ready .waiting _ n l1 l2 hp0 hp8 (fun _ => hlt) hsh
  refine ⟨_, hev, ?_⟩
  have := off_ready_after_move s _ sh hwf.2 htn .waiting (by decide) _ n l1 l2 hp9 hsh
    hev.2.2.2.1
  rw [hnt] at this
  exact this

theorem TcbNodup_node {s s' : Kernel} {sh : Shape} (hn : s'.node = s.node) (h : TcbNodup s sh) :
    TcbNodup s' sh := by
  unfold TcbNodup at h ⊢
  rw [hn]; exact h

/-- Parking the current task and calling the scheduler, after a write to the
current TCB that keeps its priority. -/
theorem park_outcome (s : Kernel) (sh : Shape) (hwf : WF s sh) (hws : WaitingSlots sh)
    (htn : TcbNodup s sh) (c : OS_TCB) (hc : c.OS_TcbPrio = (s.tcb s.OS_Tcb_Curr).OS_TcbPrio)
    {fuel : Nat} {s1 s2 s3 : Kernel}
    (h1 : wrTcb s s.OS_Tcb_Curr c = .ok s1)
    (h2 : OS_EventTaskWait fuel s1.OS_Tcb_Curr s1 = .ok s2)
    (h3 : OS_sched fuel s2 = .ok s3) : Preserves s sh s3 := by
  rw [wrTcb_eq_ok] at h1
  obtain ⟨-, hs1⟩ := h1
  have hev1 : Evolves s sh s1 sh := by
    rw [← hs1]
    refine Evolves_of_frame hwf hws rfl ?_ (fun L => by cases L <;> rfl) rfl
    intro t
    by_cases e : t = s.OS_Tcb_Curr
    · subst e; simp [hc]
    · simp [Function.update_noteq e]
  have htn1 : TcbNodup s1 sh := TcbNodup_node (by rw [← hs1]) htn
  obtain ⟨sh2, hev2, hoff⟩ := OS_EventTaskWait_inv s1 sh hev1.1 hws htn1 h2
  have hcur : s2.OS_Tcb_Curr = s1.OS_Tcb_Curr := hev2.2.2.2.2
  rw [← hcur] at hoff
  exact sched_outcome (Evolves_trans hev1 hev2) (Or.inr hoff) h3

theorem OS_Sem_Wait_preserves (s : Kernel) (sh : Shape) (hwf : WF s sh) (hws : WaitingSlots sh)
    (htn : TcbNodup s sh) {fuel e timeout err : Nat} {s' : Kernel}
    (h : OS_Sem_Wait fuel e timeout s = .ok (err, s')) : Preserves s sh s' := by
  unfold OS_Sem_Wait at h
  simp only [bind_eq_ok, rdEcb_eq_ok] at h
  obtain ⟨ev, ⟨he, hev⟩, h⟩ := h
  subst hev
  split_ifs at h
  · simp only [pure_eq_ok_iff, Prod.mk.injEq] at h
    rw [← h.2]; exact Preserves_refl hwf hws
  · simp only [bind_eq_ok, wrEcb_eq_ok, pure_eq_ok_iff, Prod.mk.injEq] at h
    obtain ⟨s1, ⟨-, hs1⟩, -, h2⟩ := h
    rw [← h2, ← hs1]
    exact Preserves_of_frame hwf hws rfl (fun _ => rfl) (fun L => by cases L <;> rfl) rfl
      ⟨rfl, rfl⟩
  · simp only [bind_eq_ok, rdTcb_eq_ok, pure_eq_ok_iff, Prod.mk.injEq] at h
    obtain ⟨c, ⟨-, hc⟩, s1, h1, s2, h2, s3, h3, -, h4⟩ := h
    subst hc
    rw [← h4]
    refine park_outcome s sh hwf hws htn _ ?_ h1 h2 h3
    rfl

theorem OS_MsgQ_Wait_preserves (s : Kernel) (sh : Shape) (hwf : WF s sh) (hws : WaitingSlots sh)
    (htn : TcbNodup s sh) {fuel e timeout : Nat} {r : WaitOutcome} {s' : Kernel}
    (h : OS_MsgQ_Wait fuel e timeout s = .ok (r, s')) : Preserves s sh s' := by
  by_cases he : e = 0
  · simp [OS_MsgQ_Wait, rdEcb, he] at h
  by_cases htype : (s.ecb e).OS_EventType = OS_EVENT_TYPE_MQ
  swap
  · simp only [OS_MsgQ_Wait, rdEcb_ok s he, ok_bind, ne_eq, htype, not_false_eq_true, ↓reduceIte,
      pure_eq_ok_iff, Prod.mk.injEq] at h
    rw [← h.2]; exact Preserves_refl hwf hws
  by_cases hq : (s.ecb e).OS_EventPtr = 0
  · simp [OS_MsgQ_Wait, rdEcb_ok s he, htype, rdMq, hq] at h
  by_cases hfill : 0 < (s.mqcb (s.ecb e).OS_EventPtr).OS_MQEntries
  · rw [OS_MsgQ_Wait_available s e timeout fuel he htype hq hfill] at h
    simp only [Except.ok.injEq, Prod.mk.injEq] at h
    rw [← h.2]
    exact Preserves_of_frame hwf hws rfl (fun _ => rfl) (fun L => by cases L <;> rfl) rfl
      ⟨rfl, rfl⟩
  · have hnot : ¬ (s.mqcb (s.ecb e).OS_EventPtr).OS_MQEntries > 0 := hfill
    simp only [OS_MsgQ_Wait, rdEcb_ok s he, ok_bind, ne_eq, htype, not_true_eq_false, ↓reduceIte,
      rdMq_ok s hq, hnot, bind_eq_ok, rdTcb_eq_ok, pure_eq_ok_iff, Prod.mk.injEq] at h
    obtain ⟨c, ⟨-, hc⟩, s1, h1, s2, h2, s3, h3, -, h4⟩ := h
    subst hc
    rw [← h4]
    refine park_outcome s sh hwf hws htn _ ?_ h1 h2 h3
    rfl

theorem OS_Sem_Post_preserves (s : Kernel) (sh : Shape) (hwf : WF s sh) (hws : WaitingSlots sh)
    {fuel e st : Nat} {s' : Kernel}
    (h : OS_Sem_Post fuel e s = .ok (st, s')) : Preserves s sh s' := by
  unfold OS_Sem_Post at h
  simp only [bind_eq_ok, rdEcb_eq_ok] at h
  obtain ⟨ev, ⟨he, hev⟩, h⟩ := h
  subst hev
  split_ifs at h
  · simp only [pure_eq_ok_iff, Prod.mk.injEq] at h
    rw [← h.2]; exact Preserves_refl hwf hws
  · simp only [bind_eq_ok, pure_eq_ok_iff, Prod.mk.injEq] at h
    obtain ⟨⟨st1, s1⟩, h1, s2, h2, -, h3⟩ := h
    rw [← h3]
    obtain ⟨sh1, hev1, hk, hf, -⟩ := OS_EventTaskReady_inv s sh hwf hws h1
    exact sched_outcome hev1 (Or.inl ⟨hk, hf⟩) h2
  · simp only [bind_eq_ok, wrEcb_eq_ok, pure_eq_ok_iff, Prod.mk.injEq] at h
    obtain ⟨s1, ⟨-, hs1⟩, -, h2⟩ := h
    rw [← h2, ← hs1]
    exact Preserves_of_frame hwf hws rfl (fun _ => rfl) (fun L => by cases L <;> rfl) rfl
      ⟨rfl, rfl⟩
  · simp only [pure_eq_ok_iff, Prod.mk.injEq] at h
    rw [← h.2]; exact Preserves_refl hwf hws

theorem Preserves_trans_frame {s s1 s' : Kernel} {sh : Shape}
    (hn : s1.node = s.node) (hc : s1.OS_Tcb_Curr = s.OS_Tcb_Curr)
    (hf : FlagsSame s s1) (h : Preserves s1 sh s') : Preserves s sh s' := by
  obtain ⟨sh', hev, hcase⟩ := h
  refine ⟨sh', ⟨hev.1, hev.2.1, hev.2.2.1, fun k => by rw [hev.2.2.2.1 k, hn],
    hev.2.2.2.2.trans hc⟩, ?_⟩
  rcases hcase with ⟨hk, hf'⟩ | hb
  · exact Or.inl ⟨hk, FlagsSame_trans hf hf'⟩
  · exact Or.inr hb

theorem OS_MsgQ_Send_preserves (s : Kernel) (sh : Shape) (hwf : WF s sh) (hws : WaitingSlots sh)
    {fuel e m st : Nat} {s' : Kernel}
    (h : OS_MsgQ_Send fuel e m s = .ok (st, s')) : Preserves s sh s' := by
  by_cases he : e = 0
  · simp [OS_MsgQ_Send, rdEcb, he] at h
  by_cases htype : (s.ecb e).OS_EventType = OS_EVENT_TYPE_MQ
  swap
  · simp only [OS_MsgQ_Send, rdEcb_ok s he, ok_bind, ne_eq, htype, not_false_eq_true, ↓reduceIte,
      pure_eq_ok_iff, Prod.mk.injEq] at h
    rw [← h.2]; exact Preserves_refl hwf hws
  by_cases hq : (s.ecb e).OS_EventPtr = 0
  · simp [OS_MsgQ_Send, rdEcb_ok s he, htype, rdMq, hq] at h
  by_cases hfill : (s.mqcb (s.ecb e).OS_EventPtr).OS_MQEntries
      < (s.mqcb (s.ecb e).OS_EventPtr).OS_MQSize
  swap
  · have hge : (s.mqcb (s.ecb e).OS_EventPtr).OS_MQEntries
        ≥ (s.mqcb (s.ecb e).OS_EventPtr).OS_MQSize := by omega
    simp only [OS_MsgQ_Send, rdEcb_ok s he, ok_bind, ne_eq, htype, not_true_eq_false, ↓reduceIte,
      rdMq_ok s hq, hge, pure_eq_ok_iff, Prod.mk.injEq] at h
    rw [← h.2]; exact Preserves_refl hwf hws
  rw [OS_MsgQ_Send_put s e m fuel he htype hq hfill] at h
  have hwf1 := putState_WF (s.ecb e).OS_EventPtr m hwf
  have hfr : Preserves (putState s (s.ecb e).OS_EventPtr m) sh s' → Preserves s sh s' :=
    Preserves_trans_frame rfl rfl ⟨rfl, rfl⟩
  apply hfr
  split_ifs at h
  · simp only [bind_eq_ok] at h
    obtain ⟨⟨status, s3⟩, h3, h⟩ := h
    obtain ⟨sh1, hev1, hk, hf, -⟩ := OS_EventTaskReady_inv _ sh hwf1 hws h3
    split_ifs at h
    · simp only [bind_eq_ok, pure_eq_ok_iff, Prod.mk.injEq] at h
      obtain ⟨s4, h4, -, h5⟩ := h
      rw [← h5]
      exact sched_outcome hev1 (Or.inl ⟨hk, hf⟩) h4
    · simp only [pure_eq_ok_iff, Prod.mk.injEq] at h
      rw [← h.2]
      exact ⟨sh1, hev1, Or.inl ⟨hk, hf⟩⟩
  · simp only [pure_eq_ok_iff, Prod.mk.injEq] at h
    rw [← h.2]
    exact Preserves_refl hwf1 hws

theorem OS_sched_preserves (s : Kernel) (sh : Shape) (hwf : WF s sh) (hws : WaitingSlots sh)
    {fuel : Nat} {s' : Kernel} (h : OS_sched fuel s = .ok s') : Preserves s sh s' :=
  sched_outcome (Evolves_refl hwf hws) (Or.inl ⟨ReadyKept_refl sh, FlagsSame_refl s⟩) h

theorem OS_Sem_Create_preserves (s : Kernel) (sh : Shape) (hwf : WF s sh) (hws : WaitingSlots sh)
    (cnt : Nat) (name : String) : Preserves s sh (OS_Sem_Create cnt name s).2 := by
  have hform : (OS_Sem_Create cnt name s).2.node = s.node ∧
      (OS_Sem_Create cnt name s).2.tcb = s.tcb ∧
      (OS_Sem_Create cnt name s).2.ReadyTaskList = s.ReadyTaskList ∧
      (OS_Sem_Create cnt name s).2.DelayedTaskList = s.DelayedTaskList ∧
      (OS_Sem_Create cnt name s).2.WaitingTaskList = s.WaitingTaskList ∧
      (OS_Sem_Create cnt name s).2.OS_Tcb_Curr = s.OS_Tcb_Curr ∧
      (OS_Sem_Create cnt name s).2.OS_Tcb_Next = s.OS_Tcb_Next ∧
      (OS_Sem_Create cnt name s).2.pendSV = s.pendSV := by
    unfold OS_Sem_Create
    by_cases h : s.OSEventFreeList = 0 <;> simp [h]
  obtain ⟨f1, f2, f3, f4, f5, f6, f7, f8⟩ := hform
  exact Preserves_of_frame hwf hws f1 (fun t => by rw [f2])
    (fun L => by cases L <;> simp [Kernel.getList, f3, f4, f5]) f6 ⟨f7, f8⟩

theorem OS_MsgQ_Create_preserves (s : Kernel) (sh : Shape) (hwf : WF s sh) (hws : WaitingSlots sh)
    {start size pe : Nat} {s' : Kernel} (h : OS_MsgQ_Create start size s = .ok (pe, s')) :
    Preserves s sh s' := by
  by_cases hE : s.OSEventFreeList = 0
  · simp [OS_MsgQ_Create, hE, wrEcb] at h
  · by_cases hQ : s.OS_MQcb_FreeList = 0
    · simp only [OS_MsgQ_Create, ne_eq, hE, not_false_eq_true, ↓reduceIte, hQ, not_true_eq_false,
        pure_eq_ok_iff, Prod.mk.injEq] at h
      rw [← h.2]
      exact Preserves_of_frame hwf hws rfl (fun _ => rfl) (fun L => by cases L <;> rfl) rfl
        ⟨rfl, rfl⟩
    · simp only [OS_MsgQ_Create, ne_eq, hE, not_false_eq_true, ↓reduceIte, hQ,
        pure_eq_ok_iff, Prod.mk.injEq] at h
      rw [← h.2]
      exact Preserves_of_frame hwf hws rfl (fun _ => rfl) (fun L => by cases L <;> rfl) rfl
        ⟨rfl, rfl⟩

/-! ## Removal by node and insertion into Delayed -/

/-- The function `os_utilsRemoveFromListByTaskNode` on a node of a well-formed
slot: the node is unlinked and returned. -/
theorem removeByNode_eq (s : Kernel) (L : ListId) (p n : Nat) (l1 l2 : List Nat)
    (ht : (s.node n).pTcb ≠ 0) (hprio : (s.tcb (s.node n).pTcb).OS_TcbPrio = p)
    (hp0 : 0 < p) (hp8 : p ≤ MAX_TASK_PRIORITY)
    (hseg : Seg s.node 0 ((s.getList L).TaskList p) (l1 ++ n :: l2) 0)
    (hnd : (l1 ++ n :: l2).Nodup) :
    os_utilsRemoveFromListByTaskNode n L.code s =
      .ok (n, removeState s L p (lastOr 0 l1) n (l2.headD 0)) := by
  have hnz := Seg_ne_zero hseg
  have hn0 : n ≠ 0 := hnz n (by simp)
  have hlinks := Seg_links hseg
  have hhead : (s.getList L).TaskList p ≠ 0 := by
    intro e0
    have := (Seg_head_eq_zero hseg).mp e0
    simp at this
  have han : lastOr 0 l1 ≠ n := by
    rcases lastOr_zero_or_mem l1 with h | h
    · rw [h]; exact fun e => hn0 e.symm
    · intro e
      rw [e] at h
      exact (List.nodup_append.mp hnd).2.2 h (List.mem_cons_self _ _)
  have hbn : l2.headD 0 ≠ n := by
    rcases headD_zero_or_mem l2 with h | h
    · rw [h]; exact fun e => hn0 e.symm
    · intro e
      rw [e] at h
      exact (List.nodup_cons.mp (List.nodup_append.mp hnd).2.1).1 h
  have hna : n ≠ lastOr 0 l1 := fun e => han e.symm
  have hnb : n ≠ l2.headD 0 := fun e => hbn e.symm
  have hl1z : ∀ k ∈ l1, k ≠ 0 := fun k hk => hnz k (by simp [hk])
  have hl2z : ∀ k ∈ l2, k ≠ 0 := fun k hk => hnz k (by simp [hk])
  unfold os_utilsRemoveFromListByTaskNode
  simp only [Q_ASSERT_true hn0, ok_bind, rdNode_ok s hn0, rdTcb_ok s ht, hprio,
    Q_ASSERT_true (And.intro hp0 hp8), getTaskList_code, rdNode_ok s hhead]
  by_cases hsingle : (s.node ((s.getList L).TaskList p)).next = 0
  · have hl1e : l1 = [] := by
      cases l1 with
      | nil => rfl
      | cons x l1 =>
        obtain ⟨h1, -, -, h4⟩ := hseg
        rw [h1] at hsingle
        have := Seg_head h4
        rw [hsingle] at this
        cases l1 with
        | nil => simp at this; exact absurd this.symm hn0
        | cons z l1 =>
          simp at this
          exact absurd this.symm (hnz z (by simp))
    subst hl1e
    obtain ⟨h1, -, h3, h4⟩ := hseg
    have h1' : (s.getList L).TaskList p = n := h1
    rw [h1'] at hsingle ⊢
    have hl2e : l2 = [] := by
      have := Seg_head h4
      rw [hsingle] at this
      cases l2 with
      | nil => rfl
      | cons z l2 => simp at this; exact absurd this.symm (hl2z z (by simp))
    subst hl2e
    simp only [hsingle, ↓reduceIte, pure_eq_ok, ok_bind, setNext, setPrev, wrNode, hn0,
      removeState, lastOr, List.headD_nil, unlinkNd, ne_eq, not_true_eq_false]
    cases L <;>
      simp [Kernel.setHead, Kernel.setBitMap, Kernel.setList, Kernel.getList,
        Function.update_apply]
  · have hz : l2.headD 0 = 0 → lastOr 0 l1 ≠ 0 := by
      intro hb0 e0
      have hl1e := (lastOr_eq_zero hl1z).mp e0
      subst hl1e
      obtain ⟨h1, -, -, -⟩ := hseg
      have h1' : (s.getList L).TaskList p = n := h1
      rw [h1', hlinks.2, hb0] at hsingle
      exact hsingle rfl
    obtain ⟨hA, hB⟩ := hlinks
    simp only [hsingle, ↓reduceIte, hA, hB]
    generalize lastOr 0 l1 = a at *
    generalize l2.headD 0 = b at *
    by_cases ha0 : a = 0
    · have hb0 : b ≠ 0 := fun e => hz e ha0
      simp only [ha0, ↓reduceIte, setPrev, wrNode, hb0, ok_bind, pure_eq_ok, setNext, hn0,
        removeState]
      cases L <;>
        simp [Kernel.setHead, Kernel.setList, Kernel.getList, unlinkNd, hb0,
          Function.update_apply, hnb, ha0]
    · by_cases hb0 : b = 0
      · simp [hb0, ha0, setNext, setPrev, wrNode, hn0, removeState, unlinkNd,
          Function.update_apply, hna]
      · simp [hb0, ha0, setNext, setPrev, wrNode, hn0, removeState, unlinkNd,
          Function.update_apply, hna, hnb]

theorem node_clear_prev (s : Kernel) (n : Nat) (h : (s.node n).prev = 0) :
    Function.update s.node n { s.node n with prev := 0 } = s.node := by
  apply Function.update_eq_self_iff.mpr
  cases hnn : s.node n
  simp [hnn] at h
  simp [h]

theorem node_clear_next (s : Kernel) (n : Nat) (h : (s.node n).next = 0) :
    Function.update s.node n { s.node n with next := 0 } = s.node := by
  apply Function.update_eq_self_iff.mpr
  cases hnn : s.node n
  simp [hnn] at h
  simp [h]

/-- The function `os_utilsAddTaskToDelayedListByNode` on a node with cleared
links. -/
theorem addDelayed_eq (s : Kernel) (fuel p n : Nat) (l : List Nat)
    (hn0 : n ≠ 0) (ht : (s.node n).pTcb ≠ 0)
    (hp : (s.tcb (s.node n).pTcb).OS_TcbPrio = p) (hp0 : 0 < p) (hp8 : p ≤ MAX_TASK_PRIORITY)
    (hprev : (s.node n).prev = 0) (hnext : (s.node n).next = 0)
    (hch : Seg s.node 0 ((s.getList .delayed).TaskList p) l 0) (hf : l.length ≤ fuel) :
    os_utilsAddTaskToDelayedListByNode fuel n s = .ok (addState s .delayed p n (lastOr 0 l)) := by
  unfold os_utilsAddTaskToDelayedListByNode
  have e1 : setPrev s n 0 = .ok s := by
    simp only [setPrev, wrNode, hn0, ↓reduceIte, node_clear_prev s n hprev]
  have e2 : setNext s n 0 = .ok s := by
    simp only [setNext, wrNode, hn0, ↓reduceIte, node_clear_next s n hnext]
  simp only [rdNode_ok s hn0, ok_bind, rdTcb_ok s ht, hp, Q_ASSERT_true (And.intro hp0 hp8), e1,
    e2]
  have hch' : Seg s.node 0 (s.DelayedTaskList.TaskList p) l 0 := hch
  rcases List.eq_nil_or_concat l with rfl | ⟨l', x, rfl⟩
  · have h0 : s.DelayedTaskList.TaskList p = 0 := hch'
    simp [h0, addState, lastOr]
    rfl
  · have hx : x ≠ 0 := Seg_ne_zero hch x (by simp)
    have hh : s.DelayedTaskList.TaskList p ≠ 0 := by
      intro e
      have := (Seg_head_eq_zero hch').mp e
      simp at this
    rw [List.concat_eq_append] at hch' hf ⊢
    have hl := lastNode_spec s hch' fuel (by simp at hf; omega)
    rw [lastOr_append_singleton]
    simp [hh, hl, addState, hx, setNext, setPrev, wrNode, hn0, appendNd]
    rfl

/-- A returning insertion of a node with cleared links into a well-formed Delayed
list. -/
theorem addDelayed_inv (s : Kernel) (sh : Shape) (hwf : WF s sh) {fuel n : Nat} {s' : Kernel}
    (hprev : (s.node n).prev = 0) (hnext : (s.node n).next = 0)
    (h : os_utilsAddTaskToDelayedListByNode fuel n s = .ok s') :
    n ≠ 0 ∧ (s.node n).pTcb ≠ 0 ∧ 0 < (s.tcb (s.node n).pTcb).OS_TcbPrio ∧
      (s.tcb (s.node n).pTcb).OS_TcbPrio ≤ MAX_TASK_PRIORITY ∧
      s' = addState s .delayed (s.tcb (s.node n).pTcb).OS_TcbPrio n
        (lastOr 0 (sh .delayed (s.tcb (s.node n).pTcb).OS_TcbPrio)) := by
  have h0 := h
  unfold os_utilsAddTaskToDelayedListByNode at h
  simp only [bind_eq_ok, Q_ASSERT_eq_ok, rdNode_eq_ok, rdTcb_eq_ok] at h
  obtain ⟨nd, ⟨hn0, hnd⟩, t, ⟨ht0, ht⟩, -, ⟨hp0, hp8⟩, s1, h1, s2, h2, h⟩ := h
  subst hnd
  subst ht
  have e1 : setPrev s n 0 = .ok s := by
    simp only [setPrev, wrNode, hn0, ↓reduceIte, node_clear_prev s n hprev]
  rw [e1] at h1
  have hs1 : s1 = s := (Except.ok.inj h1).symm
  subst hs1
  have e2 : setNext s1 n 0 = .ok s1 := by
    simp only [setNext, wrNode, hn0, ↓reduceIte, node_clear_next s1 n hnext]
  rw [e2] at h2
  have hs2 : s2 = s1 := (Except.ok.inj h2).symm
  subst hs2
  have hp9 : (s2.tcb (s2.node n).pTcb).OS_TcbPrio < MAX_TASKS_IN_LIST := by
    unfold MAX_TASKS_IN_LIST; omega
  have hseg := hwf.seg .delayed hp9
  have hseg' : Seg s2.node 0 (s2.DelayedTaskList.TaskList (s2.tcb (s2.node n).pTcb).OS_TcbPrio)
      (sh .delayed (s2.tcb (s2.node n).pTcb).OS_TcbPrio) 0 := hseg
  have hlen : (sh .delayed (s2.tcb (s2.node n).pTcb).OS_TcbPrio).length ≤ fuel := by
    split_ifs at h with hh
    · have := (Seg_head_eq_zero hseg').mp hh
      rw [this]; simp
    · simp only [bind_eq_ok] at h
      obtain ⟨x, hx, -⟩ := h
      exact (lastNode_inv s2 hseg' fuel hx).2
  have := addDelayed_eq s2 fuel _ n _ hn0 ht0 rfl hp0 hp8 hprev hnext hseg hlen
  rw [this] at h0
  exact ⟨hn0, ht0, hp0, hp8, (Except.ok.inj h0).symm⟩

theorem OS_Delay_preserves (s : Kernel) (sh : Shape) (hwf : WF s sh) (hws : WaitingSlots sh)
    (htn : TcbNodup s sh) {fuel ticks : Nat} {s' : Kernel}
    (h : OS_Delay fuel ticks s = .ok s') : Preserves s sh s' := by
  unfold OS_Delay at h
  simp only [bind_eq_ok, Q_ASSERT_eq_ok, rdNode_eq_ok, rdTcb_eq_ok, wrTcb_eq_ok] at h
  obtain ⟨hd, -, -, -, c, ⟨hc0, hc⟩, s1, ⟨-, hs1⟩, ⟨n, s2⟩, h2, -, hn0, s3, h3, h4⟩ := h
  subst hc
  have hev1 : Evolves s sh s1 sh := by
    rw [← hs1]
    refine Evolves_of_frame hwf hws rfl ?_ (fun L => by cases L <;> rfl) rfl
    intro t
    by_cases e : t = s.OS_Tcb_Curr
    · subst e; simp
    · simp [Function.update_noteq e]
  have htn1 : TcbNodup s1 sh := TcbNodup_node (by rw [← hs1]) htn
  have hcode : READY_TASK_LIST = ListId.ready.code := rfl
  rw [hcode] at h2
  obtain ⟨ht0, hp0, hp8, l1, l2, hsh, hnt, hl1, hs2⟩ :=
    removeByTcb_inv s1 sh .ready hev1.1 h2 hn0
  have hp9 : (s1.tcb s1.OS_Tcb_Curr).OS_TcbPrio < MAX_TASKS_IN_LIST := by
    unfold MAX_TASKS_IN_LIST; omega
  obtain ⟨hwf2, -⟩ := remove_WF s1 sh .ready _ n l1 l2 hev1.1 hp0 hp8 hsh
  simp only [] at hs2 h3
  rw [← hs2] at hwf2
  have hnode : s2.node n = { prev := 0, next := 0, pTcb := (s1.node n).pTcb } := by
    rw [hs2, removeState_node, unlinkNd_self]
  obtain ⟨-, -, -, -, hs3⟩ := addDelayed_inv s2 _ hwf2 (by rw [hnode]) (by rw [hnode]) h3
  have hprio : (s2.tcb (s2.node n).pTcb).OS_TcbPrio = (s1.tcb s1.OS_Tcb_Curr).OS_TcbPrio := by
    rw [hnode, hs2, removeState_tcb, hnt]
  rw [hprio, hs2] at hs3
  have hev2 := moved_evolves s1 sh hev1.1 hws .ready .delayed _ n l1 l2 hp0 hp8
    (fun e => by cases e) hsh
  rw [← hs3] at hev2
  have hoff := off_ready_after_move s1 s3 sh hev1.1.2 htn1 .delayed (by decide) _ n l1 l2 hp9
    hsh hev2.2.2.2.1
  rw [hnt] at hoff
  have hoff' : ¬ OnList s3 (sh.move .ready .delayed (s1.tcb s1.OS_Tcb_Curr).OS_TcbPrio l1 n l2)
      .ready s3.OS_Tcb_Curr := by
    rw [hev2.2.2.2.2]; exact hoff
  exact sched_outcome (Evolves_trans hev1 hev2) (Or.inr hoff') h4

/-! ## The tick handler -/

/-- What `tickNode` does to a node of Delayed slot `p`: its timeout is decremented
and the node stays, or it is moved to the tail of Ready slot `p` with its `next`
link cleared. -/
theorem tickNode_inv (s : Kernel) (sh : Shape) (hwf : WF s sh) (hws : WaitingSlots sh)
    (p n : Nat) (l1 l2 : List Nat) (hp0 : 0 < p) (hp8 : p ≤ MAX_TASK_PRIORITY)
    (hsh : sh .delayed p = l1 ++ n :: l2) {fuel : Nat} {s' : Kernel}
    (h : tickNode fuel n s = .ok s') :
    FlagsSame s s' ∧
      ((Evolves s sh s' sh ∧ s'.node = s.node) ∨
        (Evolves s sh s' (sh.move .delayed .ready p l1 n l2) ∧ (s'.node n).next = 0)) := by
  have hp9 : p < MAX_TASKS_IN_LIST := by unfold MAX_TASKS_IN_LIST; omega
  have hnin : n ∈ sh .delayed p := by rw [hsh]; simp
  have hnprio := ((hwf.list .delayed).1 p hp9).2 n hnin
  unfold tickNode at h
  simp only [bind_eq_ok, rdNode_eq_ok, rdTcb_eq_ok, wrTcb_eq_ok] at h
  obtain ⟨nd, ⟨hn0, hnd⟩, t, ⟨ht0, ht⟩, s1, ⟨-, hs1⟩, h⟩ := h
  subst hnd
  subst ht
  have hev1 : Evolves s sh s1 sh := by
    rw [← hs1]
    refine Evolves_of_frame hwf hws rfl ?_ (fun L => by cases L <;> rfl) rfl
    intro t
    by_cases e : t = (s.node n).pTcb
    · subst e; simp
    · simp [Function.update_noteq e]
  have hf1 : FlagsSame s s1 := by rw [← hs1]; exact ⟨rfl, rfl⟩
  have hnode1 : s1.node = s.node := by rw [← hs1]
  split_ifs at h with hz
  · simp only [bind_eq_ok, Q_ASSERT_eq_ok] at h
    obtain ⟨⟨pTask, s2⟩, h2, -, -, h3⟩ := h
    have hprio1 : (s1.tcb (s1.node n).pTcb).OS_TcbPrio = p := by
      rw [← hs1]; simp [hnprio.2]
    have hseg1 := hev1.1.seg .delayed hp9
    rw [hsh] at hseg1
    have hnd1 := slot_nodup hev1.1.2 .delayed hp9
    rw [hsh] at hnd1
    have hcode : DELAYED_TASK_LIST = ListId.delayed.code := rfl
    have hcode' : READY_TASK_LIST = ListId.ready.code := rfl
    rw [hcode] at h2
    rw [removeByNode_eq s1 .delayed p n l1 l2 (by rw [hnode1]; exact hnprio.1) hprio1 hp0 hp8
      hseg1 hnd1] at h2
    simp only [Except.ok.injEq, Prod.mk.injEq] at h2
    obtain ⟨e1, e2⟩ := h2
    subst e1
    simp only [] at h3
    rw [hcode'] at h3
    obtain ⟨hwf2, hnot2⟩ := remove_WF s1 sh .delayed p n l1 l2 hev1.1 hp0 hp8 hsh
    rw [e2] at hwf2
    obtain ⟨-, -, -, hlt, hs3⟩ := add_inv s2 _ .ready hwf2 h3
    have hnode2 : s2.node n = { prev := 0, next := 0, pTcb := (s1.node n).pTcb } := by
      rw [← e2, removeState_node, unlinkNd_self]
    have hprio2 : (s2.tcb (s2.node n).pTcb).OS_TcbPrio = p := by
      rw [hnode2, ← e2, removeState_tcb]; exact hprio1
    rw [hprio2] at hs3
    have hev2 := moved_evolves s1 sh hev1.1 hws .delayed .ready p n l1 l2 hp0 hp8
      (fun e => by cases e) hsh
    rw [e2, ← hs3] at hev2
    obtain ⟨-, f2, -⟩ := moved_frame s1 .delayed .ready p (lastOr 0 l1) n (l2.headD 0)
      (lastOr 0 ((sh.set .delayed p (l1 ++ l2)) .ready p))
    rw [e2, ← hs3] at f2
    refine ⟨FlagsSame_trans hf1 f2, Or.inr ⟨Evolves_trans hev1 hev2, ?_⟩⟩
    rw [hs3, addState_node]
    have hx : lastOr 0 ((sh.set .delayed p (l1 ++ l2)) .ready p) ≠ n := by
      rcases lastOr_zero_or_mem ((sh.set .delayed p (l1 ++ l2)) .ready p) with h0 | hm
      · rw [h0]; exact fun e => hn0 e.symm
      · intro e
        rw [e] at hm
        exact hnot2 ((mem_allNodes _ n).mpr ⟨.ready, p, hp9, hm⟩)
    split_ifs
    · rw [hnode2]
    · unfold appendNd
      simp [Function.update_apply, hx.symm, hnode2]
  · rw [pure_eq_ok_iff] at h
    subst h
    exact ⟨hf1, Or.inl ⟨hev1, hnode1⟩⟩

theorem tickInner_zero {inner fuel : Nat} {s s' : Kernel}
    (h : tickInner inner fuel 0 s = .ok s') : s' = s := by
  cases fuel with
  | zero => simp [tickInner] at h
  | succ fuel =>
    simp only [tickInner, ↓reduceIte, pure_eq_ok_iff] at h
    exact h.symm

/-- The walk of `OS_tick` over a slot with several nodes, from the node behind
`l1` on: at most one node leaves the slot, for Ready. -/
theorem tickInner_inv (inner : Nat) (sh : Shape) (hws : WaitingSlots sh) (p : Nat)
    (hp0 : 0 < p) (hp8 : p ≤ MAX_TASK_PRIORITY) (fuel : Nat) (l1 l2 : List Nat) (s s' : Kernel)
    (hwf : WF s sh) (hsh : sh .delayed p = l1 ++ l2)
    (h : tickInner inner fuel (l2.headD 0) s = .ok s') :
    ∃ sh', Evolves s sh s' sh' ∧ ReadyKept sh sh' ∧ FlagsSame s s' ∧
      ∀ q, q ≠ p → sh' .delayed q = sh .delayed q := by
  have hp9 : p < MAX_TASKS_IN_LIST := by unfold MAX_TASKS_IN_LIST; omega
  induction fuel generalizing l1 l2 s with
  | zero => simp [tickInner] at h
  | succ fuel ih =>
    cases l2 with
    | nil =>
      simp only [List.headD_nil] at h
      have := tickInner_zero h
      subst this
      exact ⟨sh, Evolves_refl hwf hws, ReadyKept_refl sh, FlagsSame_refl _, fun _ _ => rfl⟩
    | cons n l2 =>
      have hn0 : n ≠ 0 := Seg_ne_zero (hwf.seg .delayed hp9) n (by rw [hsh]; simp)
      simp only [List.headD_cons, tickInner, hn0, ↓reduceIte, bind_eq_ok] at h
      obtain ⟨s1, h1, h2⟩ := h
      obtain ⟨hf1, hcase⟩ := tickNode_inv s sh hwf hws p n l1 l2 hp0 hp8 hsh h1
      rcases hcase with ⟨hev1, hnode1⟩ | ⟨hev1, hnext⟩
      · have hseg := hwf.seg .delayed hp9
        rw [hsh] at hseg
        have hlinks := Seg_links hseg
        rw [hnode1, hlinks.2] at h2
        obtain ⟨sh', hev2, hk, hf2, hoth⟩ := ih (l1 ++ [n]) l2 s1 hev1.1 (by simp [hsh]) h2
        exact ⟨sh', Evolves_trans hev1 hev2, hk, FlagsSame_trans hf1 hf2, hoth⟩
      · rw [hnext] at h2
        have := tickInner_zero h2
        subst this
        refine ⟨_, hev1, move_ready_kept sh .delayed .ready p n l1 l2 (by decide), hf1, ?_⟩
        intro q hq
        exact move_other sh .delayed .ready .delayed p q n l1 l2 (fun e => hq e.2)
          (fun e => hq e.2)

/-- The scan of `OS_tick` over the Delayed slots named by the working set: nodes
move from Delayed to Ready only, the scheduler's globals are not written. -/
theorem tickOuter_inv (inner : Nat) (fuel : Nat) (ws : Nat) (s s' : Kernel) (sh : Shape)
    (hwf : WF s sh) (hws : WaitingSlots sh)
    (hsub : ∀ i, ws.testBit i = true → s.DelayedTaskList.TaskRriorityBitMap.testBit i = true)
    (h : tickOuter inner fuel ws s = .ok s') :
    ∃ sh', Evolves s sh s' sh' ∧ ReadyKept sh sh' ∧ FlagsSame s s' := by
  induction fuel generalizing ws s sh with
  | zero => simp [tickOuter] at h
  | succ fuel ih =>
    unfold tickOuter at h
    split_ifs at h with h0
    · rw [pure_eq_ok_iff] at h
      subst h
      exact ⟨sh, Evolves_refl hwf hws, ReadyKept_refl sh, FlagsSame_refl _⟩
    · obtain ⟨g1, g2, g3, g4, y, l, hsl, hhd, hy0, hyt, hyp⟩ := top_slot s sh hwf .delayed ws h0 hsub
      have hhd' : s.DelayedTaskList.TaskList (LOG2 ws) = y := hhd
      have hp9 : LOG2 ws < MAX_TASKS_IN_LIST := by
        unfold MAX_TASKS_IN_LIST MAX_TASK_PRIORITY; unfold MAX_TASK_PRIORITY at g2; omega
      simp only [bind_eq_ok, rdNode_eq_ok, Q_ASSERT_eq_ok, hhd'] at h
      obtain ⟨nd, ⟨-, hnd⟩, -, -, h⟩ := h
      subst hnd
      have h' : ∃ s1, (if (s.node y).next = 0 then tickNode inner y s
          else tickInner inner inner y s) = .ok s1 ∧
          tickOuter inner fuel (ws &&& not32 (shl32 1 (dec32 (s.tcb (s.node y).pTcb).OS_TcbPrio))) s1
            = .ok s' := by
        split_ifs at h with hnx
        · simp only [bind_eq_ok] at h
          simpa [hnx] using h
        · simp only [bind_eq_ok] at h
          simpa [hnx] using h
      obtain ⟨s1, h1, h2⟩ := h'
      rw [hyp, PRIORITY_TO_BIT_eq _ g1 (by unfold MAX_TASK_PRIORITY at g2; omega)] at h2
      have hstep : ∃ sh1, Evolves s sh s1 sh1 ∧ ReadyKept sh sh1 ∧ FlagsSame s s1 ∧
          ∀ q, q ≠ LOG2 ws → sh1 .delayed q = sh .delayed q := by
        split_ifs at h1 with hnx
        · have hseg := hwf.seg .delayed hp9
          rw [hsl] at hseg
          have hseg' : Seg s.node 0 ((s.getList .delayed).TaskList (LOG2 ws)) ([] ++ y :: l) 0 := hseg
          have hlinks := Seg_links hseg'
          rw [hnx] at hlinks
          have hl : l = [] := by
            cases l with
            | nil => rfl
            | cons z l =>
              exfalso
              have hz := Seg_ne_zero hseg z (by simp)
              simp only [List.headD_cons] at hlinks
              exact hz hlinks.2.symm
          subst hl
          obtain ⟨hf1, hcase⟩ := tickNode_inv s sh hwf hws (LOG2 ws) y [] [] g1 g2 hsl h1
          rcases hcase with ⟨hev1, -⟩ | ⟨hev1, -⟩
          · exact ⟨sh, hev1, ReadyKept_refl sh, hf1, fun _ _ => rfl⟩
          · refine ⟨_, hev1, move_ready_kept sh .delayed .ready (LOG2 ws) y [] [] (by decide),
              hf1, ?_⟩
            intro q hq
            exact move_other sh .delayed .ready .delayed (LOG2 ws) q y [] []
              (fun e => hq e.2) (fun e => hq e.2)
        · exact tickInner_inv inner sh hws (LOG2 ws) g1 g2 inner [] (y :: l) s s1 hwf hsl h1
      obtain ⟨sh1, hev1, hk1, hf1, hoth⟩ := hstep
      have hws32 : ws < 2 ^ 32 := by
        apply lt_two_pow_of_bits
        intro i hi
        apply g4
        unfold MAX_TASK_PRIORITY at g2
        omega
      have hsub1 : ∀ i, (ws &&& not32 (2 ^ (LOG2 ws - 1))).testBit i = true →
          s1.DelayedTaskList.TaskRriorityBitMap.testBit i = true := by
        intro i hi
        rw [testBit_clear ws (LOG2 ws - 1) i hws32 (by unfold MAX_TASK_PRIORITY at g2; omega)] at hi
        simp only [Bool.and_eq_true, decide_eq_true_eq] at hi
        obtain ⟨hi1, hi2⟩ := hi
        have hb := hsub i hi1
        have hW := hwf.list .delayed
        have hi8 : i < MAX_TASK_PRIORITY := by
          by_contra hc
          have hlt := hW.2.1
          have : s.DelayedTaskList.TaskRriorityBitMap.testBit i = false := by
            apply Nat.testBit_lt_two_pow
            exact lt_of_lt_of_le hlt (Nat.pow_le_pow_right (by norm_num) (by omega))
          rw [this] at hb
          cases hb
        have hi9 : i + 1 < MAX_TASKS_IN_LIST := by
          have := hi8
          unfold MAX_TASKS_IN_LIST MAX_TASK_PRIORITY; unfold MAX_TASK_PRIORITY at this; omega
        have hne : (s.getList .delayed).TaskList (i + 1) ≠ 0 := (hW.2.2 i hi8).mp hb
        have hl : sh .delayed (i + 1) ≠ [] := fun e =>
          hne ((Seg_head_eq_zero (hwf.seg .delayed hi9)).mpr e)
        have hl1 : sh1 .delayed (i + 1) ≠ [] := by
          rw [hoth (i + 1) (by omega)]; exact hl
        have hW1 := hev1.1.list .delayed
        exact (hW1.2.2 i hi8).mpr (fun e =>
          hl1 ((Seg_head_eq_zero (hev1.1.seg .delayed hi9)).mp e))
      obtain ⟨sh2, hev2, hk2, hf2⟩ := ih _ s1 sh1 hev1.1 hev1.2.1 hsub1 h2
      exact ⟨sh2, Evolves_trans hev1 hev2, ReadyKept_trans hk1 hk2, FlagsSame_trans hf1 hf2⟩

theorem OS_tick_preserves {s s' : Kernel} {sh : Shape} (hwf : WF s sh) (hws : WaitingSlots sh)
    {fuel : Nat} (h : OS_tick fuel s = .ok s') : Preserves s sh s' := by
  obtain ⟨sh', hev, hk, hf⟩ := tickOuter_inv fuel fuel _ s s' sh hwf hws (fun _ hi => hi) h
  exact ⟨sh', hev, Or.inl ⟨hk, hf⟩⟩

/-! ## Task creation -/

/-- Well-formedness only reads the nodes of the shape, the priorities of their
TCBs and the three lists. -/
theorem WF_frame {s s' : Kernel} {sh : Shape}
    (hn : ∀ n ∈ allNodes sh, s'.node n = s.node n)
    (hp : ∀ n ∈ allNodes sh, (s'.tcb (s.node n).pTcb).OS_TcbPrio = (s.tcb (s.node n).pTcb).OS_TcbPrio)
    (hl : ∀ L, s'.getList L = s.getList L) (h : WF s sh) : WF s' sh := by
  refine ⟨lists_of_forall fun L => ?_, h.2⟩
  have hW := h.list L
  refine ⟨?_, ?_⟩
  · intro p hp9
    have hmem : ∀ n ∈ sh L p, n ∈ allNodes sh := fun n hm =>
      (mem_allNodes sh n).mpr ⟨L, p, hp9, hm⟩
    constructor
    · rw [hl L]
      exact (Seg_congr (fun n hm => hn n (hmem n hm)) _ _ _).mpr (hW.1 p hp9).1
    · intro n hm
      rw [hn n (hmem n hm), hp n (hmem n hm)]
      exact (hW.1 p hp9).2 n hm
  · rw [hl L]
    exact hW.2

theorem PRIORITY_TO_BIT_zero : PRIORITY_TO_BIT 0 = 0 := by decide

/-- Appending a fresh node to a slot, slot 0 included. -/
theorem add_WF_gen (s : Kernel) (sh : Shape) (L : ListId) (p n : Nat)
    (hwf : WF s sh) (hn0 : n ≠ 0) (hn : n ∉ allNodes sh)
    (ht : (s.node n).pTcb ≠ 0) (hp : (s.tcb (s.node n).pTcb).OS_TcbPrio = p)
    (hp8 : p ≤ MAX_TASK_PRIORITY)
    (hprev : (s.node n).prev = 0) (hnext : (s.node n).next = 0) :
    WF (addState s L p n (lastOr 0 (sh L p))) (sh.set L p (sh L p ++ [n])) := by
  rcases Nat.eq_zero_or_pos p with hp0 | hp0
  swap
  · exact add_WF s sh L p n hwf hn0 hn ht hp hp0 hp8 hprev hnext
  subst hp0
  have hp9 : 0 < MAX_TASKS_IN_LIST := by decide
  have hnd := hwf.2
  have hnot : ∀ L' q, q < MAX_TASKS_IN_LIST → n ∉ sh L' q := fun L' q hq hm =>
    hn ((mem_allNodes sh n).mpr ⟨L', q, hq, hm⟩)
  have hsegp := hwf.seg L hp9
  have hnz : ∀ k ∈ sh L 0, k ≠ 0 := Seg_ne_zero hsegp
  refine ⟨lists_of_forall fun L' => ⟨?_, ?_⟩, ?_⟩
  · intro q hq
    have hsegq := hwf.seg L' hq
    by_cases e : L' = L ∧ q = 0
    · obtain ⟨rfl, rfl⟩ := e
      simp only [Shape.set, and_self, ↓reduceIte]
      constructor
      · rw [addState_head, addState_node]
        rcases List.eq_nil_or_concat (sh L' 0) with e0 | ⟨l', x, e1⟩
        · simp [e0, lastOr, Seg, hn0, hprev, hnext]
        · rw [List.concat_eq_append] at e1
          have hx : x ≠ 0 := hnz x (by simp [e1])
          rw [e1] at hsegp ⊢
          rw [lastOr_append_singleton]
          simp only [hx, false_and, ↓reduceIte]
          exact Seg_append hsegp (by rw [← e1]; exact slot_nodup hnd L' hp9) hn0
            (by rw [← e1]; exact hnot L' 0 hp9) hnext
      · intro k hk
        rw [addState_node_pTcb, addState_tcb]
        rcases List.mem_append.mp hk with hk | hk
        · exact ((hwf.list L').1 0 hq).2 k hk
        · simp only [List.mem_singleton] at hk; subst hk; exact ⟨ht, hp⟩
    · have e' : ¬ (L' = L ∧ q = 0) := e
      simp only [Shape.set, e', ↓reduceIte]
      have hhead : ((addState s L 0 n (lastOr 0 (sh L 0))).getList L').TaskList q
          = (s.getList L').TaskList q := by
        by_cases hL : L' = L
        · subst hL
          have : q ≠ 0 := fun h => e ⟨rfl, h⟩
          rw [addState_head]; simp [this]
        · rw [addState_getList_ne _ _ _ _ hL]
      have hframe : ∀ k ∈ sh L' q, (addState s L 0 n (lastOr 0 (sh L 0))).node k = s.node k := by
        intro k hk
        refine addState_node_of_ne s L 0 (fun h => hnot L' q hq (h ▸ hk)) ?_
        rcases lastOr_zero_or_mem (sh L 0) with h0 | hm
        · rw [h0]; exact Seg_ne_zero hsegq k hk
        · intro h
          have := slot_disjoint hnd hq hp9 hk (h ▸ hm)
          exact e this
      constructor
      · rw [hhead]; exact (Seg_congr hframe _ _ _).mpr hsegq
      · intro k hk
        rw [addState_node_pTcb, addState_tcb]
        exact ((hwf.list L').1 q hq).2 k hk
  · by_cases hL : L' = L
    · subst hL
      have hb := (hwf.list L').2
      rw [addState_bitmap, PRIORITY_TO_BIT_zero, Nat.or_zero]
      refine ⟨hb.1, ?_⟩
      intro q hq
      rw [addState_head]
      simp only [Nat.add_one_ne_zero, and_false, ↓reduceIte]
      exact hb.2 q hq
    · rw [addState_getList_ne _ _ _ _ hL]
      exact (hwf.list L').2
  · exact (List.Perm.nodup_iff (allNodes_set_add sh L 0 n hp9)).mpr
      (List.nodup_cons.mpr ⟨hn, hnd⟩)

/-- In a well-formed list the bit of a non-empty slot is already set. -/
theorem bit_already_set (s : Kernel) (sh : Shape) (hwf : WF s sh) (L : ListId) (p : Nat)
    (hp8 : p ≤ MAX_TASK_PRIORITY) (hne : sh L p ≠ []) :
    (s.getList L).TaskRriorityBitMap ||| PRIORITY_TO_BIT p = (s.getList L).TaskRriorityBitMap := by
  rcases Nat.eq_zero_or_pos p with hp0 | hp0
  · subst hp0; rw [PRIORITY_TO_BIT_zero, Nat.or_zero]
  · rw [PRIORITY_TO_BIT_pow hp0 hp8]
    apply Nat.eq_of_testBit_eq
    intro i
    rw [testBit_set]
    by_cases hi : i = p - 1
    · subst hi
      have hp9 : p < MAX_TASKS_IN_LIST := by unfold MAX_TASKS_IN_LIST; omega
      have hb := ((hwf.list L).2.2 (p - 1) (by omega)).mpr (by
        rw [Nat.sub_add_cancel hp0]
        exact fun e => hne ((Seg_head_eq_zero (hwf.seg L hp9)).mp e))
      simp [hb]
    · simp [hi]

/-- The state in which `os_utilsAddTaskToReadyListByTcb` returns `OS_ERR_NONE`:
the fresh node `pNode`, bound to the TCB, is at the tail of the Ready slot of
the TCB's priority. -/
theorem addReady_inv (s : Kernel) (sh : Shape) (hwf : WF s sh) {fuel task_tcb pNode st : Nat}
    {s' : Kernel} (hfresh : pNode ∉ allNodes sh)
    (h : os_utilsAddTaskToReadyListByTcb fuel task_tcb pNode s = .ok (st, s'))
    (hst : st = OS_ERR_NONE) :
    task_tcb ≠ 0 ∧ (s.tcb task_tcb).OS_TcbPrio ≤ MAX_TASK_PRIORITY ∧ pNode ≠ 0 ∧
      s' = addState
        { s with node := Function.update s.node pNode { prev := 0, next := 0, pTcb := task_tcb } }
        .ready (s.tcb task_tcb).OS_TcbPrio pNode
        (lastOr 0 (sh .ready (s.tcb task_tcb).OS_TcbPrio)) := by
  unfold os_utilsAddTaskToReadyListByTcb at h
  simp only [bind_eq_ok, rdTcb_eq_ok, Q_ASSERT_eq_ok] at h
  obtain ⟨t, ⟨ht0, ht⟩, -, hp8, h⟩ := h
  subst ht
  have hp9 : (s.tcb task_tcb).OS_TcbPrio < MAX_TASKS_IN_LIST := by
    unfold MAX_TASKS_IN_LIST; omega
  split_ifs at h with hn0
  · simp only [pure_eq_ok_iff, Prod.mk.injEq] at h
    rw [← h.1] at hst
    exact absurd hst (by decide)
  simp only [bind_eq_ok, wrNode_eq_ok] at h
  obtain ⟨s1, ⟨-, hs1⟩, h⟩ := h
  refine ⟨ht0, hp8, hn0, ?_⟩
  rw [hs1]
  have hwf1 : WF s1 sh := by
    refine WF_frame ?_ ?_ (fun L => by rw [← hs1]; cases L <;> rfl) hwf
    · intro n hn
      rw [← hs1]
      have : n ≠ pNode := fun e => hfresh (e ▸ hn)
      simp [Function.update_noteq this]
    · intro n _; rw [← hs1]
  have hseg := hwf1.seg .ready hp9
  have htcb1 : s1.tcb = s.tcb := by rw [← hs1]
  have hhd : (s1.getList .ready).TaskList = s1.ReadyTaskList.TaskList := rfl
  rw [hhd] at hseg
  split_ifs at h with hh
  · simp only [pure_eq_ok_iff, Prod.mk.injEq] at h
    have hnil := (Seg_head_eq_zero hseg).mp hh
    rw [hnil, ← h.2]
    simp [addState, lastOr, Kernel.setBitMap, Kernel.setHead, Kernel.setList, Kernel.getList]
  · simp only [bind_eq_ok, setNext_eq_ok, setPrev_eq_ok, pure_eq_ok_iff, Prod.mk.injEq] at h
    obtain ⟨x, hx, s2, ⟨-, hs2⟩, s3, ⟨-, hs3⟩, -, hs'⟩ := h
    obtain ⟨hne, hlen⟩ := lastNode_inv s1 hseg fuel hx
    rcases List.eq_nil_or_concat (sh .ready (s.tcb task_tcb).OS_TcbPrio) with e0 | ⟨l', y, e1⟩
    · exact absurd e0 hne
    rw [List.concat_eq_append] at e1
    rw [e1] at hseg hlen
    have hl := lastNode_spec s1 hseg fuel (by simp at hlen; omega)
    rw [hl] at hx
    have hxy : x = y := (Except.ok.inj hx).symm
    subst hxy
    have hx0 : x ≠ 0 := Seg_ne_zero hseg x (by simp)
    have hbit := bit_already_set s1 sh hwf1 .ready _ hp8 hne
    rw [e1, lastOr_append_singleton, ← hs', ← hs3, ← hs2]
    unfold addState
    simp only [hx0, ↓reduceIte]
    have hb' : s1.ReadyTaskList.TaskRriorityBitMap ||| PRIORITY_TO_BIT (s.tcb task_tcb).OS_TcbPrio
        = s1.ReadyTaskList.TaskRriorityBitMap := hbit
    simp [Kernel.setBitMap, Kernel.setList, Kernel.getList, hb', appendNd]

/-- The frame stores of `OS_Task_Create` write the stack memory only. -/
theorem pushFrame_mem (l : List Nat) (sp : Nat) (s : Kernel) :
    ∃ m, (l.foldl pushWord (sp, s)).2 = { s with mem := m } := by
  induction l generalizing sp s with
  | nil => exact ⟨s.mem, rfl⟩
  | cons v l ih =>
    obtain ⟨m, hm⟩ := ih (pushWord (sp, s) v).1 (pushWord (sp, s) v).2
    exact ⟨m, by rw [List.foldl_cons]; exact hm⟩

theorem fillStack_mem (lim fuel sp : Nat) (s s' : Kernel) (h : fillStack lim fuel sp s = .ok s') :
    ∃ m, s' = { s with mem := m } := by
  induction fuel generalizing sp s with
  | zero => simp [fillStack] at h
  | succ fuel ih =>
    unfold fillStack at h
    split_ifs at h
    · obtain ⟨m, hm⟩ := ih _ _ h
      exact ⟨m, hm⟩
    · rw [pure_eq_ok_iff] at h
      exact ⟨s.mem, h.symm⟩

/-- A returning `OS_Task_Create` with a fresh list node and a TCB that no list
node refers to: the node is appended to the Ready slot of the priority, nothing
else changes in the lists, and the scheduler's globals are not written. -/
theorem OS_Task_Create_inv (s : Kernel) (sh : Shape) (hwf : WF s sh)
    {fuel myTcb prio threadHandler stkSto stkSize pNode : Nat} {s' : Kernel}
    (hfreshN : pNode ∉ allNodes sh) (hfreshT : ∀ n ∈ allNodes sh, (s.node n).pTcb ≠ myTcb)
    (h : OS_Task_Create fuel myTcb prio threadHandler stkSto stkSize pNode s = .ok s') :
    prio < MAX_TASKS_IN_LIST ∧ WF s' (sh.set .ready prio (sh .ready prio ++ [pNode])) ∧
      (s'.node pNode).pTcb = myTcb ∧ (∀ k, k ≠ pNode → (s'.node k).pTcb = (s.node k).pTcb) ∧
      FlagsSame s s' ∧ s'.OS_Tcb_Curr = s.OS_Tcb_Curr := by
  unfold OS_Task_Create at h
  simp only [bind_eq_ok, Q_ASSERT_eq_ok] at h
  obtain ⟨-, hp9, h⟩ := h
  obtain ⟨m1, hm1⟩ := pushFrame_mem (initialFrame threadHandler)
    ((stkSto + stkSize) % 2 ^ 32 / 8 * 8) s
  generalize hfr : (initialFrame threadHandler).foldl pushWord
    ((stkSto + stkSize) % 2 ^ 32 / 8 * 8, s) = fr at h hm1
  obtain ⟨sp, s1⟩ := fr
  simp only [bind_eq_ok, rdTcb_eq_ok, wrTcb_eq_ok, Q_ASSERT_eq_ok] at h hm1
  obtain ⟨c, ⟨ht0, -⟩, s2, ⟨-, hs2⟩, s3, h3, s4, ⟨-, hs4⟩, ⟨st, s5⟩, h5, -, hst, h6⟩ := h
  rw [pure_eq_ok_iff] at h6
  subst h6
  obtain ⟨m3, hm3⟩ := fillStack_mem _ _ _ _ _ h3
  have hnode4 : s4.node = s.node := by rw [← hs4, hm3, ← hs2, hm1]
  have hl4 : ∀ L, s4.getList L = s.getList L := by
    intro L; rw [← hs4, hm3, ← hs2, hm1]; cases L <;> rfl
  have htcb4 : ∀ t, t ≠ myTcb → s4.tcb t = s.tcb t := by
    intro t ht
    rw [← hs4, hm3, ← hs2, hm1]
    simp [Function.update_noteq ht]
  have hprio4 : (s4.tcb myTcb).OS_TcbPrio = prio := by rw [← hs4]; simp
  have hflags4 : FlagsSame s s4 := by rw [← hs4, hm3, ← hs2, hm1]; exact ⟨rfl, rfl⟩
  have hcurr4 : s4.OS_Tcb_Curr = s.OS_Tcb_Curr := by rw [← hs4, hm3, ← hs2, hm1]
  have hwf4 : WF s4 sh := by
    refine WF_frame (fun n _ => by rw [hnode4]) ?_ hl4 hwf
    intro n hn
    rw [htcb4 _ (hfreshT n hn)]
  obtain ⟨-, hp8, hn0, hs5⟩ := addReady_inv s4 sh hwf4 hfreshN h5 hst
  rw [hprio4] at hs5 hp8
  have hwf4' : WF { s4 with node := Function.update s4.node pNode ⟨0, 0, myTcb⟩ } sh := by
    refine WF_frame ?_ ?_ ?_ hwf4
    · intro n hn
      have : n ≠ pNode := fun e => hfreshN (e ▸ hn)
      simp [Function.update_noteq this]
    · intro n _; rfl
    · intro L; cases L <;> rfl
  have hwf5 := add_WF_gen _ sh .ready prio pNode hwf4' hn0 hfreshN (by simpa using ht0)
    (by simpa using hprio4) hp8 (by simp) (by simp)
  rw [← hs5] at hwf5
  refine ⟨hp9, hwf5, ?_, ?_, ?_, ?_⟩
  · rw [hs5, addState_node_pTcb]; simp
  · intro k hk
    rw [hs5, addState_node_pTcb]
    simp [Function.update_noteq hk, hnode4]
  · refine FlagsSame_trans hflags4 ?_
    rw [hs5]
    exact ⟨by simp [addState_next], by simp [addState_pendSV]⟩
  · rw [hs5]
    simp [addState_curr, hcurr4]

/-! ## The invariant of the reachable states -/

/-- A service with outcome `Preserves` keeps the invariant. -/
theorem Inv_of_preserves {w : World} {k' : Kernel} (hinv : Inv w)
    (h : ∀ sh, WF w.k sh → WaitingSlots sh → TcbNodup w.k sh → Preserves w.k sh k') :
    Inv { w with k := k' } := by
  obtain ⟨sh, hwf, hws, htn, hgh, hpend, hdisp⟩ := hinv
  obtain ⟨sh', ⟨hwf', hws', hperm, hsame, hcurr⟩, hcase⟩ := h sh hwf hws htn
  refine ⟨sh', hwf', hws', TcbNodup_perm hperm hsame htn, ?_, ?_, ?_⟩
  · intro n hn
    have := hgh n (hperm.mem_iff.mp hn)
    exact ⟨this.1, by rw [hsame]; exact this.2⟩
  · intro hp
    rcases hcase with ⟨hk, hf⟩ | ⟨-, hon⟩
    · have hp0 : w.k.pendSV = true := by rw [← hf.2]; exact hp
      have := OnList_of_kept hk hsame (hpend hp0)
      show OnList k' sh' .ready k'.OS_Tcb_Next
      rw [hf.1]; exact this
    · exact hon
  · intro hd hp
    rcases hcase with ⟨hk, hf⟩ | ⟨hp1, -⟩
    · have hp0 : w.k.pendSV = false := by rw [← hf.2]; exact hp
      have := OnList_of_kept hk hsame (hdisp hd hp0)
      show OnList k' sh' .ready k'.OS_Tcb_Curr
      rw [hcurr]; exact this
    · have hp' : k'.pendSV = false := hp
      rw [hp1] at hp'
      cases hp'

/-- Creating a task with a fresh list node and a TCB that was not created before
keeps the invariant. -/
theorem create_Inv {w : World} {fuel myTcb prio threadHandler stkSto stkSize pNode : Nat}
    {k' : Kernel} (hinv : Inv w) (hN : pNode ∉ w.nodes) (hT : myTcb ∉ w.tasks)
    (h : OS_Task_Create fuel myTcb prio threadHandler stkSto stkSize pNode w.k = .ok k') :
    Inv ⟨k', pNode :: w.nodes, myTcb :: w.tasks, w.dispatched⟩ := by
  obtain ⟨sh, hwf, hws, htn, hgh, hpend, hdisp⟩ := hinv
  have hfreshN : pNode ∉ allNodes sh := fun hm => hN (hgh pNode hm).1
  have hfreshT : ∀ n ∈ allNodes sh, (w.k.node n).pTcb ≠ myTcb := fun n hn e =>
    hT (e ▸ (hgh n hn).2)
  obtain ⟨hp9, hwf', hnew, hold, hf, hcurr⟩ := OS_Task_Create_inv w.k sh hwf hfreshN hfreshT h
  have hperm := allNodes_set_add sh .ready prio pNode hp9
  have hold' : ∀ n ∈ allNodes sh, (k'.node n).pTcb = (w.k.node n).pTcb := fun n hn =>
    hold n (fun e => hfreshN (e ▸ hn))
  have hon : ∀ t, OnList w.k sh .ready t →
      OnList k' (sh.set .ready prio (sh .ready prio ++ [pNode])) .ready t := by
    rintro t ⟨p, hp, n, hn, e⟩
    refine ⟨p, hp, n, ?_, ?_⟩
    · unfold Shape.set
      split_ifs with hc
      · rw [← hc.2]; exact List.mem_append_left _ hn
      · exact hn
    · rw [hold' n ((mem_allNodes sh n).mpr ⟨.ready, p, hp, hn⟩)]; exact e
  refine ⟨_, hwf', ?_, ?_, ?_, ?_, ?_⟩
  · exact ⟨by simp [Shape.set, hws.1], by simp [Shape.set, hws.2]⟩
  · unfold TcbNodup at htn ⊢
    rw [List.Perm.nodup_iff (hperm.map _), List.map_cons, List.nodup_cons]
    have hmap : (allNodes sh).map (fun n => (k'.node n).pTcb)
        = (allNodes sh).map (fun n => (w.k.node n).pTcb) :=
      List.map_congr_left hold'
    rw [hmap, hnew]
    refine ⟨?_, htn⟩
    intro hm
    obtain ⟨n, hn, e⟩ := List.mem_map.mp hm
    exact hfreshT n hn e
  · intro n hn
    rcases List.mem_cons.mp (hperm.mem_iff.mp hn) with e | hm
    · subst e
      exact ⟨List.mem_cons_self _ _, by rw [hnew]; exact List.mem_cons_self _ _⟩
    · exact ⟨List.mem_cons_of_mem _ (hgh n hm).1,
        by rw [hold' n hm]; exact List.mem_cons_of_mem _ (hgh n hm).2⟩
  · intro hp
    show OnList k' _ .ready k'.OS_Tcb_Next
    rw [hf.1]
    exact hon _ (hpend (by rw [← hf.2]; exact hp))
  · intro hd hp
    show OnList k' _ .ready k'.OS_Tcb_Curr
    rw [hcurr]
    exact hon _ (hdisp hd (by rw [← hf.2]; exact hp))

theorem allNodes_empty : allNodes (fun _ _ => ([] : List Nat)) = [] := by decide

/-- The cleared lists are well formed with the empty shape. -/
theorem os_utilsTaskListInit_WF (s : Kernel) : WF (os_utilsTaskListInit s) (fun _ _ => []) := by
  refine ⟨lists_of_forall fun L => ⟨?_, ?_, ?_⟩, ?_⟩
  · intro p hp
    refine ⟨?_, by simp⟩
    show (((os_utilsTaskListInit s).getList L).TaskList p) = 0
    cases L <;> simp [os_utilsTaskListInit, Kernel.getList, hp]
  · cases L <;> simp [os_utilsTaskListInit, Kernel.getList]
  · intro p hp
    have hp9 : p + 1 < MAX_TASKS_IN_LIST := by
      unfold MAX_TASKS_IN_LIST; omega
    cases L <;> simp [os_utilsTaskListInit, Kernel.getList, hp9]
  · rw [allNodes_empty]; exact List.nodup_nil

/-- The state that `OS_Init` returns satisfies the invariant. -/
theorem Booted_Inv {w : World} (h : Booted w) : Inv w := by
  obtain ⟨fuel, stkSto, stkSize, idleTask, main_idleTask, pNode, s0, hp0, hinit, hn, ht, hd⟩ := h
  unfold OS_Init at hinit
  simp only [] at hinit
  have hwf0 := os_utilsTaskListInit_WF (OS_MsgQ_Init (OS_InitEventList s0))
  have hpend0 : (os_utilsTaskListInit (OS_MsgQ_Init (OS_InitEventList s0))).pendSV = false := by
    simp [os_utilsTaskListInit, OS_MsgQ_Init, OS_InitEventList, hp0]
  obtain ⟨hp9, hwf', hnew, hold, hf, hcurr⟩ := OS_Task_Create_inv _ _ hwf0
    (by rw [allNodes_empty]; simp) (by rw [allNodes_empty]; simp) hinit
  have hperm := allNodes_set_add (fun _ _ => []) .ready 0 pNode hp9
  have hall : allNodes (Shape.set (fun _ _ => []) .ready 0 ([] ++ [pNode])) = [pNode] := by
    rw [allNodes_empty] at hperm
    exact List.perm_singleton.mp hperm
  have hpend : w.k.pendSV = false := by rw [hf.2]; exact hpend0
  refine ⟨_, hwf', ?_, ?_, ?_, ?_, ?_⟩
  · exact ⟨by simp [Shape.set], by simp [Shape.set]⟩
  · unfold TcbNodup
    rw [hall]; simp
  · intro n hm
    rw [hall] at hm
    simp only [List.mem_singleton] at hm
    subst hm
    rw [hn, ht, hnew]
    simp
  · intro hp; rw [hpend] at hp; cases hp
  · intro hd'; rw [hd] at hd'; cases hd'

/-- The context switch keeps the invariant and leaves the new current task on
Ready. -/
theorem pendSV_Inv {w : World} (sp : Nat) (hinv : Inv w) (hp : w.k.pendSV = true) :
    Inv ⟨PendSV_Handler sp w.k, w.nodes, w.tasks, true⟩ := by
  obtain ⟨sh, hwf, hws, htn, hgh, hpend, -⟩ := hinv
  have hnode : (PendSV_Handler sp w.k).node = w.k.node := rfl
  have hwf' : WF (PendSV_Handler sp w.k) sh := by
    refine WF_tcb hnode ?_ (fun L => by cases L <;> rfl) hwf
    intro t
    unfold PendSV_Handler
    by_cases hc : w.k.OS_Tcb_Curr = 0
    · simp [hc]
    · by_cases e : t = w.k.OS_Tcb_Curr
      · subst e; simp [hc]
      · simp [hc, Function.update_noteq e]
  refine ⟨sh, hwf', hws, TcbNodup_node hnode htn, ?_, ?_, ?_⟩
  · intro n hn; exact hgh n hn
  · intro h; exact absurd h (by simp [PendSV_Handler])
  · intro _ _
    obtain ⟨p, hp9, n, hn, e⟩ := hpend hp
    exact ⟨p, hp9, n, hn, e⟩

/-- Every state reachable from `OS_Init`, with every TCB created at most once,
satisfies the invariant. -/
theorem Reach_Inv {w : World} (h : Reach true w) : Inv w := by
  induction h with
  | init w hb => exact Booted_Inv hb
  | step w w' _ hstep ih =>
    cases hstep with
    | create fuel myTcb prio threadHandler stkSto stkSize pNode k' hN hT hc =>
      exact create_Inv ih hN (hT rfl) hc
    | delay fuel ticks k' hc =>
      exact Inv_of_preserves ih (fun sh hwf hws htn => OS_Delay_preserves _ sh hwf hws htn hc)
    | tick fuel k' hc =>
      exact Inv_of_preserves ih (fun sh hwf hws _ => OS_tick_preserves hwf hws hc)
    | sched fuel k' hc =>
      exact Inv_of_preserves ih (fun sh hwf hws _ => OS_sched_preserves _ sh hwf hws hc)
    | pendSV sp hp => exact pendSV_Inv sp ih hp
    | semCreate cnt se_name =>
      exact Inv_of_preserves ih (fun sh hwf hws _ => OS_Sem_Create_preserves _ sh hwf hws _ _)
    | semWait fuel pEvent timeout err k' hc =>
      exact Inv_of_preserves ih (fun sh hwf hws htn => OS_Sem_Wait_preserves _ sh hwf hws htn hc)
    | semPost fuel pEvent status k' hc =>
      exact Inv_of_preserves ih (fun sh hwf hws _ => OS_Sem_Post_preserves _ sh hwf hws hc)
    | mqCreate start size pEvent k' hc =>
      exact Inv_of_preserves ih (fun sh hwf hws _ => OS_MsgQ_Create_preserves _ sh hwf hws hc)
    | mqSend fuel pEvent pMsg status k' hc =>
      exact Inv_of_preserves ih (fun sh hwf hws _ => OS_MsgQ_Send_preserves _ sh hwf hws hc)
    | mqWait fuel pEvent timeout r k' hc =>
      exact Inv_of_preserves ih (fun sh hwf hws htn => OS_MsgQ_Wait_preserves _ sh hwf hws htn hc)

/-- Well-formed lists satisfy the bitmap invariant. -/
theorem BitmapInv_of_WF {s : Kernel} {sh : Shape} (h : WF s sh) : BitmapInv s := by
  have key : ∀ L, ListBitmapInv (s.getList L) := by
    intro L p hp9 hp1
    have := (h.list L).2.2 (p - 1) (by unfold MAX_TASKS_IN_LIST at hp9; omega)
    rw [Nat.sub_add_cancel hp1] at this
    exact this
  exact ⟨key .ready, key .delayed, key .waiting⟩

/-- With no TCB on two nodes, a task on one list is on no other list. -/
theorem OnList_unique {s : Kernel} {sh : Shape} (hwf : WF s sh) (htn : TcbNodup s sh)
    {L L' : ListId} {t : Nat} (h : OnList s sh L t) (hne : L' ≠ L) : ¬ OnList s sh L' t := by
  rintro ⟨q, hq, m, hm, e'⟩
  obtain ⟨p, hp, n, hn, e⟩ := h
  have hnm : m = n := TcbNodup_inj htn ((mem_allNodes sh m).mpr ⟨L', q, hq, hm⟩)
    ((mem_allNodes sh n).mpr ⟨L, p, hp, hn⟩) (by rw [e, e'])
  subst hnm
  exact hne (slot_disjoint hwf.2 hq hp hm hn).1

/-! ## The list invariants in the reachable states -/

theorem stateOf_spec (r : Except Fault Kernel) (h : returns r = true) : r = .ok (stateOf r) := by
  cases r with
  | error e => simp [returns] at h
  | ok k => rfl

theorem stateOf2_spec {α : Type} (r : Except Fault (α × Kernel)) (h : returns r = true) :
    ∃ a, r = .ok (a, stateOf2 r) := by
  cases r with
  | error e => simp [returns] at h
  | ok k => exact ⟨k.1, rfl⟩

/-- C18 (amended): in every state reachable from `OS_Init` through the kernel
services, with every TCB passed to `OS_Task_Create` at most once, for each of
the Ready, Delayed and Waiting lists and every priority `p` in 1..8, bit
`p - 1` of the list's bitmap is set if and only if the head of slot `p` of that
list is not null. -/
theorem bitmap_invariant (w : World) (h : Reach true w) : BitmapInv w.k := by
  obtain ⟨sh, hwf, -⟩ := Reach_Inv h
  exact BitmapInv_of_WF hwf

/-- C19: in every reachable state (each TCB passed to `OS_Task_Create` at most
once) the three lists are well-formed chains of distinct nodes and no two of
their nodes refer to the same TCB; in particular no task is on two lists. -/
theorem one_node_per_tcb (w : World) (h : Reach true w) :
    ∃ sh, WF w.k sh ∧ TcbNodup w.k sh ∧
      ∀ t L L', OnList w.k sh L t → OnList w.k sh L' t → L' = L := by
  obtain ⟨sh, hwf, -, htn, -⟩ := Reach_Inv h
  refine ⟨sh, hwf, htn, ?_⟩
  intro t L L' h1 h2
  by_contra hne
  exact OnList_unique hwf htn h1 hne h2

/-- C20 (amended): in every reachable state after the first dispatch in which no
context switch is pending, the currently running TCB is on the Ready list, and
on neither the Delayed nor the Waiting list. -/
theorem current_task_placement (w : World) (h : Reach true w) (hd : w.dispatched = true)
    (hp : w.k.pendSV = false) :
    ∃ sh, WF w.k sh ∧ OnList w.k sh .ready w.k.OS_Tcb_Curr ∧
      ¬ OnList w.k sh .delayed w.k.OS_Tcb_Curr ∧ ¬ OnList w.k sh .waiting w.k.OS_Tcb_Curr := by
  obtain ⟨sh, hwf, -, htn, -, -, hcur⟩ := Reach_Inv h
  have hon := hcur hd hp
  exact ⟨sh, hwf, hon, OnList_unique hwf htn hon (by decide),
    OnList_unique hwf htn hon (by decide)⟩

/-! ## Building sample runs -/

theorem faultOf_spec {α : Type} (r : Except Fault α) (e : Fault) (h : faultOf r = some e) :
    r = .error e := by
  cases r with
  | error e' => simp only [faultOf, Option.some.injEq] at h; rw [h]
  | ok a => simp [faultOf] at h

theorem reach_create (once : Bool) (k k' : Kernel) (nodes tasks : List Nat) (d : Bool)
    (fuel myTcb prio threadHandler stkSto stkSize pNode : Nat)
    (h : Reach once ⟨k, nodes, tasks, d⟩) (hN : pNode ∉ nodes) (hT : myTcb ∉ tasks)
    (hc : OS_Task_Create fuel myTcb prio threadHandler stkSto stkSize pNode k = .ok k') :
    Reach once ⟨k', pNode :: nodes, myTcb :: tasks, d⟩ :=
  Reach.step _ _ h
    (Step.create ⟨k, nodes, tasks, d⟩ fuel myTcb prio threadHandler stkSto stkSize pNode k' hN
      (fun _ => hT) hc)

theorem reach_sched (once : Bool) (k k' : Kernel) (nodes tasks : List Nat) (d : Bool) (fuel : Nat)
    (h : Reach once ⟨k, nodes, tasks, d⟩) (hc : OS_sched fuel k = .ok k') :
    Reach once ⟨k', nodes, tasks, d⟩ :=
  Reach.step _ _ h (Step.sched ⟨k, nodes, tasks, d⟩ fuel k' hc)

theorem reach_delay (once : Bool) (k k' : Kernel) (nodes tasks : List Nat) (d : Bool)
    (fuel ticks : Nat) (h : Reach once ⟨k, nodes, tasks, d⟩)
    (hc : OS_Delay fuel ticks k = .ok k') : Reach once ⟨k', nodes, tasks, d⟩ :=
  Reach.step _ _ h (Step.delay ⟨k, nodes, tasks, d⟩ fuel ticks k' hc)

theorem reach_tick (once : Bool) (k k' : Kernel) (nodes tasks : List Nat) (d : Bool) (fuel : Nat)
    (h : Reach once ⟨k, nodes, tasks, d⟩) (hc : OS_tick fuel k = .ok k') :
    Reach once ⟨k', nodes, tasks, d⟩ :=
  Reach.step _ _ h (Step.tick ⟨k, nodes, tasks, d⟩ fuel k' hc)

theorem reach_pendSV (once : Bool) (k : Kernel) (nodes tasks : List Nat) (d : Bool) (sp : Nat)
    (h : Reach once ⟨k, nodes, tasks, d⟩) (hp : k.pendSV = true) :
    Reach once ⟨PendSV_Handler sp k, nodes, tasks, true⟩ :=
  Reach.step _ _ h (Step.pendSV ⟨k, nodes, tasks, d⟩ sp hp)

theorem reach_semCreate (once : Bool) (k : Kernel) (nodes tasks : List Nat) (d : Bool)
    (cnt : Nat) (se_name : String) (h : Reach once ⟨k, nodes, tasks, d⟩) :
    Reach once ⟨(OS_Sem_Create cnt se_name k).2, nodes, tasks, d⟩ :=
  Reach.step _ _ h (Step.semCreate ⟨k, nodes, tasks, d⟩ cnt se_name)

theorem reach_semWait (once : Bool) (k : Kernel) (nodes tasks : List Nat) (d : Bool)
    (fuel pEvent timeout : Nat) (h : Reach once ⟨k, nodes, tasks, d⟩)
    (hc : returns (OS_Sem_Wait fuel pEvent timeout k) = true) :
    Reach once ⟨stateOf2 (OS_Sem_Wait fuel pEvent timeout k), nodes, tasks, d⟩ := by
  obtain ⟨err, he⟩ := stateOf2_spec (OS_Sem_Wait fuel pEvent timeout k) hc
  exact Reach.step _ _ h (Step.semWait ⟨k, nodes, tasks, d⟩ fuel pEvent timeout err _ he)

/-! ## Removal by TCB, insertion and delay as list moves -/

theorem unlinkNd_outside (nd : Nat → Task_List_Node) {a n b k : Nat}
    (h1 : k ≠ n) (h2 : a ≠ 0 → k ≠ a) (h3 : b ≠ 0 → k ≠ b) : unlinkNd nd a n b k = nd k := by
  unfold unlinkNd
  by_cases ha : a = 0 <;> by_cases hb : b = 0 <;> simp_all [Function.update_apply]

/-- The nodes that `removeState` writes belong to the slot. -/
theorem removeState_node_outside (s : Kernel) (L : ListId) (p n : Nat) (l1 l2 : List Nat)
    {k : Nat} (hk : k ∉ l1 ++ n :: l2) :
    (removeState s L p (lastOr 0 l1) n (l2.headD 0)).node k = s.node k := by
  rw [removeState_node]
  have hk' : k ∉ l1 ∧ k ≠ n ∧ k ∉ l2 := by simpa using hk
  refine unlinkNd_outside _ hk'.2.1 ?_ ?_
  · intro ha e
    rcases lastOr_zero_or_mem l1 with h0 | hm
    · exact ha h0
    · exact hk'.1 (e ▸ hm)
  · intro hb e
    rcases headD_zero_or_mem l2 with h0 | hm
    · exact hb h0
    · exact hk'.2.2 (e ▸ hm)

/-- C30: on well-formed lists, when slot `p` of list `L` holds a node for the
TCB `t` of priority `p` (1 to 8), `os_utilsRemoveFromListByTaskTcb` returns the
first such node `n` with both links cleared; the slot then holds the remaining
nodes in their order, correctly linked, and every other slot of every list is
as before (`WF` for the shape with `n` taken out); bit `p - 1` of the bitmap,
set before, is cleared exactly when the slot became empty; no other bit, no
other head, no other list, no node outside the slot and no TCB is written.
The position of `n` in the slot (only, first, middle, last) is arbitrary. -/
theorem remove_by_tcb_present (s : Kernel) (sh : Shape) (L : ListId) (fuel t p n : Nat)
    (l1 l2 : List Nat) (hwf : WF s sh) (ht : t ≠ 0) (hprio : (s.tcb t).OS_TcbPrio = p)
    (hp0 : 0 < p) (hp8 : p ≤ MAX_TASK_PRIORITY) (hsh : sh L p = l1 ++ n :: l2)
    (hn : (s.node n).pTcb = t) (hl1 : ∀ k ∈ l1, (s.node k).pTcb ≠ t) (hf : l1.length < fuel) :
    ∃ s', os_utilsRemoveFromListByTaskTcb fuel t L.code s = .ok (n, s') ∧
      s'.node n = { prev := 0, next := 0, pTcb := t } ∧
      WF s' (sh.set L p (l1 ++ l2)) ∧
      (s.getList L).TaskRriorityBitMap.testBit (p - 1) = true ∧
      ((s'.getList L).TaskRriorityBitMap.testBit (p - 1) = false ↔ l1 ++ l2 = []) ∧
      (∀ i, i ≠ p - 1 →
        (s'.getList L).TaskRriorityBitMap.testBit i = (s.getList L).TaskRriorityBitMap.testBit i) ∧
      (∀ q, q ≠ p → (s'.getList L).TaskList q = (s.getList L).TaskList q) ∧
      (∀ L', L' ≠ L → s'.getList L' = s.getList L') ∧
      (∀ k, k ∉ sh L p → s'.node k = s.node k) ∧ s'.tcb = s.tcb := by
  have hp9 : p < MAX_TASKS_IN_LIST := by unfold MAX_TASKS_IN_LIST; omega
  have hseg := hwf.seg L hp9
  rw [hsh] at hseg
  have hnd := slot_nodup hwf.2 L hp9
  rw [hsh] at hnd
  have hrem := removeByTcb_eq s L fuel t p n l1 l2 ht hprio hp0 hp8 hseg hnd hl1 hn hf
  obtain ⟨hwf', -⟩ := remove_WF s sh L p n l1 l2 hwf hp0 hp8 hsh
  have hW := hwf.list L
  have hW' := hwf'.list L
  have hp1 : p - 1 < MAX_TASK_PRIORITY := by omega
  have hpp : p - 1 + 1 = p := by omega
  have hbit : (s.getList L).TaskRriorityBitMap.testBit (p - 1) = true := by
    refine (hW.2.2 (p - 1) hp1).mpr ?_
    rw [hpp]
    intro e
    have := (Seg_head_eq_zero (hwf.seg L hp9)).mp e
    rw [hsh] at this
    simp at this
  have hset : (sh.set L p (l1 ++ l2)) L p = l1 ++ l2 := by simp [Shape.set]
  refine ⟨_, hrem, ?_, hwf', hbit, ?_, ?_, ?_, ?_, ?_, ?_⟩
  · rw [removeState_node, unlinkNd_self, hn]
  · have h1 := hW'.2.2 (p - 1) hp1
    rw [hpp] at h1
    have h2 := Seg_head_eq_zero (hwf'.seg L hp9)
    rw [hset] at h2
    constructor
    · intro hb
      apply h2.mp
      by_contra hne
      have := h1.mpr hne
      rw [hb] at this
      cases this
    · intro he
      have h0 := h2.mpr he
      by_contra hb
      have hb' : ((removeState s L p (lastOr 0 l1) n (l2.headD 0)).getList L).TaskRriorityBitMap.testBit
          (p - 1) = true := by simpa using hb
      exact h1.mp hb' h0
  · intro i hi
    rw [removeState_bitmap]
    split_ifs
    · rw [PRIORITY_TO_BIT_pow hp0 hp8, testBit_clear _ _ _
        (lt_of_lt_of_le hW.2.1 (Nat.pow_le_pow_right (by norm_num) (by decide)))
        (by unfold MAX_TASK_PRIORITY at hp8; omega)]
      simp [hi]
    · rfl
  · intro q hq
    rw [removeState_head]
    simp [hq]
  · intro L' hL
    exact removeState_getList_ne s p _ n _ hL
  · intro k hk
    rw [hsh] at hk
    exact removeState_node_outside s L p n l1 l2 hk
  · exact removeState_tcb s L p _ n _

/-! ## The contract of OS_Delay -/

/-- Unlinking node `n` from slot `p` of list `L` and appending it to slot `p` of
list `L'` keeps the lists well formed. -/
theorem moved_WF (s : Kernel) (sh : Shape) (hwf : WF s sh) (L L' : ListId) (p n : Nat)
    (l1 l2 : List Nat) (hp0 : 0 < p) (hp8 : p ≤ MAX_TASK_PRIORITY) (hsh : sh L p = l1 ++ n :: l2) :
    WF (addState (removeState s L p (lastOr 0 l1) n (l2.headD 0)) L' p n
        (lastOr 0 ((sh.set L p (l1 ++ l2)) L' p)))
      (sh.move L L' p l1 n l2) := by
  have hp9 : p < MAX_TASKS_IN_LIST := by unfold MAX_TASKS_IN_LIST; omega
  obtain ⟨hwf1, hnot⟩ := remove_WF s sh L p n l1 l2 hwf hp0 hp8 hsh
  have hnin : n ∈ sh L p := by rw [hsh]; simp
  have hn0 : n ≠ 0 := Seg_ne_zero (hwf.seg L hp9) n hnin
  have hpr := ((hwf.list L).1 p hp9).2 n hnin
  have hnode : (removeState s L p (lastOr 0 l1) n (l2.headD 0)).node n
      = { prev := 0, next := 0, pTcb := (s.node n).pTcb } := by
    rw [removeState_node, unlinkNd_self]
  exact add_WF _ _ L' p n hwf1 hn0 hnot (by rw [hnode]; exact hpr.1)
    (by rw [hnode, removeState_tcb]; exact hpr.2) hp0 hp8 (by rw [hnode]) (by rw [hnode])

/-- The function `OS_Delay` is its precondition followed by the rest of its
body. -/
theorem OS_Delay_split (fuel ticks : Nat) (s : Kernel) :
    OS_Delay fuel ticks s = (OS_Delay_precondition s >>= fun _ => OS_Delay_body fuel ticks s) := by
  unfold OS_Delay OS_Delay_precondition OS_Delay_body
  cases rdNode s (s.ReadyTaskList.TaskList 0) with
  | error e => rfl
  | ok hd =>
    cases Q_ASSERT (s.OS_Tcb_Curr ≠ hd.pTcb) with
    | error e => rfl
    | ok u => rfl

/-- The precondition of `OS_Delay` on well-formed lists with the idle node at the
head of Ready slot 0: it fails when the current task is the idle task and holds
otherwise. -/
theorem OS_Delay_precondition_spec (s : Kernel) (sh : Shape) (hwf : WF s sh)
    (hidle : sh .ready 0 ≠ []) :
    (s.OS_Tcb_Curr = (s.node (s.ReadyTaskList.TaskList 0)).pTcb →
      OS_Delay_precondition s = .error .assertion) ∧
    (s.OS_Tcb_Curr ≠ (s.node (s.ReadyTaskList.TaskList 0)).pTcb →
      OS_Delay_precondition s = .ok ()) := by
  have h09 : 0 < MAX_TASKS_IN_LIST := by decide
  have hhd0 : s.ReadyTaskList.TaskList 0 ≠ 0 := fun e =>
    hidle ((Seg_head_eq_zero (hwf.seg .ready h09)).mp e)
  constructor
  · intro hc
    unfold OS_Delay_precondition
    simp [rdNode_ok s hhd0, Q_ASSERT, hc]
  · intro hc
    unfold OS_Delay_precondition
    simp only [rdNode_ok s hhd0, ok_bind, Q_ASSERT_true hc]

/-- The result of `OS_Delay` on well-formed lists with the idle node at the head
of Ready slot 0: with the idle task current the call ends in an assertion; a
current task of priority 1 to 8 that is on Ready and is not the idle task has
its node moved from its Ready slot to the tail of the Delayed slot of the same
priority, its timeout set to `ticks`, and every other TCB is unchanged. -/
theorem OS_Delay_moves (s : Kernel) (sh : Shape) (fuel ticks : Nat) (hwf : WF s sh)
    (hidle : sh .ready 0 ≠ []) :
    (s.OS_Tcb_Curr = (s.node (s.ReadyTaskList.TaskList 0)).pTcb →
      OS_Delay fuel ticks s = .error .assertion) ∧
    (s.OS_Tcb_Curr ≠ (s.node (s.ReadyTaskList.TaskList 0)).pTcb → s.OS_Tcb_Curr ≠ 0 →
      0 < (s.tcb s.OS_Tcb_Curr).OS_TcbPrio →
      (s.tcb s.OS_Tcb_Curr).OS_TcbPrio ≤ MAX_TASK_PRIORITY →
      (∃ k ∈ sh .ready (s.tcb s.OS_Tcb_Curr).OS_TcbPrio, (s.node k).pTcb = s.OS_Tcb_Curr) →
      (allNodes sh).length + MAX_TASKS_IN_LIST ≤ fuel →
      ∃ l1 n l2 s',
        sh .ready (s.tcb s.OS_Tcb_Curr).OS_TcbPrio = l1 ++ n :: l2 ∧
        (s.node n).pTcb = s.OS_Tcb_Curr ∧ (∀ k ∈ l1, (s.node k).pTcb ≠ s.OS_Tcb_Curr) ∧
        OS_Delay fuel ticks s = .ok s' ∧
        WF s' (sh.move .ready .delayed (s.tcb s.OS_Tcb_Curr).OS_TcbPrio l1 n l2) ∧
        s'.tcb s.OS_Tcb_Curr = { s.tcb s.OS_Tcb_Curr with OS_TcbTimeout := ticks } ∧
        (∀ t, t ≠ s.OS_Tcb_Curr → s'.tcb t = s.tcb t) ∧
        (∀ k, (s'.node k).pTcb = (s.node k).pTcb) ∧ s'.OS_Tcb_Curr = s.OS_Tcb_Curr) := by
  have h09 : 0 < MAX_TASKS_IN_LIST := by decide
  have hhd0 : s.ReadyTaskList.TaskList 0 ≠ 0 := fun e =>
    hidle ((Seg_head_eq_zero (hwf.seg .ready h09)).mp e)
  constructor
  · intro hc
    unfold OS_Delay
    simp [rdNode_ok s hhd0, Q_ASSERT, hc]
  · intro hnot hcur hp0 hp8 hon hfuel
    obtain ⟨l1, n, l2, hsh, hn, hl1⟩ :=
      first_split (fun k => (s.node k).pTcb = s.OS_Tcb_Curr) _ hon
    have hp9 : (s.tcb s.OS_Tcb_Curr).OS_TcbPrio < MAX_TASKS_IN_LIST := by
      unfold MAX_TASKS_IN_LIST; omega
    generalize hpdef : (s.tcb s.OS_Tcb_Curr).OS_TcbPrio = p at *
    let c1 : OS_TCB := { s.tcb s.OS_Tcb_Curr with OS_TcbTimeout := ticks }
    generalize hs1 : ({ s with tcb := Function.update s.tcb s.OS_Tcb_Curr c1 } : Kernel) = s1
    have hprio1 : ∀ t, (s1.tcb t).OS_TcbPrio = (s.tcb t).OS_TcbPrio := by
      intro t
      rw [← hs1]
      by_cases h : t = s.OS_Tcb_Curr
      · subst h; simp
      · simp [Function.update_apply, h]
    have hnode1 : s1.node = s.node := by rw [← hs1]
    have hcur1 : s1.OS_Tcb_Curr = s.OS_Tcb_Curr := by rw [← hs1]
    have hwf1 : WF s1 sh :=
      WF_tcb hnode1 hprio1 (fun L => by rw [← hs1]; cases L <;> rfl) hwf
    have hseg1 := hwf1.seg .ready hp9
    rw [hsh] at hseg1
    have hnd1 := slot_nodup hwf1.2 .ready hp9
    rw [hsh] at hnd1
    have hlen : (sh .ready p).length ≤ (allNodes sh).length := slot_length_le sh .ready hp9
    have hl1len : l1.length < fuel := by
      rw [hsh] at hlen; simp at hlen; omega
    have hrem := removeByTcb_eq s1 .ready fuel s.OS_Tcb_Curr p n l1 l2 hcur
      (by rw [hprio1, hpdef]) hp0 hp8 hseg1 hnd1 (by rw [hnode1]; exact hl1)
      (by rw [hnode1]; exact hn) hl1len
    obtain ⟨hwf2, hnot2⟩ := remove_WF s1 sh .ready p n l1 l2 hwf1 hp0 hp8 hsh
    have hnin : n ∈ sh .ready p := by rw [hsh]; simp
    have hn0 : n ≠ 0 := Seg_ne_zero (hwf.seg .ready hp9) n hnin
    generalize hs2 : removeState s1 .ready p (lastOr 0 l1) n (l2.headD 0) = s2 at hrem hwf2
    have hnode2 : s2.node n = { prev := 0, next := 0, pTcb := s.OS_Tcb_Curr } := by
      rw [← hs2, removeState_node, unlinkNd_self, hnode1, hn]
    have htcb2 : s2.tcb = s1.tcb := by rw [← hs2, removeState_tcb]
    have hseg2 := hwf2.seg .delayed hp9
    have hlen2 : ((sh.set .ready p (l1 ++ l2)) .delayed p).length ≤ fuel := by
      have : (sh.set .ready p (l1 ++ l2)) .delayed p = sh .delayed p := by simp [Shape.set]
      rw [this]
      have := slot_length_le sh .delayed hp9
      omega
    have hadd := addDelayed_eq s2 fuel p n _ hn0 (by rw [hnode2]; exact hcur)
      (by rw [hnode2, htcb2, hprio1, hpdef]) hp0 hp8 (by rw [hnode2]) (by rw [hnode2]) hseg2 hlen2
    have hwf3 := moved_WF s1 sh hwf1 .ready .delayed p n l1 l2 hp0 hp8 hsh
    rw [hs2] at hwf3
    generalize hs3 : addState s2 .delayed p n (lastOr 0 ((sh.set .ready p (l1 ++ l2)) .delayed p))
      = s3 at hadd hwf3
    have hidle3 : (sh.move .ready .delayed p l1 n l2) .ready 0 ≠ [] := by
      have h2 : ¬ (0 = p) := by omega
      simpa [Shape.move, Shape.set, h2] using hidle
    obtain ⟨t, hsched⟩ := OS_sched_ok s3 _ fuel hwf3 (fun _ => hidle3)
      (by rw [move_length sh _ _ p n l1 l2 hp9 hsh]; exact hfuel)
    have htcb3 : s3.tcb = s1.tcb := by rw [← hs3, addState_tcb, htcb2]
    have hpt3 : ∀ k, (s3.node k).pTcb = (s.node k).pTcb := by
      intro k
      rw [← hs3, addState_node_pTcb, ← hs2, removeState_node, unlinkNd_pTcb, hnode1]
    have hcur3 : s3.OS_Tcb_Curr = s.OS_Tcb_Curr := by
      rw [← hs3, addState_curr, ← hs2, removeState_curr, hcur1]
    refine ⟨l1, n, l2, schedState s3 t, hsh, hn, hl1, ?_, schedState_WF t hwf3, ?_, ?_, ?_, ?_⟩
    · unfold OS_Delay
      have hcode : READY_TASK_LIST = ListId.ready.code := rfl
      simp only [rdNode_ok s hhd0, ok_bind, Q_ASSERT_true hnot, rdTcb_ok s hcur, wrTcb, hcur,
        ↓reduceIte, hs1, hcur1, hcode, hrem, Q_ASSERT_true hn0, hadd, hsched]
    · rw [schedState_tcb, htcb3, ← hs1]
      simp
    · intro t' ht'
      rw [schedState_tcb, htcb3, ← hs1]
      simp [Function.update_apply, ht']
    · intro k
      rw [schedState_node, hpt3]
    · rw [schedState_curr, hcur3]

/-- The post that preempts.  On well-formed lists (Waiting holding priorities 1
to 7), let node `n` of Waiting slot `p` belong to the only task that waits on
the semaphore `e`, let every task on Ready have a priority below `p`, and let
that task not be `OS_Tcb_Curr`.  Then `OS_Sem_Post` returns `OS_ERR_NONE`;
afterwards `n` is the only node of Ready slot `p`, `OS_Tcb_Next` is the TCB of
`n` and the PendSV request is raised.  The hypothesis on `OS_Tcb_Curr` cannot
be dropped: `OS_sched` writes `OS_Tcb_Next` only when the selected task differs
from `OS_Tcb_Curr`. -/
theorem OS_Sem_Post_preempts (s : Kernel) (sh : Shape) (e fuel p n : Nat)
    (hwf : WF s sh) (hslots : WaitingSlots sh)
    (he : e ≠ 0) (htype : (s.ecb e).OS_EventType = OS_EVENT_TYPE_SEM)
    (hp9 : p < MAX_TASKS_IN_LIST) (hn : n ∈ sh .waiting p) (hw : waitsOn s e n)
    (honly : ∀ q, q < MAX_TASKS_IN_LIST → ∀ k ∈ sh .waiting q, waitsOn s e k → k = n)
    (hlow : ∀ q, q < MAX_TASKS_IN_LIST → ∀ k ∈ sh .ready q,
      (s.tcb (s.node k).pTcb).OS_TcbPrio < (s.tcb (s.node n).pTcb).OS_TcbPrio)
    (hcur : s.OS_Tcb_Curr ≠ (s.node n).pTcb)
    (hfuel : (allNodes sh).length + MAX_TASKS_IN_LIST ≤ fuel) :
    ∃ l1 l2 s', sh .waiting p = l1 ++ n :: l2 ∧
      OS_Sem_Post fuel e s = .ok (OS_ERR_NONE, s') ∧
      WF s' (sh.move .waiting .ready p l1 n l2) ∧
      (sh.move .waiting .ready p l1 n l2) .ready p = [n] ∧
      (s'.node n).pTcb = (s.node n).pTcb ∧
      s'.OS_Tcb_Next = (s.node n).pTcb ∧ s'.pendSV = true := by
  obtain ⟨l1, m, l2, hsh, hwm, hl1⟩ := first_split (fun k => waitsOn s e k) _ ⟨n, hn, hw⟩
  have hmn : m = n := honly p hp9 m (by rw [hsh]; simp) hwm
  subst hmn
  have hno : ∀ q, p < q → q < MAX_TASKS_IN_LIST → ∀ k ∈ sh .waiting q, ¬ waitsOn s e k := by
    intro q hpq hq k hk hwk
    have := honly q hq k hk hwk
    subst this
    have := (slot_disjoint hwf.2 hq hp9 hk hn).2
    omega
  have hp0 : 0 < p := by
    rcases Nat.eq_zero_or_pos p with h | h
    · subst h; rw [hslots.1] at hsh; simp at hsh
    · exact h
  have hp8 : p < MAX_TASK_PRIORITY := by
    have : p ≠ MAX_TASK_PRIORITY := by
      intro h; subst h; rw [hslots.2] at hsh; simp at hsh
    unfold MAX_TASKS_IN_LIST at hp9; omega
  have hnp := ((hwf.list .waiting).1 p hp9).2 m hn
  have hrp : sh .ready p = [] := by
    cases hl : sh .ready p with
    | nil => rfl
    | cons k l =>
      exfalso
      have hk : k ∈ sh .ready p := by rw [hl]; simp
      have h1 := hlow p hp9 k hk
      rw [(((hwf.list .ready).1 p hp9).2 k hk).2, hnp.2] at h1
      omega
  obtain ⟨s1, hready, hwf1, ht, -, -, -, hc1, -, -, -, -, hpt⟩ :=
    OS_EventTaskReady_found s sh e 0 OS_STATE_SEM OS_STAT_PEND_OK fuel p m l1 l2 hwf hp0 hp8
      hsh hw hl1 hno hfuel
  have htarget : (sh.move .waiting .ready p l1 m l2) .ready p = [m] := by
    rw [move_target sh .waiting .ready p m l1 l2 (by decide), hrp]; rfl
  have hrb : s1.ReadyTaskList.TaskRriorityBitMap ≠ 0 :=
    bitmap_ne_zero s1 _ hwf1 .ready p m hp0 (le_of_lt hp8) (by rw [htarget]; simp)
  obtain ⟨k, hk, -, hsched, hmax⟩ := (OS_sched_select s1 _ fuel hwf1
    (by rw [move_length sh _ _ p m l1 l2 hp9 hsh]; exact hfuel)).2 hrb
  have hbm : s.WaitingTaskList.TaskRriorityBitMap ≠ 0 :=
    bitmap_ne_zero s sh hwf .waiting p m hp0 (le_of_lt hp8) hn
  -- the selected node is `m`
  have hq9 : LOG2 s1.ReadyTaskList.TaskRriorityBitMap < MAX_TASKS_IN_LIST := by
    have := (top_slot s1 _ hwf1 .ready _ hrb (fun _ h => h)).2.1
    unfold MAX_TASKS_IN_LIST; omega
  have hkm : k = m := by
    by_cases hq : LOG2 s1.ReadyTaskList.TaskRriorityBitMap = p
    · rw [hq, htarget] at hk
      simpa using hk
    · exfalso
      rw [move_other sh .waiting .ready .ready p _ m l1 l2 (by simp) (by simp [hq])] at hk
      have h1 := hlow _ hq9 k hk
      have h2 := hmax p hp9 m (by rw [htarget]; simp)
      rw [ht, hpt, hpt] at h2
      omega
  subst hkm
  have hne : (s1.node k).pTcb ≠ s1.OS_Tcb_Curr := by
    rw [hpt, hc1]; exact fun h => hcur h.symm
  refine ⟨l1, l2, schedState s1 (s1.node k).pTcb, hsh, ?_, schedState_WF _ hwf1, htarget, ?_, ?_,
    ?_⟩
  · unfold OS_Sem_Post
    simp [he, htype, hbm, hready, hsched]
  · rw [schedState_node, hpt]
  · unfold schedState
    rw [if_pos hne]
    simp [TRIGER_PENDSV_INT, hpt]
  · unfold schedState
    rw [if_pos hne]
    simp [TRIGER_PENDSV_INT]

/-! ## The stack frame built by `OS_Task_Create` -/

theorem decSp_of_ge {sp : Nat} (h : 4 ≤ sp) (h32 : sp < 2 ^ 32) : decSp sp = sp - 4 := by
  unfold decSp
  omega

/-- The sentinel loop terminates below the stack limit and writes no cell above
the one it starts at. -/
theorem fillStack_ok (lim : Nat) (hlim : 4 ≤ lim) (fuel sp : Nat) (s : Kernel)
    (h32 : sp < 2 ^ 32) (hfuel : (sp + 4 - lim) / 4 + 1 ≤ fuel) :
    ∃ m, fillStack lim fuel sp s = .ok { s with mem := m } ∧ ∀ a, sp / 4 < a → m a = s.mem a := by
  induction fuel generalizing sp s with
  | zero => omega
  | succ fuel ih =>
    unfold fillStack
    by_cases hge : sp ≥ lim
    · rw [if_pos hge, decSp_of_ge (by omega) h32]
      obtain ⟨m, hm, hfr⟩ := ih (sp - 4)
        { s with mem := Function.update s.mem (sp / 4) 0xDEADBEEF } (by omega) (by omega)
      refine ⟨m, hm, ?_⟩
      intro a ha
      rw [hfr a (by omega)]
      simp [Function.update_apply]
      omega
    · rw [if_neg hge]
      exact ⟨s.mem, rfl, fun _ _ => rfl⟩

/-- Pushing the words `l` downwards from the word index `u + l.length`: the stack
pointer ends at word `u`, the cells `u ..` hold `l` in reverse order. -/
theorem pushFrame_eq (l : List Nat) (u : Nat) (s : Kernel) (h32 : 4 * (u + l.length) < 2 ^ 32) :
    l.foldl pushWord (4 * (u + l.length), s) =
      (4 * u, { s with mem := fun a =>
        if u ≤ a ∧ a < u + l.length then l.getD (u + l.length - 1 - a) 0 else s.mem a }) := by
  induction l generalizing s with
  | nil =>
    have e : (fun a => if u ≤ a ∧ a < u + ([] : List Nat).length
        then ([] : List Nat).getD (u + ([] : List Nat).length - 1 - a) 0 else s.mem a) = s.mem :=
      funext fun a => if_neg (by simp only [List.length_nil]; omega)
    rw [e]
    rfl
  | cons v l ih =>
    simp only [List.length_cons] at h32
    have hstep : pushWord (4 * (u + (l.length + 1)), s) v =
        (4 * (u + l.length),
          { s with mem := Function.update s.mem (u + l.length) v }) := by
      unfold pushWord
      simp only []
      rw [decSp_of_ge (by omega) h32]
      have e1 : 4 * (u + (l.length + 1)) - 4 = 4 * (u + l.length) := by omega
      rw [e1]
      have e2 : 4 * (u + l.length) / 4 = u + l.length := by omega
      rw [e2]
    simp only [List.length_cons]
    rw [List.foldl_cons, hstep, ih _ (by omega)]
    congr 1
    congr 1
    funext a
    by_cases h1 : a = u + l.length
    · subst h1
      simp
    · by_cases h2 : u ≤ a ∧ a < u + l.length
      · have h3 : u ≤ a ∧ a < u + (l.length + 1) := ⟨h2.1, by omega⟩
        rw [if_pos h2, if_pos h3]
        have e : u + (l.length + 1) - 1 - a = (u + l.length - 1 - a) + 1 := by omega
        rw [e, List.getD_cons_succ]
      · have h3 : ¬ (u ≤ a ∧ a < u + (l.length + 1)) := by
          intro h; exact h2 ⟨h.1, by omega⟩
        rw [if_neg h2, if_neg h3]
        simp [Function.update_apply, h1]

/-- The function `os_utilsAddTaskToReadyListByTcb` with a fresh node from
`malloc`, on well-formed lists. -/
theorem addReady_eq (s : Kernel) (sh : Shape) (hwf : WF s sh) (fuel task_tcb pNode : Nat)
    (ht0 : task_tcb ≠ 0) (hp8 : (s.tcb task_tcb).OS_TcbPrio ≤ MAX_TASK_PRIORITY)
    (hn0 : pNode ≠ 0) (hfresh : pNode ∉ allNodes sh)
    (hf : (sh .ready (s.tcb task_tcb).OS_TcbPrio).length ≤ fuel) :
    os_utilsAddTaskToReadyListByTcb fuel task_tcb pNode s =
      .ok (OS_ERR_NONE, addState
        { s with node := Function.update s.node pNode ⟨0, 0, task_tcb⟩ }
        .ready (s.tcb task_tcb).OS_TcbPrio pNode
        (lastOr 0 (sh .ready (s.tcb task_tcb).OS_TcbPrio))) := by
  have hp9 : (s.tcb task_tcb).OS_TcbPrio < MAX_TASKS_IN_LIST := by
    unfold MAX_TASKS_IN_LIST; omega
  generalize hs1 : ({ s with node := Function.update s.node pNode ⟨0, 0, task_tcb⟩ } : Kernel) = s1
  have hwf1 : WF s1 sh := by
    refine WF_frame ?_ ?_ (fun L => by rw [← hs1]; cases L <;> rfl) hwf
    · intro n hn
      rw [← hs1]
      have : n ≠ pNode := fun e => hfresh (e ▸ hn)
      simp [Function.update_noteq this]
    · intro n _; rw [← hs1]
  have hseg := hwf1.seg .ready hp9
  have hhd : (s1.getList .ready).TaskList = s1.ReadyTaskList.TaskList := rfl
  rw [hhd] at hseg
  unfold os_utilsAddTaskToReadyListByTcb
  simp only [rdTcb_ok s ht0, ok_bind, Q_ASSERT_true hp8, hn0, ↓reduceIte, wrNode, hs1]
  rcases List.eq_nil_or_concat (sh .ready (s.tcb task_tcb).OS_TcbPrio) with e0 | ⟨l', y, e1⟩
  · rw [e0] at hseg ⊢
    have hh : s1.ReadyTaskList.TaskList (s.tcb task_tcb).OS_TcbPrio = 0 := hseg
    simp [hh, addState, lastOr, Kernel.setBitMap, Kernel.setHead, Kernel.setList, Kernel.getList]
  · rw [List.concat_eq_append] at e1
    have hne : sh .ready (s.tcb task_tcb).OS_TcbPrio ≠ [] := by rw [e1]; simp
    have hbit := bit_already_set s1 sh hwf1 .ready _ hp8 hne
    have hb' : s1.ReadyTaskList.TaskRriorityBitMap ||| PRIORITY_TO_BIT (s.tcb task_tcb).OS_TcbPrio
        = s1.ReadyTaskList.TaskRriorityBitMap := hbit
    rw [e1] at hseg hf
    have hy : y ≠ 0 := Seg_ne_zero hseg y (by simp)
    have hh : s1.ReadyTaskList.TaskList (s.tcb task_tcb).OS_TcbPrio ≠ 0 := by
      intro e
      have := (Seg_head_eq_zero hseg).mp e
      simp at this
    have hl := lastNode_spec s1 hseg fuel (by simp at hf; omega)
    rw [e1, lastOr_append_singleton]
    simp [hh, hl, addState, hy, setNext, setPrev, wrNode, hn0, appendNd, Kernel.setBitMap,
      Kernel.setList, Kernel.getList, hb']

/-- What `OS_Task_Create` does with a stack of at least 72 bytes that lies in the
32-bit address space above address 0, a non-null TCB that no list node refers
to, and a fresh non-null node from `malloc`: it returns, and the result state
is described field by field. -/
theorem OS_Task_Create_ok (s : Kernel) (sh : Shape) (hwf : WF s sh)
    (fuel myTcb prio threadHandler stkSto stkSize pNode : Nat)
    (ht0 : myTcb ≠ 0) (hn0 : pNode ≠ 0) (hfreshN : pNode ∉ allNodes sh)
    (hfreshT : ∀ n ∈ allNodes sh, (s.node n).pTcb ≠ myTcb)
    (hprio : prio ≤ MAX_TASK_PRIORITY) (hbase : 0 < stkSto) (htop : stkSto + stkSize < 2 ^ 32)
    (hsize : 72 ≤ stkSize)
    (hfuel : stkSize / 4 + (allNodes sh).length + MAX_TASKS_IN_LIST ≤ fuel) :
    ∃ s', OS_Task_Create fuel myTcb prio threadHandler stkSto stkSize pNode s = .ok s' ∧
      WF s' (sh.set .ready prio (sh .ready prio ++ [pNode])) ∧
      s'.tcb myTcb = { s.tcb myTcb with
        OS_TcbSp := (stkSto + stkSize) / 8 * 8 - 64, OS_TcbPrio := prio } ∧
      (∀ t, t ≠ myTcb → s'.tcb t = s.tcb t) ∧
      (∀ i, i < 16 → s'.mem (((stkSto + stkSize) / 8 * 8 - 64) / 4 + i)
        = (initialFrame threadHandler).getD (15 - i) 0) ∧
      s'.node pNode = ⟨lastOr 0 (sh .ready prio), 0, myTcb⟩ ∧
      (∀ k, k ≠ pNode → (s'.node k).pTcb = (s.node k).pTcb) ∧
      s'.ecb = s.ecb ∧ s'.mqcb = s.mqcb ∧ s'.OSEventFreeList = s.OSEventFreeList ∧
      s'.OS_MQcb_FreeList = s.OS_MQcb_FreeList ∧ s'.OS_Tcb_Curr = s.OS_Tcb_Curr ∧
      s'.OS_Tcb_Next = s.OS_Tcb_Next ∧ s'.pendSV = s.pendSV := by
  have hp9 : prio < MAX_TASKS_IN_LIST := by unfold MAX_TASKS_IN_LIST; omega
  obtain ⟨u, hu⟩ : ∃ u, (stkSto + stkSize) / 8 * 8 = 4 * (u + 16) :=
    ⟨(stkSto + stkSize) / 8 * 8 / 4 - 16, by omega⟩
  have hlen : (initialFrame threadHandler).length = 16 := rfl
  have hA : (stkSto + stkSize) % 2 ^ 32 / 8 * 8
      = 4 * (u + (initialFrame threadHandler).length) := by
    rw [Nat.mod_eq_of_lt htop, hlen]; exact hu
  have hpush := pushFrame_eq (initialFrame threadHandler) u s (by rw [hlen]; omega)
  rw [← hA] at hpush
  have hsp : (stkSto + stkSize) / 8 * 8 - 64 = 4 * u := by omega
  have hlim : (dec32 stkSto / 8 + 1) * 8 % 2 ^ 32 = ((stkSto - 1) / 8 + 1) * 8 := by
    have : dec32 stkSto = stkSto - 1 := by unfold dec32; omega
    rw [this]
    omega
  -- the state after the frame stores and the first TCB store
  generalize hm1 : (fun a => if u ≤ a ∧ a < u + (initialFrame threadHandler).length
    then (initialFrame threadHandler).getD (u + (initialFrame threadHandler).length - 1 - a) 0
    else s.mem a) = m1 at hpush
  let c1 : OS_TCB := { s.tcb myTcb with OS_TcbSp := 4 * u }
  obtain ⟨m3, hfill, hkeep⟩ := fillStack_ok (((stkSto - 1) / 8 + 1) * 8) (by omega) fuel
    (4 * u - 4) { s with mem := m1, tcb := Function.update s.tcb myTcb c1 } (by omega) (by omega)
  let c2 : OS_TCB := { c1 with OS_TcbPrio := prio }
  generalize hs4 : ({ s with mem := m3, tcb := Function.update s.tcb myTcb c2 } : Kernel) = s4
  have hnode4 : s4.node = s.node := by rw [← hs4]
  have htcb4 : ∀ t, t ≠ myTcb → s4.tcb t = s.tcb t := by
    intro t ht; rw [← hs4]; simp [Function.update_noteq ht]
  have htcb4' : s4.tcb myTcb = c2 := by rw [← hs4]; simp
  have hwf4 : WF s4 sh := by
    refine WF_frame (fun n _ => by rw [hnode4]) ?_
      (fun L => by rw [← hs4]; cases L <;> rfl) hwf
    intro n hn
    rw [htcb4 _ (hfreshT n hn)]
  have hprio4 : (s4.tcb myTcb).OS_TcbPrio = prio := by rw [htcb4']
  have hadd := addReady_eq s4 sh hwf4 fuel myTcb pNode ht0 (by rw [hprio4]; exact hprio) hn0
    hfreshN (by
      rw [hprio4]
      have := slot_length_le sh .ready hp9
      omega)
  rw [hprio4] at hadd
  have hwf4' : WF { s4 with node := Function.update s4.node pNode ⟨0, 0, myTcb⟩ } sh := by
    refine WF_frame ?_ ?_ ?_ hwf4
    · intro n hn
      have : n ≠ pNode := fun e => hfreshN (e ▸ hn)
      simp [Function.update_noteq this]
    · intro n _; rfl
    · intro L; cases L <;> rfl
  have hwf5 := add_WF_gen _ sh .ready prio pNode hwf4' hn0 hfreshN (by simpa using ht0)
    (by simpa using hprio4) hprio (by simp) (by simp)
  refine ⟨_, ?_, hwf5, ?_, ?_, ?_, ?_, ?_, ?_, ?_, ?_, ?_, ?_, ?_, ?_⟩
  · unfold OS_Task_Create
    simp only [Q_ASSERT_true hp9, ok_bind, hpush, rdTcb_ok _ ht0, wrTcb, ht0, ↓reduceIte, hlim]
    have e4 : decSp (4 * u) = 4 * u - 4 := decSp_of_ge (by omega) (by omega)
    rw [e4, hfill]
    simp only [ok_bind, Function.update_same, Function.update_idem, hs4, hadd,
      Q_ASSERT_true, pure_eq_ok]
  · rw [addState_tcb]
    show s4.tcb myTcb = _
    rw [htcb4', hsp]
  · intro t ht
    rw [addState_tcb]
    exact htcb4 t ht
  · intro i hi
    rw [addState_mem]
    show s4.mem _ = _
    rw [← hs4, hsp]
    show m3 _ = _
    have e1 : 4 * u / 4 = u := by omega
    rw [e1, hkeep (u + i) (by omega)]
    show m1 (u + i) = _
    have h1 : u ≤ u + i ∧ u + i < u + (initialFrame threadHandler).length := by
      rw [hlen]; exact ⟨by omega, by omega⟩
    rw [← hm1]
    simp only []
    rw [if_pos h1, hlen]
    congr 1
    omega
  · rw [addState_node]
    by_cases hx : lastOr 0 (sh .ready prio) = 0
    · simp [hx]
    · have hxn : lastOr 0 (sh .ready prio) ≠ pNode := by
        rcases lastOr_zero_or_mem (sh .ready prio) with h0 | hm
        · exact absurd h0 hx
        · intro e
          exact hfreshN ((mem_allNodes sh pNode).mpr ⟨.ready, prio, hp9, e ▸ hm⟩)
      simp [hx, appendNd, Function.update_apply, hxn.symm]
  · intro k hk
    rw [addState_node_pTcb]
    simp [Function.update_noteq hk, hnode4]
  · rw [addState_ecb, ← hs4]
  · rw [addState_mqcb, ← hs4]
  · rw [addState_efree, ← hs4]
  · rw [addState_qfree, ← hs4]
  · rw [addState_curr, ← hs4]
  · rw [addState_next, ← hs4]
  · rw [addState_pendSV, ← hs4]

/-! ## Task creation and the state after OS_Init -/

/-- C27: `OS_Task_Create(tcb, prio, entry, base, size)` with `prio <= 8`, a stack
of at least 72 bytes inside the 32-bit address space (`base > 0`), a non-null
TCB that is on no list and a fresh node from `malloc` returns on well-formed
lists; it records `prio` in the TCB and the saved SP `A - 64`, where
`A = ((base + size) / 8) * 8`; the 16 words from the saved SP upward are
4 .. 11, 0 .. 3, 0xC, 0xE, the entry address and 0x01000000; the new node refers
to the TCB and is the last node of Ready slot `prio`, behind the nodes the slot
held, and every other slot is unchanged. -/
theorem OS_Task_Create_frame (s : Kernel) (sh : Shape) (hwf : WF s sh)
    (fuel myTcb prio threadHandler stkSto stkSize pNode : Nat)
    (ht0 : myTcb ≠ 0) (hn0 : pNode ≠ 0) (hfreshN : pNode ∉ allNodes sh)
    (hfreshT : ∀ n ∈ allNodes sh, (s.node n).pTcb ≠ myTcb)
    (hprio : prio ≤ MAX_TASK_PRIORITY) (hbase : 0 < stkSto) (htop : stkSto + stkSize < 2 ^ 32)
    (hsize : 72 ≤ stkSize)
    (hfuel : stkSize / 4 + (allNodes sh).length + MAX_TASKS_IN_LIST ≤ fuel) :
    ∃ s', OS_Task_Create fuel myTcb prio threadHandler stkSto stkSize pNode s = .ok s' ∧
      (s'.tcb myTcb).OS_TcbPrio = prio ∧
      (s'.tcb myTcb).OS_TcbSp = (stkSto + stkSize) / 8 * 8 - 64 ∧
      (List.range 16).map (fun i => s'.mem ((s'.tcb myTcb).OS_TcbSp / 4 + i)) =
        [4, 5, 6, 7, 8, 9, 10, 11, 0, 1, 2, 3, 0xC, 0xE, threadHandler, 0x01000000] ∧
      (s'.node pNode).pTcb = myTcb ∧
      WF s' (sh.set .ready prio (sh .ready prio ++ [pNode])) ∧
      (∀ t, t ≠ myTcb → s'.tcb t = s.tcb t) ∧
      (∀ k, k ≠ pNode → (s'.node k).pTcb = (s.node k).pTcb) := by
  obtain ⟨s', hok, hwf', htcb, hoth, hmem, hnode, hpt, -⟩ :=
    OS_Task_Create_ok s sh hwf fuel myTcb prio threadHandler stkSto stkSize pNode ht0 hn0 hfreshN
      hfreshT hprio hbase htop hsize hfuel
  refine ⟨s', hok, by rw [htcb], by rw [htcb], ?_, by rw [hnode], hwf', hoth, hpt⟩
  have hr : List.range 16 = [0, 1, 2, 3, 4, 5, 6, 7, 8, 9, 10, 11, 12, 13, 14, 15] := by decide
  have hx : shl32 1 24 = 0x01000000 := by decide
  rw [hr, htcb]
  simp only [List.map_cons, List.map_nil]
  rw [hmem 0 (by omega), hmem 1 (by omega), hmem 2 (by omega), hmem 3 (by omega),
    hmem 4 (by omega), hmem 5 (by omega), hmem 6 (by omega), hmem 7 (by omega),
    hmem 8 (by omega), hmem 9 (by omega), hmem 10 (by omega), hmem 11 (by omega),
    hmem 12 (by omega), hmem 13 (by omega), hmem 14 (by omega), hmem 15 (by omega)]
  simp [initialFrame, hx]

theorem bitmap_zero_of_empty (s : Kernel) (sh : Shape) (hwf : WF s sh) (L : ListId)
    (h : ∀ p, 1 ≤ p → p < MAX_TASKS_IN_LIST → sh L p = []) :
    (s.getList L).TaskRriorityBitMap = 0 := by
  have hW := hwf.list L
  have : (s.getList L).TaskRriorityBitMap < 2 ^ 0 := by
    apply lt_two_pow_of_bits
    intro i _
    by_cases hi : i < MAX_TASK_PRIORITY
    · by_contra hb
      have hb' : (s.getList L).TaskRriorityBitMap.testBit i = true := by simpa using hb
      have hne := (hW.2.2 i hi).mp hb'
      have hi9 : i + 1 < MAX_TASKS_IN_LIST := by unfold MAX_TASKS_IN_LIST; omega
      exact hne ((Seg_head_eq_zero (hwf.seg L hi9)).mpr (h (i + 1) (by omega) hi9))
    · exact Nat.testBit_lt_two_pow
        (lt_of_lt_of_le hW.2.1 (Nat.pow_le_pow_right (by norm_num) (by omega)))
  omega

theorem OS_InitEventList_entry (s : Kernel) (i : Nat) (hi : i < OS_MAX_EVENTS) :
    (OS_InitEventList s).ecb (OSEventTbl i) =
      ⟨OS_EVENT_TYPE_UNUSED, if i + 1 < OS_MAX_EVENTS then OSEventTbl (i + 1) else 0, 0, "?"⟩ := by
  unfold OS_MAX_EVENTS at hi
  interval_cases i <;>
    simp [OS_InitEventList, initEventLoop, clearEventTbl, OSEventTbl, OS_MAX_EVENTS,
      Function.update_apply, OS_EVENT_TYPE_UNUSED]

theorem OS_MsgQ_Init_entry (s : Kernel) (i : Nat) (hi : i < OS_MAX_MQ) :
    (OS_MsgQ_Init s).mqcb (OS_MQcb_Tbl i) =
      ⟨if i + 1 < OS_MAX_MQ then OS_MQcb_Tbl (i + 1) else 0, 0, 0, 0, 0, 0, 0⟩ := by
  unfold OS_MAX_MQ at hi
  interval_cases i <;>
    simp [OS_MsgQ_Init, initMqLoop, clearMqTbl, OS_MQcb_Tbl, OS_MAX_MQ, Function.update_apply]

/-- C26: `OS_Init`, called in any state with a non-null idle TCB, a fresh
non-null node from `malloc` and an idle stack of at least 72 bytes inside the
32-bit address space, returns; afterwards Ready slot 0 holds exactly one node,
which refers to the idle TCB, of priority 0; every other slot of Ready and
every slot of Delayed and Waiting is empty; the three bitmaps are 0; the ECB
free list runs through the 8 ECBs of the table, each once, all of type unused;
and the MQCB free list runs through the 8 MQCBs of the table, each once. -/
theorem OS_Init_state (s0 : Kernel) (fuel stkSto stkSize idleTask main_idleTask pNode : Nat)
    (ht0 : idleTask ≠ 0) (hn0 : pNode ≠ 0) (hbase : 0 < stkSto)
    (htop : stkSto + stkSize < 2 ^ 32) (hsize : 72 ≤ stkSize)
    (hfuel : stkSize / 4 + MAX_TASKS_IN_LIST ≤ fuel) :
    ∃ s, OS_Init fuel stkSto stkSize idleTask main_idleTask pNode s0 = .ok s ∧
      s.ReadyTaskList.TaskList 0 = pNode ∧ s.node pNode = ⟨0, 0, idleTask⟩ ∧
      (s.tcb idleTask).OS_TcbPrio = 0 ∧
      (∀ p, 1 ≤ p → p < MAX_TASKS_IN_LIST → s.ReadyTaskList.TaskList p = 0) ∧
      (∀ p, p < MAX_TASKS_IN_LIST → s.DelayedTaskList.TaskList p = 0) ∧
      (∀ p, p < MAX_TASKS_IN_LIST → s.WaitingTaskList.TaskList p = 0) ∧
      s.ReadyTaskList.TaskRriorityBitMap = 0 ∧ s.DelayedTaskList.TaskRriorityBitMap = 0 ∧
      s.WaitingTaskList.TaskRriorityBitMap = 0 ∧
      chainFrom (fun a => (s.ecb a).OS_EventPtr) (OS_MAX_EVENTS + 1) s.OSEventFreeList
        = (List.range OS_MAX_EVENTS).map OSEventTbl ∧
      (∀ i, i < OS_MAX_EVENTS → (s.ecb (OSEventTbl i)).OS_EventType = OS_EVENT_TYPE_UNUSED) ∧
      chainFrom (fun a => (s.mqcb a).OS_MQPtr) (OS_MAX_MQ + 1) s.OS_MQcb_FreeList
        = (List.range OS_MAX_MQ).map OS_MQcb_Tbl ∧
      ((List.range OS_MAX_EVENTS).map OSEventTbl).Nodup ∧
      ((List.range OS_MAX_MQ).map OS_MQcb_Tbl).Nodup := by
  have hwf0 := os_utilsTaskListInit_WF (OS_MsgQ_Init (OS_InitEventList s0))
  obtain ⟨s, hok, hwf, htcb, -, -, hnode, -, hecb, hmq, hef, hqf, -⟩ :=
    OS_Task_Create_ok _ _ hwf0 fuel idleTask 0 main_idleTask stkSto stkSize pNode ht0 hn0
      (by rw [allNodes_empty]; simp) (by rw [allNodes_empty]; simp) (by decide) hbase htop hsize
      (by rw [allNodes_empty]; simpa using hfuel)
  have h09 : 0 < MAX_TASKS_IN_LIST := by decide
  have hshape : ∀ L p, (Shape.set (fun _ _ => []) .ready 0 ([] ++ [pNode])) L p
      = if L = .ready ∧ p = 0 then [pNode] else [] := by
    intro L p; simp [Shape.set]
  have hhead : ∀ L p, p < MAX_TASKS_IN_LIST → ¬ (L = .ready ∧ p = 0) →
      (s.getList L).TaskList p = 0 := by
    intro L p hp hne
    have hseg := hwf.seg L hp
    rw [hshape, if_neg hne] at hseg
    exact hseg
  have hbm : ∀ L, (s.getList L).TaskRriorityBitMap = 0 := by
    intro L
    apply bitmap_zero_of_empty s _ hwf L
    intro p hp1 _
    rw [hshape, if_neg (by intro h; omega)]
  have hecb' : s.ecb = (OS_InitEventList s0).ecb := by
    rw [hecb]; simp [os_utilsTaskListInit, OS_MsgQ_Init]
  have hmq' : s.mqcb = (OS_MsgQ_Init (OS_InitEventList s0)).mqcb := by
    rw [hmq]; simp [os_utilsTaskListInit]
  have hef' : s.OSEventFreeList = OSEventTbl 0 := by
    rw [hef]; simp [os_utilsTaskListInit, OS_MsgQ_Init, OS_InitEventList]
  have hqf' : s.OS_MQcb_FreeList = OS_MQcb_Tbl 0 := by
    rw [hqf]; simp [os_utilsTaskListInit, OS_MsgQ_Init]
  refine ⟨s, hok, ?_, ?_, by rw [htcb], ?_, ?_, ?_, hbm .ready, hbm .delayed, hbm .waiting,
    ?_, ?_, ?_, by decide, by decide⟩
  · have hseg := hwf.seg .ready h09
    rw [hshape, if_pos ⟨rfl, rfl⟩] at hseg
    exact hseg.1
  · rw [hnode]; rfl
  · intro p hp1 hp
    exact hhead .ready p hp (by intro h; omega)
  · intro p hp
    exact hhead .delayed p hp (by simp)
  · intro p hp
    exact hhead .waiting p hp (by simp)
  · rw [hef', hecb']
    have e : ∀ i, i < OS_MAX_EVENTS →
        ((OS_InitEventList s0).ecb (i + 1)).OS_EventPtr = if i + 1 < OS_MAX_EVENTS then i + 2 else 0 := by
      intro i hi
      have := OS_InitEventList_entry s0 i hi
      unfold OSEventTbl at this
      rw [this]
    have hr : List.range OS_MAX_EVENTS = [0, 1, 2, 3, 4, 5, 6, 7] := by decide
    rw [hr]
    simp [chainFrom, OSEventTbl, OS_MAX_EVENTS, e 0 (by decide), e 1 (by decide), e 2 (by decide),
      e 3 (by decide), e 4 (by decide), e 5 (by decide), e 6 (by decide), e 7 (by decide)]
  · intro i hi
    rw [hecb', OS_InitEventList_entry s0 i hi]
  · rw [hqf', hmq']
    have e : ∀ i, i < OS_MAX_MQ →
        ((OS_MsgQ_Init (OS_InitEventList s0)).mqcb (i + 1)).OS_MQPtr
          = if i + 1 < OS_MAX_MQ then i + 2 else 0 := by
      intro i hi
      have := OS_MsgQ_Init_entry (OS_InitEventList s0) i hi
      unfold OS_MQcb_Tbl at this
      rw [this]
    have hr : List.range OS_MAX_MQ = [0, 1, 2, 3, 4, 5, 6, 7] := by decide
    rw [hr]
    simp [chainFrom, OS_MQcb_Tbl, OS_MAX_MQ, e 0 (by decide), e 1 (by decide), e 2 (by decide),
      e 3 (by decide), e 4 (by decide), e 5 (by decide), e 6 (by decide), e 7 (by decide)]

/-! ## What the tick handler leaves alone -/

theorem TickFrame_refl (s : Kernel) (sh : Shape) : TickFrame s sh s sh :=
  ⟨fun _ => rfl, fun _ _ _ h => h, fun _ _ => rfl⟩

theorem TickFrame_trans {s1 s2 s3 : Kernel} {sh1 sh2 sh3 : Shape}
    (hev : Evolves s1 sh1 s2 sh2) (h1 : TickFrame s1 sh1 s2 sh2) (h2 : TickFrame s2 sh2 s3 sh3) :
    TickFrame s1 sh1 s3 sh3 := by
  refine ⟨fun q => (h2.1 q).trans (h1.1 q), fun q hq n hn => h1.2.1 q hq n (h2.2.1 q hq n hn), ?_⟩
  intro t ht
  have ht2 : ¬ OnList s2 sh2 .delayed t := by
    rintro ⟨q, hq, n, hn, e⟩
    exact ht ⟨q, hq, n, h1.2.1 q hq n hn, by rw [← hev.2.2.2.1 n]; exact e⟩
  rw [h2.2.2 t ht2, h1.2.2 t ht]

/-- The statements of `OS_tick` for one node write no TCB but the node's. -/
theorem tickNode_tcb (s : Kernel) (sh : Shape) (hwf : WF s sh)
    (p n : Nat) (l1 l2 : List Nat) (hp0 : 0 < p) (hp8 : p ≤ MAX_TASK_PRIORITY)
    (hsh : sh .delayed p = l1 ++ n :: l2) {fuel : Nat} {s' : Kernel}
    (h : tickNode fuel n s = .ok s') :
    s'.tcb = Function.update s.tcb (s.node n).pTcb
      { s.tcb (s.node n).pTcb with
        OS_TcbTimeout := dec32 (s.tcb (s.node n).pTcb).OS_TcbTimeout } := by
  have hp9 : p < MAX_TASKS_IN_LIST := by unfold MAX_TASKS_IN_LIST; omega
  have hnin : n ∈ sh .delayed p := by rw [hsh]; simp
  have hnprio := ((hwf.list .delayed).1 p hp9).2 n hnin
  unfold tickNode at h
  simp only [bind_eq_ok, rdNode_eq_ok, rdTcb_eq_ok, wrTcb_eq_ok] at h
  obtain ⟨nd, ⟨hn0, hnd⟩, t, ⟨ht0, ht⟩, s1, ⟨-, hs1⟩, h⟩ := h
  subst hnd
  subst ht
  have htcb1 : s1.tcb = Function.update s.tcb (s.node n).pTcb
      { s.tcb (s.node n).pTcb with
        OS_TcbTimeout := dec32 (s.tcb (s.node n).pTcb).OS_TcbTimeout } := by rw [← hs1]
  have hnode1 : s1.node = s.node := by rw [← hs1]
  have hwf1 : WF s1 sh := by
    refine WF_tcb hnode1 ?_ (fun L => by rw [← hs1]; cases L <;> rfl) hwf
    intro t
    rw [htcb1]
    by_cases e : t = (s.node n).pTcb
    · subst e; simp
    · simp [Function.update_noteq e]
  split_ifs at h with hz
  · simp only [bind_eq_ok, Q_ASSERT_eq_ok] at h
    obtain ⟨⟨pTask, s2⟩, h2, -, -, h3⟩ := h
    have hprio1 : (s1.tcb (s1.node n).pTcb).OS_TcbPrio = p := by
      rw [← hs1]; simp [hnprio.2]
    have hseg1 := hwf1.seg .delayed hp9
    rw [hsh] at hseg1
    have hnd1 := slot_nodup hwf1.2 .delayed hp9
    rw [hsh] at hnd1
    have hcode : DELAYED_TASK_LIST = ListId.delayed.code := rfl
    have hcode' : READY_TASK_LIST = ListId.ready.code := rfl
    rw [hcode] at h2
    rw [removeByNode_eq s1 .delayed p n l1 l2 (by rw [hnode1]; exact hnprio.1) hprio1 hp0 hp8
      hseg1 hnd1] at h2
    simp only [Except.ok.injEq, Prod.mk.injEq] at h2
    obtain ⟨e1, e2⟩ := h2
    subst e1
    simp only [] at h3
    rw [hcode'] at h3
    obtain ⟨hwf2, -⟩ := remove_WF s1 sh .delayed p n l1 l2 hwf1 hp0 hp8 hsh
    rw [e2] at hwf2
    obtain ⟨-, -, -, -, hs3⟩ := add_inv s2 _ .ready hwf2 h3
    rw [hs3, addState_tcb, ← e2, removeState_tcb, htcb1]
  · rw [pure_eq_ok_iff] at h
    subst h
    exact htcb1

/-- The tick of one node of Delayed slot `p`, for the shape it leaves. -/
theorem tickNode_keeps (s : Kernel) (sh : Shape) (hwf : WF s sh) (hws : WaitingSlots sh)
    (p n : Nat) (l1 l2 : List Nat) (hp0 : 0 < p) (hp8 : p ≤ MAX_TASK_PRIORITY)
    (hsh : sh .delayed p = l1 ++ n :: l2) {fuel : Nat} {s' : Kernel}
    (h : tickNode fuel n s = .ok s') :
    (Evolves s sh s' sh ∧ TickFrame s sh s' sh ∧ s'.node = s.node) ∨
      (Evolves s sh s' (sh.move .delayed .ready p l1 n l2) ∧
        TickFrame s sh s' (sh.move .delayed .ready p l1 n l2) ∧ (s'.node n).next = 0) := by
  have hp9 : p < MAX_TASKS_IN_LIST := by unfold MAX_TASKS_IN_LIST; omega
  have hnin : n ∈ sh .delayed p := by rw [hsh]; simp
  have htcb := tickNode_tcb s sh hwf p n l1 l2 hp0 hp8 hsh h
  have hfr : ∀ t, ¬ OnList s sh .delayed t → s'.tcb t = s.tcb t := by
    intro t ht
    have hne : t ≠ (s.node n).pTcb := fun e => ht ⟨p, hp9, n, hnin, e.symm⟩
    rw [htcb, Function.update_noteq hne]
  obtain ⟨-, hcase⟩ := tickNode_inv s sh hwf hws p n l1 l2 hp0 hp8 hsh h
  rcases hcase with ⟨hev, hnode⟩ | ⟨hev, hnext⟩
  · exact Or.inl ⟨hev, ⟨fun _ => rfl, fun _ _ _ hk => hk, hfr⟩, hnode⟩
  · refine Or.inr ⟨hev, ⟨?_, ?_, hfr⟩, hnext⟩
    · intro q
      exact move_other sh .delayed .ready .waiting p q n l1 l2 (by simp) (by simp)
    · intro q _ k hk
      by_cases e : q = p
      · subst e
        rw [move_source sh .delayed .ready q n l1 l2 (by decide)] at hk
        rw [hsh]
        rcases List.mem_append.mp hk with hk | hk
        · exact List.mem_append_left _ hk
        · exact List.mem_append_right _ (List.mem_cons_of_mem _ hk)
      · rw [move_other sh .delayed .ready .delayed p q n l1 l2 (by simp [e]) (by simp)] at hk
        exact hk

theorem tickInner_keeps (inner : Nat) (sh : Shape) (hws : WaitingSlots sh) (p : Nat)
    (hp0 : 0 < p) (hp8 : p ≤ MAX_TASK_PRIORITY) (fuel : Nat) (l1 l2 : List Nat) (s s' : Kernel)
    (hwf : WF s sh) (hsh : sh .delayed p = l1 ++ l2)
    (h : tickInner inner fuel (l2.headD 0) s = .ok s') :
    ∃ sh', Evolves s sh s' sh' ∧ TickFrame s sh s' sh' ∧
      ∀ q, q ≠ p → sh' .delayed q = sh .delayed q := by
  have hp9 : p < MAX_TASKS_IN_LIST := by unfold MAX_TASKS_IN_LIST; omega
  induction fuel generalizing l1 l2 s with
  | zero => simp [tickInner] at h
  | succ fuel ih =>
    cases l2 with
    | nil =>
      simp only [List.headD_nil] at h
      have := tickInner_zero h
      subst this
      exact ⟨sh, Evolves_refl hwf hws, TickFrame_refl _ _, fun _ _ => rfl⟩
    | cons n l2 =>
      have hn0 : n ≠ 0 := Seg_ne_zero (hwf.seg .delayed hp9) n (by rw [hsh]; simp)
      simp only [List.headD_cons, tickInner, hn0, ↓reduceIte, bind_eq_ok] at h
      obtain ⟨s1, h1, h2⟩ := h
      rcases tickNode_keeps s sh hwf hws p n l1 l2 hp0 hp8 hsh h1 with
        ⟨hev1, hfr1, hnode1⟩ | ⟨hev1, hfr1, hnext⟩
      · have hseg := hwf.seg .delayed hp9
        rw [hsh] at hseg
        have hlinks := Seg_links hseg
        rw [hnode1, hlinks.2] at h2
        obtain ⟨sh', hev2, hfr2, hoth⟩ := ih (l1 ++ [n]) l2 s1 hev1.1 (by simp [hsh]) h2
        exact ⟨sh', Evolves_trans hev1 hev2, TickFrame_trans hev1 hfr1 hfr2, hoth⟩
      · rw [hnext] at h2
        have := tickInner_zero h2
        subst this
        refine ⟨_, hev1, hfr1, ?_⟩
        intro q hq
        exact move_other sh .delayed .ready .delayed p q n l1 l2 (fun e => hq e.2)
          (fun e => hq e.2)

theorem tickOuter_keeps (inner : Nat) (fuel : Nat) (ws : Nat) (s s' : Kernel) (sh : Shape)
    (hwf : WF s sh) (hws : WaitingSlots sh)
    (hsub : ∀ i, ws.testBit i = true → s.DelayedTaskList.TaskRriorityBitMap.testBit i = true)
    (h : tickOuter inner fuel ws s = .ok s') :
    ∃ sh', Evolves s sh s' sh' ∧ TickFrame s sh s' sh' := by
  induction fuel generalizing ws s sh with
  | zero => simp [tickOuter] at h
  | succ fuel ih =>
    unfold tickOuter at h
    split_ifs at h with h0
    · rw [pure_eq_ok_iff] at h
      subst h
      exact ⟨sh, Evolves_refl hwf hws, TickFrame_refl _ _⟩
    · obtain ⟨g1, g2, g3, g4, y, l, hsl, hhd, hy0, hyt, hyp⟩ := top_slot s sh hwf .delayed ws h0 hsub
      have hhd' : s.DelayedTaskList.TaskList (LOG2 ws) = y := hhd
      have hp9 : LOG2 ws < MAX_TASKS_IN_LIST := by
        unfold MAX_TASKS_IN_LIST MAX_TASK_PRIORITY; unfold MAX_TASK_PRIORITY at g2; omega
      simp only [bind_eq_ok, rdNode_eq_ok, Q_ASSERT_eq_ok, hhd'] at h
      obtain ⟨nd, ⟨-, hnd⟩, -, -, h⟩ := h
      subst hnd
      have h' : ∃ s1, (if (s.node y).next = 0 then tickNode inner y s
          else tickInner inner inner y s) = .ok s1 ∧
          tickOuter inner fuel (ws &&& not32 (shl32 1 (dec32 (s.tcb (s.node y).pTcb).OS_TcbPrio))) s1
            = .ok s' := by
        split_ifs at h with hnx
        · simp only [bind_eq_ok] at h
          simpa [hnx] using h
        · simp only [bind_eq_ok] at h
          simpa [hnx] using h
      obtain ⟨s1, h1, h2⟩ := h'
      rw [hyp, PRIORITY_TO_BIT_eq _ g1 (by unfold MAX_TASK_PRIORITY at g2; omega)] at h2
      have hstep : ∃ sh1, Evolves s sh s1 sh1 ∧ TickFrame s sh s1 sh1 ∧
          ∀ q, q ≠ LOG2 ws → sh1 .delayed q = sh .delayed q := by
        split_ifs at h1 with hnx
        · have hseg := hwf.seg .delayed hp9
          rw [hsl] at hseg
          have hseg' : Seg s.node 0 ((s.getList .delayed).TaskList (LOG2 ws)) ([] ++ y :: l) 0 := hseg
          have hlinks := Seg_links hseg'
          rw [hnx] at hlinks
          have hl : l = [] := by
            cases l with
            | nil => rfl
            | cons z l =>
              exfalso
              have hz := Seg_ne_zero hseg z (by simp)
              simp only [List.headD_cons] at hlinks
              exact hz hlinks.2.symm
          subst hl
          rcases tickNode_keeps s sh hwf hws (LOG2 ws) y [] [] g1 g2 hsl h1 with
            ⟨hev1, hfr1, -⟩ | ⟨hev1, hfr1, -⟩
          · exact ⟨sh, hev1, hfr1, fun _ _ => rfl⟩
          · refine ⟨_, hev1, hfr1, ?_⟩
            intro q hq
            exact move_other sh .delayed .ready .delayed (LOG2 ws) q y [] []
              (fun e => hq e.2) (fun e => hq e.2)
        · exact tickInner_keeps inner sh hws (LOG2 ws) g1 g2 inner [] (y :: l) s s1 hwf hsl h1
      obtain ⟨sh1, hev1, hfr1, hoth⟩ := hstep
      have hws32 : ws < 2 ^ 32 := by
        apply lt_two_pow_of_bits
        intro i hi
        apply g4
        unfold MAX_TASK_PRIORITY at g2
        omega
      have hsub1 : ∀ i, (ws &&& not32 (2 ^ (LOG2 ws - 1))).testBit i = true →
          s1.DelayedTaskList.TaskRriorityBitMap.testBit i = true := by
        intro i hi
        rw [testBit_clear ws (LOG2 ws - 1) i hws32 (by unfold MAX_TASK_PRIORITY at g2; omega)] at hi
        simp only [Bool.and_eq_true, decide_eq_true_eq] at hi
        obtain ⟨hi1, hi2⟩ := hi
        have hb := hsub i hi1
        have hW := hwf.list .delayed
        have hi8 : i < MAX_TASK_PRIORITY := by
          by_contra hc
          have hlt := hW.2.1
          have : s.DelayedTaskList.TaskRriorityBitMap.testBit i = false := by
            apply Nat.testBit_lt_two_pow
            exact lt_of_lt_of_le hlt (Nat.pow_le_pow_right (by norm_num) (by omega))
          rw [this] at hb
          cases hb
        have hi9 : i + 1 < MAX_TASKS_IN_LIST := by
          have := hi8
          unfold MAX_TASKS_IN_LIST MAX_TASK_PRIORITY; unfold MAX_TASK_PRIORITY at this; omega
        have hne : (s.getList .delayed).TaskList (i + 1) ≠ 0 := (hW.2.2 i hi8).mp hb
        have hl : sh .delayed (i + 1) ≠ [] := fun e =>
          hne ((Seg_head_eq_zero (hwf.seg .delayed hi9)).mpr e)
        have hl1 : sh1 .delayed (i + 1) ≠ [] := by
          rw [hoth (i + 1) (by omega)]; exact hl
        have hW1 := hev1.1.list .delayed
        exact (hW1.2.2 i hi8).mpr (fun e =>
          hl1 ((Seg_head_eq_zero (hev1.1.seg .delayed hi9)).mp e))
      obtain ⟨sh2, hev2, hfr2⟩ := ih _ s1 sh1 hev1.1 hev1.2.1 hsub1 h2
      exact ⟨sh2, Evolves_trans hev1 hev2, TickFrame_trans hev1 hfr1 hfr2⟩

/-- Any number of returning calls of `OS_tick`: the lists stay well formed, and
Waiting and the TCBs of the tasks that are not on Delayed are not touched. -/
theorem tickMany_keeps (fuel k : Nat) (s s' : Kernel) (sh : Shape)
    (hwf : WF s sh) (hws : WaitingSlots sh) (h : tickMany fuel k s = .ok s') :
    ∃ sh', Evolves s sh s' sh' ∧ TickFrame s sh s' sh' := by
  induction k generalizing s sh with
  | zero =>
    simp only [tickMany, pure_eq_ok_iff] at h
    subst h
    exact ⟨sh, Evolves_refl hwf hws, TickFrame_refl _ _⟩
  | succ k ih =>
    simp only [tickMany, bind_eq_ok] at h
    obtain ⟨s1, h1, h2⟩ := h
    obtain ⟨sh1, hev1, hfr1⟩ := tickOuter_keeps fuel fuel _ s s1 sh hwf hws (fun _ hi => hi) h1
    obtain ⟨sh2, hev2, hfr2⟩ := ih s1 sh1 hev1.1 hev1.2.1 h2
    exact ⟨sh2, Evolves_trans hev1 hev2, TickFrame_trans hev1 hfr1 hfr2⟩

/-- What the code of `OS_tick` does to the tasks on Waiting, whatever timeout
`OS_Sem_Wait` or `OS_MsgQ_Wait` has stored in their TCBs: under any number of
returning calls of `OS_tick` every Waiting slot holds the nodes it held, in the
same order, none of them is on Ready or Delayed, and the TCB of each, its
timeout and pend status included, is unchanged.  For a task that waits with
`NO_TIMEOUT` this is the documented behaviour; for a finite timeout it is not:
the stored timeout is never counted. -/
theorem waiting_task_stays (s : Kernel) (sh : Shape) (fuel k : Nat) (s' : Kernel)
    (hwf : WF s sh) (hws : WaitingSlots sh) (htn : TcbNodup s sh)
    (h : tickMany fuel k s = .ok s') :
    ∃ sh', WF s' sh' ∧ (∀ q, sh' .waiting q = sh .waiting q) ∧
      ∀ q, q < MAX_TASKS_IN_LIST → ∀ n ∈ sh .waiting q,
        (s'.node n).pTcb = (s.node n).pTcb ∧ s'.tcb (s.node n).pTcb = s.tcb (s.node n).pTcb ∧
        OnList s' sh' .waiting (s.node n).pTcb ∧ ¬ OnList s' sh' .ready (s.node n).pTcb ∧
        ¬ OnList s' sh' .delayed (s.node n).pTcb := by
  obtain ⟨sh', hev, hfr⟩ := tickMany_keeps fuel k s s' sh hwf hws h
  have htn' : TcbNodup s' sh' := TcbNodup_perm hev.2.2.1 hev.2.2.2.1 htn
  refine ⟨sh', hev.1, hfr.1, ?_⟩
  intro q hq n hn
  have hon : OnList s sh .waiting (s.node n).pTcb := ⟨q, hq, n, hn, rfl⟩
  have hon' : OnList s' sh' .waiting (s.node n).pTcb :=
    ⟨q, hq, n, by rw [hfr.1 q]; exact hn, hev.2.2.2.1 n⟩
  exact ⟨hev.2.2.2.1 n, hfr.2.2 _ (OnList_unique hwf htn hon (by decide)), hon',
    OnList_unique hev.1 htn' hon' (by decide), OnList_unique hev.1 htn' hon' (by decide)⟩

/-! ## Removal by node and removal of the highest-priority waiter -/

/-- What unlinking node `n` from slot `p` of list `L` does to well-formed lists. -/
theorem removeState_effect (s : Kernel) (sh : Shape) (L : ListId) (p n : Nat) (l1 l2 : List Nat)
    (hwf : WF s sh) (hp0 : 0 < p) (hp8 : p ≤ MAX_TASK_PRIORITY) (hsh : sh L p = l1 ++ n :: l2)
    (s' : Kernel) (hs' : s' = removeState s L p (lastOr 0 l1) n (l2.headD 0)) :
    s'.node n = { prev := 0, next := 0, pTcb := (s.node n).pTcb } ∧
      WF s' (sh.set L p (l1 ++ l2)) ∧
      (s.getList L).TaskRriorityBitMap.testBit (p - 1) = true ∧
      ((s'.getList L).TaskRriorityBitMap.testBit (p - 1) = false ↔ l1 ++ l2 = []) ∧
      (∀ i, i ≠ p - 1 →
        (s'.getList L).TaskRriorityBitMap.testBit i = (s.getList L).TaskRriorityBitMap.testBit i) ∧
      (∀ q, q ≠ p → (s'.getList L).TaskList q = (s.getList L).TaskList q) ∧
      (∀ L', L' ≠ L → s'.getList L' = s.getList L') ∧
      (∀ k, k ∉ sh L p → s'.node k = s.node k) ∧ s'.tcb = s.tcb := by
  subst hs'
  have hp9 : p < MAX_TASKS_IN_LIST := by unfold MAX_TASKS_IN_LIST; omega
  obtain ⟨hwf', -⟩ := remove_WF s sh L p n l1 l2 hwf hp0 hp8 hsh
  have hW := hwf.list L
  have hW' := hwf'.list L
  have hp1 : p - 1 < MAX_TASK_PRIORITY := by omega
  have hpp : p - 1 + 1 = p := by omega
  have hbit : (s.getList L).TaskRriorityBitMap.testBit (p - 1) = true := by
    refine (hW.2.2 (p - 1) hp1).mpr ?_
    rw [hpp]
    intro e
    have := (Seg_head_eq_zero (hwf.seg L hp9)).mp e
    rw [hsh] at this
    simp at this
  have hset : (sh.set L p (l1 ++ l2)) L p = l1 ++ l2 := by simp [Shape.set]
  refine ⟨?_, hwf', hbit, ?_, ?_, ?_, ?_, ?_, ?_⟩
  · rw [removeState_node, unlinkNd_self]
  · have h1 := hW'.2.2 (p - 1) hp1
    rw [hpp] at h1
    have h2 := Seg_head_eq_zero (hwf'.seg L hp9)
    rw [hset] at h2
    constructor
    · intro hb
      apply h2.mp
      by_contra hne
      have := h1.mpr hne
      rw [hb] at this
      cases this
    · intro he
      have h0 := h2.mpr he
      by_contra hb
      have hb' : ((removeState s L p (lastOr 0 l1) n (l2.headD 0)).getList L).TaskRriorityBitMap.testBit
          (p - 1) = true := by simpa using hb
      exact h1.mp hb' h0
  · intro i hi
    rw [removeState_bitmap]
    split_ifs
    · rw [PRIORITY_TO_BIT_pow hp0 hp8, testBit_clear _ _ _
        (lt_of_lt_of_le hW.2.1 (Nat.pow_le_pow_right (by norm_num) (by decide)))
        (by unfold MAX_TASK_PRIORITY at hp8; omega)]
      simp [hi]
    · rfl
  · intro q hq
    rw [removeState_head]
    simp [hq]
  · intro L' hL
    exact removeState_getList_ne s p _ n _ hL
  · intro k hk
    rw [hsh] at hk
    exact removeState_node_outside s L p n l1 l2 hk
  · exact removeState_tcb s L p _ n _

/-- C32: for every node `n` that is a member of slot `p` (`p = 1 .. 8`) of a
well-formed list, wherever it stands in the slot, `os_utilsRemoveFromListByTaskNode`
returns `n` itself with both links cleared; the lists are well formed again with
`n` taken out of the slot and the other nodes in their order; bit `p - 1` of the
bitmap, set before, is clear afterwards exactly when the slot has become empty;
the other bits, the other slots, the other lists, the nodes outside the slot
and the TCBs are unchanged. -/
theorem remove_by_node_member (s : Kernel) (sh : Shape) (L : ListId) (p n : Nat)
    (l1 l2 : List Nat) (hwf : WF s sh) (hp0 : 0 < p) (hp8 : p ≤ MAX_TASK_PRIORITY)
    (hsh : sh L p = l1 ++ n :: l2) :
    ∃ s', os_utilsRemoveFromListByTaskNode n L.code s = .ok (n, s') ∧
      s'.node n = { prev := 0, next := 0, pTcb := (s.node n).pTcb } ∧
      WF s' (sh.set L p (l1 ++ l2)) ∧
      (s.getList L).TaskRriorityBitMap.testBit (p - 1) = true ∧
      ((s'.getList L).TaskRriorityBitMap.testBit (p - 1) = false ↔ l1 ++ l2 = []) ∧
      (∀ i, i ≠ p - 1 →
        (s'.getList L).TaskRriorityBitMap.testBit i = (s.getList L).TaskRriorityBitMap.testBit i) ∧
      (∀ q, q ≠ p → (s'.getList L).TaskList q = (s.getList L).TaskList q) ∧
      (∀ L', L' ≠ L → s'.getList L' = s.getList L') ∧
      (∀ k, k ∉ sh L p → s'.node k = s.node k) ∧ s'.tcb = s.tcb := by
  have hp9 : p < MAX_TASKS_IN_LIST := by unfold MAX_TASKS_IN_LIST; omega
  have hseg := hwf.seg L hp9
  rw [hsh] at hseg
  have hnd := slot_nodup hwf.2 L hp9
  rw [hsh] at hnd
  have hpr := ((hwf.list L).1 p hp9).2 n (by rw [hsh]; simp)
  have hrem := removeByNode_eq s L p n l1 l2 hpr.1 hpr.2 hp0 hp8 hseg hnd
  exact ⟨_, hrem, removeState_effect s sh L p n l1 l2 hwf hp0 hp8 hsh _ rfl⟩

/-- C33: on well-formed lists whose Waiting slot 0 is empty (the idle task never
waits), with fuel for the walk, `os_utilsRemoveFromWaitingListHPT` returns null
and the unchanged state when no node on Waiting belongs to a TCB whose event
back-pointer is `e`; otherwise it returns the first matching node `n` of the
highest slot `p` that holds a match (higher slots hold waiters for other events
only), with both links cleared, the lists are well formed again with `n` taken
out of Waiting slot `p`, bit `p - 1` of the Waiting bitmap is clear afterwards
exactly when the slot has become empty, and the other bits, slots, lists, nodes
and the TCBs are unchanged. -/
theorem remove_highest_waiter (s : Kernel) (sh : Shape) (e fuel : Nat) (hwf : WF s sh)
    (hidle : sh .waiting 0 = [])
    (hfuel : (allNodes sh).length + MAX_TASKS_IN_LIST ≤ fuel) :
    ((∀ q, q < MAX_TASKS_IN_LIST → ∀ k ∈ sh .waiting q, ¬ waitsOn s e k) →
      os_utilsRemoveFromWaitingListHPT fuel e s = .ok (0, s)) ∧
    ((∃ q k, q < MAX_TASKS_IN_LIST ∧ k ∈ sh .waiting q ∧ waitsOn s e k) →
      ∃ p l1 n l2 s', p < MAX_TASKS_IN_LIST ∧
        sh .waiting p = l1 ++ n :: l2 ∧ waitsOn s e n ∧ (∀ k ∈ l1, ¬ waitsOn s e k) ∧
        (∀ q, p < q → q < MAX_TASKS_IN_LIST → ∀ k ∈ sh .waiting q, ¬ waitsOn s e k) ∧
        os_utilsRemoveFromWaitingListHPT fuel e s = .ok (n, s') ∧ n ≠ 0 ∧
        s'.node n = { prev := 0, next := 0, pTcb := (s.node n).pTcb } ∧
        WF s' (sh.set .waiting p (l1 ++ l2)) ∧
        s.WaitingTaskList.TaskRriorityBitMap.testBit (p - 1) = true ∧
        (s'.WaitingTaskList.TaskRriorityBitMap.testBit (p - 1) = false ↔ l1 ++ l2 = []) ∧
        (∀ i, i ≠ p - 1 → s'.WaitingTaskList.TaskRriorityBitMap.testBit i
          = s.WaitingTaskList.TaskRriorityBitMap.testBit i) ∧
        (∀ q, q ≠ p → s'.WaitingTaskList.TaskList q = s.WaitingTaskList.TaskList q) ∧
        s'.ReadyTaskList = s.ReadyTaskList ∧ s'.DelayedTaskList = s.DelayedTaskList ∧
        (∀ k, k ∉ sh .waiting p → s'.node k = s.node k) ∧ s'.tcb = s.tcb) := by
  refine ⟨fun hno => HPT_none s sh e fuel hwf hno hfuel, ?_⟩
  intro hex
  obtain ⟨p, l1, n, l2, hp9, hsh, hw, hl1, hno⟩ := exists_hpt_choice s sh e hex
  have hp0 : 0 < p := by
    rcases Nat.eq_zero_or_pos p with h | h
    · subst h; rw [hidle] at hsh; simp at hsh
    · exact h
  have hp8 : p ≤ MAX_TASK_PRIORITY := by unfold MAX_TASKS_IN_LIST at hp9; omega
  have hfound := HPT_found s sh e fuel p n l1 l2 hwf hp0 hp8 hsh hw hl1 hno hfuel
  have hn0 : n ≠ 0 := Seg_ne_zero (hwf.seg .waiting hp9) n (by rw [hsh]; simp)
  obtain ⟨e1, e2, e3, e4, e5, e6, e7, e8, e9⟩ :=
    removeState_effect s sh .waiting p n l1 l2 hwf hp0 hp8 hsh _ rfl
  exact ⟨p, l1, n, l2, _, hp9, hsh, hw, hl1, hno, hfound, hn0, e1, e2, e3, e4, e5, e6,
    e7 .ready (by decide), e7 .delayed (by decide), e8, e9⟩

/-! ## The priority lookup -/

/-- C35: for every non-zero 32-bit bitmap `x`, `LOG2 x` (which is
`32 - __builtin_clz x`) lies in `1 .. 32`, is the unique `p ≥ 1` with
`2 ^ (p - 1) ≤ x < 2 ^ p`, and is the largest `p` such that bit `p - 1`, the bit
`PRIORITY_TO_BIT p`, is set in `x`; and if `x` is the bitmap of a list that
satisfies the bitmap invariant, slot `LOG2 x` is the highest non-empty slot among
the slots `1 .. 8`. -/
theorem LOG2_highest_slot (x : Nat) (h0 : x ≠ 0) (h32 : x < 2 ^ 32) :
    LOG2 x = 32 - builtin_clz x ∧ 1 ≤ LOG2 x ∧ LOG2 x ≤ 32 ∧
      2 ^ (LOG2 x - 1) ≤ x ∧ x < 2 ^ LOG2 x ∧
      (∀ p, 1 ≤ p → 2 ^ (p - 1) ≤ x → x < 2 ^ p → p = LOG2 x) ∧
      PRIORITY_TO_BIT (LOG2 x) = 2 ^ (LOG2 x - 1) ∧
      x.testBit (LOG2 x - 1) = true ∧
      (∀ p, 1 ≤ p → x.testBit (p - 1) = true → p ≤ LOG2 x) ∧
      (∀ l : Task_List, l.TaskRriorityBitMap = x → ListBitmapInv l →
        x < 2 ^ MAX_TASK_PRIORITY →
        LOG2 x ≤ MAX_TASK_PRIORITY ∧ l.TaskList (LOG2 x) ≠ 0 ∧
          ∀ q, LOG2 x < q → q < MAX_TASKS_IN_LIST → l.TaskList q = 0) := by
  obtain ⟨h1, h2, h3, h4⟩ := LOG2_spec x h0 h32
  have hge : 2 ^ (LOG2 x - 1) ≤ x := Nat.testBit_implies_ge h3
  have hlt : x < 2 ^ LOG2 x := lt_two_pow_of_bits x (LOG2 x) h4
  have hmax : ∀ p, 1 ≤ p → x.testBit (p - 1) = true → p ≤ LOG2 x := by
    intro p hp hb
    by_contra hc
    have := h4 (p - 1) (by omega)
    rw [this] at hb
    cases hb
  refine ⟨rfl, h1, h2, hge, hlt, ?_, ?_, h3, hmax, ?_⟩
  · intro p hp hpl hpu
    have a1 : ¬ p < LOG2 x := by
      intro hc
      have : 2 ^ p ≤ 2 ^ (LOG2 x - 1) := Nat.pow_le_pow_right (by norm_num) (by omega)
      omega
    have a2 : ¬ LOG2 x < p := by
      intro hc
      have : 2 ^ LOG2 x ≤ 2 ^ (p - 1) := Nat.pow_le_pow_right (by norm_num) (by omega)
      omega
    omega
  · unfold PRIORITY_TO_BIT
    exact PRIORITY_TO_BIT_eq (LOG2 x) h1 h2
  · intro l hl hinv h8
    have hL8 : LOG2 x ≤ MAX_TASK_PRIORITY := by
      by_contra hc
      have : 2 ^ MAX_TASK_PRIORITY ≤ 2 ^ (LOG2 x - 1) :=
        Nat.pow_le_pow_right (by norm_num) (by omega)
      omega
    have hL9 : LOG2 x < MAX_TASKS_IN_LIST := by unfold MAX_TASKS_IN_LIST; omega
    refine ⟨hL8, ?_, ?_⟩
    · exact (hinv (LOG2 x) hL9 h1).mp (by rw [hl]; exact h3)
    · intro q hq hq9
      by_contra hne
      have := (hinv q hq9 (by omega)).mpr hne
      rw [hl, h4 (q - 1) (by omega)] at this
      cases this

/-! ## Removal by TCB when the TCB has no node in the slot -/

/-- The walk of `os_utilsRemoveFromListByTaskTcb` over a chain without a node of
the TCB runs off its end and reads `pWalkTask->pTcb` through the null pointer. -/
theorem findByTcb_absent (s : Kernel) (t : Nat) {l : List Nat} {pv hd : Nat}
    (hseg : Seg s.node pv hd l 0) (hl : ∀ k ∈ l, (s.node k).pTcb ≠ t)
    (fuel : Nat) (hf : l.length < fuel) :
    findByTcb s t fuel hd = .error .nullDeref := by
  induction l generalizing pv hd fuel with
  | nil =>
    have h0 : hd = 0 := hseg
    subst h0
    cases fuel with
    | zero => simp at hf
    | succ fuel => simp [findByTcb, rdNode]
  | cons y l ih =>
    obtain ⟨h1, h2, -, h4⟩ := hseg
    subst h1
    cases fuel with
    | zero => simp at hf
    | succ fuel =>
      have hy := hl hd (List.mem_cons_self _ _)
      simp only [findByTcb, rdNode_ok s h2, ok_bind, ne_eq, hy, not_false_eq_true, h2, and_self,
        ↓reduceIte]
      exact ih h4 (fun k hk => hl k (List.mem_cons_of_mem _ hk)) fuel (by simp at hf; omega)

/-- The function `os_utilsRemoveFromListByTaskTcb` for a TCB of priority `p`
(`p = 1 .. 8`) without a node in slot `p` of a well-formed list: with an empty
slot the head is read through the null pointer; with one node in the slot null
is returned and nothing changes; with two or more nodes the walk reads through
the null pointer behind the last node. -/
theorem removeByTcb_absent (s : Kernel) (sh : Shape) (L : ListId) (fuel t p : Nat)
    (hwf : WF s sh) (ht : t ≠ 0) (hprio : (s.tcb t).OS_TcbPrio = p)
    (hp0 : 0 < p) (hp8 : p ≤ MAX_TASK_PRIORITY)
    (habs : ∀ k ∈ sh L p, (s.node k).pTcb ≠ t) :
    (sh L p = [] → os_utilsRemoveFromListByTaskTcb fuel t L.code s = .error .nullDeref) ∧
    (∀ x, sh L p = [x] → os_utilsRemoveFromListByTaskTcb fuel t L.code s = .ok (0, s)) ∧
    (∀ x y l, sh L p = x :: y :: l → l.length + 2 < fuel →
      os_utilsRemoveFromListByTaskTcb fuel t L.code s = .error .nullDeref) := by
  have hp9 : p < MAX_TASKS_IN_LIST := by unfold MAX_TASKS_IN_LIST; omega
  have hseg := hwf.seg L hp9
  refine ⟨?_, ?_, ?_⟩
  · intro he
    rw [he] at hseg
    have h0 : (s.getList L).TaskList p = 0 := hseg
    unfold os_utilsRemoveFromListByTaskTcb
    simp [rdTcb_ok s ht, hprio, Q_ASSERT_true (And.intro hp0 hp8), getTaskList_code, h0, rdNode]
  · intro x he
    rw [he] at hseg habs
    obtain ⟨h1, h2, -, h4⟩ := hseg
    have hnx : (s.node x).next = 0 := h4
    have hx := habs x (List.mem_cons_self _ _)
    have h1' : (s.getList L).TaskList p = x := h1
    unfold os_utilsRemoveFromListByTaskTcb
    simp [rdTcb_ok s ht, hprio, Q_ASSERT_true (And.intro hp0 hp8), getTaskList_code, h1',
      rdNode_ok s h2, hnx, hx]
  · intro x y l he hf
    rw [he] at hseg habs
    have hfind := findByTcb_absent s t hseg habs fuel (by simp; omega)
    obtain ⟨h1, h2, -, h4⟩ := hseg
    have h1' : (s.getList L).TaskList p = x := h1
    have hnx : (s.node x).next = y := (Seg_head h4).trans (by simp)
    have hy0 : y ≠ 0 := h4.2.1
    rw [h1'] at hfind
    unfold os_utilsRemoveFromListByTaskTcb
    simp only [rdTcb_ok s ht, ok_bind, hprio, Q_ASSERT_true (And.intro hp0 hp8), getTaskList_code,
      h1', rdNode_ok s h2, hnx, hy0, ↓reduceIte, hfind]
    rfl

/-! ## The list operations keep the lists well formed -/

/-- The scan of Waiting finds nothing when no node in the slots 1 to 8 matches
(slot 0 has no bit in the bitmap and is never visited). -/
theorem hptOuter_unmatched (s : Kernel) (sh : Shape) (e inner : Nat) (hwf : WF s sh)
    (hno : ∀ q, 0 < q → q < MAX_TASKS_IN_LIST → ∀ k ∈ sh .waiting q, ¬ waitsOn s e k)
    (hinner : (allNodes sh).length < inner) :
    ∀ (k ws fuel : Nat), ws < 2 ^ k → k < fuel →
      (∀ i, ws.testBit i = true → s.WaitingTaskList.TaskRriorityBitMap.testBit i = true) →
      hptOuter inner e s fuel ws = .ok (0, s) := by
  intro k
  induction k with
  | zero =>
    intro ws fuel hws hf _
    have : ws = 0 := by simpa using hws
    subst this
    cases fuel with
    | zero => simp at hf
    | succ fuel => simp [hptOuter]
  | succ k ih =>
    intro ws fuel hws hf hsub
    cases fuel with
    | zero => simp at hf
    | succ fuel =>
      by_cases h0 : ws = 0
      · subst h0; simp [hptOuter]
      · obtain ⟨g1, g8, g3, g4, y, l, hsh, hhead, hy0, hyt, hyp⟩ := hpt_slot s sh hwf ws h0 hsub
        have hp9 : LOG2 ws < MAX_TASKS_IN_LIST := by unfold MAX_TASKS_IN_LIST; omega
        have hseg := hwf.seg .waiting hp9
        have hprio := ((hwf.list .waiting).1 _ hp9).2
        have hin := hptInner_none s e (LOG2 ws) (s.node y).pTcb hseg
          (fun k hk => ⟨(hprio k hk).1, hno _ (by omega) hp9 k hk⟩) inner
          (lt_of_le_of_lt (slot_length_le sh .waiting hp9) hinner)
        have hhead' : (s.getList .waiting).TaskList (LOG2 ws) = y := hhead
        rw [hhead'] at hin
        have hbit : shl32 1 (dec32 (LOG2 ws)) = 2 ^ (LOG2 ws - 1) :=
          PRIORITY_TO_BIT_eq _ g1 (by unfold MAX_TASK_PRIORITY at g8; omega)
        have hws32 : ws < 2 ^ 32 := by
          apply lt_two_pow_of_bits
          intro i hi
          exact g4 i (by unfold MAX_TASK_PRIORITY at g8; omega)
        simp only [hptOuter, h0, ↓reduceIte, hhead, rdNode_ok s hy0, ok_bind, Q_ASSERT_true hyt,
          rdTcb_ok s hyt, hyp, hin, hbit]
        have hclr := fun i => testBit_clear ws (LOG2 ws - 1) i hws32
          (by unfold MAX_TASK_PRIORITY at g8; omega)
        apply ih
        · apply lt_two_pow_of_bits
          intro i hi
          rw [hclr]
          by_cases hik : i = LOG2 ws - 1
          · simp [hik]
          · have : LOG2 ws ≤ i := by
              by_contra hc
              have hlt : i < LOG2 ws - 1 := by omega
              have hk1 : LOG2 ws - 1 < k + 1 := by
                by_contra hc2
                have : ws.testBit (LOG2 ws - 1) = false :=
                  Nat.testBit_lt_two_pow
                    (lt_of_lt_of_le hws (Nat.pow_le_pow_right (by norm_num) (by omega)))
                rw [this] at g3
                exact Bool.false_ne_true g3
              omega
            simp [g4 i this]
        · omega
        · intro i hi
          rw [hclr] at hi
          simp only [Bool.and_eq_true] at hi
          exact hsub i hi.1

/-- On well-formed lists the scan of Waiting returns, whatever the event: null
with the unchanged state, or a node unlinked from one of the slots 1 to 8.  The
outer loop needs fuel for nine tests of the working set, the inner walk fuel
for the nodes of one slot. -/
theorem hptOuter_total (s : Kernel) (sh : Shape) (e inner outer : Nat) (hwf : WF s sh)
    (hinner : (allNodes sh).length < inner) (houter : MAX_TASK_PRIORITY < outer) :
    hptOuter inner e s outer s.WaitingTaskList.TaskRriorityBitMap = .ok (0, s) ∨
      ∃ p l1 n l2, 0 < p ∧ p ≤ MAX_TASK_PRIORITY ∧ sh .waiting p = l1 ++ n :: l2 ∧
        waitsOn s e n ∧ (∀ k ∈ l1, ¬ waitsOn s e k) ∧
        hptOuter inner e s outer s.WaitingTaskList.TaskRriorityBitMap =
          .ok (n, removeState s .waiting p (lastOr 0 l1) n (l2.headD 0)) := by
  by_cases hex : ∃ q k, q < MAX_TASKS_IN_LIST ∧ k ∈ (sh.set .waiting 0 []) .waiting q ∧
      waitsOn s e k
  · obtain ⟨p, l1, n, l2, hp9, hsh, hw, hl1, hno⟩ := exists_hpt_choice s _ e hex
    have hp0 : 0 < p := by
      rcases Nat.eq_zero_or_pos p with h | h
      · subst h; simp [Shape.set] at hsh
      · exact h
    have hp8 : p ≤ MAX_TASK_PRIORITY := by unfold MAX_TASKS_IN_LIST at hp9; omega
    have hsh' : sh .waiting p = l1 ++ n :: l2 := by
      have hp' : ¬ p = 0 := by omega
      simpa [Shape.set, hp'] using hsh
    have hno' : ∀ q, p < q → q < MAX_TASKS_IN_LIST → ∀ k ∈ sh .waiting q, ¬ waitsOn s e k := by
      intro q hq hq9 k hk
      refine hno q hq hq9 k ?_
      have : ¬ q = 0 := by omega
      simpa [Shape.set, this] using hk
    have hbit : s.WaitingTaskList.TaskRriorityBitMap.testBit (p - 1) = true := by
      refine ((hwf.list .waiting).2.2 (p - 1) (by omega)).mpr ?_
      have e1 : p - 1 + 1 = p := by omega
      rw [e1]
      intro e0
      have := (Seg_head_eq_zero (hwf.seg .waiting hp9)).mp e0
      rw [hsh'] at this
      simp at this
    exact Or.inr ⟨p, l1, n, l2, hp0, hp8, hsh', hw, hl1,
      hptOuter_found s sh e inner p n l1 l2 hwf hp0 hp8 hsh' hw hl1 hno' hinner
        MAX_TASK_PRIORITY _ outer (hwf.list .waiting).2.1 (by omega) (fun i hi => hi) hbit⟩
  · left
    have hno : ∀ q, 0 < q → q < MAX_TASKS_IN_LIST → ∀ k ∈ sh .waiting q, ¬ waitsOn s e k := by
      intro q hq0 hq k hk hw
      apply hex
      refine ⟨q, k, hq, ?_, hw⟩
      have : ¬ q = 0 := by omega
      simpa [Shape.set, this] using hk
    exact hptOuter_unmatched s sh e inner hwf hno hinner MAX_TASK_PRIORITY _ outer
      (hwf.list .waiting).2.1 (by omega) (fun i hi => hi)

/-- A returning scan of a well-formed Waiting list has returned null and changed
nothing, or has unlinked the returned node from one of the slots 1 to 8. -/
theorem HPT_unlinks (s : Kernel) (sh : Shape) (hwf : WF s sh)
    {fuel e n : Nat} {s' : Kernel}
    (h : os_utilsRemoveFromWaitingListHPT fuel e s = .ok (n, s')) :
    (n = 0 ∧ s' = s) ∨
      ∃ p l1 l2, 0 < p ∧ p ≤ MAX_TASK_PRIORITY ∧ sh .waiting p = l1 ++ n :: l2 ∧
        s' = removeState s .waiting p (lastOr 0 l1) n (l2.headD 0) := by
  unfold os_utilsRemoveFromWaitingListHPT at h
  have hbig := hptOuter_mono s e fuel (fuel + ((allNodes sh).length + MAX_TASKS_IN_LIST)) fuel
    (fuel + ((allNodes sh).length + MAX_TASKS_IN_LIST)) _ _ (by omega) (by omega) h
  rcases hptOuter_total s sh e (fuel + ((allNodes sh).length + MAX_TASKS_IN_LIST))
      (fuel + ((allNodes sh).length + MAX_TASKS_IN_LIST)) hwf
      (by unfold MAX_TASKS_IN_LIST; omega) (by unfold MAX_TASKS_IN_LIST; omega) with ht | ht
  · rw [ht] at hbig
    simp only [Except.ok.injEq, Prod.mk.injEq] at hbig
    exact Or.inl ⟨hbig.1.symm, hbig.2.symm⟩
  · obtain ⟨p, l1, m, l2, hp0, hp8, hsh, -, -, ht⟩ := ht
    rw [ht] at hbig
    simp only [Except.ok.injEq, Prod.mk.injEq] at hbig
    obtain ⟨e1, e2⟩ := hbig
    subst e1
    exact Or.inr ⟨p, l1, l2, hp0, hp8, hsh, e2.symm⟩

/-- When `os_utilsRemoveFromListByTaskTcb` returns null, the state is unchanged. -/
theorem removeByTcb_null {fuel t c : Nat} {s s' : Kernel}
    (h : os_utilsRemoveFromListByTaskTcb fuel t c s = .ok (0, s')) : s' = s := by
  unfold os_utilsRemoveFromListByTaskTcb at h
  simp only [bind_eq_ok, rdTcb_eq_ok, Q_ASSERT_eq_ok] at h
  obtain ⟨tc, ⟨-, rfl⟩, -, -, h⟩ := h
  cases hL : getTaskList c with
  | none => rw [hL] at h; simp at h
  | some L =>
    rw [hL] at h
    simp only [bind_eq_ok, rdNode_eq_ok] at h
    obtain ⟨hd, ⟨hhd, rfl⟩, h⟩ := h
    split_ifs at h with h1 h2
    · simp only [pure_eq_ok_iff, Prod.mk.injEq] at h
      exact absurd h.1 hhd
    · simp only [pure_eq_ok_iff, Prod.mk.injEq] at h
      exact h.2.symm
    · simp only [bind_eq_ok] at h
      obtain ⟨w, -, h⟩ := h
      split_ifs at h with h3
      · simp only [pure_eq_ok_iff, Prod.mk.injEq] at h
        exact h.2.symm
      · simp only [bind_eq_ok, rdNode_eq_ok] at h
        obtain ⟨nd, -, h⟩ := h
        split_ifs at h <;> simp only [bind_eq_ok, pure_eq_ok_iff, Prod.mk.injEq] at h
        · obtain ⟨_, _, _, _, _, _, hw, _⟩ := h
          exact absurd hw h3
        · obtain ⟨_, _, _, _, _, _, _, _, hw, _⟩ := h
          exact absurd hw h3
        · obtain ⟨_, _, _, _, _, _, _, _, hw, _⟩ := h
          exact absurd hw h3

theorem getTaskList_some {c : Nat} {L : ListId} (h : getTaskList c = some L) : c = L.code := by
  unfold getTaskList at h
  split_ifs at h with h1 h2 h3 <;> simp only [Option.some.injEq] at h <;> subst h
  · exact h1
  · exact h2
  · exact h3

/-- The function `os_utilsRemoveFromListByTaskNode` returns only for a node whose
TCB has a priority from 1 to 8 and for one of the three list selectors. -/
theorem removeByNode_returns {n c : Nat} {s : Kernel} {r : Nat × Kernel}
    (h : os_utilsRemoveFromListByTaskNode n c s = .ok r) :
    0 < (s.tcb (s.node n).pTcb).OS_TcbPrio ∧
      (s.tcb (s.node n).pTcb).OS_TcbPrio ≤ MAX_TASK_PRIORITY ∧ ∃ L : ListId, c = L.code := by
  unfold os_utilsRemoveFromListByTaskNode at h
  simp only [bind_eq_ok, Q_ASSERT_eq_ok, rdNode_eq_ok, rdTcb_eq_ok] at h
  obtain ⟨-, -, nd, ⟨-, rfl⟩, tc, ⟨-, rfl⟩, -, hp, h⟩ := h
  refine ⟨hp.1, hp.2, ?_⟩
  cases hL : getTaskList c with
  | none => rw [hL] at h; simp at h
  | some L => exact ⟨L, getTaskList_some hL⟩

/-- The function `os_utilsAddTaskToReadyListByTcb` returns `OS_ERR_OTHER` with
the state unchanged when `malloc` has failed, and `OS_ERR_NONE` otherwise. -/
theorem addReady_status {fuel t pNode st : Nat} {s s' : Kernel}
    (h : os_utilsAddTaskToReadyListByTcb fuel t pNode s = .ok (st, s')) :
    (pNode = 0 ∧ st = OS_ERR_OTHER ∧ s' = s) ∨ (pNode ≠ 0 ∧ st = OS_ERR_NONE) := by
  unfold os_utilsAddTaskToReadyListByTcb at h
  simp only [bind_eq_ok, rdTcb_eq_ok, Q_ASSERT_eq_ok] at h
  obtain ⟨tc, -, -, -, h⟩ := h
  split_ifs at h with h0
  · simp only [pure_eq_ok_iff, Prod.mk.injEq] at h
    exact Or.inl ⟨h0, h.1.symm, h.2.symm⟩
  · right
    refine ⟨h0, ?_⟩
    simp only [bind_eq_ok] at h
    obtain ⟨s1, -, h⟩ := h
    split_ifs at h
    · simp only [pure_eq_ok_iff, Prod.mk.injEq] at h
      exact h.1.symm
    · simp only [bind_eq_ok, pure_eq_ok_iff, Prod.mk.injEq] at h
      obtain ⟨_, _, _, _, _, _, hst, _⟩ := h
      exact hst.symm

/-- Well-formedness of the lists is kept by each of the six list operations
whenever it returns. -/
theorem list_operations_WF (s : Kernel) (sh : Shape) (hwf : WF s sh) :
    (∀ (L : ListId) (fuel n : Nat) (s' : Kernel), n ∉ allNodes sh →
      (s.node n).prev = 0 → (s.node n).next = 0 →
      os_utilsAddTaskToListByNode fuel n L.code s = .ok s' →
      WF s' (sh.set L (s.tcb (s.node n).pTcb).OS_TcbPrio
        (sh L (s.tcb (s.node n).pTcb).OS_TcbPrio ++ [n]))) ∧
    (∀ (fuel n : Nat) (s' : Kernel), n ∉ allNodes sh →
      (s.node n).prev = 0 → (s.node n).next = 0 →
      os_utilsAddTaskToDelayedListByNode fuel n s = .ok s' →
      WF s' (sh.set .delayed (s.tcb (s.node n).pTcb).OS_TcbPrio
        (sh .delayed (s.tcb (s.node n).pTcb).OS_TcbPrio ++ [n]))) ∧
    (∀ (fuel t pNode st : Nat) (s' : Kernel), pNode ∉ allNodes sh →
      os_utilsAddTaskToReadyListByTcb fuel t pNode s = .ok (st, s') →
      (st = OS_ERR_OTHER ∧ s' = s) ∨
        (st = OS_ERR_NONE ∧ (s'.node pNode).pTcb = t ∧
          WF s' (sh.set .ready (s.tcb t).OS_TcbPrio (sh .ready (s.tcb t).OS_TcbPrio ++ [pNode])))) ∧
    (∀ (L : ListId) (fuel t n : Nat) (s' : Kernel),
      os_utilsRemoveFromListByTaskTcb fuel t L.code s = .ok (n, s') →
      (n = 0 ∧ s' = s) ∨
        ∃ l1 l2, sh L (s.tcb t).OS_TcbPrio = l1 ++ n :: l2 ∧
          WF s' (sh.set L (s.tcb t).OS_TcbPrio (l1 ++ l2))) ∧
    (∀ (L : ListId) (p n : Nat) (l1 l2 : List Nat) (r : Nat) (s' : Kernel),
      p < MAX_TASKS_IN_LIST → sh L p = l1 ++ n :: l2 →
      os_utilsRemoveFromListByTaskNode n L.code s = .ok (r, s') →
      r = n ∧ WF s' (sh.set L p (l1 ++ l2))) ∧
    (∀ (fuel e n : Nat) (s' : Kernel),
      os_utilsRemoveFromWaitingListHPT fuel e s = .ok (n, s') →
      (n = 0 ∧ s' = s) ∨
        ∃ p l1 l2, sh .waiting p = l1 ++ n :: l2 ∧ WF s' (sh.set .waiting p (l1 ++ l2))) := by
  refine ⟨?_, ?_, ?_, ?_, ?_, ?_⟩
  · intro L fuel n s' hfresh hprev hnext h
    obtain ⟨hn0, ht, hp0, hp8, hs'⟩ := add_inv s sh L hwf h
    rw [hs']
    exact add_WF s sh L _ n hwf hn0 hfresh ht rfl hp0 (le_of_lt hp8) hprev hnext
  · intro fuel n s' hfresh hprev hnext h
    obtain ⟨hn0, ht, hp0, hp8, hs'⟩ := addDelayed_inv s sh hwf hprev hnext h
    rw [hs']
    exact add_WF s sh .delayed _ n hwf hn0 hfresh ht rfl hp0 hp8 hprev hnext
  · intro fuel t pNode st s' hfresh h
    rcases addReady_status h with ⟨-, h1, h2⟩ | ⟨-, hst⟩
    · exact Or.inl ⟨h1, h2⟩
    · right
      obtain ⟨ht0, hp8, hn0, hs'⟩ := addReady_inv s sh hwf hfresh h hst
      have hwf1 : WF { s with node := Function.update s.node pNode ⟨0, 0, t⟩ } sh := by
        refine WF_frame ?_ ?_ ?_ hwf
        · intro n hn
          have : n ≠ pNode := fun e => hfresh (e ▸ hn)
          simp [Function.update_noteq this]
        · intro n _; rfl
        · intro L; cases L <;> rfl
      have hwf2 := add_WF_gen _ sh .ready (s.tcb t).OS_TcbPrio pNode hwf1 hn0 hfresh
        (by simpa using ht0) (by simp) hp8 (by simp) (by simp)
      rw [← hs'] at hwf2
      refine ⟨hst, ?_, hwf2⟩
      rw [hs', addState_node_pTcb]; simp
  · intro L fuel t n s' h
    by_cases hn : n = 0
    · subst hn
      exact Or.inl ⟨rfl, removeByTcb_null h⟩
    · right
      obtain ⟨-, hp0, hp8, l1, l2, hsh, -, -, hs'⟩ := removeByTcb_inv s sh L hwf h hn
      rw [hs']
      exact ⟨l1, l2, hsh, (remove_WF s sh L _ n l1 l2 hwf hp0 hp8 hsh).1⟩
  · intro L p n l1 l2 r s' hp9 hsh h
    obtain ⟨hp0, hp8, -⟩ := removeByNode_returns h
    have hpr := ((hwf.list L).1 p hp9).2 n (by rw [hsh]; simp)
    rw [hpr.2] at hp0 hp8
    have hseg := hwf.seg L hp9
    rw [hsh] at hseg
    have hnd := slot_nodup hwf.2 L hp9
    rw [hsh] at hnd
    rw [removeByNode_eq s L p n l1 l2 hpr.1 hpr.2 hp0 hp8 hseg hnd] at h
    simp only [Except.ok.injEq, Prod.mk.injEq] at h
    rw [← h.1, ← h.2]
    exact ⟨rfl, (remove_WF s sh L p n l1 l2 hwf hp0 hp8 hsh).1⟩
  · intro fuel e n s' h
    rcases HPT_unlinks s sh hwf h with h1 | ⟨p, l1, l2, hp0, hp8, hsh, hs'⟩
    · exact Or.inl h1
    · right
      rw [hs']
      exact ⟨p, l1, l2, hsh, (remove_WF s sh .waiting p n l1 l2 hwf hp0 hp8 hsh).1⟩

/-- C36: well-formedness of the lists (every slot a null-terminated doubly
linked chain without repetition, every node of slot `p` on a TCB of priority
`p`, and the bitmap in step with the slots) is kept by each of the six list
operations.  Whenever one of them returns, the lists are well formed again: the
three inserts, applied to a node that is on no list and has cleared links (for
`os_utilsAddTaskToReadyListByTcb`: to the fresh node from `malloc`), append the
node to the slot of its priority; the three removals take the returned node out
of its slot and keep the order of the others, or return null and change
nothing.  And they do return, with fuel for the walks: the inserts for a
detached node with cleared links on a TCB of priority `1 .. 7`
(`os_utilsAddTaskToListByNode`) or `1 .. 8` (Delayed) or up to 8 (Ready by
TCB), the removal by TCB for the first node of the TCB in the slot of its
priority, the removal by node for a member, the scan of Waiting always. -/
theorem list_operations_keep_WF (s : Kernel) (sh : Shape) (hwf : WF s sh) :
    ((∀ (L : ListId) (fuel n : Nat) (s' : Kernel), n ∉ allNodes sh →
      (s.node n).prev = 0 → (s.node n).next = 0 →
      os_utilsAddTaskToListByNode fuel n L.code s = .ok s' →
      WF s' (sh.set L (s.tcb (s.node n).pTcb).OS_TcbPrio
        (sh L (s.tcb (s.node n).pTcb).OS_TcbPrio ++ [n]))) ∧
    (∀ (fuel n : Nat) (s' : Kernel), n ∉ allNodes sh →
      (s.node n).prev = 0 → (s.node n).next = 0 →
      os_utilsAddTaskToDelayedListByNode fuel n s = .ok s' →
      WF s' (sh.set .delayed (s.tcb (s.node n).pTcb).OS_TcbPrio
        (sh .delayed (s.tcb (s.node n).pTcb).OS_TcbPrio ++ [n]))) ∧
    (∀ (fuel t pNode st : Nat) (s' : Kernel), pNode ∉ allNodes sh →
      os_utilsAddTaskToReadyListByTcb fuel t pNode s = .ok (st, s') →
      (st = OS_ERR_OTHER ∧ s' = s) ∨
        (st = OS_ERR_NONE ∧ (s'.node pNode).pTcb = t ∧
          WF s' (sh.set .ready (s.tcb t).OS_TcbPrio (sh .ready (s.tcb t).OS_TcbPrio ++ [pNode])))) ∧
    (∀ (L : ListId) (fuel t n : Nat) (s' : Kernel),
      os_utilsRemoveFromListByTaskTcb fuel t L.code s = .ok (n, s') →
      (n = 0 ∧ s' = s) ∨
        ∃ l1 l2, sh L (s.tcb t).OS_TcbPrio = l1 ++ n :: l2 ∧
          WF s' (sh.set L (s.tcb t).OS_TcbPrio (l1 ++ l2))) ∧
    (∀ (L : ListId) (p n : Nat) (l1 l2 : List Nat) (r : Nat) (s' : Kernel),
      p < MAX_TASKS_IN_LIST → sh L p = l1 ++ n :: l2 →
      os_utilsRemoveFromListByTaskNode n L.code s = .ok (r, s') →
      r = n ∧ WF s' (sh.set L p (l1 ++ l2))) ∧
    (∀ (fuel e n : Nat) (s' : Kernel),
      os_utilsRemoveFromWaitingListHPT fuel e s = .ok (n, s') →
      (n = 0 ∧ s' = s) ∨
        ∃ p l1 l2, sh .waiting p = l1 ++ n :: l2 ∧ WF s' (sh.set .waiting p (l1 ++ l2)))) ∧
    ((∀ (L : ListId) (fuel n p : Nat), n ≠ 0 → n ∉ allNodes sh → (s.node n).pTcb ≠ 0 →
      (s.node n).prev = 0 → (s.node n).next = 0 → (s.tcb (s.node n).pTcb).OS_TcbPrio = p →
      0 < p → p < MAX_TASK_PRIORITY → (sh L p).length ≤ fuel →
      ∃ s', os_utilsAddTaskToListByNode fuel n L.code s = .ok s' ∧
        WF s' (sh.set L p (sh L p ++ [n]))) ∧
    (∀ (fuel n p : Nat), n ≠ 0 → n ∉ allNodes sh → (s.node n).pTcb ≠ 0 →
      (s.node n).prev = 0 → (s.node n).next = 0 → (s.tcb (s.node n).pTcb).OS_TcbPrio = p →
      0 < p → p ≤ MAX_TASK_PRIORITY → (sh .delayed p).length ≤ fuel →
      ∃ s', os_utilsAddTaskToDelayedListByNode fuel n s = .ok s' ∧
        WF s' (sh.set .delayed p (sh .delayed p ++ [n]))) ∧
    (∀ (fuel t pNode p : Nat), t ≠ 0 → pNode ≠ 0 → pNode ∉ allNodes sh →
      (s.tcb t).OS_TcbPrio = p → p ≤ MAX_TASK_PRIORITY → (sh .ready p).length ≤ fuel →
      ∃ s', os_utilsAddTaskToReadyListByTcb fuel t pNode s = .ok (OS_ERR_NONE, s') ∧
        (s'.node pNode).pTcb = t ∧ WF s' (sh.set .ready p (sh .ready p ++ [pNode]))) ∧
    (∀ (L : ListId) (fuel t p n : Nat) (l1 l2 : List Nat), t ≠ 0 → (s.tcb t).OS_TcbPrio = p →
      0 < p → p ≤ MAX_TASK_PRIORITY → sh L p = l1 ++ n :: l2 →
      (∀ k ∈ l1, (s.node k).pTcb ≠ t) → (s.node n).pTcb = t → l1.length < fuel →
      ∃ s', os_utilsRemoveFromListByTaskTcb fuel t L.code s = .ok (n, s') ∧
        WF s' (sh.set L p (l1 ++ l2))) ∧
    (∀ (L : ListId) (p n : Nat) (l1 l2 : List Nat), 0 < p → p ≤ MAX_TASK_PRIORITY →
      sh L p = l1 ++ n :: l2 →
      ∃ s', os_utilsRemoveFromListByTaskNode n L.code s = .ok (n, s') ∧
        WF s' (sh.set L p (l1 ++ l2))) ∧
    (∀ (fuel e : Nat), (allNodes sh).length < fuel → MAX_TASK_PRIORITY < fuel →
      ∃ n s' sh', os_utilsRemoveFromWaitingListHPT fuel e s = .ok (n, s') ∧ WF s' sh')) := by
  have hcond := list_operations_WF s sh hwf
  refine ⟨hcond, ?_, ?_, ?_, ?_, ?_, ?_⟩
  · intro L fuel n p hn0 hfresh ht hprev hnext hp hp0 hp8 hf
    subst hp
    have hp9 : (s.tcb (s.node n).pTcb).OS_TcbPrio < MAX_TASKS_IN_LIST := by
      unfold MAX_TASKS_IN_LIST; omega
    have h := add_eq s L fuel _ n (sh L _) hn0 ht rfl hp0 hp8 (hwf.seg L hp9) hf
    exact ⟨_, h, hcond.1 L fuel n _ hfresh hprev hnext h⟩
  · intro fuel n p hn0 hfresh ht hprev hnext hp hp0 hp8 hf
    subst hp
    have hp9 : (s.tcb (s.node n).pTcb).OS_TcbPrio < MAX_TASKS_IN_LIST := by
      unfold MAX_TASKS_IN_LIST; omega
    have h := addDelayed_eq s fuel _ n (sh .delayed _) hn0 ht rfl hp0 hp8 hprev hnext
      (hwf.seg .delayed hp9) hf
    exact ⟨_, h, hcond.2.1 fuel n _ hfresh hprev hnext h⟩
  · intro fuel t pNode p ht0 hn0 hfresh hp hp8 hf
    subst hp
    have h := addReady_eq s sh hwf fuel t pNode ht0 hp8 hn0 hfresh hf
    rcases hcond.2.2.1 fuel t pNode _ _ hfresh h with ⟨hst, -⟩ | ⟨-, h1, h2⟩
    · exact absurd hst (by decide)
    · exact ⟨_, h, h1, h2⟩
  · intro L fuel t p n l1 l2 ht0 hp hp0 hp8 hsh hl1 hn hf
    have hp9 : p < MAX_TASKS_IN_LIST := by unfold MAX_TASKS_IN_LIST; omega
    have hseg := hwf.seg L hp9
    rw [hsh] at hseg
    have hnd := slot_nodup hwf.2 L hp9
    rw [hsh] at hnd
    exact ⟨_, removeByTcb_eq s L fuel t p n l1 l2 ht0 hp hp0 hp8 hseg hnd hl1 hn hf,
      (remove_WF s sh L p n l1 l2 hwf hp0 hp8 hsh).1⟩
  · intro L p n l1 l2 hp0 hp8 hsh
    have hp9 : p < MAX_TASKS_IN_LIST := by unfold MAX_TASKS_IN_LIST; omega
    have hseg := hwf.seg L hp9
    rw [hsh] at hseg
    have hnd := slot_nodup hwf.2 L hp9
    rw [hsh] at hnd
    have hpr := ((hwf.list L).1 p hp9).2 n (by rw [hsh]; simp)
    exact ⟨_, removeByNode_eq s L p n l1 l2 hpr.1 hpr.2 hp0 hp8 hseg hnd,
      (remove_WF s sh L p n l1 l2 hwf hp0 hp8 hsh).1⟩
  · intro fuel e hinner houter
    unfold os_utilsRemoveFromWaitingListHPT
    rcases hptOuter_total s sh e fuel fuel hwf hinner houter with h | ⟨p, l1, n, l2, hp0, hp8,
      hsh, -, -, h⟩
    · exact ⟨0, s, sh, h, hwf⟩
    · exact ⟨n, _, _, h, (remove_WF s sh .waiting p n l1 l2 hwf hp0 hp8 hsh).1⟩

/-! ## Waking a waiter and delivering a message -/

/-- What the body of `OS_EventTaskReady` does, on well-formed lists whose Waiting
list holds priorities 1 to 7, with fuel for the walks:
`OS_EventTaskReady(e, msg, msk, pend)` returns `OS_NO_TASK_PENDING` and the
unchanged state when no task waits on `e`; otherwise it returns
`OS_TASK_PENDING` and the first waiter `n` of the highest slot with a waiter on
`e` has moved from Waiting to the tail of the Ready slot of its priority.  The
body uses none of `msg`, `msk` and `pend`, against the header of the function:
the TCB heap of the result is the one of the call state, so the woken TCB still
has its event back-pointer `e`, its inbox and its pending result. -/
theorem OS_EventTaskReady_moves_only (s : Kernel) (sh : Shape) (e msg msk pend fuel : Nat)
    (hwf : WF s sh) (hws : WaitingSlots sh)
    (hfuel : (allNodes sh).length + MAX_TASKS_IN_LIST ≤ fuel) :
    ((∀ q, q < MAX_TASKS_IN_LIST → ∀ k ∈ sh .waiting q, ¬ waitsOn s e k) →
      OS_EventTaskReady fuel e msg msk pend s = .ok (OS_NO_TASK_PENDING, s)) ∧
    ((∃ q k, q < MAX_TASKS_IN_LIST ∧ k ∈ sh .waiting q ∧ waitsOn s e k) →
      ∃ p l1 n l2 s', sh .waiting p = l1 ++ n :: l2 ∧ waitsOn s e n ∧
        (∀ k ∈ l1, ¬ waitsOn s e k) ∧
        (∀ q, p < q → q < MAX_TASKS_IN_LIST → ∀ k ∈ sh .waiting q, ¬ waitsOn s e k) ∧
        OS_EventTaskReady fuel e msg msk pend s = .ok (OS_TASK_PENDING, s') ∧
        WF s' (sh.move .waiting .ready p l1 n l2) ∧
        (sh.move .waiting .ready p l1 n l2) .ready p = sh .ready p ++ [n] ∧
        (s'.node n).pTcb = (s.node n).pTcb ∧ s'.tcb = s.tcb ∧
        (s'.tcb (s'.node n).pTcb).OS_TcbEcbPtr = e ∧
        (s'.tcb (s'.node n).pTcb).OS_TcbMQMsg = (s.tcb (s.node n).pTcb).OS_TcbMQMsg ∧
        (s'.tcb (s'.node n).pTcb).OS_TcbStatePend = (s.tcb (s.node n).pTcb).OS_TcbStatePend) := by
  refine ⟨fun hno => OS_EventTaskReady_none s sh e msg msk pend fuel hwf hno hfuel, ?_⟩
  intro hex
  obtain ⟨p, l1, n, l2, hp9, hsh, hw, hl1, hno⟩ := exists_hpt_choice s sh e hex
  have hp0 : 0 < p := by
    rcases Nat.eq_zero_or_pos p with h | h
    · subst h; rw [hws.1] at hsh; simp at hsh
    · exact h
  have hp8 : p < MAX_TASK_PRIORITY := by
    have : p ≠ MAX_TASK_PRIORITY := by
      intro h; subst h; rw [hws.2] at hsh; simp at hsh
    unfold MAX_TASKS_IN_LIST at hp9; omega
  obtain ⟨s1, hready, hwf1, ht, -, -, -, -, -, -, -, -, hpt⟩ :=
    OS_EventTaskReady_found s sh e msg msk pend fuel p n l1 l2 hwf hp0 hp8 hsh hw hl1 hno hfuel
  refine ⟨p, l1, n, l2, s1, hsh, hw, hl1, hno, hready, hwf1,
    move_target sh .waiting .ready p n l1 l2 (by decide), hpt n, ht, ?_, ?_, ?_⟩
  · rw [ht, hpt]; exact hw
  · rw [ht, hpt]
  · rw [ht, hpt]

/-- An empty ring that satisfies the ring invariant has its two cursors on the
same cell. -/
theorem ring_empty_cursors (q : OS_MQ) (h : RingInv q) (he : q.OS_MQEntries = 0) :
    q.OS_MQIn = q.OS_MQOut := by
  obtain ⟨h1, -, -, h4, h5, h6, h7, h8⟩ := h
  rw [he] at h8
  simp only [Nat.cast_zero, Int.zero_emod] at h8
  have hdvd : (q.OS_MQSize : Int) ∣ (q.OS_MQIn : Int) - (q.OS_MQOut : Int) :=
    Int.dvd_of_emod_eq_zero h8
  have habs : |(q.OS_MQIn : Int) - (q.OS_MQOut : Int)| < (q.OS_MQSize : Int) := by
    rw [abs_lt]
    constructor <;> omega
  have := Int.eq_zero_of_abs_lt_dvd hdvd habs
  omega

/-- The send to a parked receiver.  Let `e` be a message queue whose ring
satisfies the ring invariant, is empty and has capacity at least 1, and let the
task of node `n` be parked on Waiting with its back-pointer on `e`, the only
waiter on `e`.  Then `OS_MsgQ_Send(e, m)` returns `OS_ERR_NONE` and `n` has
moved to the tail of the Ready slot of its priority; and in every later state
in which the ECB, the MQCB and the ring cell at `out` are as the send left them,
a pass through the loop of `OS_MsgQ_Wait` returns exactly `m` with
`OS_ERR_NONE` and leaves the fill count 0. -/
theorem OS_MsgQ_Send_to_parked (s : Kernel) (sh : Shape) (e m fuel p n : Nat)
    (hwf : WF s sh) (hws : WaitingSlots sh) (he : e ≠ 0)
    (htype : (s.ecb e).OS_EventType = OS_EVENT_TYPE_MQ) (hq : (s.ecb e).OS_EventPtr ≠ 0)
    (hring : RingInv (s.mqcb (s.ecb e).OS_EventPtr))
    (hempty : (s.mqcb (s.ecb e).OS_EventPtr).OS_MQEntries = 0)
    (hcap : 1 ≤ (s.mqcb (s.ecb e).OS_EventPtr).OS_MQSize)
    (hp9 : p < MAX_TASKS_IN_LIST) (hn : n ∈ sh .waiting p) (hw : waitsOn s e n)
    (honly : ∀ q, q < MAX_TASKS_IN_LIST → ∀ k ∈ sh .waiting q, waitsOn s e k → k = n)
    (hfuel : (allNodes sh).length + MAX_TASKS_IN_LIST ≤ fuel) :
    ∃ l1 l2 s1, sh .waiting p = l1 ++ n :: l2 ∧
      OS_MsgQ_Send fuel e m s = .ok (OS_ERR_NONE, s1) ∧
      WF s1 (sh.move .waiting .ready p l1 n l2) ∧
      (sh.move .waiting .ready p l1 n l2) .ready p = sh .ready p ++ [n] ∧
      (s1.node n).pTcb = (s.node n).pTcb ∧
      ∀ (s2 : Kernel) (fuel2 timeout : Nat), s2.ecb e = s1.ecb e →
        s2.mqcb (s.ecb e).OS_EventPtr = s1.mqcb (s.ecb e).OS_EventPtr →
        s2.mem (s1.mqcb (s.ecb e).OS_EventPtr).OS_MQOut
          = s1.mem (s1.mqcb (s.ecb e).OS_EventPtr).OS_MQOut →
        ∃ s3, OS_MsgQ_Wait fuel2 e timeout s2 = .ok (.returned m OS_ERR_NONE, s3) ∧
          (s3.mqcb (s.ecb e).OS_EventPtr).OS_MQEntries = 0 := by
  obtain ⟨l1, k, l2, hsh, hwk, hl1⟩ := first_split (fun k => waitsOn s e k) _ ⟨n, hn, hw⟩
  have hkn : k = n := honly p hp9 k (by rw [hsh]; simp) hwk
  subst hkn
  have hno : ∀ q, p < q → q < MAX_TASKS_IN_LIST → ∀ j ∈ sh .waiting q, ¬ waitsOn s e j := by
    intro q hpq hq9 j hj hwj
    have := honly q hq9 j hj hwj
    subst this
    have := (slot_disjoint hwf.2 hq9 hp9 hj hn).2
    omega
  have hp0 : 0 < p := by
    rcases Nat.eq_zero_or_pos p with h | h
    · subst h; rw [hws.1] at hsh; simp at hsh
    · exact h
  have hp8 : p < MAX_TASK_PRIORITY := by
    have : p ≠ MAX_TASK_PRIORITY := by
      intro h; subst h; rw [hws.2] at hsh; simp at hsh
    unfold MAX_TASKS_IN_LIST at hp9; omega
  have hfill : (s.mqcb (s.ecb e).OS_EventPtr).OS_MQEntries
      < (s.mqcb (s.ecb e).OS_EventPtr).OS_MQSize := by omega
  have hio := ring_empty_cursors _ hring hempty
  have hwf0 := putState_WF (s.ecb e).OS_EventPtr m hwf
  obtain ⟨s1, hready, hwf1, -, hecb, hmq, hmem, -, -, -, -, -, hpt⟩ :=
    OS_EventTaskReady_found (putState s (s.ecb e).OS_EventPtr m) sh e m OS_STAT_MQ OS_STAT_PEND_OK
      fuel p k l1 l2 hwf0 hp0 hp8 hsh hw hl1 hno hfuel
  have hrb : s1.ReadyTaskList.TaskRriorityBitMap ≠ 0 :=
    bitmap_ne_zero s1 _ hwf1 .ready p k hp0 (le_of_lt hp8) (by simp [Shape.move, Shape.set])
  obtain ⟨t, hsched⟩ := OS_sched_ok s1 _ fuel hwf1 (fun h => absurd h hrb)
    (by rw [move_length sh _ _ p k l1 l2 hp9 hsh]; exact hfuel)
  have hbm : (putState s (s.ecb e).OS_EventPtr m).WaitingTaskList.TaskRriorityBitMap ≠ 0 :=
    bitmap_ne_zero s sh hwf .waiting p k hp0 (le_of_lt hp8) (by rw [hsh]; simp)
  have hecb1 : (schedState s1 t).ecb = s.ecb := by
    rw [schedState_ecb, hecb]; rfl
  have hmq1 : (schedState s1 t).mqcb (s.ecb e).OS_EventPtr
      = mqPut (s.mqcb (s.ecb e).OS_EventPtr) := by
    rw [schedState_mqcb, hmq]; simp [putState]
  have hmem1 : (schedState s1 t).mem (s.mqcb (s.ecb e).OS_EventPtr).OS_MQIn = m := by
    rw [schedState_mem, hmem]; simp [putState]
  have hput : (mqPut (s.mqcb (s.ecb e).OS_EventPtr)).OS_MQOut
      = (s.mqcb (s.ecb e).OS_EventPtr).OS_MQOut ∧
      (mqPut (s.mqcb (s.ecb e).OS_EventPtr)).OS_MQEntries = 1 := by
    obtain ⟨-, -, -, g4, -, g6, -⟩ := mqPut_fields (s.mqcb (s.ecb e).OS_EventPtr)
    exact ⟨g4, by rw [g6, hempty]; rfl⟩
  refine ⟨l1, l2, schedState s1 t, hsh, ?_, schedState_WF t hwf1,
    move_target sh .waiting .ready p k l1 l2 (by decide), ?_, ?_⟩
  · rw [OS_MsgQ_Send_put s e m fuel he htype hq hfill]
    simp [hbm, hready, hsched]
  · rw [schedState_node, hpt]; rfl
  · intro s2 fuel2 timeout h1 h2 h3
    rw [hecb1] at h1
    rw [hmq1] at h2 h3
    rw [hput.1, ← hio, hmem1] at h3
    have htype2 : (s2.ecb e).OS_EventType = OS_EVENT_TYPE_MQ := by rw [h1]; exact htype
    have hptr2 : (s2.ecb e).OS_EventPtr = (s.ecb e).OS_EventPtr := by rw [h1]
    have hq2 : (s2.ecb e).OS_EventPtr ≠ 0 := by rw [hptr2]; exact hq
    have hfill2 : 0 < (s2.mqcb (s2.ecb e).OS_EventPtr).OS_MQEntries := by
      rw [hptr2, h2, hput.2]; norm_num
    have hmsg : s2.mem (s2.mqcb (s2.ecb e).OS_EventPtr).OS_MQOut = m := by
      rw [hptr2, h2, hput.1, ← hio]; exact h3
    have hwait := OS_MsgQ_Wait_available s2 e timeout fuel2 he htype2 hq2 hfill2
    rw [hmsg] at hwait
    refine ⟨_, hwait, ?_⟩
    rw [hptr2]
    simp only [getState, Function.update_same]
    rw [(mqGet_fields _).2.2.2.2.2.1, h2, hput.2]
    rfl

/-! ## The ECB pool and the MQCB pool -/

/-- A free list that threads the table entries `j + 1, j + 2, .., N` (as
addresses) and ends in null is walked in that order. -/
theorem chainFrom_table (next : Nat → Nat) (N : Nat) :
    ∀ (d j fuel : Nat), j + d = N → d < fuel →
      (∀ i, j ≤ i → i + 1 < N → next (i + 1) = i + 2) → (j < N → next N = 0) →
      chainFrom next fuel (if j < N then j + 1 else 0) = List.range' (j + 1) d := by
  intro d
  induction d with
  | zero =>
    intro j fuel hj hf _ _
    have : ¬ j < N := by omega
    cases fuel with
    | zero => omega
    | succ fuel => simp [chainFrom, this]
  | succ d ih =>
    intro j fuel hj hf hlink hlast
    have hjN : j < N := by omega
    cases fuel with
    | zero => omega
    | succ fuel =>
      simp only [hjN, ↓reduceIte, chainFrom, Nat.add_one_ne_zero, List.range'_succ]
      congr 1
      have hnext : next (j + 1) = if j + 1 < N then j + 1 + 1 else 0 := by
        by_cases h1 : j + 1 < N
        · simp [h1, hlink j (le_refl _) h1]
        · have : j + 1 = N := by omega
          simp [h1, this, hlast hjN]
      rw [hnext]
      exact ih (j + 1) fuel (by omega) (by omega)
        (fun i hi hi' => hlink i (by omega) hi') (fun _ => hlast hjN)

theorem freeEcbs_of_FreeFrom (s : Kernel) (j : Nat) (hj : j ≤ OS_MAX_EVENTS)
    (h : FreeFrom j s) : freeEcbs s = List.range' (j + 1) (OS_MAX_EVENTS - j) := by
  obtain ⟨h1, h2, h3⟩ := h
  unfold freeEcbs
  rw [h1]
  exact chainFrom_table _ OS_MAX_EVENTS (OS_MAX_EVENTS - j) j _ (by omega) (by omega)
    (fun i hi hi' => h2 i hi hi') (fun hlt => h3 hlt)

theorem freeMqcbs_of_MqFreeFrom (s : Kernel) (i : Nat) (hi : i ≤ OS_MAX_MQ)
    (h : MqFreeFrom i s) : freeMqcbs s = List.range' (i + 1) (OS_MAX_MQ - i) := by
  obtain ⟨h1, h2, h3⟩ := h
  unfold freeMqcbs
  rw [h1]
  exact chainFrom_table _ OS_MAX_MQ (OS_MAX_MQ - i) i _ (by omega) (by omega)
    (fun k hk hk' => h2 k hk hk') (fun hlt => h3 hlt)

theorem OS_MsgQ_Init_free (s : Kernel) : MqFreeFrom 0 (OS_MsgQ_Init s) := by
  refine ⟨by simp [OS_MsgQ_Init, OS_MAX_MQ], ?_, ?_⟩
  · intro i _ hi
    have hi' : i < 7 := by unfold OS_MAX_MQ at hi; omega
    interval_cases i <;>
      simp [OS_MsgQ_Init, initMqLoop, clearMqTbl, OS_MQcb_Tbl, OS_MAX_MQ, Function.update_apply]
  · intro _
    simp [OS_MsgQ_Init, OS_MQcb_Tbl, OS_MAX_MQ]

/-- The function `os_utilsAddTaskToReadyListByTcb` leaves the control blocks and
the free lists alone. -/
theorem addReady_same {fuel t pNode st : Nat} {s s' : Kernel}
    (h : os_utilsAddTaskToReadyListByTcb fuel t pNode s = .ok (st, s')) : SameObjs s s' := by
  unfold os_utilsAddTaskToReadyListByTcb at h
  simp only [bind_eq_ok, rdTcb_eq_ok, Q_ASSERT_eq_ok] at h
  obtain ⟨tc, -, -, -, h⟩ := h
  split_ifs at h with h0
  · simp only [pure_eq_ok_iff, Prod.mk.injEq] at h
    rw [← h.2]; exact SameObjs.refl s
  · simp only [bind_eq_ok] at h
    obtain ⟨s1, h1, h⟩ := h
    have hs1 := wrNode_same h1
    split_ifs at h
    · simp only [pure_eq_ok_iff, Prod.mk.injEq] at h
      rw [← h.2]
      exact hs1.trans ((SameObjs_setHead _ _ _ _).trans (SameObjs_setBitMap _ _ _))
    · simp only [bind_eq_ok, pure_eq_ok_iff, Prod.mk.injEq] at h
      obtain ⟨x, -, s2, h2, s3, h3, -, h4⟩ := h
      rw [← h4]
      exact hs1.trans ((setNext_same h2).trans (setPrev_same h3))

/-- The function `OS_Task_Create` leaves the ECBs, the MQCBs and the two free
lists alone. -/
theorem OS_Task_Create_pools {fuel myTcb prio threadHandler stkSto stkSize pNode : Nat}
    {s s' : Kernel}
    (h : OS_Task_Create fuel myTcb prio threadHandler stkSto stkSize pNode s = .ok s') :
    s'.ecb = s.ecb ∧ s'.mqcb = s.mqcb ∧ s'.OSEventFreeList = s.OSEventFreeList ∧
      s'.OS_MQcb_FreeList = s.OS_MQcb_FreeList := by
  unfold OS_Task_Create at h
  simp only [bind_eq_ok, Q_ASSERT_eq_ok] at h
  obtain ⟨-, -, h⟩ := h
  obtain ⟨m1, hm1⟩ := pushFrame_mem (initialFrame threadHandler)
    ((stkSto + stkSize) % 2 ^ 32 / 8 * 8) s
  generalize hfr : (initialFrame threadHandler).foldl pushWord
    ((stkSto + stkSize) % 2 ^ 32 / 8 * 8, s) = fr at h hm1
  obtain ⟨sp, s1⟩ := fr
  simp only [bind_eq_ok, rdTcb_eq_ok, wrTcb_eq_ok, Q_ASSERT_eq_ok] at h hm1
  obtain ⟨c, -, s2, ⟨-, hs2⟩, s3, h3, s4, ⟨-, hs4⟩, ⟨st, s5⟩, h5, -, -, h6⟩ := h
  rw [pure_eq_ok_iff] at h6
  subst h6
  obtain ⟨m3, hm3⟩ := fillStack_mem _ _ _ _ _ h3
  obtain ⟨e1, e2, -, e4, e5⟩ := addReady_same h5
  rw [e1, e2, e4, e5, ← hs4, hm3, ← hs2, hm1]
  exact ⟨rfl, rfl, rfl, rfl⟩

/-- After `OS_Init` both free lists thread their whole table. -/
theorem OS_Init_pools {fuel stkSto stkSize idleTask main_idleTask pNode : Nat} {s0 s : Kernel}
    (h : OS_Init fuel stkSto stkSize idleTask main_idleTask pNode s0 = .ok s) :
    FreeFrom 0 s ∧ MqFreeFrom 0 s := by
  unfold OS_Init at h
  obtain ⟨e1, e2, e3, e4⟩ := OS_Task_Create_pools h
  have hE := OS_InitEventList_free s0
  have hQ := OS_MsgQ_Init_free (OS_InitEventList s0)
  constructor
  · unfold FreeFrom at hE ⊢
    rw [e1, e3]
    exact hE
  · unfold MqFreeFrom at hQ ⊢
    rw [e2, e4]
    exact hQ

/-- The function `OS_Sem_Create` leaves the MQCBs and their free list alone. -/
theorem OS_Sem_Create_mq (s : Kernel) (cnt : Nat) (name : String) :
    (OS_Sem_Create cnt name s).2.mqcb = s.mqcb ∧
      (OS_Sem_Create cnt name s).2.OS_MQcb_FreeList = s.OS_MQcb_FreeList := by
  unfold OS_Sem_Create
  by_cases h : s.OSEventFreeList = 0 <;> simp [h]

/-- A returning `OS_MsgQ_Create` on pools that thread their tables from `j` and
`i`, with a free MQCB, takes the first block of each. -/
theorem OS_MsgQ_Create_step (s : Kernel) (j i start size pe : Nat) (s' : Kernel)
    (hE : FreeFrom j s) (hQ : MqFreeFrom i s) (hi : i < OS_MAX_MQ)
    (h : OS_MsgQ_Create start size s = .ok (pe, s')) :
    j < OS_MAX_EVENTS ∧ pe = OSEventTbl j ∧ FreeFrom (j + 1) s' ∧ MqFreeFrom (i + 1) s' := by
  obtain ⟨h1, h2, h3⟩ := hE
  obtain ⟨g1, g2, g3⟩ := hQ
  by_cases hj : j < OS_MAX_EVENTS
  swap
  · have hfree : s.OSEventFreeList = 0 := by simp [h1, hj]
    simp [OS_MsgQ_Create, hfree, wrEcb] at h
  have hfree : s.OSEventFreeList = OSEventTbl j := by simp [h1, hj]
  have hqfree : s.OS_MQcb_FreeList = OS_MQcb_Tbl i := by simp [g1, hi]
  have hne : OSEventTbl j ≠ 0 := by simp [OSEventTbl]
  have hqne : OS_MQcb_Tbl i ≠ 0 := by simp [OS_MQcb_Tbl]
  simp only [OS_MsgQ_Create, hfree, ne_eq, hne, not_false_eq_true, ↓reduceIte, hqfree, hqne,
    pure_eq_ok_iff, Prod.mk.injEq] at h
  obtain ⟨hpe, hs'⟩ := h
  subst hs'
  refine ⟨hj, hpe.symm, ⟨?_, ?_, ?_⟩, ⟨?_, ?_, ?_⟩⟩
  · by_cases hj1 : j + 1 < OS_MAX_EVENTS
    · simp [hj1, h2 j (le_refl _) hj1]
    · have : j = OS_MAX_EVENTS - 1 := by omega
      subst this
      simp [hj1, h3 hj]
  · intro k hjk hk
    have : OSEventTbl k ≠ OSEventTbl j := by simp [OSEventTbl]; omega
    simp only [Function.update_apply, this, ↓reduceIte]
    exact h2 k (by omega) hk
  · intro hj1
    have : OSEventTbl (OS_MAX_EVENTS - 1) ≠ OSEventTbl j := by simp [OSEventTbl]; omega
    simp only [Function.update_apply, this, ↓reduceIte]
    exact h3 hj
  · by_cases hi1 : i + 1 < OS_MAX_MQ
    · simp [hi1, g2 i (le_refl _) hi1]
    · have : i = OS_MAX_MQ - 1 := by omega
      subst this
      simp [hi1, g3 hi]
  · intro k hik hk
    have : OS_MQcb_Tbl k ≠ OS_MQcb_Tbl i := by simp [OS_MQcb_Tbl]; omega
    simp only [Function.update_apply, this, ↓reduceIte]
    exact g2 k (by omega) hk
  · intro hi1
    have : OS_MQcb_Tbl (OS_MAX_MQ - 1) ≠ OS_MQcb_Tbl i := by simp [OS_MQcb_Tbl]; omega
    simp only [Function.update_apply, this, ↓reduceIte]
    exact g3 hi

/-- The invariant of the two pools: the free ECBs are the table entries from
`j` on, the free MQCBs those from `i` on, and `i ≤ j`. -/
theorem PoolReach_inv (s : Kernel) (h : PoolReach s) :
    ∃ j i, i ≤ j ∧ j ≤ OS_MAX_EVENTS ∧ FreeFrom j s ∧ MqFreeFrom i s := by
  induction h with
  | init fuel stkSto stkSize idleTask main_idleTask pNode s0 s h =>
    obtain ⟨hE, hQ⟩ := OS_Init_pools h
    exact ⟨0, 0, le_refl _, Nat.zero_le _, hE, hQ⟩
  | sem s cnt name _ ih =>
    obtain ⟨j, i, hij, hj, hE, hQ⟩ := ih
    obtain ⟨hstep, -, hfull⟩ := OS_Sem_Create_step s j cnt name hE
    obtain ⟨m1, m2⟩ := OS_Sem_Create_mq s cnt name
    have hQ' : MqFreeFrom i (OS_Sem_Create cnt name s).2 := by
      unfold MqFreeFrom at hQ ⊢
      rw [m1, m2]; exact hQ
    by_cases hj8 : j < OS_MAX_EVENTS
    · exact ⟨j + 1, i, by omega, by omega, hstep, hQ'⟩
    · have := hfull (by omega)
      rw [this] at hQ' ⊢
      exact ⟨j, i, hij, hj, hE, hQ'⟩
  | mq s start size pe s' _ hc ih =>
    obtain ⟨j, i, hij, hj, hE, hQ⟩ := ih
    by_cases hj8 : j < OS_MAX_EVENTS
    · have hi8 : i < OS_MAX_MQ := by unfold OS_MAX_MQ; unfold OS_MAX_EVENTS at hj8; omega
      obtain ⟨-, -, hE', hQ'⟩ := OS_MsgQ_Create_step s j i start size pe s' hE hQ hi8 hc
      exact ⟨j + 1, i + 1, by omega, by omega, hE', hQ'⟩
    · exfalso
      have hfree : s.OSEventFreeList = 0 := by simp [hE.1, hj8]
      simp [OS_MsgQ_Create, hfree, wrEcb] at hc

/-- C37: in every state reached from `OS_Init` through calls of `OS_Sem_Create`
and returning calls of `OS_MsgQ_Create`, each free list holds pairwise distinct
blocks of its table, there are at least as many free MQCBs as free ECBs, and
the branch of `OS_MsgQ_Create` taken when an ECB was obtained but the MQCB free
list is empty cannot be entered: a non-empty ECB free list comes with a
non-empty MQCB free list, and a returning `OS_MsgQ_Create` returns an ECB
initialised as a queue on a MQCB. -/
theorem pools_in_step (s : Kernel) (h : PoolReach s) :
    (freeEcbs s).length ≤ (freeMqcbs s).length ∧
      (freeEcbs s).Nodup ∧ (freeMqcbs s).Nodup ∧
      (∀ a ∈ freeEcbs s, ∃ k, k < OS_MAX_EVENTS ∧ a = OSEventTbl k) ∧
      (∀ a ∈ freeMqcbs s, ∃ k, k < OS_MAX_MQ ∧ a = OS_MQcb_Tbl k) ∧
      ¬ (s.OSEventFreeList ≠ 0 ∧ s.OS_MQcb_FreeList = 0) ∧
      ∀ start size pe s', OS_MsgQ_Create start size s = .ok (pe, s') →
        pe ≠ 0 ∧ (s'.ecb pe).OS_EventType = OS_EVENT_TYPE_MQ ∧
          (s'.ecb pe).OS_EventPtr = s.OS_MQcb_FreeList ∧ s.OS_MQcb_FreeList ≠ 0 := by
  obtain ⟨j, i, hij, hj, hE, hQ⟩ := PoolReach_inv s h
  have hi : i ≤ OS_MAX_MQ := by unfold OS_MAX_MQ; unfold OS_MAX_EVENTS at hj; omega
  have e1 := freeEcbs_of_FreeFrom s j hj hE
  have e2 := freeMqcbs_of_MqFreeFrom s i hi hQ
  have hbranch : s.OSEventFreeList ≠ 0 → s.OS_MQcb_FreeList ≠ 0 := by
    intro hne
    have hj8 : j < OS_MAX_EVENTS := by
      by_contra hc
      exact hne (by simp [hE.1, hc])
    have hi8 : i < OS_MAX_MQ := by unfold OS_MAX_MQ; unfold OS_MAX_EVENTS at hj8; omega
    rw [hQ.1]
    simp [hi8, OS_MQcb_Tbl]
  refine ⟨?_, ?_, ?_, ?_, ?_, ?_, ?_⟩
  · rw [e1, e2]
    simp only [List.length_range']
    unfold OS_MAX_MQ OS_MAX_EVENTS
    omega
  · rw [e1]; exact List.nodup_range' _ _
  · rw [e2]; exact List.nodup_range' _ _
  · intro a ha
    rw [e1, List.mem_range'_1] at ha
    exact ⟨a - 1, by omega, by unfold OSEventTbl; omega⟩
  · intro a ha
    rw [e2, List.mem_range'_1] at ha
    exact ⟨a - 1, by omega, by unfold OS_MQcb_Tbl; omega⟩
  · rintro ⟨h1, h2⟩
    exact hbranch h1 h2
  · intro start size pe s' hc
    have hEne : s.OSEventFreeList ≠ 0 := by
      intro h0
      simp [OS_MsgQ_Create, h0, wrEcb] at hc
    have hQne := hbranch hEne
    obtain ⟨s1, hok, g1, -, -, -⟩ := OS_MsgQ_Create_ok s start size hEne hQne
    rw [hok] at hc
    simp only [Except.ok.injEq, Prod.mk.injEq] at hc
    rw [← hc.1, ← hc.2, g1]
    exact ⟨hEne, rfl, rfl, hQne⟩

/-! ## The timeouts of the delayed tasks -/

/-- The loop of `OS_tick` is the loop test followed by one pass and the loop. -/
theorem tickOuter_pass (inner fuel ws : Nat) (s : Kernel) :
    tickOuter inner (fuel + 1) ws s =
      if ws = 0 then pure s
      else tickPass inner ws s >>= fun r => tickOuter inner fuel r.1 r.2 := by
  unfold tickPass
  rw [tickOuter]
  split_ifs with h0
  · rfl
  · dsimp only []
    cases hnd : rdNode s (s.DelayedTaskList.TaskList (LOG2 ws)) with
    | error e => rfl
    | ok nd =>
      simp only [ok_bind]
      cases hq : Q_ASSERT (nd.pTcb ≠ 0 ∧ (s.tcb nd.pTcb).OS_TcbTimeout ≠ 0) with
      | error e => rfl
      | ok u =>
        simp only [ok_bind]
        split_ifs
        · cases tickNode inner (s.DelayedTaskList.TaskList (LOG2 ws)) s <;> rfl
        · cases tickInner inner inner (s.DelayedTaskList.TaskList (LOG2 ws)) s <;> rfl

/-- What `tickNode` does to a node of Delayed slot `p`: the timeout of its TCB
is decremented; if the result is not zero nothing else changes, otherwise the
node is moved to the tail of Ready slot `p` with its `next` link cleared. -/
theorem tickNode_cases (s : Kernel) (sh : Shape) (hwf : WF s sh) (hws : WaitingSlots sh)
    (p n : Nat) (l1 l2 : List Nat) (hp0 : 0 < p) (hp8 : p ≤ MAX_TASK_PRIORITY)
    (hsh : sh .delayed p = l1 ++ n :: l2) {fuel : Nat} {s' : Kernel}
    (h : tickNode fuel n s = .ok s') :
    s'.tcb = Function.update s.tcb (s.node n).pTcb
        { s.tcb (s.node n).pTcb with
          OS_TcbTimeout := dec32 (s.tcb (s.node n).pTcb).OS_TcbTimeout } ∧
      ((dec32 (s.tcb (s.node n).pTcb).OS_TcbTimeout ≠ 0 ∧ Evolves s sh s' sh ∧
          s'.node = s.node) ∨
        (dec32 (s.tcb (s.node n).pTcb).OS_TcbTimeout = 0 ∧ p < MAX_TASK_PRIORITY ∧
          Evolves s sh s' (sh.move .delayed .ready p l1 n l2) ∧ (s'.node n).next = 0)) := by
  refine ⟨tickNode_tcb s sh hwf p n l1 l2 hp0 hp8 hsh h, ?_⟩
  have hp9 : p < MAX_TASKS_IN_LIST := by unfold MAX_TASKS_IN_LIST; omega
  have hnin : n ∈ sh .delayed p := by rw [hsh]; simp
  have hnprio := ((hwf.list .delayed).1 p hp9).2 n hnin
  unfold tickNode at h
  simp only [bind_eq_ok, rdNode_eq_ok, rdTcb_eq_ok, wrTcb_eq_ok] at h
  obtain ⟨nd, ⟨hn0, hnd⟩, t, ⟨ht0, ht⟩, s1, ⟨-, hs1⟩, h⟩ := h
  subst hnd
  subst ht
  have hev1 : Evolves s sh s1 sh := by
    rw [← hs1]
    refine Evolves_of_frame hwf hws rfl ?_ (fun L => by cases L <;> rfl) rfl
    intro t
    by_cases e : t = (s.node n).pTcb
    · subst e; simp
    · simp [Function.update_noteq e]
  have hnode1 : s1.node = s.node := by rw [← hs1]
  have htime : (s1.tcb (s.node n).pTcb).OS_TcbTimeout
      = dec32 (s.tcb (s.node n).pTcb).OS_TcbTimeout := by rw [← hs1]; simp
  rw [htime] at h
  split_ifs at h with hz
  · simp only [bind_eq_ok, Q_ASSERT_eq_ok] at h
    obtain ⟨⟨pTask, s2⟩, h2, -, -, h3⟩ := h
    have hprio1 : (s1.tcb (s1.node n).pTcb).OS_TcbPrio = p := by
      rw [← hs1]; simp [hnprio.2]
    have hseg1 := hev1.1.seg .delayed hp9
    rw [hsh] at hseg1
    have hnd1 := slot_nodup hev1.1.2 .delayed hp9
    rw [hsh] at hnd1
    have hcode : DELAYED_TASK_LIST = ListId.delayed.code := rfl
    have hcode' : READY_TASK_LIST = ListId.ready.code := rfl
    rw [hcode] at h2
    rw [removeByNode_eq s1 .delayed p n l1 l2 (by rw [hnode1]; exact hnprio.1) hprio1 hp0 hp8
      hseg1 hnd1] at h2
    simp only [Except.ok.injEq, Prod.mk.injEq] at h2
    obtain ⟨e1, e2⟩ := h2
    subst e1
    simp only [] at h3
    rw [hcode'] at h3
    obtain ⟨hwf2, hnot2⟩ := remove_WF s1 sh .delayed p n l1 l2 hev1.1 hp0 hp8 hsh
    rw [e2] at hwf2
    obtain ⟨-, -, -, hlt, hs3⟩ := add_inv s2 _ .ready hwf2 h3
    have hnode2 : s2.node n = { prev := 0, next := 0, pTcb := (s1.node n).pTcb } := by
      rw [← e2, removeState_node, unlinkNd_self]
    have hprio2 : (s2.tcb (s2.node n).pTcb).OS_TcbPrio = p := by
      rw [hnode2, ← e2, removeState_tcb]; exact hprio1
    rw [hprio2] at hs3 hlt
    have hev2 := moved_evolves s1 sh hev1.1 hws .delayed .ready p n l1 l2 hp0 hp8
      (fun e => by cases e) hsh
    rw [e2, ← hs3] at hev2
    refine Or.inr ⟨hz, hlt, Evolves_trans hev1 hev2, ?_⟩
    rw [hs3, addState_node]
    have hx : lastOr 0 ((sh.set .delayed p (l1 ++ l2)) .ready p) ≠ n := by
      rcases lastOr_zero_or_mem ((sh.set .delayed p (l1 ++ l2)) .ready p) with h0 | hm
      · rw [h0]; exact fun e => hn0 e.symm
      · intro e
        rw [e] at hm
        exact hnot2 ((mem_allNodes _ n).mpr ⟨.ready, p, hp9, hm⟩)
    split_ifs
    · rw [hnode2]
    · unfold appendNd
      simp [Function.update_apply, hx.symm, hnode2]
  · rw [pure_eq_ok_iff] at h
    subst h
    exact Or.inl ⟨hz, hev1, hnode1⟩

/-- The moved node apart, the nodes of Delayed after a move from Delayed to
Ready are nodes of Delayed before it. -/
theorem delayed_after_move (sh : Shape) (hnd : (allNodes sh).Nodup) (p n : Nat)
    (l1 l2 : List Nat) (hp9 : p < MAX_TASKS_IN_LIST) (hsh : sh .delayed p = l1 ++ n :: l2)
    (q m : Nat) (hq : q < MAX_TASKS_IN_LIST)
    (hm : m ∈ (sh.move .delayed .ready p l1 n l2) .delayed q) :
    m ∈ sh .delayed q ∧ m ≠ n := by
  by_cases e : q = p
  · subst e
    rw [move_source sh .delayed .ready q n l1 l2 (by decide)] at hm
    have hslot := slot_nodup hnd .delayed hq
    rw [hsh] at hslot ⊢
    have h1 := List.nodup_append.mp hslot
    rcases List.mem_append.mp hm with h | h
    · exact ⟨List.mem_append_left _ h, fun e => h1.2.2 (e ▸ h) (List.mem_cons_self _ _)⟩
    · exact ⟨List.mem_append_right _ (List.mem_cons_of_mem _ h),
        fun e => (List.nodup_cons.mp h1.2.1).1 (e ▸ h)⟩
  · rw [move_other sh .delayed .ready .delayed p q n l1 l2 (fun e' => e e'.2)
      (fun e' => by cases e'.1)] at hm
    refine ⟨hm, ?_⟩
    intro e'
    subst e'
    exact e (slot_disjoint hnd hq hp9 hm (by rw [hsh]; simp)).2

/-- The step of `OS_tick` for one node keeps the timeouts of the delayed tasks
away from zero. -/
theorem tickNode_pos (s : Kernel) (sh : Shape) (hwf : WF s sh) (hws : WaitingSlots sh)
    (htn : TcbNodup s sh) (hpos : DelayedPos s sh)
    (p n : Nat) (l1 l2 : List Nat) (hp0 : 0 < p) (hp8 : p ≤ MAX_TASK_PRIORITY)
    (hsh : sh .delayed p = l1 ++ n :: l2) {fuel : Nat} {s' : Kernel}
    (h : tickNode fuel n s = .ok s') :
    (Evolves s sh s' sh ∧ DelayedPos s' sh ∧ s'.node = s.node) ∨
      (Evolves s sh s' (sh.move .delayed .ready p l1 n l2) ∧
        DelayedPos s' (sh.move .delayed .ready p l1 n l2) ∧ (s'.node n).next = 0) := by
  have hp9 : p < MAX_TASKS_IN_LIST := by unfold MAX_TASKS_IN_LIST; omega
  have hnin : n ∈ allNodes sh := (mem_allNodes sh n).mpr ⟨.delayed, p, hp9, by rw [hsh]; simp⟩
  obtain ⟨htcb, hcase⟩ := tickNode_cases s sh hwf hws p n l1 l2 hp0 hp8 hsh h
  rcases hcase with ⟨hz, hev, hnode⟩ | ⟨hz, -, hev, hnext⟩
  · refine Or.inl ⟨hev, ?_, hnode⟩
    intro q hq m hm
    rw [hnode, htcb]
    by_cases e : (s.node m).pTcb = (s.node n).pTcb
    · rw [e]; simpa using hz
    · rw [Function.update_noteq e]
      exact hpos q hq m hm
  · refine Or.inr ⟨hev, ?_, hnext⟩
    intro q hq m hm
    obtain ⟨hm', hmn⟩ := delayed_after_move sh hwf.2 p n l1 l2 hp9 hsh q m hq hm
    have hmin : m ∈ allNodes sh := (mem_allNodes sh m).mpr ⟨.delayed, q, hq, hm'⟩
    have hne : (s.node m).pTcb ≠ (s.node n).pTcb := fun e => hmn (TcbNodup_inj htn hmin hnin e)
    rw [hev.2.2.2.1 m, htcb, Function.update_noteq hne]
    exact hpos q hq m hm'

/-- The walk of `OS_tick` over a slot with several nodes keeps the timeouts of
the delayed tasks away from zero. -/
theorem tickInner_pos (inner : Nat) (p : Nat) (hp0 : 0 < p) (hp8 : p ≤ MAX_TASK_PRIORITY)
    (fuel : Nat) (l1 l2 : List Nat) (s s' : Kernel) (sh : Shape)
    (hwf : WF s sh) (hws : WaitingSlots sh) (htn : TcbNodup s sh) (hpos : DelayedPos s sh)
    (hsh : sh .delayed p = l1 ++ l2)
    (h : tickInner inner fuel (l2.headD 0) s = .ok s') :
    ∃ sh', Evolves s sh s' sh' ∧ DelayedPos s' sh' ∧
      ∀ q, q ≠ p → sh' .delayed q = sh .delayed q := by
  have hp9 : p < MAX_TASKS_IN_LIST := by unfold MAX_TASKS_IN_LIST; omega
  induction fuel generalizing l1 l2 s with
  | zero => simp [tickInner] at h
  | succ fuel ih =>
    cases l2 with
    | nil =>
      simp only [List.headD_nil] at h
      have := tickInner_zero h
      subst this
      exact ⟨sh, Evolves_refl hwf hws, hpos, fun _ _ => rfl⟩
    | cons n l2 =>
      have hn0 : n ≠ 0 := Seg_ne_zero (hwf.seg .delayed hp9) n (by rw [hsh]; simp)
      simp only [List.headD_cons, tickInner, hn0, ↓reduceIte, bind_eq_ok] at h
      obtain ⟨s1, h1, h2⟩ := h
      rcases tickNode_pos s sh hwf hws htn hpos p n l1 l2 hp0 hp8 hsh h1 with
        ⟨hev1, hpos1, hnode1⟩ | ⟨hev1, hpos1, hnext⟩
      · have hseg := hwf.seg .delayed hp9
        rw [hsh] at hseg
        have hlinks := Seg_links hseg
        rw [hnode1, hlinks.2] at h2
        have htn1 : TcbNodup s1 sh := TcbNodup_perm hev1.2.2.1 hev1.2.2.2.1 htn
        obtain ⟨sh', hev2, hpos2, hoth⟩ :=
          ih (l1 ++ [n]) l2 s1 hev1.1 htn1 hpos1 (by simp [hsh]) h2
        exact ⟨sh', Evolves_trans hev1 hev2, hpos2, hoth⟩
      · rw [hnext] at h2
        have := tickInner_zero h2
        subst this
        refine ⟨_, hev1, hpos1, ?_⟩
        intro q hq
        exact move_other sh .delayed .ready .delayed p q n l1 l2 (fun e => hq e.2)
          (fun e => hq e.2)

/-! ## The services keep the timeouts of the delayed tasks away from zero -/

/-- The delayed tasks keep non-zero timeouts when Delayed gains no node and the
timeouts of its tasks are not written. -/
theorem DelayedPos_of_kept {s s' : Kernel} {sh sh' : Shape} (hpos : DelayedPos s sh)
    (hsub : ∀ q, q < MAX_TASKS_IN_LIST → ∀ n ∈ sh' .delayed q, n ∈ sh .delayed q)
    (hnode : ∀ k, (s'.node k).pTcb = (s.node k).pTcb)
    (htcb : ∀ q, q < MAX_TASKS_IN_LIST → ∀ n ∈ sh .delayed q,
      (s'.tcb (s.node n).pTcb).OS_TcbTimeout = (s.tcb (s.node n).pTcb).OS_TcbTimeout) :
    DelayedPos s' sh' := by
  intro q hq n hn
  have hm := hsub q hq n hn
  rw [hnode, htcb q hq n hm]
  exact hpos q hq n hm

theorem sched_pos {s s3 s' : Kernel} {sh sh3 : Shape} (hev : Evolves s sh s3 sh3)
    (hpos : DelayedPos s3 sh3) {fuel : Nat} (h : OS_sched fuel s3 = .ok s') :
    ∃ sh', Evolves s sh s' sh' ∧ DelayedPos s' sh' := by
  obtain ⟨t, hs, -⟩ := OS_sched_on_ready s3 sh3 hev.1 h
  refine ⟨sh3, ?_, ?_⟩
  · rw [hs]
    exact ⟨schedState_WF t hev.1, hev.2.1, hev.2.2.1, fun k => by simp [hev.2.2.2.1 k],
      by simp [hev.2.2.2.2]⟩
  · rw [hs]
    intro q hq n hn
    simpa using hpos q hq n hn

theorem frame_pos {s s' : Kernel} {sh : Shape} (hwf : WF s sh) (hws : WaitingSlots sh)
    (hpos : DelayedPos s sh) (hn : s'.node = s.node) (ht : s'.tcb = s.tcb)
    (hl : ∀ L, s'.getList L = s.getList L) (hc : s'.OS_Tcb_Curr = s.OS_Tcb_Curr) :
    ∃ sh', Evolves s sh s' sh' ∧ DelayedPos s' sh' :=
  ⟨sh, Evolves_of_frame hwf hws hn (fun t => by rw [ht]) hl hc,
    fun q hq n hm => by rw [hn, ht]; exact hpos q hq n hm⟩

theorem pos_trans_frame {s s1 s' : Kernel} {sh : Shape}
    (hn : s1.node = s.node) (hc : s1.OS_Tcb_Curr = s.OS_Tcb_Curr)
    (h : ∃ sh', Evolves s1 sh s' sh' ∧ DelayedPos s' sh') :
    ∃ sh', Evolves s sh s' sh' ∧ DelayedPos s' sh' := by
  obtain ⟨sh', hev, hpos⟩ := h
  exact ⟨sh', ⟨hev.1, hev.2.1, hev.2.2.1, fun k => by rw [hev.2.2.2.1 k, hn],
    hev.2.2.2.2.trans hc⟩, hpos⟩

/-- A returning `OS_EventTaskReady` leaves Delayed and the TCBs alone. -/
theorem OS_EventTaskReady_pos (s : Kernel) (sh : Shape) (hwf : WF s sh) (hws : WaitingSlots sh)
    (hpos : DelayedPos s sh) {fuel e a b c st : Nat} {s' : Kernel}
    (h : OS_EventTaskReady fuel e a b c s = .ok (st, s')) :
    ∃ sh', Evolves s sh s' sh' ∧ DelayedPos s' sh' := by
  unfold OS_EventTaskReady at h
  simp only [bind_eq_ok] at h
  obtain ⟨⟨n, s1⟩, h1, h⟩ := h
  rcases HPT_inv s sh hwf hws h1 with ⟨hn, hs1⟩ | ⟨p, l1, l2, hp0, hp8, hsh, hs1⟩
  · subst hn; subst hs1
    simp only [ne_eq, not_true_eq_false, ↓reduceIte, pure_eq_ok_iff, Prod.mk.injEq] at h
    rw [← h.2]
    exact ⟨sh, Evolves_refl hwf hws, hpos⟩
  · have hp9 : p < MAX_TASKS_IN_LIST := by unfold MAX_TASKS_IN_LIST; omega
    have hn0 : n ≠ 0 := Seg_ne_zero (hwf.seg .waiting hp9) n (by rw [hsh]; simp)
    simp only [ne_eq, hn0, not_false_eq_true, ↓reduceIte, bind_eq_ok, pure_eq_ok_iff,
      Prod.mk.injEq] at h
    obtain ⟨s2, h2, -, h3⟩ := h
    subst h3
    obtain ⟨hwf1, -⟩ := remove_WF s sh .waiting p n l1 l2 hwf hp0 (le_of_lt hp8) hsh
    have hcode : READY_TASK_LIST = ListId.ready.code := rfl
    rw [hcode] at h2
    rw [← hs1] at hwf1
    obtain ⟨-, -, -, -, hs2⟩ := add_inv s1 _ .ready hwf1 h2
    have hprio : (s1.tcb (s1.node n).pTcb).OS_TcbPrio = p := by
      rw [hs1, removeState_node, unlinkNd_self, removeState_tcb]
      exact (((hwf.list .waiting).1 p hp9).2 n (by rw [hsh]; simp)).2
    rw [hprio, hs1] at hs2
    rw [hs2]
    obtain ⟨f1, -, -⟩ := moved_frame s .waiting .ready p (lastOr 0 l1) n (l2.headD 0)
      (lastOr 0 ((sh.set .waiting p (l1 ++ l2)) .ready p))
    have hev := moved_evolves s sh hwf hws .waiting .ready p n l1 l2 hp0 (le_of_lt hp8)
      (fun e => by cases e) hsh
    refine ⟨_, hev, DelayedPos_of_kept hpos ?_ hev.2.2.2.1 (fun _ _ _ _ => by rw [f1])⟩
    intro q _ m hm
    rwa [move_other sh .waiting .ready .delayed p q n l1 l2 (fun e => by cases e.1)
      (fun e => by cases e.1)] at hm

/-- A returning `OS_EventTaskWait` for the TCB `t` leaves Delayed and the TCBs
alone; the TCB was on Ready, so its timeout is not the timeout of a delayed
task. -/
theorem OS_EventTaskWait_pos (s : Kernel) (sh : Shape) (hwf : WF s sh) (hws : WaitingSlots sh)
    (htn : TcbNodup s sh) {fuel t : Nat} {s' : Kernel}
    (hpos : ∀ q, q < MAX_TASKS_IN_LIST → ∀ n ∈ sh .delayed q, (s.node n).pTcb ≠ t →
      (s.tcb (s.node n).pTcb).OS_TcbTimeout ≠ 0)
    (h : OS_EventTaskWait fuel t s = .ok s') :
    ∃ sh', Evolves s sh s' sh' ∧ DelayedPos s' sh' := by
  unfold OS_EventTaskWait at h
  simp only [bind_eq_ok, Q_ASSERT_eq_ok] at h
  obtain ⟨⟨n, s1⟩, h1, -, hn0, h2⟩ := h
  have hcode : READY_TASK_LIST = ListId.ready.code := rfl
  have hcode' : WAITING_TASK_LIST = ListId.waiting.code := rfl
  rw [hcode] at h1
  rw [hcode'] at h2
  obtain ⟨ht0, hp0, hp8, l1, l2, hsh, hnt, hl1, hs1⟩ := removeByTcb_inv s sh .ready hwf h1 hn0
  have hp9 : (s.tcb t).OS_TcbPrio < MAX_TASKS_IN_LIST := by unfold MAX_TASKS_IN_LIST; omega
  obtain ⟨hwf1, -⟩ := remove_WF s sh .ready _ n l1 l2 hwf hp0 hp8 hsh
  rw [← hs1] at hwf1
  obtain ⟨-, -, -, hlt, hs2⟩ := add_inv s1 _ .waiting hwf1 h2
  have hprio : (s1.tcb (s1.node n).pTcb).OS_TcbPrio = (s.tcb t).OS_TcbPrio := by
    rw [hs1, removeState_node, unlinkNd_self, removeState_tcb, hnt]
  rw [hprio] at hs2 hlt
  rw [hs1] at hs2
  rw [hs2]
  have hev := moved_evolves s sh hwf hws .ready .waiting _ n l1 l2 hp0 hp8 (fun _ => hlt) hsh
  obtain ⟨f1, -, -⟩ := moved_frame s .ready .waiting (s.tcb t).OS_TcbPrio (lastOr 0 l1) n
    (l2.headD 0) (lastOr 0 ((sh.set .ready (s.tcb t).OS_TcbPrio (l1 ++ l2)) .waiting
      (s.tcb t).OS_TcbPrio))
  have hnin : n ∈ allNodes sh :=
    (mem_allNodes sh n).mpr ⟨.ready, _, hp9, by rw [hsh]; simp⟩
  refine ⟨_, hev, ?_⟩
  intro q hq m hm
  rw [move_other sh .ready .waiting .delayed _ q n l1 l2 (fun e => by cases e.1)
    (fun e => by cases e.1)] at hm
  rw [hev.2.2.2.1 m, f1]
  refine hpos q hq m hm ?_
  intro e
  have hmin : m ∈ allNodes sh := (mem_allNodes sh m).mpr ⟨.delayed, q, hq, hm⟩
  have hmn : m = n := TcbNodup_inj htn hmin hnin (by rw [e, hnt])
  subst hmn
  have := (slot_disjoint hwf.2 hq hp9 hm (by rw [hsh]; simp)).1
  cases this

/-- Parking the current task and calling the scheduler, after a write to the
current TCB that keeps its priority. -/
theorem park_pos (s : Kernel) (sh : Shape) (hwf : WF s sh) (hws : WaitingSlots sh)
    (htn : TcbNodup s sh) (hpos : DelayedPos s sh) (c : OS_TCB)
    (hc : c.OS_TcbPrio = (s.tcb s.OS_Tcb_Curr).OS_TcbPrio)
    {fuel : Nat} {s1 s2 s3 : Kernel}
    (h1 : wrTcb s s.OS_Tcb_Curr c = .ok s1)
    (h2 : OS_EventTaskWait fuel s1.OS_Tcb_Curr s1 = .ok s2)
    (h3 : OS_sched fuel s2 = .ok s3) :
    ∃ sh', Evolves s sh s3 sh' ∧ DelayedPos s3 sh' := by
  rw [wrTcb_eq_ok] at h1
  obtain ⟨-, hs1⟩ := h1
  have hev1 : Evolves s sh s1 sh := by
    rw [← hs1]
    refine Evolves_of_frame hwf hws rfl ?_ (fun L => by cases L <;> rfl) rfl
    intro t
    by_cases e : t = s.OS_Tcb_Curr
    · subst e; simp [hc]
    · simp [Function.update_noteq e]
  have htn1 : TcbNodup s1 sh := TcbNodup_node (by rw [← hs1]) htn
  have hpos1 : ∀ q, q < MAX_TASKS_IN_LIST → ∀ n ∈ sh .delayed q,
      (s1.node n).pTcb ≠ s1.OS_Tcb_Curr → (s1.tcb (s1.node n).pTcb).OS_TcbTimeout ≠ 0 := by
    intro q hq n hn hne
    rw [← hs1] at hne ⊢
    simp only [] at hne ⊢
    rw [Function.update_noteq hne]
    exact hpos q hq n hn
  obtain ⟨sh2, hev2, hpos2⟩ := OS_EventTaskWait_pos s1 sh hev1.1 hws htn1 hpos1 h2
  exact sched_pos (Evolves_trans hev1 hev2) hpos2 h3

theorem OS_Sem_Wait_pos (s : Kernel) (sh : Shape) (hwf : WF s sh) (hws : WaitingSlots sh)
    (htn : TcbNodup s sh) (hpos : DelayedPos s sh) {fuel e timeout err : Nat} {s' : Kernel}
    (h : OS_Sem_Wait fuel e timeout s = .ok (err, s')) :
    ∃ sh', Evolves s sh s' sh' ∧ DelayedPos s' sh' := by
  unfold OS_Sem_Wait at h
  simp only [bind_eq_ok, rdEcb_eq_ok] at h
  obtain ⟨ev, ⟨he, hev⟩, h⟩ := h
  subst hev
  split_ifs at h
  · simp only [pure_eq_ok_iff, Prod.mk.injEq] at h
    rw [← h.2]; exact ⟨sh, Evolves_refl hwf hws, hpos⟩
  · simp only [bind_eq_ok, wrEcb_eq_ok, pure_eq_ok_iff, Prod.mk.injEq] at h
    obtain ⟨s1, ⟨-, hs1⟩, -, h2⟩ := h
    rw [← h2, ← hs1]
    exact frame_pos hwf hws hpos rfl rfl (fun L => by cases L <;> rfl) rfl
  · simp only [bind_eq_ok, rdTcb_eq_ok, pure_eq_ok_iff, Prod.mk.injEq] at h
    obtain ⟨c, ⟨-, hc⟩, s1, h1, s2, h2, s3, h3, -, h4⟩ := h
    subst hc
    rw [← h4]
    refine park_pos s sh hwf hws htn hpos _ ?_ h1 h2 h3
    rfl

theorem OS_MsgQ_Wait_pos (s : Kernel) (sh : Shape) (hwf : WF s sh) (hws : WaitingSlots sh)
    (htn : TcbNodup s sh) (hpos : DelayedPos s sh) {fuel e timeout : Nat} {r : WaitOutcome}
    {s' : Kernel} (h : OS_MsgQ_Wait fuel e timeout s = .ok (r, s')) :
    ∃ sh', Evolves s sh s' sh' ∧ DelayedPos s' sh' := by
  by_cases he : e = 0
  · simp [OS_MsgQ_Wait, rdEcb, he] at h
  by_cases htype : (s.ecb e).OS_EventType = OS_EVENT_TYPE_MQ
  swap
  · simp only [OS_MsgQ_Wait, rdEcb_ok s he, ok_bind, ne_eq, htype, not_false_eq_true, ↓reduceIte,
      pure_eq_ok_iff, Prod.mk.injEq] at h
    rw [← h.2]; exact ⟨sh, Evolves_refl hwf hws, hpos⟩
  by_cases hq : (s.ecb e).OS_EventPtr = 0
  · simp [OS_MsgQ_Wait, rdEcb_ok s he, htype, rdMq, hq] at h
  by_cases hfill : 0 < (s.mqcb (s.ecb e).OS_EventPtr).OS_MQEntries
  · rw [OS_MsgQ_Wait_available s e timeout fuel he htype hq hfill] at h
    simp only [Except.ok.injEq, Prod.mk.injEq] at h
    rw [← h.2]
    exact frame_pos hwf hws hpos rfl rfl (fun L => by cases L <;> rfl) rfl
  · have hnot : ¬ (s.mqcb (s.ecb e).OS_EventPtr).OS_MQEntries > 0 := hfill
    simp only [OS_MsgQ_Wait, rdEcb_ok s he, ok_bind, ne_eq, htype, not_true_eq_false, ↓reduceIte,
      rdMq_ok s hq, hnot, bind_eq_ok, rdTcb_eq_ok, pure_eq_ok_iff, Prod.mk.injEq] at h
    obtain ⟨c, ⟨-, hc⟩, s1, h1, s2, h2, s3, h3, -, h4⟩ := h
    subst hc
    rw [← h4]
    refine park_pos s sh hwf hws htn hpos _ ?_ h1 h2 h3
    rfl

theorem OS_Sem_Post_pos (s : Kernel) (sh : Shape) (hwf : WF s sh) (hws : WaitingSlots sh)
    (hpos : DelayedPos s sh) {fuel e st : Nat} {s' : Kernel}
    (h : OS_Sem_Post fuel e s = .ok (st, s')) :
    ∃ sh', Evolves s sh s' sh' ∧ DelayedPos s' sh' := by
  unfold OS_Sem_Post at h
  simp only [bind_eq_ok, rdEcb_eq_ok] at h
  obtain ⟨ev, ⟨he, hev⟩, h⟩ := h
  subst hev
  split_ifs at h
  · simp only [pure_eq_ok_iff, Prod.mk.injEq] at h
    rw [← h.2]; exact ⟨sh, Evolves_refl hwf hws, hpos⟩
  · simp only [bind_eq_ok, pure_eq_ok_iff, Prod.mk.injEq] at h
    obtain ⟨⟨st1, s1⟩, h1, s2, h2, -, h3⟩ := h
    rw [← h3]
    obtain ⟨sh1, hev1, hpos1⟩ := OS_EventTaskReady_pos s sh hwf hws hpos h1
    exact sched_pos hev1 hpos1 h2
  · simp only [bind_eq_ok, wrEcb_eq_ok, pure_eq_ok_iff, Prod.mk.injEq] at h
    obtain ⟨s1, ⟨-, hs1⟩, -, h2⟩ := h
    rw [← h2, ← hs1]
    exact frame_pos hwf hws hpos rfl rfl (fun L => by cases L <;> rfl) rfl
  · simp only [pure_eq_ok_iff, Prod.mk.injEq] at h
    rw [← h.2]; exact ⟨sh, Evolves_refl hwf hws, hpos⟩

theorem OS_MsgQ_Send_pos (s : Kernel) (sh : Shape) (hwf : WF s sh) (hws : WaitingSlots sh)
    (hpos : DelayedPos s sh) {fuel e m st : Nat} {s' : Kernel}
    (h : OS_MsgQ_Send fuel e m s = .ok (st, s')) :
    ∃ sh', Evolves s sh s' sh' ∧ DelayedPos s' sh' := by
  by_cases he : e = 0
  · simp [OS_MsgQ_Send, rdEcb, he] at h
  by_cases htype : (s.ecb e).OS_EventType = OS_EVENT_TYPE_MQ
  swap
  · simp only [OS_MsgQ_Send, rdEcb_ok s he, ok_bind, ne_eq, htype, not_false_eq_true, ↓reduceIte,
      pure_eq_ok_iff, Prod.mk.injEq] at h
    rw [← h.2]; exact ⟨sh, Evolves_refl hwf hws, hpos⟩
  by_cases hq : (s.ecb e).OS_EventPtr = 0
  · simp [OS_MsgQ_Send, rdEcb_ok s he, htype, rdMq, hq] at h
  by_cases hfill : (s.mqcb (s.ecb e).OS_EventPtr).OS_MQEntries
      < (s.mqcb (s.ecb e).OS_EventPtr).OS_MQSize
  swap
  · have hge : (s.mqcb (s.ecb e).OS_EventPtr).OS_MQEntries
        ≥ (s.mqcb (s.ecb e).OS_EventPtr).OS_MQSize := by omega
    simp only [OS_MsgQ_Send, rdEcb_ok s he, ok_bind, ne_eq, htype, not_true_eq_false, ↓reduceIte,
      rdMq_ok s hq, hge, pure_eq_ok_iff, Prod.mk.injEq] at h
    rw [← h.2]; exact ⟨sh, Evolves_refl hwf hws, hpos⟩
  rw [OS_MsgQ_Send_put s e m fuel he htype hq hfill] at h
  have hwf1 := putState_WF (s.ecb e).OS_EventPtr m hwf
  have hpos1 : DelayedPos (putState s (s.ecb e).OS_EventPtr m) sh := hpos
  have hfr : (∃ sh', Evolves (putState s (s.ecb e).OS_EventPtr m) sh s' sh' ∧
      DelayedPos s' sh') → ∃ sh', Evolves s sh s' sh' ∧ DelayedPos s' sh' :=
    pos_trans_frame rfl rfl
  apply hfr
  split_ifs at h
  · simp only [bind_eq_ok] at h
    obtain ⟨⟨status, s3⟩, h3, h⟩ := h
    obtain ⟨sh1, hev1, hp1⟩ := OS_EventTaskReady_pos _ sh hwf1 hws hpos1 h3
    split_ifs at h
    · simp only [bind_eq_ok, pure_eq_ok_iff, Prod.mk.injEq] at h
      obtain ⟨s4, h4, -, h5⟩ := h
      rw [← h5]
      exact sched_pos hev1 hp1 h4
    · simp only [pure_eq_ok_iff, Prod.mk.injEq] at h
      rw [← h.2]
      exact ⟨sh1, hev1, hp1⟩
  · simp only [pure_eq_ok_iff, Prod.mk.injEq] at h
    rw [← h.2]
    exact ⟨sh, Evolves_refl hwf1 hws, hpos1⟩

theorem OS_Sem_Create_pos (s : Kernel) (sh : Shape) (hwf : WF s sh) (hws : WaitingSlots sh)
    (hpos : DelayedPos s sh) (cnt : Nat) (name : String) :
    ∃ sh', Evolves s sh (OS_Sem_Create cnt name s).2 sh' ∧
      DelayedPos (OS_Sem_Create cnt name s).2 sh' := by
  have hform : (OS_Sem_Create cnt name s).2.node = s.node ∧
      (OS_Sem_Create cnt name s).2.tcb = s.tcb ∧
      (OS_Sem_Create cnt name s).2.ReadyTaskList = s.ReadyTaskList ∧
      (OS_Sem_Create cnt name s).2.DelayedTaskList = s.DelayedTaskList ∧
      (OS_Sem_Create cnt name s).2.WaitingTaskList = s.WaitingTaskList ∧
      (OS_Sem_Create cnt name s).2.OS_Tcb_Curr = s.OS_Tcb_Curr := by
    unfold OS_Sem_Create
    by_cases h : s.OSEventFreeList = 0 <;> simp [h]
  obtain ⟨f1, f2, f3, f4, f5, f6⟩ := hform
  exact frame_pos hwf hws hpos f1 f2
    (fun L => by cases L <;> simp [Kernel.getList, f3, f4, f5]) f6

theorem OS_MsgQ_Create_pos (s : Kernel) (sh : Shape) (hwf : WF s sh) (hws : WaitingSlots sh)
    (hpos : DelayedPos s sh) {start size pe : Nat} {s' : Kernel}
    (h : OS_MsgQ_Create start size s = .ok (pe, s')) :
    ∃ sh', Evolves s sh s' sh' ∧ DelayedPos s' sh' := by
  by_cases hE : s.OSEventFreeList = 0
  · simp [OS_MsgQ_Create, hE, wrEcb] at h
  · by_cases hQ : s.OS_MQcb_FreeList = 0
    · simp only [OS_MsgQ_Create, ne_eq, hE, not_false_eq_true, ↓reduceIte, hQ, not_true_eq_false,
        pure_eq_ok_iff, Prod.mk.injEq] at h
      rw [← h.2]
      exact frame_pos hwf hws hpos rfl rfl (fun L => by cases L <;> rfl) rfl
    · simp only [OS_MsgQ_Create, ne_eq, hE, not_false_eq_true, ↓reduceIte, hQ,
        pure_eq_ok_iff, Prod.mk.injEq] at h
      rw [← h.2]
      exact frame_pos hwf hws hpos rfl rfl (fun L => by cases L <;> rfl) rfl

/-- A returning `OS_Delay` with `ticks > 0` adds the current task to Delayed with
the timeout `ticks`. -/
theorem OS_Delay_pos (s : Kernel) (sh : Shape) (hwf : WF s sh) (hws : WaitingSlots sh)
    (hpos : DelayedPos s sh) {fuel ticks : Nat} (hticks : 0 < ticks) {s' : Kernel}
    (h : OS_Delay fuel ticks s = .ok s') :
    ∃ sh', Evolves s sh s' sh' ∧ DelayedPos s' sh' := by
  unfold OS_Delay at h
  simp only [bind_eq_ok, Q_ASSERT_eq_ok, rdNode_eq_ok, rdTcb_eq_ok, wrTcb_eq_ok] at h
  obtain ⟨hd, -, -, -, c, ⟨hc0, hc⟩, s1, ⟨-, hs1⟩, ⟨n, s2⟩, h2, -, hn0, s3, h3, h4⟩ := h
  subst hc
  have hev1 : Evolves s sh s1 sh := by
    rw [← hs1]
    refine Evolves_of_frame hwf hws rfl ?_ (fun L => by cases L <;> rfl) rfl
    intro t
    by_cases e : t = s.OS_Tcb_Curr
    · subst e; simp
    · simp [Function.update_noteq e]
  have hnode1 : s1.node = s.node := by rw [← hs1]
  have hcurr1 : s1.OS_Tcb_Curr = s.OS_Tcb_Curr := by rw [← hs1]
  have htime1 : ∀ t, (s1.tcb t).OS_TcbTimeout ≠ 0 ∨ (s1.tcb t).OS_TcbTimeout
      = (s.tcb t).OS_TcbTimeout := by
    intro t
    rw [← hs1]
    by_cases e : t = s.OS_Tcb_Curr
    · subst e; left; simp; omega
    · right; simp [Function.update_noteq e]
  have hpos1 : DelayedPos s1 sh := by
    intro q hq m hm
    rcases htime1 (s1.node m).pTcb with h | h
    · exact h
    · rw [h, hnode1]; exact hpos q hq m hm
  have hcur1 : (s1.tcb s1.OS_Tcb_Curr).OS_TcbTimeout ≠ 0 := by
    rw [← hs1]; simp; omega
  have hcode : READY_TASK_LIST = ListId.ready.code := rfl
  rw [hcode] at h2
  obtain ⟨ht0, hp0, hp8, l1, l2, hsh, hnt, hl1, hs2⟩ :=
    removeByTcb_inv s1 sh .ready hev1.1 h2 hn0
  have hp9 : (s1.tcb s1.OS_Tcb_Curr).OS_TcbPrio < MAX_TASKS_IN_LIST := by
    unfold MAX_TASKS_IN_LIST; omega
  obtain ⟨hwf2, -⟩ := remove_WF s1 sh .ready _ n l1 l2 hev1.1 hp0 hp8 hsh
  simp only [] at hs2 h3
  rw [← hs2] at hwf2
  have hnode : s2.node n = { prev := 0, next := 0, pTcb := (s1.node n).pTcb } := by
    rw [hs2, removeState_node, unlinkNd_self]
  obtain ⟨-, -, -, -, hs3⟩ := addDelayed_inv s2 _ hwf2 (by rw [hnode]) (by rw [hnode]) h3
  have hprio : (s2.tcb (s2.node n).pTcb).OS_TcbPrio = (s1.tcb s1.OS_Tcb_Curr).OS_TcbPrio := by
    rw [hnode, hs2, removeState_tcb, hnt]
  rw [hprio, hs2] at hs3
  have hev2 := moved_evolves s1 sh hev1.1 hws .ready .delayed _ n l1 l2 hp0 hp8
    (fun e => by cases e) hsh
  obtain ⟨f1, -, -⟩ := moved_frame s1 .ready .delayed (s1.tcb s1.OS_Tcb_Curr).OS_TcbPrio
    (lastOr 0 l1) n (l2.headD 0)
    (lastOr 0 ((sh.set .ready (s1.tcb s1.OS_Tcb_Curr).OS_TcbPrio (l1 ++ l2)) .delayed
      (s1.tcb s1.OS_Tcb_Curr).OS_TcbPrio))
  rw [← hs3] at hev2 f1
  have hpos3 : DelayedPos s3
      (sh.move .ready .delayed (s1.tcb s1.OS_Tcb_Curr).OS_TcbPrio l1 n l2) := by
    intro q hq m hm
    rw [hev2.2.2.2.1 m, f1]
    by_cases e : q = (s1.tcb s1.OS_Tcb_Curr).OS_TcbPrio
    · subst e
      rw [move_target sh .ready .delayed _ n l1 l2 (by decide)] at hm
      rcases List.mem_append.mp hm with hm | hm
      · exact hpos1 _ hq m hm
      · rw [List.mem_singleton] at hm
        subst hm
        rw [hnt]; exact hcur1
    · rw [move_other sh .ready .delayed .delayed _ q n l1 l2 (fun e' => by cases e'.1)
        (fun e' => e e'.2)] at hm
      exact hpos1 q hq m hm
  exact sched_pos (Evolves_trans hev1 hev2) hpos3 h4

/-! ## The tick handler keeps the timeouts of the delayed tasks away from zero -/

/-- One pass of the loop of `OS_tick`, entered with a working set inside the
Delayed bitmap. -/
theorem tickPass_pos (inner ws : Nat) (s : Kernel) (sh : Shape)
    (hwf : WF s sh) (hws : WaitingSlots sh) (htn : TcbNodup s sh) (hpos : DelayedPos s sh)
    (h0 : ws ≠ 0)
    (hsub : ∀ i, ws.testBit i = true → s.DelayedTaskList.TaskRriorityBitMap.testBit i = true)
    {ws1 : Nat} {s1 : Kernel} (h : tickPass inner ws s = .ok (ws1, s1)) :
    ∃ sh1, Evolves s sh s1 sh1 ∧ DelayedPos s1 sh1 ∧
      ∀ i, ws1.testBit i = true → s1.DelayedTaskList.TaskRriorityBitMap.testBit i = true := by
  obtain ⟨g1, g2, g3, g4, y, l, hsl, hhd, hy0, hyt, hyp⟩ := top_slot s sh hwf .delayed ws h0 hsub
  have hhd' : s.DelayedTaskList.TaskList (LOG2 ws) = y := hhd
  have hp9 : LOG2 ws < MAX_TASKS_IN_LIST := by
    unfold MAX_TASKS_IN_LIST MAX_TASK_PRIORITY; unfold MAX_TASK_PRIORITY at g2; omega
  unfold tickPass at h
  simp only [bind_eq_ok, rdNode_eq_ok, Q_ASSERT_eq_ok, hhd'] at h
  obtain ⟨nd, ⟨-, hnd⟩, -, -, h⟩ := h
  subst hnd
  have h' : ∃ s2, (if (s.node y).next = 0 then tickNode inner y s
      else tickInner inner inner y s) = .ok s2 ∧
      ws &&& not32 (shl32 1 (dec32 (s.tcb (s.node y).pTcb).OS_TcbPrio)) = ws1 ∧ s2 = s1 := by
    split_ifs at h with hnx
    · simp only [bind_eq_ok, pure_eq_ok_iff, Prod.mk.injEq] at h
      simpa [hnx] using h
    · simp only [bind_eq_ok, pure_eq_ok_iff, Prod.mk.injEq] at h
      simpa [hnx] using h
  obtain ⟨s2, h1, h2, h3⟩ := h'
  subst h3
  rw [hyp, PRIORITY_TO_BIT_eq _ g1 (by unfold MAX_TASK_PRIORITY at g2; omega)] at h2
  have hstep : ∃ sh1, Evolves s sh s2 sh1 ∧ DelayedPos s2 sh1 ∧
      ∀ q, q ≠ LOG2 ws → sh1 .delayed q = sh .delayed q := by
    split_ifs at h1 with hnx
    · have hseg := hwf.seg .delayed hp9
      rw [hsl] at hseg
      have hseg' : Seg s.node 0 ((s.getList .delayed).TaskList (LOG2 ws)) ([] ++ y :: l) 0 := hseg
      have hlinks := Seg_links hseg'
      rw [hnx] at hlinks
      have hl : l = [] := by
        cases l with
        | nil => rfl
        | cons z l =>
          exfalso
          have hz := Seg_ne_zero hseg z (by simp)
          simp only [List.headD_cons] at hlinks
          exact hz hlinks.2.symm
      subst hl
      rcases tickNode_pos s sh hwf hws htn hpos (LOG2 ws) y [] [] g1 g2 hsl h1 with
        ⟨hev1, hp1, -⟩ | ⟨hev1, hp1, -⟩
      · exact ⟨sh, hev1, hp1, fun _ _ => rfl⟩
      · refine ⟨_, hev1, hp1, ?_⟩
        intro q hq
        exact move_other sh .delayed .ready .delayed (LOG2 ws) q y [] []
          (fun e => hq e.2) (fun e => hq e.2)
    · exact tickInner_pos inner (LOG2 ws) g1 g2 inner [] (y :: l) s s2 sh hwf hws htn hpos hsl h1
  obtain ⟨sh1, hev1, hp1, hoth⟩ := hstep
  refine ⟨sh1, hev1, hp1, ?_⟩
  have hws32 : ws < 2 ^ 32 := by
    apply lt_two_pow_of_bits
    intro i hi
    apply g4
    unfold MAX_TASK_PRIORITY at g2
    omega
  intro i hi
  rw [← h2, testBit_clear ws (LOG2 ws - 1) i hws32
    (by unfold MAX_TASK_PRIORITY at g2; omega)] at hi
  simp only [Bool.and_eq_true, decide_eq_true_eq] at hi
  obtain ⟨hi1, hi2⟩ := hi
  have hb := hsub i hi1
  have hW := hwf.list .delayed
  have hi8 : i < MAX_TASK_PRIORITY := by
    by_contra hc
    have hlt := hW.2.1
    have : s.DelayedTaskList.TaskRriorityBitMap.testBit i = false := by
      apply Nat.testBit_lt_two_pow
      exact lt_of_lt_of_le hlt (Nat.pow_le_pow_right (by norm_num) (by omega))
    rw [this] at hb
    cases hb
  have hi9 : i + 1 < MAX_TASKS_IN_LIST := by
    have := hi8
    unfold MAX_TASKS_IN_LIST MAX_TASK_PRIORITY; unfold MAX_TASK_PRIORITY at this; omega
  have hne : (s.getList .delayed).TaskList (i + 1) ≠ 0 := (hW.2.2 i hi8).mp hb
  have hl : sh .delayed (i + 1) ≠ [] := fun e =>
    hne ((Seg_head_eq_zero (hwf.seg .delayed hi9)).mpr e)
  have hl1 : sh1 .delayed (i + 1) ≠ [] := by
    rw [hoth (i + 1) (by omega)]; exact hl
  have hW1 := hev1.1.list .delayed
  exact (hW1.2.2 i hi8).mpr (fun e =>
    hl1 ((Seg_head_eq_zero (hev1.1.seg .delayed hi9)).mp e))

/-- The condition of the assertion of `OS_tick` holds when the working set lies
inside the Delayed bitmap and every delayed task has a non-zero timeout. -/
theorem tickAssertion_of_pos (ws : Nat) (s : Kernel) (sh : Shape) (hwf : WF s sh)
    (hpos : DelayedPos s sh) (h0 : ws ≠ 0)
    (hsub : ∀ i, ws.testBit i = true → s.DelayedTaskList.TaskRriorityBitMap.testBit i = true) :
    tickAssertion ws s := by
  obtain ⟨g1, g2, g3, g4, y, l, hsl, hhd, hy0, hyt, hyp⟩ := top_slot s sh hwf .delayed ws h0 hsub
  have hhd' : s.DelayedTaskList.TaskList (LOG2 ws) = y := hhd
  have hp9 : LOG2 ws < MAX_TASKS_IN_LIST := by
    unfold MAX_TASKS_IN_LIST MAX_TASK_PRIORITY; unfold MAX_TASK_PRIORITY at g2; omega
  unfold tickAssertion
  rw [hhd']
  exact ⟨hy0, hyt, hpos _ hp9 y (by rw [hsl]; simp)⟩

/-- At every test of the loop of `OS_tick`, called in a state with well-formed
lists and non-zero timeouts on Delayed, the lists are well formed, the timeouts
on Delayed are non-zero and the working set lies inside the Delayed bitmap. -/
theorem TickAt_pos (inner : Nat) (s0 : Kernel) (sh0 : Shape) (hwf : WF s0 sh0)
    (hws : WaitingSlots sh0) (htn : TcbNodup s0 sh0) (hpos : DelayedPos s0 sh0)
    (ws : Nat) (s : Kernel) (h : TickAt inner s0 ws s) :
    ∃ sh, WF s sh ∧ WaitingSlots sh ∧ TcbNodup s sh ∧ DelayedPos s sh ∧
      ∀ i, ws.testBit i = true → s.DelayedTaskList.TaskRriorityBitMap.testBit i = true := by
  induction h with
  | entry => exact ⟨sh0, hwf, hws, htn, hpos, fun _ hi => hi⟩
  | pass ws s ws1 s1 _ h0 hp ih =>
    obtain ⟨sh, hwf1, hws1, htn1, hpos1, hsub1⟩ := ih
    obtain ⟨sh1, hev, hp1, hs1⟩ := tickPass_pos inner ws s sh hwf1 hws1 htn1 hpos1 h0 hsub1 hp
    exact ⟨sh1, hev.1, hev.2.1, TcbNodup_perm hev.2.2.1 hev.2.2.2.1 htn1, hp1, hs1⟩

/-- A returning loop of `OS_tick` keeps the timeouts on Delayed non-zero. -/
theorem tickOuter_pos (inner : Nat) (fuel : Nat) (ws : Nat) (s s' : Kernel) (sh : Shape)
    (hwf : WF s sh) (hws : WaitingSlots sh) (htn : TcbNodup s sh) (hpos : DelayedPos s sh)
    (hsub : ∀ i, ws.testBit i = true → s.DelayedTaskList.TaskRriorityBitMap.testBit i = true)
    (h : tickOuter inner fuel ws s = .ok s') :
    ∃ sh', Evolves s sh s' sh' ∧ DelayedPos s' sh' := by
  induction fuel generalizing ws s sh with
  | zero => simp [tickOuter] at h
  | succ fuel ih =>
    rw [tickOuter_pass] at h
    split_ifs at h with h0
    · rw [pure_eq_ok_iff] at h
      subst h
      exact ⟨sh, Evolves_refl hwf hws, hpos⟩
    · simp only [bind_eq_ok] at h
      obtain ⟨⟨ws1, s1⟩, hp, h2⟩ := h
      obtain ⟨sh1, hev1, hp1, hs1⟩ := tickPass_pos inner ws s sh hwf hws htn hpos h0 hsub hp
      obtain ⟨sh2, hev2, hp2⟩ := ih ws1 s1 sh1 hev1.1 hev1.2.1
        (TcbNodup_perm hev1.2.2.1 hev1.2.2.2.1 htn) hp1 hs1 h2
      exact ⟨sh2, Evolves_trans hev1 hev2, hp2⟩

theorem OS_tick_pos {s s' : Kernel} {sh : Shape} (hwf : WF s sh) (hws : WaitingSlots sh)
    (htn : TcbNodup s sh) (hpos : DelayedPos s sh)
    {fuel : Nat} (h : OS_tick fuel s = .ok s') :
    ∃ sh', Evolves s sh s' sh' ∧ DelayedPos s' sh' :=
  tickOuter_pos fuel fuel _ s s' sh hwf hws htn hpos (fun _ hi => hi) h

/-! ## The invariant under the usage rules -/

/-- A returning `OS_Task_Create` writes no TCB but the new one. -/
theorem OS_Task_Create_tcb (s : Kernel) (sh : Shape) (hwf : WF s sh)
    {fuel myTcb prio threadHandler stkSto stkSize pNode : Nat} {s' : Kernel}
    (hfreshN : pNode ∉ allNodes sh) (hfreshT : ∀ n ∈ allNodes sh, (s.node n).pTcb ≠ myTcb)
    (h : OS_Task_Create fuel myTcb prio threadHandler stkSto stkSize pNode s = .ok s') :
    ∀ t, t ≠ myTcb → s'.tcb t = s.tcb t := by
  unfold OS_Task_Create at h
  simp only [bind_eq_ok, Q_ASSERT_eq_ok] at h
  obtain ⟨-, hp9, h⟩ := h
  obtain ⟨m1, hm1⟩ := pushFrame_mem (initialFrame threadHandler)
    ((stkSto + stkSize) % 2 ^ 32 / 8 * 8) s
  generalize hfr : (initialFrame threadHandler).foldl pushWord
    ((stkSto + stkSize) % 2 ^ 32 / 8 * 8, s) = fr at h hm1
  obtain ⟨sp, s1⟩ := fr
  simp only [bind_eq_ok, rdTcb_eq_ok, wrTcb_eq_ok, Q_ASSERT_eq_ok] at h hm1
  obtain ⟨c, ⟨ht0, -⟩, s2, ⟨-, hs2⟩, s3, h3, s4, ⟨-, hs4⟩, ⟨st, s5⟩, h5, -, hst, h6⟩ := h
  rw [pure_eq_ok_iff] at h6
  subst h6
  obtain ⟨m3, hm3⟩ := fillStack_mem _ _ _ _ _ h3
  have hnode4 : s4.node = s.node := by rw [← hs4, hm3, ← hs2, hm1]
  have hl4 : ∀ L, s4.getList L = s.getList L := by
    intro L; rw [← hs4, hm3, ← hs2, hm1]; cases L <;> rfl
  have htcb4 : ∀ t, t ≠ myTcb → s4.tcb t = s.tcb t := by
    intro t ht
    rw [← hs4, hm3, ← hs2, hm1]
    simp [Function.update_noteq ht]
  have hwf4 : WF s4 sh := by
    refine WF_frame (fun n _ => by rw [hnode4]) ?_ hl4 hwf
    intro n hn
    rw [htcb4 _ (hfreshT n hn)]
  obtain ⟨-, -, -, hs5⟩ := addReady_inv s4 sh hwf4 hfreshN h5 hst
  intro t ht
  rw [hs5, addState_tcb]
  exact htcb4 t ht

/-- A service that keeps the lists and the timeouts on Delayed keeps the
invariant. -/
theorem PosInv_of_pos {w : World} {k' : Kernel} (hinv : PosInv w)
    (h : ∀ sh, WF w.k sh → WaitingSlots sh → TcbNodup w.k sh → DelayedPos w.k sh →
      ∃ sh', Evolves w.k sh k' sh' ∧ DelayedPos k' sh') :
    PosInv { w with k := k' } := by
  obtain ⟨sh, hwf, hws, htn, hgh, hpos⟩ := hinv
  obtain ⟨sh', ⟨hwf', hws', hperm, hsame, -⟩, hpos'⟩ := h sh hwf hws htn hpos
  refine ⟨sh', hwf', hws', TcbNodup_perm hperm hsame htn, ?_, hpos'⟩
  intro n hn
  have := hgh n (hperm.mem_iff.mp hn)
  exact ⟨this.1, by rw [hsame]; exact this.2⟩

theorem create_PosInv {w : World} {fuel myTcb prio threadHandler stkSto stkSize pNode : Nat}
    {k' : Kernel} (hinv : PosInv w) (hN : pNode ∉ w.nodes) (hT : myTcb ∉ w.tasks)
    (h : OS_Task_Create fuel myTcb prio threadHandler stkSto stkSize pNode w.k = .ok k') :
    PosInv ⟨k', pNode :: w.nodes, myTcb :: w.tasks, w.dispatched⟩ := by
  obtain ⟨sh, hwf, hws, htn, hgh, hpos⟩ := hinv
  have hfreshN : pNode ∉ allNodes sh := fun hm => hN (hgh pNode hm).1
  have hfreshT : ∀ n ∈ allNodes sh, (w.k.node n).pTcb ≠ myTcb := fun n hn e =>
    hT (e ▸ (hgh n hn).2)
  obtain ⟨hp9, hwf', hnew, hold, -, -⟩ := OS_Task_Create_inv w.k sh hwf hfreshN hfreshT h
  have htcb := OS_Task_Create_tcb w.k sh hwf hfreshN hfreshT h
  have hperm := allNodes_set_add sh .ready prio pNode hp9
  have hold' : ∀ n ∈ allNodes sh, (k'.node n).pTcb = (w.k.node n).pTcb := fun n hn =>
    hold n (fun e => hfreshN (e ▸ hn))
  refine ⟨_, hwf', ?_, ?_, ?_, ?_⟩
  · exact ⟨by simp [Shape.set, hws.1], by simp [Shape.set, hws.2]⟩
  · unfold TcbNodup at htn ⊢
    rw [List.Perm.nodup_iff (hperm.map _), List.map_cons, List.nodup_cons]
    have hmap : (allNodes sh).map (fun n => (k'.node n).pTcb)
        = (allNodes sh).map (fun n => (w.k.node n).pTcb) :=
      List.map_congr_left hold'
    rw [hmap, hnew]
    refine ⟨?_, htn⟩
    intro hm
    obtain ⟨n, hn, e⟩ := List.mem_map.mp hm
    exact hfreshT n hn e
  · intro n hn
    rcases List.mem_cons.mp (hperm.mem_iff.mp hn) with e | hm
    · subst e
      exact ⟨List.mem_cons_self _ _, by rw [hnew]; exact List.mem_cons_self _ _⟩
    · exact ⟨List.mem_cons_of_mem _ (hgh n hm).1,
        by rw [hold' n hm]; exact List.mem_cons_of_mem _ (hgh n hm).2⟩
  · intro q hq n hn
    have hn' : n ∈ sh .delayed q := by simpa [Shape.set] using hn
    have hnall : n ∈ allNodes sh := (mem_allNodes sh n).mpr ⟨.delayed, q, hq, hn'⟩
    show (k'.tcb (k'.node n).pTcb).OS_TcbTimeout ≠ 0
    rw [hold' n hnall, htcb _ (hfreshT n hnall)]
    exact hpos q hq n hn'

theorem Booted_PosInv {w : World} (h : Booted w) : PosInv w := by
  obtain ⟨fuel, stkSto, stkSize, idleTask, main_idleTask, pNode, s0, hp0, hinit, hn, ht, hd⟩ := h
  unfold OS_Init at hinit
  simp only [] at hinit
  have hwf0 := os_utilsTaskListInit_WF (OS_MsgQ_Init (OS_InitEventList s0))
  obtain ⟨hp9, hwf', hnew, hold, hf, hcurr⟩ := OS_Task_Create_inv _ _ hwf0
    (by rw [allNodes_empty]; simp) (by rw [allNodes_empty]; simp) hinit
  have hperm := allNodes_set_add (fun _ _ => []) .ready 0 pNode hp9
  have hall : allNodes (Shape.set (fun _ _ => []) .ready 0 ([] ++ [pNode])) = [pNode] := by
    rw [allNodes_empty] at hperm
    exact List.perm_singleton.mp hperm
  refine ⟨_, hwf', ?_, ?_, ?_, ?_⟩
  · exact ⟨by simp [Shape.set], by simp [Shape.set]⟩
  · unfold TcbNodup
    rw [hall]; simp
  · intro n hm
    rw [hall] at hm
    simp only [List.mem_singleton] at hm
    subst hm
    rw [hn, ht, hnew]
    simp
  · intro q hq n hm
    simp [Shape.set] at hm

theorem pendSV_PosInv {w : World} (sp : Nat) (hinv : PosInv w) :
    PosInv ⟨PendSV_Handler sp w.k, w.nodes, w.tasks, true⟩ := by
  obtain ⟨sh, hwf, hws, htn, hgh, hpos⟩ := hinv
  have hnode : (PendSV_Handler sp w.k).node = w.k.node := rfl
  have htime : ∀ t, ((PendSV_Handler sp w.k).tcb t).OS_TcbTimeout = (w.k.tcb t).OS_TcbTimeout ∧
      ((PendSV_Handler sp w.k).tcb t).OS_TcbPrio = (w.k.tcb t).OS_TcbPrio := by
    intro t
    unfold PendSV_Handler
    by_cases hc : w.k.OS_Tcb_Curr = 0
    · simp [hc]
    · by_cases e : t = w.k.OS_Tcb_Curr
      · subst e; simp [hc]
      · simp [hc, Function.update_noteq e]
  have hwf' : WF (PendSV_Handler sp w.k) sh :=
    WF_tcb hnode (fun t => (htime t).2) (fun L => by cases L <;> rfl) hwf
  refine ⟨sh, hwf', hws, TcbNodup_node hnode htn, ?_, ?_⟩
  · intro n hn; exact hgh n hn
  · intro q hq n hn
    show ((PendSV_Handler sp w.k).tcb ((PendSV_Handler sp w.k).node n).pTcb).OS_TcbTimeout ≠ 0
    rw [hnode, (htime _).1]
    exact hpos q hq n hn

/-- Every state reachable under the usage rules satisfies the invariant. -/
theorem ReachPos_inv {w : World} (h : ReachPos true w) : PosInv w := by
  induction h with
  | init w hb => exact Booted_PosInv hb
  | step w w' _ hstep ih =>
    cases hstep with
    | create fuel myTcb prio threadHandler stkSto stkSize pNode k' hN hT hc =>
      exact create_PosInv ih hN (hT rfl) hc
    | delay fuel ticks k' ht hc =>
      exact PosInv_of_pos ih (fun sh hwf hws _ hpos => OS_Delay_pos _ sh hwf hws hpos ht hc)
    | tick fuel k' hc =>
      exact PosInv_of_pos ih (fun sh hwf hws htn hpos => OS_tick_pos hwf hws htn hpos hc)
    | sched fuel k' hc =>
      exact PosInv_of_pos ih (fun sh hwf hws _ hpos => sched_pos (Evolves_refl hwf hws) hpos hc)
    | pendSV sp hp => exact pendSV_PosInv sp ih
    | semCreate cnt se_name =>
      exact PosInv_of_pos ih (fun sh hwf hws _ hpos => OS_Sem_Create_pos _ sh hwf hws hpos _ _)
    | semWait fuel pEvent timeout err k' hc =>
      exact PosInv_of_pos ih (fun sh hwf hws htn hpos =>
        OS_Sem_Wait_pos _ sh hwf hws htn hpos hc)
    | semPost fuel pEvent status k' hc =>
      exact PosInv_of_pos ih (fun sh hwf hws _ hpos => OS_Sem_Post_pos _ sh hwf hws hpos hc)
    | mqCreate start size pEvent k' hc =>
      exact PosInv_of_pos ih (fun sh hwf hws _ hpos => OS_MsgQ_Create_pos _ sh hwf hws hpos hc)
    | mqSend fuel pEvent pMsg status k' hc =>
      exact PosInv_of_pos ih (fun sh hwf hws _ hpos => OS_MsgQ_Send_pos _ sh hwf hws hpos hc)
    | mqWait fuel pEvent timeout r k' hc =>
      exact PosInv_of_pos ih (fun sh hwf hws htn hpos =>
        OS_MsgQ_Wait_pos _ sh hwf hws htn hpos hc)

/-- C39, amended: in every state reachable from `OS_Init` when every TCB is
passed to `OS_Task_Create` at most once and `OS_Delay` is only called with
`ticks > 0`, the task lists are well
formed and every task on Delayed has a non-zero timeout; a returning `OS_tick`
leads to such a state again; and at every test of the loop of `OS_tick`
reached with a non-zero working set, the condition of the assertion at the top
of the loop body holds (the head of the selected slot and its TCB pointer are
not null and the timeout is not zero). -/
theorem delayed_timeouts_nonzero (w : World) (h : ReachPos true w) :
    (∃ sh, WF w.k sh ∧ DelayedPos w.k sh) ∧
      (∀ fuel k', OS_tick fuel w.k = .ok k' → ∃ sh', WF k' sh' ∧ DelayedPos k' sh') ∧
      ∀ inner ws s, TickAt inner w.k ws s → ws ≠ 0 → tickAssertion ws s := by
  obtain ⟨sh, hwf, hws, htn, -, hpos⟩ := ReachPos_inv h
  refine ⟨⟨sh, hwf, hpos⟩, ?_, ?_⟩
  · intro fuel k' hk
    obtain ⟨sh', hev, hp⟩ := OS_tick_pos hwf hws htn hpos hk
    exact ⟨sh', hev.1, hp⟩
  · intro inner ws s hat h0
    obtain ⟨sh1, hwf1, -, -, hpos1, hsub1⟩ := TickAt_pos inner w.k sh hwf hws htn hpos ws s hat
    exact tickAssertion_of_pos ws s sh1 hwf1 hpos1 h0 hsub1

/-! ## Termination of the scan of the tick handler -/

theorem Q_ASSERT_false {c : Prop} [Decidable c] (h : ¬ c) : Q_ASSERT c = .error .assertion := by
  simp [Q_ASSERT, h]

/-- The step of `OS_tick` for a node of Delayed slot `p` on well-formed lists
ends: by the assertion of the insertion into Ready (priority 8), with the
timeout decremented only, or with the node moved to Ready and its `next` link
cleared. -/
theorem tickNode_total (s : Kernel) (sh : Shape) (hwf : WF s sh) (p n : Nat) (l1 l2 : List Nat)
    (hp0 : 0 < p) (hp8 : p ≤ MAX_TASK_PRIORITY) (hsh : sh .delayed p = l1 ++ n :: l2)
    (fuel : Nat) (hfuel : (allNodes sh).length ≤ fuel) :
    tickNode fuel n s = .error .assertion ∨
      (∃ s', tickNode fuel n s = .ok s' ∧ WF s' sh ∧ s'.node = s.node) ∨
      (∃ s', tickNode fuel n s = .ok s' ∧ WF s' (sh.move .delayed .ready p l1 n l2) ∧
        (s'.node n).next = 0) := by
  have hp9 : p < MAX_TASKS_IN_LIST := by unfold MAX_TASKS_IN_LIST; omega
  have hnin : n ∈ sh .delayed p := by rw [hsh]; simp
  have hnprio := ((hwf.list .delayed).1 p hp9).2 n hnin
  have hn0 : n ≠ 0 := Seg_ne_zero (hwf.seg .delayed hp9) n hnin
  have ht0 := hnprio.1
  obtain ⟨s1, hs1⟩ : ∃ s1 : Kernel, s1 = { s with
      tcb := Function.update s.tcb (s.node n).pTcb
        { s.tcb (s.node n).pTcb with
          OS_TcbTimeout := dec32 (s.tcb (s.node n).pTcb).OS_TcbTimeout } } := ⟨_, rfl⟩
  have hnode1 : s1.node = s.node := by rw [hs1]
  have hwf1 : WF s1 sh := by
    refine WF_tcb hnode1 ?_ (fun L => by rw [hs1]; cases L <;> rfl) hwf
    intro t
    by_cases e : t = (s.node n).pTcb
    · subst e; simp [hs1]
    · simp [hs1, Function.update_noteq e]
  have hrun : tickNode fuel n s =
      if dec32 (s.tcb (s.node n).pTcb).OS_TcbTimeout = 0 then
        (os_utilsRemoveFromListByTaskNode n DELAYED_TASK_LIST s1 >>= fun r =>
          Q_ASSERT (r.1 ≠ 0) >>= fun _ =>
            os_utilsAddTaskToListByNode fuel r.1 READY_TASK_LIST r.2)
      else pure s1 := by
    subst hs1
    unfold tickNode
    simp only [rdNode_ok s hn0, ok_bind, rdTcb_ok s ht0, wrTcb, ht0, ↓reduceIte]
    simp only [Function.update_same]
  rw [hrun]
  by_cases hz : dec32 (s.tcb (s.node n).pTcb).OS_TcbTimeout = 0
  swap
  · simp only [hz, ↓reduceIte]
    exact Or.inr (Or.inl ⟨s1, rfl, hwf1, hnode1⟩)
  simp only [hz, ↓reduceIte]
  have hprio1 : (s1.tcb (s1.node n).pTcb).OS_TcbPrio = p := by
    rw [hs1]; simp [hnprio.2]
  have ht1 : (s1.node n).pTcb ≠ 0 := by rw [hnode1]; exact ht0
  have hseg1 := hwf1.seg .delayed hp9
  rw [hsh] at hseg1
  have hnd1 := slot_nodup hwf1.2 .delayed hp9
  rw [hsh] at hnd1
  have hcode : DELAYED_TASK_LIST = ListId.delayed.code := rfl
  have hcode' : READY_TASK_LIST = ListId.ready.code := rfl
  rw [hcode, removeByNode_eq s1 .delayed p n l1 l2 ht1 hprio1 hp0 hp8 hseg1 hnd1]
  simp only [ok_bind, Q_ASSERT_true hn0]
  obtain ⟨hwf2, hnot2⟩ := remove_WF s1 sh .delayed p n l1 l2 hwf1 hp0 hp8 hsh
  have hnode2 : (removeState s1 .delayed p (lastOr 0 l1) n (l2.headD 0)).node n
      = { prev := 0, next := 0, pTcb := (s1.node n).pTcb } := by
    rw [removeState_node, unlinkNd_self]
  have hprio2 : ((removeState s1 .delayed p (lastOr 0 l1) n (l2.headD 0)).tcb
      ((removeState s1 .delayed p (lastOr 0 l1) n (l2.headD 0)).node n).pTcb).OS_TcbPrio = p := by
    rw [hnode2, removeState_tcb]; exact hprio1
  have ht2 : ((removeState s1 .delayed p (lastOr 0 l1) n (l2.headD 0)).node n).pTcb ≠ 0 := by
    rw [hnode2]; exact ht1
  rcases Nat.lt_or_ge p MAX_TASK_PRIORITY with hlt | hge
  · right; right
    have hlen : ((sh.set .delayed p (l1 ++ l2)) .ready p).length ≤ fuel :=
      le_trans (by simpa [Shape.set] using slot_length_le sh .ready hp9) hfuel
    rw [hcode', add_eq _ .ready fuel p n _ hn0 ht2 hprio2 hp0 hlt (hwf2.seg .ready hp9) hlen]
    refine ⟨_, rfl, moved_WF s1 sh hwf1 .delayed .ready p n l1 l2 hp0 hp8 hsh, ?_⟩
    rw [addState_node]
    have hx : lastOr 0 ((sh.set .delayed p (l1 ++ l2)) .ready p) ≠ n := by
      rcases lastOr_zero_or_mem ((sh.set .delayed p (l1 ++ l2)) .ready p) with h0 | hm
      · rw [h0]; exact fun e => hn0 e.symm
      · intro e
        rw [e] at hm
        exact hnot2 ((mem_allNodes _ n).mpr ⟨.ready, p, hp9, hm⟩)
    split_ifs
    · rw [hnode2]
    · unfold appendNd
      simp [Function.update_apply, hx.symm, unlinkNd_self]
  · left
    unfold os_utilsAddTaskToListByNode
    simp only [rdNode_ok _ hn0, ok_bind, rdTcb_ok _ ht2, hprio2]
    rw [Q_ASSERT_false (by omega)]
    rfl

/-- The walk of `OS_tick` over a Delayed slot on well-formed lists ends within
one step per node of the slot. -/
theorem tickInner_total (inner : Nat) (p : Nat) (hp0 : 0 < p) (hp8 : p ≤ MAX_TASK_PRIORITY)
    (l2 : List Nat) :
    ∀ (fuel : Nat) (l1 : List Nat) (s : Kernel) (sh : Shape), WF s sh →
      sh .delayed p = l1 ++ l2 → (allNodes sh).length ≤ inner → l2.length < fuel →
      tickInner inner fuel (l2.headD 0) s = .error .assertion ∨
        ∃ s' sh', tickInner inner fuel (l2.headD 0) s = .ok s' ∧ WF s' sh' ∧
          (allNodes sh').Perm (allNodes sh) ∧ ∀ q, q ≠ p → sh' .delayed q = sh .delayed q := by
  have hp9 : p < MAX_TASKS_IN_LIST := by unfold MAX_TASKS_IN_LIST; omega
  induction l2 with
  | nil =>
    intro fuel l1 s sh hwf _ _ hf
    cases fuel with
    | zero => simp at hf
    | succ fuel =>
      right
      exact ⟨s, sh, by simp [tickInner], hwf, List.Perm.refl _, fun _ _ => rfl⟩
  | cons n l2 ih =>
    intro fuel l1 s sh hwf hsh hinner hf
    cases fuel with
    | zero => simp at hf
    | succ fuel =>
      have hn0 : n ≠ 0 := Seg_ne_zero (hwf.seg .delayed hp9) n (by rw [hsh]; simp)
      simp only [List.headD_cons, tickInner, hn0, ↓reduceIte]
      rcases tickNode_total s sh hwf p n l1 l2 hp0 hp8 hsh inner hinner with
        he | ⟨s1, h1, hwf1, hnode1⟩ | ⟨s1, h1, hwf1, hnext⟩
      · left; rw [he]; rfl
      · rw [h1, ok_bind]
        have hseg := hwf.seg .delayed hp9
        rw [hsh] at hseg
        have hlinks := Seg_links hseg
        rw [hnode1, hlinks.2]
        exact ih fuel (l1 ++ [n]) s1 sh hwf1 (by simp [hsh]) hinner
          (by simp at hf; omega)
      · rw [h1, ok_bind, hnext]
        right
        have hf1 : 0 < fuel := by simp at hf; omega
        obtain ⟨f, rfl⟩ : ∃ f, fuel = f + 1 := ⟨fuel - 1, by omega⟩
        refine ⟨s1, _, by simp [tickInner], hwf1, move_perm sh .delayed .ready p n l1 l2 hp9 hsh,
          ?_⟩
        intro q hq
        exact move_other sh .delayed .ready .delayed p q n l1 l2 (fun e => hq e.2)
          (fun e => hq e.2)

/-- One pass of the loop of `OS_tick` on well-formed lists, with a working set
inside the Delayed bitmap, ends: by an assertion, or at the next test with the
highest bit of the working set cleared. -/
theorem tickPass_total (inner ws : Nat) (s : Kernel) (sh : Shape) (hwf : WF s sh) (h0 : ws ≠ 0)
    (hsub : ∀ i, ws.testBit i = true → s.DelayedTaskList.TaskRriorityBitMap.testBit i = true)
    (hinner : (allNodes sh).length < inner) :
    tickPass inner ws s = .error .assertion ∨
      ∃ s1 sh1, tickPass inner ws s = .ok (ws &&& not32 (2 ^ (LOG2 ws - 1)), s1) ∧ WF s1 sh1 ∧
        (allNodes sh1).Perm (allNodes sh) ∧
        ∀ i, (ws &&& not32 (2 ^ (LOG2 ws - 1))).testBit i = true →
          s1.DelayedTaskList.TaskRriorityBitMap.testBit i = true := by
  obtain ⟨g1, g2, g3, g4, y, l, hsl, hhd, hy0, hyt, hyp⟩ := top_slot s sh hwf .delayed ws h0 hsub
  have hhd' : s.DelayedTaskList.TaskList (LOG2 ws) = y := hhd
  have hp9 : LOG2 ws < MAX_TASKS_IN_LIST := by
    unfold MAX_TASKS_IN_LIST MAX_TASK_PRIORITY; unfold MAX_TASK_PRIORITY at g2; omega
  have hbit : shl32 1 (dec32 (LOG2 ws)) = 2 ^ (LOG2 ws - 1) :=
    PRIORITY_TO_BIT_eq _ g1 (by unfold MAX_TASK_PRIORITY at g2; omega)
  unfold tickPass
  simp only [hhd', rdNode_ok s hy0, ok_bind, hyp, hbit]
  by_cases hto : (s.tcb (s.node y).pTcb).OS_TcbTimeout = 0
  · left
    rw [Q_ASSERT_false (by simp [hto])]
    rfl
  rw [Q_ASSERT_true ⟨hyt, hto⟩]
  simp only [ok_bind]
  have hstep : (if (s.node y).next = 0 then tickNode inner y s
        else tickInner inner inner y s) = .error .assertion ∨
      ∃ s1 sh1, (if (s.node y).next = 0 then tickNode inner y s
        else tickInner inner inner y s) = .ok s1 ∧ WF s1 sh1 ∧
        (allNodes sh1).Perm (allNodes sh) ∧
        ∀ q, q ≠ LOG2 ws → sh1 .delayed q = sh .delayed q := by
    split_ifs with hnx
    · rcases tickNode_total s sh hwf (LOG2 ws) y [] l g1 g2 hsl inner (le_of_lt hinner) with
        he | ⟨s1, h1, hwf1, -⟩ | ⟨s1, h1, hwf1, -⟩
      · exact Or.inl he
      · exact Or.inr ⟨s1, sh, h1, hwf1, List.Perm.refl _, fun _ _ => rfl⟩
      · refine Or.inr ⟨s1, _, h1, hwf1, move_perm sh .delayed .ready _ y [] l hp9 hsl, ?_⟩
        intro q hq
        exact move_other sh .delayed .ready .delayed (LOG2 ws) q y [] l
          (fun e => hq e.2) (fun e => hq e.2)
    · have := tickInner_total inner (LOG2 ws) g1 g2 (y :: l) inner [] s sh hwf hsl
        (le_of_lt hinner) (lt_of_le_of_lt (by rw [← hsl]; exact slot_length_le sh .delayed hp9)
          hinner)
      simpa using this
  rcases hstep with he | ⟨s1, sh1, h1, hwf1, hperm, hoth⟩
  · left
    split_ifs at he ⊢ with hnx
    · rw [he]; rfl
    · rw [he]; rfl
  · right
    refine ⟨s1, sh1, ?_, hwf1, hperm, ?_⟩
    · split_ifs at h1 ⊢ with hnx
      · rw [h1]; rfl
      · rw [h1]; rfl
    · have hws32 : ws < 2 ^ 32 := by
        apply lt_two_pow_of_bits
        intro i hi
        apply g4
        unfold MAX_TASK_PRIORITY at g2
        omega
      intro i hi
      rw [testBit_clear ws (LOG2 ws - 1) i hws32
        (by unfold MAX_TASK_PRIORITY at g2; omega)] at hi
      simp only [Bool.and_eq_true, decide_eq_true_eq] at hi
      obtain ⟨hi1, hi2⟩ := hi
      have hb := hsub i hi1
      have hW := hwf.list .delayed
      have hi8 : i < MAX_TASK_PRIORITY := by
        by_contra hc
        have hlt := hW.2.1
        have : s.DelayedTaskList.TaskRriorityBitMap.testBit i = false := by
          apply Nat.testBit_lt_two_pow
          exact lt_of_lt_of_le hlt (Nat.pow_le_pow_right (by norm_num) (by omega))
        rw [this] at hb
        cases hb
      have hi9 : i + 1 < MAX_TASKS_IN_LIST := by
        have := hi8
        unfold MAX_TASKS_IN_LIST MAX_TASK_PRIORITY; unfold MAX_TASK_PRIORITY at this; omega
      have hne : (s.getList .delayed).TaskList (i + 1) ≠ 0 := (hW.2.2 i hi8).mp hb
      have hl : sh .delayed (i + 1) ≠ [] := fun e =>
        hne ((Seg_head_eq_zero (hwf.seg .delayed hi9)).mpr e)
      have hl1 : sh1 .delayed (i + 1) ≠ [] := by
        rw [hoth (i + 1) (by omega)]; exact hl
      have hW1 := hwf1.list .delayed
      exact (hW1.2.2 i hi8).mpr (fun e =>
        hl1 ((Seg_head_eq_zero (hwf1.seg .delayed hi9)).mp e))

/-- Clearing the highest bit of a working set leaves a working set below that
bit. -/
theorem clear_top_lt (ws k : Nat) (h0 : ws ≠ 0) (h32 : ws < 2 ^ 32) (hk : ws < 2 ^ (k + 1)) :
    ws &&& not32 (2 ^ (LOG2 ws - 1)) < 2 ^ k := by
  obtain ⟨g1, g2, g3, g4⟩ := LOG2_spec ws h0 h32
  apply lt_two_pow_of_bits
  intro i hi
  rw [testBit_clear ws (LOG2 ws - 1) i h32 (by omega)]
  by_cases hik : i = LOG2 ws - 1
  · simp [hik]
  · have : LOG2 ws ≤ i := by
      by_contra hc
      have hlt : i < LOG2 ws - 1 := by omega
      have hk1 : LOG2 ws - 1 < k + 1 := by
        by_contra hc2
        have : ws.testBit (LOG2 ws - 1) = false :=
          Nat.testBit_lt_two_pow
            (lt_of_lt_of_le hk (Nat.pow_le_pow_right (by norm_num) (by omega)))
        rw [this] at g3
        exact Bool.false_ne_true g3
      omega
    simp [g4 i this]

/-- The loop of `OS_tick` on well-formed lists ends within one pass per bit of
the working set. -/
theorem tickOuter_total (inner : Nat) :
    ∀ (k ws fuel : Nat) (s : Kernel) (sh : Shape), ws < 2 ^ k → k < fuel → WF s sh →
      (allNodes sh).length < inner →
      (∀ i, ws.testBit i = true → s.DelayedTaskList.TaskRriorityBitMap.testBit i = true) →
      tickOuter inner fuel ws s = .error .assertion ∨
        ∃ s' sh', tickOuter inner fuel ws s = .ok s' ∧ WF s' sh' ∧
          (allNodes sh').Perm (allNodes sh) := by
  intro k
  induction k with
  | zero =>
    intro ws fuel s sh hws hf hwf _ _
    have : ws = 0 := by simpa using hws
    subst this
    cases fuel with
    | zero => simp at hf
    | succ fuel => exact Or.inr ⟨s, sh, by simp [tickOuter], hwf, List.Perm.refl _⟩
  | succ k ih =>
    intro ws fuel s sh hws hf hwf hinner hsub
    cases fuel with
    | zero => simp at hf
    | succ fuel =>
      rw [tickOuter_pass]
      by_cases h0 : ws = 0
      · subst h0
        exact Or.inr ⟨s, sh, by simp, hwf, List.Perm.refl _⟩
      · simp only [h0, ↓reduceIte]
        obtain ⟨g1, g2, g3, g4, -⟩ := top_slot s sh hwf .delayed ws h0 hsub
        have hws32 : ws < 2 ^ 32 := by
          apply lt_two_pow_of_bits
          intro i hi
          apply g4
          unfold MAX_TASK_PRIORITY at g2
          omega
        rcases tickPass_total inner ws s sh hwf h0 hsub hinner with
          he | ⟨s1, sh1, h1, hwf1, hperm1, hsub1⟩
        · left; rw [he]; rfl
        · rw [h1, ok_bind]
          rcases ih _ fuel s1 sh1 (clear_top_lt ws k h0 hws32 hws) (by omega) hwf1
            (by rw [hperm1.length_eq]; exact hinner) hsub1 with he | ⟨s', sh', h2, hwf2, hperm2⟩
          · exact Or.inl he
          · exact Or.inr ⟨s', sh', h2, hwf2, hperm2.trans hperm1⟩

/-- C40: on well-formed lists (chains without repetition, every node of slot `p`
on a TCB of priority `p`, bitmap invariant) the scanning loops of `OS_tick` and
`os_utilsRemoveFromWaitingListHPT` end.  With fuel for more than 8 tests of the
outer loop and for walks longer than the number of nodes on the lists, the loop
of `OS_tick` does not run out of fuel: it returns with well-formed lists, or it
stops at an assertion (the test of the timeout at the top of the loop body, or
the priority test of the insertion into Ready); the scan of Waiting returns.
Each returning pass of the loop of `OS_tick` clears the highest set bit of the
working set, bit `LOG2 ws - 1`, so the working set decreases.  The same holds
for the two functions called with one fuel for both loops. -/
theorem scan_loops_terminate (s : Kernel) (sh : Shape) (e inner outer : Nat) (hwf : WF s sh)
    (hinner : (allNodes sh).length < inner) (houter : MAX_TASK_PRIORITY < outer) :
    (tickOuter inner outer s.DelayedTaskList.TaskRriorityBitMap s = .error .assertion ∨
      ∃ s' sh', tickOuter inner outer s.DelayedTaskList.TaskRriorityBitMap s = .ok s' ∧
        WF s' sh') ∧
    (∃ n s' sh', hptOuter inner e s outer s.WaitingTaskList.TaskRriorityBitMap = .ok (n, s') ∧
      WF s' sh') ∧
    (∀ ws, ws ≠ 0 →
      (∀ i, ws.testBit i = true → s.DelayedTaskList.TaskRriorityBitMap.testBit i = true) →
      ∀ ws1 s1, tickPass inner ws s = .ok (ws1, s1) →
        ws1 = ws &&& not32 (2 ^ (LOG2 ws - 1)) ∧ ws1 < ws ∧
          ws.testBit (LOG2 ws - 1) = true ∧ ws1.testBit (LOG2 ws - 1) = false ∧
          ∀ i, LOG2 ws ≤ i → ws.testBit i = false) ∧
    (∀ fuel, (allNodes sh).length < fuel → MAX_TASK_PRIORITY < fuel →
      (OS_tick fuel s = .error .assertion ∨ ∃ s' sh', OS_tick fuel s = .ok s' ∧ WF s' sh') ∧
      ∃ n s' sh', os_utilsRemoveFromWaitingListHPT fuel e s = .ok (n, s') ∧ WF s' sh') := by
  have htick : ∀ inner outer, (allNodes sh).length < inner → MAX_TASK_PRIORITY < outer →
      (tickOuter inner outer s.DelayedTaskList.TaskRriorityBitMap s = .error .assertion ∨
        ∃ s' sh', tickOuter inner outer s.DelayedTaskList.TaskRriorityBitMap s = .ok s' ∧
          WF s' sh') := by
    intro inner outer hi ho
    rcases tickOuter_total inner MAX_TASK_PRIORITY _ outer s sh (hwf.list .delayed).2.1 ho hwf hi
      (fun _ h => h) with h | ⟨s', sh', h, hwf', -⟩
    · exact Or.inl h
    · exact Or.inr ⟨s', sh', h, hwf'⟩
  have hhpt : ∀ inner outer, (allNodes sh).length < inner → MAX_TASK_PRIORITY < outer →
      ∃ n s' sh', hptOuter inner e s outer s.WaitingTaskList.TaskRriorityBitMap = .ok (n, s') ∧
        WF s' sh' := by
    intro inner outer hi ho
    rcases hptOuter_total s sh e inner outer hwf hi ho with h | ⟨p, l1, n, l2, hp0, hp8,
      hsh, -, -, h⟩
    · exact ⟨0, s, sh, h, hwf⟩
    · exact ⟨n, _, _, h, (remove_WF s sh .waiting p n l1 l2 hwf hp0 hp8 hsh).1⟩
  refine ⟨htick inner outer hinner houter, hhpt inner outer hinner houter, ?_, ?_⟩
  · intro ws h0 hsub ws1 s1 h
    obtain ⟨g1, g2, g3, g4, -⟩ := top_slot s sh hwf .delayed ws h0 hsub
    have hws32 : ws < 2 ^ 32 := by
      apply lt_two_pow_of_bits
      intro i hi
      apply g4
      unfold MAX_TASK_PRIORITY at g2
      omega
    have hk : ws < 2 ^ (LOG2 ws - 1 + 1) := by
      rw [Nat.sub_add_cancel g1]
      exact lt_two_pow_of_bits ws (LOG2 ws) g4
    have hlt := clear_top_lt ws (LOG2 ws - 1) h0 hws32 hk
    have hge : 2 ^ (LOG2 ws - 1) ≤ ws := Nat.testBit_implies_ge g3
    rcases tickPass_total inner ws s sh hwf h0 hsub hinner with he | ⟨s2, sh2, h2, -, -, -⟩
    · rw [he] at h; cases h
    · rw [h2] at h
      simp only [Except.ok.injEq, Prod.mk.injEq] at h
      obtain ⟨e1, -⟩ := h
      subst e1
      refine ⟨rfl, by omega, g3, ?_, g4⟩
      rw [testBit_clear ws (LOG2 ws - 1) _ hws32 (by unfold MAX_TASK_PRIORITY at g2; omega)]
      simp
  · intro fuel hi ho
    exact ⟨htick fuel fuel hi ho, hhpt fuel fuel hi ho⟩

/-! ## Building runs under the usage rules -/

theorem reachPos_create (once : Bool) (k k' : Kernel) (nodes tasks : List Nat) (d : Bool)
    (fuel myTcb prio threadHandler stkSto stkSize pNode : Nat)
    (h : ReachPos once ⟨k, nodes, tasks, d⟩) (hN : pNode ∉ nodes)
    (hT : once = true → myTcb ∉ tasks)
    (hc : OS_Task_Create fuel myTcb prio threadHandler stkSto stkSize pNode k = .ok k') :
    ReachPos once ⟨k', pNode :: nodes, myTcb :: tasks, d⟩ :=
  ReachPos.step _ _ h
    (StepPos.create ⟨k, nodes, tasks, d⟩ fuel myTcb prio threadHandler stkSto stkSize pNode k' hN
      hT hc)

theorem reachPos_sched (once : Bool) (k k' : Kernel) (nodes tasks : List Nat) (d : Bool)
    (fuel : Nat) (h : ReachPos once ⟨k, nodes, tasks, d⟩) (hc : OS_sched fuel k = .ok k') :
    ReachPos once ⟨k', nodes, tasks, d⟩ :=
  ReachPos.step _ _ h (StepPos.sched ⟨k, nodes, tasks, d⟩ fuel k' hc)

theorem reachPos_delay (once : Bool) (k k' : Kernel) (nodes tasks : List Nat) (d : Bool)
    (fuel ticks : Nat) (h : ReachPos once ⟨k, nodes, tasks, d⟩) (ht : 0 < ticks)
    (hc : OS_Delay fuel ticks k = .ok k') : ReachPos once ⟨k', nodes, tasks, d⟩ :=
  ReachPos.step _ _ h (StepPos.delay ⟨k, nodes, tasks, d⟩ fuel ticks k' ht hc)

theorem reachPos_tick (once : Bool) (k k' : Kernel) (nodes tasks : List Nat) (d : Bool)
    (fuel : Nat) (h : ReachPos once ⟨k, nodes, tasks, d⟩) (hc : OS_tick fuel k = .ok k') :
    ReachPos once ⟨k', nodes, tasks, d⟩ :=
  ReachPos.step _ _ h (StepPos.tick ⟨k, nodes, tasks, d⟩ fuel k' hc)

theorem reachPos_pendSV (once : Bool) (k : Kernel) (nodes tasks : List Nat) (d : Bool) (sp : Nat)
    (h : ReachPos once ⟨k, nodes, tasks, d⟩) (hp : k.pendSV = true) :
    ReachPos once ⟨PendSV_Handler sp k, nodes, tasks, true⟩ :=
  ReachPos.step _ _ h (StepPos.pendSV ⟨k, nodes, tasks, d⟩ sp hp)

/-! ## Message delivery to a parked receiver -/

/-- What `OS_MsgQ_Wait` does on an empty queue: called by a current task of
priority 1 to 7 that is on Ready, it stores the timeout and the event
back-pointer in the current TCB, moves the task's node from Ready to the tail
of the Waiting slot of its priority, calls the scheduler and reports that the
caller is parked. -/
theorem OS_MsgQ_Wait_parks (s : Kernel) (sh : Shape) (e timeout fuel : Nat)
    (hwf : WF s sh) (hidle : sh .ready 0 ≠ []) (he : e ≠ 0)
    (htype : (s.ecb e).OS_EventType = OS_EVENT_TYPE_MQ) (hq : (s.ecb e).OS_EventPtr ≠ 0)
    (hempty : (s.mqcb (s.ecb e).OS_EventPtr).OS_MQEntries = 0)
    (hcur : s.OS_Tcb_Curr ≠ 0) (hp0 : 0 < (s.tcb s.OS_Tcb_Curr).OS_TcbPrio)
    (hp8 : (s.tcb s.OS_Tcb_Curr).OS_TcbPrio < MAX_TASK_PRIORITY)
    (hon : ∃ k ∈ sh .ready (s.tcb s.OS_Tcb_Curr).OS_TcbPrio, (s.node k).pTcb = s.OS_Tcb_Curr)
    (hfuel : (allNodes sh).length + MAX_TASKS_IN_LIST ≤ fuel) :
    ∃ l1 n l2 s',
      sh .ready (s.tcb s.OS_Tcb_Curr).OS_TcbPrio = l1 ++ n :: l2 ∧
      (s.node n).pTcb = s.OS_Tcb_Curr ∧ (∀ k ∈ l1, (s.node k).pTcb ≠ s.OS_Tcb_Curr) ∧
      OS_MsgQ_Wait fuel e timeout s = .ok (.parked, s') ∧
      WF s' (sh.move .ready .waiting (s.tcb s.OS_Tcb_Curr).OS_TcbPrio l1 n l2) ∧
      (s'.tcb s.OS_Tcb_Curr).OS_TcbEcbPtr = e ∧
      (s'.tcb s.OS_Tcb_Curr).OS_TcbTimeout = timeout ∧
      (∀ t, t ≠ s.OS_Tcb_Curr → s'.tcb t = s.tcb t) ∧
      (∀ k, (s'.node k).pTcb = (s.node k).pTcb) ∧
      s'.ecb = s.ecb ∧ s'.mqcb = s.mqcb ∧ s'.mem = s.mem := by
  obtain ⟨l1, n, l2, hsh, hn, hl1⟩ :=
    first_split (fun k => (s.node k).pTcb = s.OS_Tcb_Curr) _ hon
  obtain ⟨s1, hs1⟩ : ∃ s1 : Kernel, s1 = { s with
      tcb := Function.update s.tcb s.OS_Tcb_Curr
        { s.tcb s.OS_Tcb_Curr with OS_TcbTimeout := timeout, OS_TcbEcbPtr := e } } := ⟨_, rfl⟩
  have hprio1 : ∀ t, (s1.tcb t).OS_TcbPrio = (s.tcb t).OS_TcbPrio := by
    intro t
    by_cases h : t = s.OS_Tcb_Curr
    · subst h; simp [hs1]
    · simp [hs1, Function.update_apply, h]
  have hwf1 : WF s1 sh :=
    WF_tcb (by rw [hs1]) hprio1 (fun L => by rw [hs1]; cases L <;> rfl) hwf
  have hcur1 : s1.OS_Tcb_Curr = s.OS_Tcb_Curr := by rw [hs1]
  have hnode1 : s1.node = s.node := by rw [hs1]
  have hrun : OS_MsgQ_Wait fuel e timeout s = (do
      let s2 ← OS_EventTaskWait fuel s.OS_Tcb_Curr s1
      let s3 ← OS_sched fuel s2
      pure (WaitOutcome.parked, s3)) := by
    subst hs1
    have hnot : ¬ (s.mqcb (s.ecb e).OS_EventPtr).OS_MQEntries > 0 := by omega
    unfold OS_MsgQ_Wait
    simp only [rdEcb_ok s he, ok_bind, ne_eq, htype, not_true_eq_false, ↓reduceIte, rdMq_ok s hq,
      hnot, rdTcb_ok s hcur, wrTcb, hcur]
  obtain ⟨s2, hwait, hwf2, ht2, hecb2, hmq2, hmem2, hcur2, -, -, -, -, hpt2⟩ :=
    OS_EventTaskWait_spec s1 sh s.OS_Tcb_Curr fuel _ n l1 l2 hwf1 hcur (hprio1 _) hp0 hp8 hsh
      (by rw [hnode1]; exact hn) (by rw [hnode1]; exact hl1) hfuel
  have hp9 : (s.tcb s.OS_Tcb_Curr).OS_TcbPrio < MAX_TASKS_IN_LIST := by
    unfold MAX_TASKS_IN_LIST; omega
  have hidle2 : (sh.move .ready .waiting (s.tcb s.OS_Tcb_Curr).OS_TcbPrio l1 n l2) .ready 0
      ≠ [] := by
    have h2 : ¬ (0 = (s.tcb s.OS_Tcb_Curr).OS_TcbPrio) := by omega
    simpa [Shape.move, Shape.set, h2] using hidle
  obtain ⟨t, hsched⟩ := OS_sched_ok s2 _ fuel hwf2 (fun _ => hidle2)
    (by rw [move_length sh _ _ _ n l1 l2 hp9 hsh]; exact hfuel)
  refine ⟨l1, n, l2, schedState s2 t, hsh, hn, hl1, ?_, schedState_WF t hwf2, ?_⟩
  · rw [hrun, hwait]
    simp [hsched]
  · simp only [schedState_tcb, schedState_node, schedState_ecb, schedState_mqcb, schedState_mem,
      ht2, hecb2, hmq2, hmem2, hpt2]
    rw [hs1]
    refine ⟨by simp, by simp, ?_, fun _ => rfl, rfl, rfl, rfl⟩
    intro t ht
    simp [Function.update_apply, ht]

theorem valueOf_spec {α : Type} (r : Except Fault (α × Kernel)) (a : α)
    (h : valueOf r = some a) : r = .ok (a, stateOf2 r) := by
  cases r with
  | error e => simp [valueOf] at h
  | ok k =>
    obtain ⟨b, k'⟩ := k
    simp only [valueOf, Option.some.injEq] at h
    rw [h]
    rfl

/-! ## The sample state: witnesses and counterexamples -/

set_option maxRecDepth 100000

/-- C1, failing input: semaphore ECB 3 of the sample state has counter 3 and no
waiter, while Waiting holds tasks parked on ECBs 1 and 2.  The post returns
`OS_ERR_NONE` and the counter is still 3. -/
theorem OS_Sem_Post_lost_signal :
    WF demoState demoShape ∧
      (demoState.ecb 3).OS_EventType = OS_EVENT_TYPE_SEM ∧
      (demoState.ecb 3).OS_EventCnt = 3 ∧
      (∀ q, q < MAX_TASKS_IN_LIST → ∀ k ∈ demoShape .waiting q, ¬ waitsOn demoState 3 k) ∧
      observe (OS_Sem_Post 20 3 demoState) (fun s => (s.ecb 3).OS_EventCnt)
        = some (OS_ERR_NONE, 3) := by
  decide

/-- Witness of C2: in the sample state the post on ECB 1 wakes node 13. -/
theorem OS_Sem_Post_wakes_waiter_witness :
    ∃ p l1 n l2 s',
      demoShape .waiting p = l1 ++ n :: l2 ∧ waitsOn demoState 1 n ∧
      (∀ k ∈ l1, ¬ waitsOn demoState 1 k) ∧
      (∀ q, p < q → q < MAX_TASKS_IN_LIST → ∀ k ∈ demoShape .waiting q, ¬ waitsOn demoState 1 k) ∧
      OS_Sem_Post 20 1 demoState = .ok (OS_ERR_NONE, s') ∧
      (s'.ecb 1).OS_EventCnt = (demoState.ecb 1).OS_EventCnt ∧
      WF s' (demoShape.move .waiting .ready p l1 n l2) ∧
      (∀ k, (s'.node k).pTcb = (demoState.node k).pTcb) ∧ s'.tcb = demoState.tcb ∧
      s'.ecb = demoState.ecb :=
  OS_Sem_Post_wakes_waiter demoState demoShape 1 20 (by decide) (by decide) (by decide)
    (by decide) (by decide) ⟨5, 13, by decide, by decide, by decide⟩

/-- Witness of C3: the state left by `OS_InitEventList` on the zero state. -/
theorem OS_Sem_Post_overflow_witness :
    (∃ s1, OS_Sem_Post 1 (OS_Sem_Create 65534 "S" (OS_InitEventList zeroState)).1
          (OS_Sem_Create 65534 "S" (OS_InitEventList zeroState)).2 = .ok (OS_ERR_NONE, s1) ∧
        (s1.ecb (OS_Sem_Create 65534 "S" (OS_InitEventList zeroState)).1).OS_EventCnt = 65535 ∧
        OS_Sem_Post 1 (OS_Sem_Create 65534 "S" (OS_InitEventList zeroState)).1 s1
          = .ok (OS_ERR_SEM_OVF, s1)) ∧
      (∀ t e, e ≠ 0 → WaitingEmpty t → (t.ecb e).OS_EventType = OS_EVENT_TYPE_SEM →
        (t.ecb e).OS_EventCnt = 65535 → OS_Sem_Post 1 e t = .ok (OS_ERR_SEM_OVF, t)) ∧
      (∀ t e r t', WaitingEmpty t → (t.ecb e).OS_EventCnt ≤ 65535 →
        OS_Sem_Post 1 e t = .ok (r, t') →
        (t.ecb e).OS_EventCnt ≤ (t'.ecb e).OS_EventCnt ∧ (t'.ecb e).OS_EventCnt ≤ 65535) :=
  OS_Sem_Post_overflow (OS_InitEventList zeroState) "S" 1 (by decide) (by decide)

/-- Witness of C4: semaphore ECB 3 of the sample state, counter 3. -/
theorem OS_Sem_Wait_available_witness :
    ∃ s', OS_Sem_Wait 20 3 NO_TIMEOUT demoState = .ok (OS_ERR_NONE, s') ∧
      (s'.ecb 3).OS_EventCnt = (demoState.ecb 3).OS_EventCnt - 1 ∧
      s'.ReadyTaskList = demoState.ReadyTaskList ∧ s'.DelayedTaskList = demoState.DelayedTaskList ∧
      s'.WaitingTaskList = demoState.WaitingTaskList ∧ s'.node = demoState.node ∧
      s'.tcb = demoState.tcb ∧ s'.OS_Tcb_Curr = demoState.OS_Tcb_Curr :=
  OS_Sem_Wait_available 20 3 NO_TIMEOUT demoState (by decide) (by decide) (by decide) (by decide)

/-- C5, counterexample: the idle task (priority 0) is on Ready and calls
`OS_Sem_Wait` on a semaphore with counter 0; the call stops at the priority
assertion of `os_utilsRemoveFromListByTaskTcb` instead of parking the task. -/
theorem OS_Sem_Wait_idle_asserts :
    WF idleState demoShape ∧
      (idleState.ecb 1).OS_EventType = OS_EVENT_TYPE_SEM ∧ (idleState.ecb 1).OS_EventCnt = 0 ∧
      11 ∈ demoShape .ready (idleState.tcb idleState.OS_Tcb_Curr).OS_TcbPrio ∧
      (idleState.node 11).pTcb = idleState.OS_Tcb_Curr ∧
      OS_Sem_Wait 20 1 NO_TIMEOUT idleState = .error .assertion := by
  refine ⟨by decide, by decide, by decide, by decide, by decide, rfl⟩

/-- Witness of C5 (amended): task 2 (priority 3) of the sample state waits on ECB 1. -/
theorem OS_Sem_Wait_parks_witness :
    ∃ l1 n l2 s',
      demoShape .ready (demoState.tcb demoState.OS_Tcb_Curr).OS_TcbPrio = l1 ++ n :: l2 ∧
      (demoState.node n).pTcb = demoState.OS_Tcb_Curr ∧
      (∀ k ∈ l1, (demoState.node k).pTcb ≠ demoState.OS_Tcb_Curr) ∧
      OS_Sem_Wait 20 1 50 demoState = .ok (OS_ERR_NONE, s') ∧
      WF s' (demoShape.move .ready .waiting (demoState.tcb demoState.OS_Tcb_Curr).OS_TcbPrio
        l1 n l2) ∧
      (s'.tcb demoState.OS_Tcb_Curr).OS_TcbEcbPtr = 1 ∧
      (s'.tcb demoState.OS_Tcb_Curr).OS_TcbTimeout = 50 ∧
      (s'.tcb demoState.OS_Tcb_Curr).OS_TcbStatePend = OS_STAT_PEND_OK ∧
      (s'.tcb demoState.OS_Tcb_Curr).OS_TcbState
        = (demoState.tcb demoState.OS_Tcb_Curr).OS_TcbState ||| OS_STATE_SEM ∧
      (s'.tcb demoState.OS_Tcb_Curr).OS_TcbPrio
        = (demoState.tcb demoState.OS_Tcb_Curr).OS_TcbPrio ∧
      (∀ t, t ≠ demoState.OS_Tcb_Curr → s'.tcb t = demoState.tcb t) ∧
      (∀ k, (s'.node k).pTcb = (demoState.node k).pTcb) ∧
      s'.ecb = demoState.ecb ∧ (s'.ecb 1).OS_EventCnt = 0 :=
  OS_Sem_Wait_parks demoState demoShape 1 50 20 (by decide) (by decide) (by decide) (by decide)
    (by decide) (by decide) (by decide) (by decide) ⟨12, by decide, by decide⟩ (by decide)

/-- Witness of C6: the first call after `OS_InitEventList` on the zero state. -/
theorem OS_Sem_Create_pool_witness :
    (([] : List (Nat × String)).length < OS_MAX_EVENTS →
      (OS_Sem_Create 0 "S" (createMany [] (OS_InitEventList zeroState)).2).1 ≠ 0 ∧
      (OS_Sem_Create 0 "S" (createMany [] (OS_InitEventList zeroState)).2).1
        ∉ (createMany [] (OS_InitEventList zeroState)).1 ∧
      (OS_Sem_Create 0 "S" (createMany [] (OS_InitEventList zeroState)).2).2.ecb
        (OS_Sem_Create 0 "S" (createMany [] (OS_InitEventList zeroState)).2).1 =
          { OS_EventType := OS_EVENT_TYPE_SEM, OS_EventPtr := 0, OS_EventCnt := 0,
            OS_EventName := "S" }) ∧
    (OS_MAX_EVENTS ≤ ([] : List (Nat × String)).length →
      OS_Sem_Create 0 "S" (createMany [] (OS_InitEventList zeroState)).2 =
        (0, (createMany [] (OS_InitEventList zeroState)).2)) :=
  OS_Sem_Create_pool zeroState [] 0 "S" (by decide)

/-- Witness of C7: queue ECB 4 of the sample state; its `in` cursor wraps. -/
theorem OS_MsgQ_Send_enqueues_witness :
    ∃ s', OS_MsgQ_Send 20 4 77 demoState = .ok (OS_ERR_NONE, s') ∧
      s'.mem (demoState.mqcb (demoState.ecb 4).OS_EventPtr).OS_MQIn = 77 ∧
      (∀ a, a ≠ (demoState.mqcb (demoState.ecb 4).OS_EventPtr).OS_MQIn →
        s'.mem a = demoState.mem a) ∧
      (s'.mqcb (demoState.ecb 4).OS_EventPtr).OS_MQIn =
        (if (demoState.mqcb (demoState.ecb 4).OS_EventPtr).OS_MQIn + 1
            = (demoState.mqcb (demoState.ecb 4).OS_EventPtr).OS_MQEnd
          then (demoState.mqcb (demoState.ecb 4).OS_EventPtr).OS_MQStart
          else (demoState.mqcb (demoState.ecb 4).OS_EventPtr).OS_MQIn + 1) ∧
      (s'.mqcb (demoState.ecb 4).OS_EventPtr).OS_MQEntries =
        (demoState.mqcb (demoState.ecb 4).OS_EventPtr).OS_MQEntries + 1 ∧
      (s'.mqcb (demoState.ecb 4).OS_EventPtr).OS_MQOut
        = (demoState.mqcb (demoState.ecb 4).OS_EventPtr).OS_MQOut ∧
      (s'.mqcb (demoState.ecb 4).OS_EventPtr).OS_MQStart
        = (demoState.mqcb (demoState.ecb 4).OS_EventPtr).OS_MQStart ∧
      (s'.mqcb (demoState.ecb 4).OS_EventPtr).OS_MQEnd
        = (demoState.mqcb (demoState.ecb 4).OS_EventPtr).OS_MQEnd ∧
      (s'.mqcb (demoState.ecb 4).OS_EventPtr).OS_MQSize
        = (demoState.mqcb (demoState.ecb 4).OS_EventPtr).OS_MQSize ∧
      s'.ReadyTaskList = demoState.ReadyTaskList ∧ s'.DelayedTaskList = demoState.DelayedTaskList ∧
      s'.WaitingTaskList = demoState.WaitingTaskList ∧ s'.node = demoState.node ∧
      s'.tcb = demoState.tcb :=
  OS_MsgQ_Send_enqueues demoState demoShape 4 77 20 (by decide) (by decide) (by decide)
    (by decide) (by decide) (by decide) (by decide) (by decide)

/-- Witness of C8: queue ECB 5 of the sample state has capacity 0. -/
theorem OS_MsgQ_Send_full_witness :
    OS_MsgQ_Send 20 5 77 demoState = .ok (OS_ERR_Q_FULL, demoState) :=
  OS_MsgQ_Send_full demoState 5 77 20 (by decide) (by decide) (by decide) (by decide)

/-- Witness of C10: the round trip on queue ECB 4 of the sample state. -/
theorem OS_MsgQ_round_trip_witness :
    ∃ s1 s2, OS_MsgQ_Send 20 4 77 demoState = .ok (OS_ERR_NONE, s1) ∧
      s1.OS_Tcb_Curr = demoState.OS_Tcb_Curr ∧
      OS_MsgQ_Wait 20 4 NO_TIMEOUT s1 = .ok (.returned 77 OS_ERR_NONE, s2) ∧
      (s2.mqcb (demoState.ecb 4).OS_EventPtr).OS_MQEntries = 0 ∧
      (s2.mqcb (demoState.ecb 4).OS_EventPtr).OS_MQIn
        = (s2.mqcb (demoState.ecb 4).OS_EventPtr).OS_MQOut ∧
      s2.ReadyTaskList = demoState.ReadyTaskList ∧ s2.DelayedTaskList = demoState.DelayedTaskList ∧
      s2.WaitingTaskList = demoState.WaitingTaskList ∧ s2.node = demoState.node ∧
      s2.tcb = demoState.tcb ∧ s2.OS_Tcb_Curr = demoState.OS_Tcb_Curr :=
  OS_MsgQ_round_trip demoState demoShape 4 77 20 (by decide) (by decide) (by decide) (by decide)
    (by decide) (by decide) (by decide) (by decide) (by decide)


/-- Witness of C14: in the sample state ECB 2 is a queue and ECB 1 a semaphore. -/
theorem kind_validation_atomic_witness :
    OS_Sem_Wait 20 2 7 demoState = .ok (OS_ERR_EVENT_TYPE, demoState) ∧
    OS_Sem_Post 20 2 demoState = .ok (OS_ERR_EVENT_TYPE, demoState) ∧
    OS_MsgQ_Send 20 1 9 demoState = .ok (OS_ERR_EVENT_TYPE, demoState) ∧
    OS_MsgQ_Wait 20 1 7 demoState = .ok (.returned 0 OS_ERR_EVENT_TYPE, demoState) :=
  kind_validation_atomic demoState 2 1 7 9 20 (by decide) (by decide) (by decide) (by decide)

/-- Witness of C15: the sample state, whose Ready bitmap is 4. -/
theorem strict_priority_selection_witness :
    (demoState.ReadyTaskList.TaskRriorityBitMap = 0 → demoShape .ready 0 ≠ [] →
      OS_sched 20 demoState
        = .ok (schedState demoState (demoState.node (demoState.ReadyTaskList.TaskList 0)).pTcb)) ∧
    (demoState.ReadyTaskList.TaskRriorityBitMap ≠ 0 →
      ∃ n ∈ demoShape .ready (LOG2 demoState.ReadyTaskList.TaskRriorityBitMap),
        os_schedGetNextTaskToRun 20 demoState = .ok (demoState.node n).pTcb ∧
        OS_sched 20 demoState = .ok (schedState demoState (demoState.node n).pTcb) ∧
        ∀ q, q < MAX_TASKS_IN_LIST → ∀ k ∈ demoShape .ready q,
          (demoState.tcb (demoState.node k).pTcb).OS_TcbPrio
            ≤ (demoState.tcb (demoState.node n).pTcb).OS_TcbPrio) :=
  strict_priority_selection demoState demoShape 20 (by decide) (by decide)

/-- Witness of C16: Ready slot 3 of the sample state holds the nodes 12 and 15 of
the TCBs 2 and 5, and TCB 2 is running. -/
theorem round_robin_rule_witness :
    [12, 15] ≠ [] ∧ (∀ q, 3 < q → q < MAX_TASKS_IN_LIST → demoShape .ready q = []) ∧
    (∀ i, i < [12, 15].length →
      (demoState.node ([12, 15].getD i 0)).pTcb = demoState.OS_Tcb_Curr →
      (∀ j, j < i → (demoState.node ([12, 15].getD j 0)).pTcb ≠ demoState.OS_Tcb_Curr) →
      os_schedGetNextTaskToRun 20 demoState
        = .ok (demoState.node ([12, 15].getD ((i + 1) % [12, 15].length) 0)).pTcb) ∧
    ((∀ k ∈ [12, 15], (demoState.node k).pTcb ≠ demoState.OS_Tcb_Curr) →
      os_schedGetNextTaskToRun 20 demoState = .ok (demoState.node ([12, 15].getD 0 0)).pTcb) :=
  round_robin_rule demoState demoShape 20 3 [12, 15] (by decide) (by decide) (by decide)
    (by decide) (by decide)

/-- Witness of C17: the scheduler on the sample state. -/
theorem OS_sched_frame_witness :
    ∃ t s', OS_sched 20 demoState = .ok s' ∧
      ((demoState.ReadyTaskList.TaskRriorityBitMap = 0 ∧
          t = (demoState.node (demoState.ReadyTaskList.TaskList 0)).pTcb) ∨
        (demoState.ReadyTaskList.TaskRriorityBitMap ≠ 0 ∧
          os_schedGetNextTaskToRun 20 demoState = .ok t)) ∧
      (t ≠ demoState.OS_Tcb_Curr → s'.OS_Tcb_Next = t ∧ s'.pendSV = true) ∧
      (t = demoState.OS_Tcb_Curr →
        s'.OS_Tcb_Next = demoState.OS_Tcb_Next ∧ s'.pendSV = demoState.pendSV) ∧
      s'.OS_Tcb_Curr = demoState.OS_Tcb_Curr ∧
      s'.ReadyTaskList = demoState.ReadyTaskList ∧
      s'.DelayedTaskList = demoState.DelayedTaskList ∧
      s'.WaitingTaskList = demoState.WaitingTaskList ∧ s'.node = demoState.node ∧
      s'.tcb = demoState.tcb :=
  OS_sched_frame demoState demoShape 20 (by decide) (by decide) (by decide)

/-- Witness of C11: queue ECB 4 of the sample state, capacity 3, empty with both
cursors on the last ring cell; four sends, then three waits. -/
theorem fifo_bounded_capacity_witness :
    ∃ s1 s2,
      sendMany 20 4 [71, 72, 73, 74] demoState =
        .ok ([OS_ERR_NONE, OS_ERR_NONE, OS_ERR_NONE, OS_ERR_Q_FULL], s1) ∧
      waitMany 20 4 NO_TIMEOUT 3 s1 =
        .ok ([.returned 71 OS_ERR_NONE, .returned 72 OS_ERR_NONE, .returned 73 OS_ERR_NONE], s2) :=
  fifo_bounded_capacity demoState demoShape 4 20 NO_TIMEOUT 3 [71, 72, 73, 74] (by decide)
    (by decide) (by decide) (by decide) (by decide) (by decide) (by decide) (by decide)
    (by decide) (by decide) (by decide) (by decide) (by decide)

/-- Counterexample to C12 as stated: `OS_MsgQ_Create` with capacity 0 after
`OS_Init` returns the ECB at address 1, and both cursors of its MQCB equal the
ring end (300), so they do not lie in `[base, end)`. -/
theorem ring_invariant_capacity_zero :
    (OS_MsgQ_Create 300 0 bootState).toOption.map
        (fun r => (r.1, (r.2.mqcb (r.2.ecb r.1).OS_EventPtr).OS_MQIn,
          (r.2.mqcb (r.2.ecb r.1).OS_EventPtr).OS_MQOut,
          (r.2.mqcb (r.2.ecb r.1).OS_EventPtr).OS_MQEnd))
      = some (1, 300, 300, 300) := by
  decide

/-- Witness of C12: a queue of capacity 2 created after `OS_Init`. -/
theorem ring_invariant_witness :
    ∃ s1, OS_MsgQ_Create 100 2 bootState = .ok (bootState.OSEventFreeList, s1) ∧
      (s1.ecb bootState.OSEventFreeList).OS_EventType = OS_EVENT_TYPE_MQ ∧
      (s1.ecb bootState.OSEventFreeList).OS_EventPtr = bootState.OS_MQcb_FreeList ∧
      (s1.mqcb bootState.OS_MQcb_FreeList).OS_MQStart = 100 ∧
      (s1.mqcb bootState.OS_MQcb_FreeList).OS_MQIn = 100 ∧
      (s1.mqcb bootState.OS_MQcb_FreeList).OS_MQOut = 100 ∧
      (s1.mqcb bootState.OS_MQcb_FreeList).OS_MQEnd = 100 + 2 ∧
      (s1.mqcb bootState.OS_MQcb_FreeList).OS_MQSize = 2 ∧
      (s1.mqcb bootState.OS_MQcb_FreeList).OS_MQEntries = 0 ∧
      ∀ s2, MsgQReach s1 s2 →
        s2.ecb bootState.OSEventFreeList = s1.ecb bootState.OSEventFreeList ∧
        (s2.mqcb bootState.OS_MQcb_FreeList).OS_MQStart = 100 ∧
        (s2.mqcb bootState.OS_MQcb_FreeList).OS_MQEnd = 100 + 2 ∧
        (s2.mqcb bootState.OS_MQcb_FreeList).OS_MQSize = 2 ∧
        (s2.mqcb bootState.OS_MQcb_FreeList).OS_MQEntries ≤ 2 ∧
        100 ≤ (s2.mqcb bootState.OS_MQcb_FreeList).OS_MQIn ∧
        (s2.mqcb bootState.OS_MQcb_FreeList).OS_MQIn < 100 + 2 ∧
        100 ≤ (s2.mqcb bootState.OS_MQcb_FreeList).OS_MQOut ∧
        (s2.mqcb bootState.OS_MQcb_FreeList).OS_MQOut < 100 + 2 ∧
        (((s2.mqcb bootState.OS_MQcb_FreeList).OS_MQIn : Int)
            - (s2.mqcb bootState.OS_MQcb_FreeList).OS_MQOut) % (2 : Nat)
          = ((s2.mqcb bootState.OS_MQcb_FreeList).OS_MQEntries : Int) % (2 : Nat) ∧
        ((s2.mqcb bootState.OS_MQcb_FreeList).OS_MQEntries = 2 →
          (s2.mqcb bootState.OS_MQcb_FreeList).OS_MQIn
            = (s2.mqcb bootState.OS_MQcb_FreeList).OS_MQOut) :=
  ring_invariant bootState 100 2 (by decide) (by decide) (by decide) (by decide)

/-- C13, the code at the failing input: with the ECB pool used up (after
`OS_Init` and eight `OS_Sem_Create`), `OS_MsgQ_Create` stores through the null
ECB pointer instead of returning null. -/
theorem OS_MsgQ_Create_no_ecb :
    noEcbState.OSEventFreeList = 0 ∧ OS_MsgQ_Create 100 2 noEcbState = .error .nullDeref := by
  have h : noEcbState.OSEventFreeList = 0 := by decide
  refine ⟨h, ?_⟩
  unfold OS_MsgQ_Create
  simp [h, wrEcb]

/-! ## The sample run: reachability, witnesses and counterexamples -/

theorem bootState_spec : OS_Init 100 1000 200 1 500 11 zeroState = .ok bootState := by
  have h : returns (OS_Init 100 1000 200 1 500 11 zeroState) = true := by decide
  unfold bootState
  generalize OS_Init 100 1000 200 1 500 11 zeroState = r at h
  cases r with
  | ok k => rfl
  | error e => simp [returns] at h

theorem trace_reach0 (once : Bool) : Reach once traceWorld0 :=
  Reach.init _ ⟨100, 1000, 200, 1, 500, 11, zeroState, rfl, bootState_spec, rfl, rfl, rfl⟩

theorem trace_reach1 (once : Bool) : Reach once traceWorld1 :=
  Reach.step _ _ (trace_reach0 once)
    (Step.create traceWorld0 100 2 3 600 2000 200 12 trace1 (by decide) (fun _ => by decide)
      (stateOf_spec _ (by decide)))

theorem trace_reach2 (once : Bool) : Reach once traceWorld2 :=
  Reach.step _ _ (trace_reach1 once)
    (Step.sched traceWorld1 100 trace2 (stateOf_spec _ (by decide)))

theorem trace_reach3 (once : Bool) : Reach once traceWorld3 :=
  Reach.step _ _ (trace_reach2 once) (Step.pendSV traceWorld2 0 (by decide))

theorem trace_reach4 (once : Bool) : Reach once traceWorld4 :=
  Reach.step _ _ (trace_reach3 once) (Step.semCreate traceWorld3 0 "S")

theorem trace_reach5 (once : Bool) : Reach once traceWorld5 := by
  obtain ⟨err, h⟩ := stateOf2_spec (OS_Sem_Wait 100 1 NO_TIMEOUT trace4) (by decide)
  exact Reach.step _ _ (trace_reach4 once) (Step.semWait traceWorld4 100 1 NO_TIMEOUT err trace5 h)

theorem trace_reach6 (once : Bool) : Reach once traceWorld6 :=
  Reach.step _ _ (trace_reach5 once) (Step.pendSV traceWorld5 0 (by decide))

theorem trace_reach8 : Reach false traceWorld8 := by
  have h7 : Reach false traceWorld7 :=
    Reach.step _ _ (trace_reach6 false)
      (Step.create traceWorld6 100 2 5 600 2000 200 13 trace7 (by decide)
        (fun h => Bool.noConfusion h) (stateOf_spec _ (by decide)))
  obtain ⟨st, h⟩ := stateOf2_spec (OS_Sem_Post 100 1 trace7) (by decide)
  exact Reach.step _ _ h7 (Step.semPost traceWorld7 100 1 st trace8 h)

/-- C18, counterexample: the sample run, in which TCB 2 is passed to
`OS_Task_Create` a second time while its first node waits on a semaphore, ends
in a state whose Waiting bitmap has bit 2 set while Waiting slot 3 is empty. -/
theorem bitmap_invariant_recreated_tcb :
    Reach false traceWorld8 ∧ ¬ BitmapInv traceWorld8.k ∧
      traceWorld8.k.WaitingTaskList.TaskRriorityBitMap = 4 ∧
      traceWorld8.k.WaitingTaskList.TaskList 3 = 0 :=
  ⟨trace_reach8, by decide, by decide, by decide⟩

theorem bitmap_invariant_witness : Reach true traceWorld6 ∧ BitmapInv traceWorld6.k :=
  ⟨trace_reach6 true, bitmap_invariant traceWorld6 (trace_reach6 true)⟩

theorem one_node_per_tcb_witness :
    Reach true traceWorld6 ∧
      ∃ sh, WF traceWorld6.k sh ∧ TcbNodup traceWorld6.k sh ∧
        ∀ t L L', OnList traceWorld6.k sh L t → OnList traceWorld6.k sh L' t → L' = L :=
  ⟨trace_reach6 true, one_node_per_tcb traceWorld6 (trace_reach6 true)⟩

/-- C20, counterexample: after `OS_Init`, the creation of task TCB 2, the
scheduler and the first context switch, the current TCB 2 is on Ready slot 3. -/
theorem current_task_on_ready :
    Reach true traceWorld3 ∧ traceWorld3.dispatched = true ∧ traceWorld3.k.OS_Tcb_Curr = 2 ∧
      WF traceWorld3.k traceShape3 ∧
      OnList traceWorld3.k traceShape3 .ready traceWorld3.k.OS_Tcb_Curr :=
  ⟨trace_reach3 true, rfl, by decide, by decide, by decide⟩

theorem current_task_placement_witness :
    (Reach true traceWorld3 ∧ traceWorld3.dispatched = true ∧ traceWorld3.k.pendSV = false) ∧
      ∃ sh, WF traceWorld3.k sh ∧ OnList traceWorld3.k sh .ready traceWorld3.k.OS_Tcb_Curr ∧
        ¬ OnList traceWorld3.k sh .delayed traceWorld3.k.OS_Tcb_Curr ∧
        ¬ OnList traceWorld3.k sh .waiting traceWorld3.k.OS_Tcb_Curr :=
  ⟨⟨trace_reach3 true, rfl, by decide⟩,
    current_task_placement traceWorld3 (trace_reach3 true) rfl (by decide)⟩

/-! ## Sample runs: delays, the top priority and timed waits -/

theorem peers_reach (once : Bool) : Reach once peersWorld7 := by
  have h1 : Reach once peersWorld1 :=
    reach_create once trace1 peers1 _ _ _ 100 3 3 700 3000 200 13 (trace_reach1 once)
      (by decide) (by decide) (stateOf_spec _ (by decide!))
  have h2 : Reach once peersWorld2 :=
    reach_sched once peers1 peers2 _ _ _ 100 h1 (stateOf_spec _ (by decide!))
  have h3 : Reach once peersWorld3 := reach_pendSV once peers2 _ _ _ 0 h2 (by decide!)
  have h4 : Reach once peersWorld4 :=
    reach_delay once peers3 peers4 _ _ _ 100 1 h3 (stateOf_spec _ (by decide!))
  have h5 : Reach once peersWorld5 := reach_pendSV once peers4 _ _ _ 0 h4 (by decide!)
  have h6 : Reach once peersWorld6 :=
    reach_delay once peers5 peers6 _ _ _ 100 2 h5 (stateOf_spec _ (by decide!))
  exact reach_pendSV once peers6 _ _ _ 0 h6 (by decide!)

theorem top_reach4 (once : Bool) : Reach once topWorld4 := by
  have h1 : Reach once topWorld1 :=
    reach_create once bootState top1 _ _ _ 100 2 8 600 2000 200 12 (trace_reach0 once)
      (by decide) (by decide) (stateOf_spec _ (by decide!))
  have h2 : Reach once topWorld2 :=
    reach_sched once top1 top2 _ _ _ 100 h1 (stateOf_spec _ (by decide!))
  have h3 : Reach once topWorld3 := reach_pendSV once top2 _ _ _ 0 h2 (by decide!)
  exact reach_semCreate once top3 _ _ _ 0 "S" h3

theorem top_reach6 (once : Bool) : Reach once topWorld6 := by
  have h5 : Reach once topWorld5 :=
    reach_delay once top4 top5 _ _ _ 100 1 (top_reach4 once) (stateOf_spec _ (by decide!))
  exact reach_pendSV once top5 _ _ _ 0 h5 (by decide!)

theorem timed_reach2 (once : Bool) : Reach once timedWorld2 := by
  have h1 : Reach once timedWorld1 :=
    reach_semWait once trace4 _ _ _ 100 1 1 (trace_reach4 once) (by decide!)
  exact reach_pendSV once timed1 _ _ _ 0 h1 (by decide!)

theorem timed_reach4 (once : Bool) : Reach once timedWorld4 := by
  have h3 : Reach once timedWorld3 :=
    reach_tick once timed2 timed3 _ _ _ 100 (timed_reach2 once) (stateOf_spec _ (by decide!))
  exact reach_tick once timed3 timed4 _ _ _ 100 h3 (stateOf_spec _ (by decide!))

/-- C21, failing input: Delayed slot 3 holds node 12 (TCB 2, timeout 1) before
node 13 (TCB 3, timeout 2).  `OS_tick` returns; TCB 2 has expired and its node
is in Ready slot 3, while the timeout of TCB 3, still on Delayed, is 2 as
before: it was not decremented. -/
theorem OS_tick_skips_peers :
    Reach true peersWorld7 ∧
      peers7.DelayedTaskList.TaskList 3 = 12 ∧ (peers7.node 12).next = 13 ∧
      (peers7.node 13).next = 0 ∧ (peers7.node 12).pTcb = 2 ∧ (peers7.node 13).pTcb = 3 ∧
      (peers7.tcb 2).OS_TcbTimeout = 1 ∧ (peers7.tcb 3).OS_TcbTimeout = 2 ∧
      OS_tick 100 peers7 = .ok peers8 ∧
      peers8.ReadyTaskList.TaskList 3 = 12 ∧ peers8.DelayedTaskList.TaskList 3 = 13 ∧
      (peers8.tcb 2).OS_TcbTimeout = 0 ∧ (peers8.tcb 3).OS_TcbTimeout = 2 :=
  ⟨peers_reach true, by decide!, by decide!, by decide!, by decide!, by decide!, by decide!, by decide!,
    stateOf_spec _ (by decide!), by decide!, by decide!, by decide!, by decide!⟩

/-- C22, failing input: the priority-8 task TCB 2 has called `OS_Delay(1)` and
its node 12 is alone in Delayed slot 8 with timeout 1.  The first `OS_tick`
stops at an assertion instead of moving the task to Ready. -/
theorem OS_Delay_top_priority_never_ready :
    Reach true topWorld6 ∧
      (top4.tcb 2).OS_TcbPrio = 8 ∧ top4.OS_Tcb_Curr = 2 ∧ returns (OS_Delay 100 1 top4) = true ∧
      top6.DelayedTaskList.TaskList 8 = 12 ∧ (top6.node 12).next = 0 ∧ (top6.node 12).pTcb = 2 ∧
      (top6.tcb 2).OS_TcbTimeout = 1 ∧
      OS_tick 100 top6 = .error .assertion :=
  ⟨top_reach6 true, by decide!, by decide!, by decide!, by decide!, by decide!, by decide!, by decide!,
    faultOf_spec _ _ (by decide!)⟩

/-- C25, failing input: a task created at priority 8 runs (`top4`).  Parking it
on the semaphore ECB 1 stops at an assertion, and so does the tick in which its
delay expires (`top6`): `os_utilsAddTaskToListByNode` rejects priority 8, while
creation and `OS_Delay` accept it. -/
theorem priority_eight_rejected :
    Reach true topWorld4 ∧ (top4.tcb 2).OS_TcbPrio = 8 ∧ top4.OS_Tcb_Curr = 2 ∧
      (top4.ecb 1).OS_EventType = OS_EVENT_TYPE_SEM ∧ (top4.ecb 1).OS_EventCnt = 0 ∧
      OS_Sem_Wait 100 1 NO_TIMEOUT top4 = .error .assertion ∧
      returns (OS_Delay 100 1 top4) = true ∧
      OS_tick 100 (PendSV_Handler 0 (stateOf (OS_Delay 100 1 top4))) = .error .assertion :=
  ⟨top_reach4 true, by decide!, by decide!, by decide!, by decide!,
    faultOf_spec _ _ (by decide!), by decide!, faultOf_spec _ _ (by decide!)⟩

/-- C29, failing input: node 12, with both links cleared and bound to the
priority-8 TCB 2, is on no list (`topUnlinked`).  `os_utilsAddTaskToListByNode`
stops at its assertion for each of the three lists; the sibling
`os_utilsAddTaskToDelayedListByNode` accepts the same node. -/
theorem insert_rejects_top_priority :
    (topUnlinked.node 12).prev = 0 ∧ (topUnlinked.node 12).next = 0 ∧
      (topUnlinked.node 12).pTcb = 2 ∧ (topUnlinked.tcb 2).OS_TcbPrio = 8 ∧
      topUnlinked.ReadyTaskList.TaskList 8 = 0 ∧
      os_utilsAddTaskToListByNode 100 12 READY_TASK_LIST topUnlinked = .error .assertion ∧
      os_utilsAddTaskToListByNode 100 12 DELAYED_TASK_LIST topUnlinked = .error .assertion ∧
      os_utilsAddTaskToListByNode 100 12 WAITING_TASK_LIST topUnlinked = .error .assertion ∧
      returns (os_utilsAddTaskToDelayedListByNode 100 12 topUnlinked) = true :=
  ⟨by decide!, by decide!, by decide!, by decide!, by decide!, faultOf_spec _ _ (by decide!),
    faultOf_spec _ _ (by decide!), faultOf_spec _ _ (by decide!), by decide!⟩

/-- C24, failing input: TCB 2 is parked on the semaphore ECB 1 by `OS_Sem_Wait`
with timeout 1 and nothing is posted.  The first call of `OS_tick` should move
it to Ready with a timed-out result.  After one and after two calls of
`OS_tick` its node 12 is still the head of Waiting slot 3, Ready slot 3 is
empty, and the timeout and the pend status of the TCB are as `OS_Sem_Wait`
left them. -/
theorem wait_timeout_never_fires :
    Reach true timedWorld4 ∧
      timed2.WaitingTaskList.TaskList 3 = 12 ∧ (timed2.node 12).pTcb = 2 ∧
      (timed2.tcb 2).OS_TcbTimeout = 1 ∧ (timed2.tcb 2).OS_TcbEcbPtr = 1 ∧
      OS_tick 100 timed2 = .ok timed3 ∧ OS_tick 100 timed3 = .ok timed4 ∧
      timed3.WaitingTaskList.TaskList 3 = 12 ∧ timed3.ReadyTaskList.TaskList 3 = 0 ∧
      timed4.WaitingTaskList.TaskList 3 = 12 ∧ timed4.ReadyTaskList.TaskList 3 = 0 ∧
      timed4.tcb 2 = timed2.tcb 2 :=
  ⟨timed_reach4 true, by decide!, by decide!, by decide!, by decide!, stateOf_spec _ (by decide!),
    stateOf_spec _ (by decide!), by decide!, by decide!, by decide!, by decide!, by decide!⟩

/-- Witness of C30: TCB 5 (priority 3) is removed from Ready slot 3 of the sample
state, where its node 15 is the last of two nodes. -/
theorem remove_by_tcb_present_witness :
    ∃ s', os_utilsRemoveFromListByTaskTcb 20 5 ListId.ready.code demoState = .ok (15, s') ∧
      s'.node 15 = { prev := 0, next := 0, pTcb := 5 } ∧
      WF s' (demoShape.set .ready 3 ([12] ++ [])) ∧
      (demoState.getList .ready).TaskRriorityBitMap.testBit (3 - 1) = true ∧
      ((s'.getList .ready).TaskRriorityBitMap.testBit (3 - 1) = false ↔ [12] ++ [] = []) ∧
      (∀ i, i ≠ 3 - 1 →
        (s'.getList .ready).TaskRriorityBitMap.testBit i
          = (demoState.getList .ready).TaskRriorityBitMap.testBit i) ∧
      (∀ q, q ≠ 3 → (s'.getList .ready).TaskList q = (demoState.getList .ready).TaskList q) ∧
      (∀ L', L' ≠ .ready → s'.getList L' = demoState.getList L') ∧
      (∀ k, k ∉ demoShape .ready 3 → s'.node k = demoState.node k) ∧ s'.tcb = demoState.tcb :=
  remove_by_tcb_present demoState demoShape .ready 20 5 3 15 [12] [] (by decide) (by decide)
    (by decide) (by decide) (by decide) (by decide) (by decide) (by decide) (by decide)

/-- The post that preempts, in the sample state: TCB 3 (priority 5, node 13) is
the only waiter of the semaphore ECB 1, the tasks on Ready have priorities 0
and 3 and TCB 2 is running. -/
theorem OS_Sem_Post_preempts_sample :
    ∃ l1 l2 s', demoShape .waiting 5 = l1 ++ 13 :: l2 ∧
      OS_Sem_Post 20 1 demoState = .ok (OS_ERR_NONE, s') ∧
      WF s' (demoShape.move .waiting .ready 5 l1 13 l2) ∧
      (demoShape.move .waiting .ready 5 l1 13 l2) .ready 5 = [13] ∧
      (s'.node 13).pTcb = (demoState.node 13).pTcb ∧
      s'.OS_Tcb_Next = (demoState.node 13).pTcb ∧ s'.pendSV = true :=
  OS_Sem_Post_preempts demoState demoShape 1 20 5 13 (by decide) (by decide) (by decide)
    (by decide) (by decide) (by decide) (by decide) (by decide) (by decide) (by decide)
    (by decide)

/-- Witness of C27: TCB 2 is created after `OS_Init` with priority 3 and a stack
of 200 bytes at address 2000. -/
theorem OS_Task_Create_frame_witness :
    ∃ s', OS_Task_Create 100 2 3 600 2000 200 12 bootState = .ok s' ∧
      (s'.tcb 2).OS_TcbPrio = 3 ∧
      (s'.tcb 2).OS_TcbSp = (2000 + 200) / 8 * 8 - 64 ∧
      (List.range 16).map (fun i => s'.mem ((s'.tcb 2).OS_TcbSp / 4 + i)) =
        [4, 5, 6, 7, 8, 9, 10, 11, 0, 1, 2, 3, 0xC, 0xE, 600, 0x01000000] ∧
      (s'.node 12).pTcb = 2 ∧
      WF s' (bootShape.set .ready 3 (bootShape .ready 3 ++ [12])) ∧
      (∀ t, t ≠ 2 → s'.tcb t = bootState.tcb t) ∧
      (∀ k, k ≠ 12 → (s'.node k).pTcb = (bootState.node k).pTcb) :=
  OS_Task_Create_frame bootState bootShape (by decide!) 100 2 3 600 2000 200 12 (by decide)
    (by decide) (by decide) (by decide!) (by decide) (by decide) (by decide) (by decide)
    (by decide)

/-- Witness of C26: `OS_Init` on the zero state with the idle TCB at address 1,
node 11 and an idle stack of 200 bytes at address 1000. -/
theorem OS_Init_state_witness :
    ∃ s, OS_Init 100 1000 200 1 500 11 zeroState = .ok s ∧
      s.ReadyTaskList.TaskList 0 = 11 ∧ s.node 11 = ⟨0, 0, 1⟩ ∧
      (s.tcb 1).OS_TcbPrio = 0 ∧
      (∀ p, 1 ≤ p → p < MAX_TASKS_IN_LIST → s.ReadyTaskList.TaskList p = 0) ∧
      (∀ p, p < MAX_TASKS_IN_LIST → s.DelayedTaskList.TaskList p = 0) ∧
      (∀ p, p < MAX_TASKS_IN_LIST → s.WaitingTaskList.TaskList p = 0) ∧
      s.ReadyTaskList.TaskRriorityBitMap = 0 ∧ s.DelayedTaskList.TaskRriorityBitMap = 0 ∧
      s.WaitingTaskList.TaskRriorityBitMap = 0 ∧
      chainFrom (fun a => (s.ecb a).OS_EventPtr) (OS_MAX_EVENTS + 1) s.OSEventFreeList
        = (List.range OS_MAX_EVENTS).map OSEventTbl ∧
      (∀ i, i < OS_MAX_EVENTS → (s.ecb (OSEventTbl i)).OS_EventType = OS_EVENT_TYPE_UNUSED) ∧
      chainFrom (fun a => (s.mqcb a).OS_MQPtr) (OS_MAX_MQ + 1) s.OS_MQcb_FreeList
        = (List.range OS_MAX_MQ).map OS_MQcb_Tbl ∧
      ((List.range OS_MAX_EVENTS).map OSEventTbl).Nodup ∧
      ((List.range OS_MAX_MQ).map OS_MQcb_Tbl).Nodup :=
  OS_Init_state zeroState 100 1000 200 1 500 11 (by decide) (by decide) (by decide) (by decide)
    (by decide) (by decide)

/-- The tasks on Waiting over two calls of `OS_tick`, in the run in which TCB 2
is parked on the semaphore ECB 1 with timeout 1. -/
theorem waiting_task_stays_sample :
    ∃ sh', WF timed4 sh' ∧ (∀ q, sh' .waiting q = timedShape .waiting q) ∧
      ∀ q, q < MAX_TASKS_IN_LIST → ∀ n ∈ timedShape .waiting q,
        (timed4.node n).pTcb = (timed2.node n).pTcb ∧
        timed4.tcb (timed2.node n).pTcb = timed2.tcb (timed2.node n).pTcb ∧
        OnList timed4 sh' .waiting (timed2.node n).pTcb ∧
        ¬ OnList timed4 sh' .ready (timed2.node n).pTcb ∧
        ¬ OnList timed4 sh' .delayed (timed2.node n).pTcb :=
  waiting_task_stays timed2 timedShape 100 2 timed4 (by decide!) (by decide) (by decide!)
    (by
      have h1 : OS_tick 100 timed2 = .ok timed3 := stateOf_spec _ (by decide!)
      have h2 : OS_tick 100 timed3 = .ok timed4 := stateOf_spec _ (by decide!)
      simp only [tickMany, h1, ok_bind, h2]
      rfl)

/-! ## Sample states and runs: list operations, wake-up, pools and delays -/

theorem trio_WF : WF trio5 trioShape := by decide!

theorem spare_WF : WF spareState spareShape := by decide!

/-- C31, failing inputs: in the state `trio5` (Ready slot 3 holds the nodes 13
and 14 of TCB 3 and TCB 4, Delayed slot 3 holds node 12 of TCB 2, Waiting is
empty; the lists are well formed and the three TCBs have priority 3) none of
the calls below finds a node of the TCB in slot 3.  The removal of TCB 2 from
Waiting (empty slot) reads `pWalkTask->next` through the null head, and the
removal of TCB 2 from Ready (two other nodes) reads `pWalkTask->pTcb` through
the null pointer behind the last node; the model reports both as
`Fault.nullDeref`.  Only the removal of TCB 3 from Delayed (one other node)
returns null and leaves the state unchanged. -/
theorem remove_by_tcb_absent_faults :
    WF trio5 trioShape ∧ (trio5.tcb 2).OS_TcbPrio = 3 ∧ (trio5.tcb 3).OS_TcbPrio = 3 ∧
      trioShape .waiting 3 = [] ∧ trioShape .ready 3 = [13, 14] ∧
      trioShape .delayed 3 = [12] ∧
      (∀ k ∈ trioShape .ready 3, (trio5.node k).pTcb ≠ 2) ∧
      (∀ k ∈ trioShape .delayed 3, (trio5.node k).pTcb ≠ 3) ∧
      os_utilsRemoveFromListByTaskTcb 100 2 WAITING_TASK_LIST trio5 = .error .nullDeref ∧
      os_utilsRemoveFromListByTaskTcb 100 2 READY_TASK_LIST trio5 = .error .nullDeref ∧
      os_utilsRemoveFromListByTaskTcb 100 3 DELAYED_TASK_LIST trio5 = .ok (0, trio5) :=
  ⟨trio_WF, by decide!, by decide!, by decide, by decide, by decide, by decide!, by decide!,
    (removeByTcb_absent trio5 trioShape .waiting 100 2 3 trio_WF (by decide) (by decide!)
      (by decide) (by decide) (by decide!)).1 (by decide),
    (removeByTcb_absent trio5 trioShape .ready 100 2 3 trio_WF (by decide) (by decide!)
      (by decide) (by decide) (by decide!)).2.2 13 14 [] (by decide) (by decide),
    (removeByTcb_absent trio5 trioShape .delayed 100 3 3 trio_WF (by decide) (by decide!)
      (by decide) (by decide) (by decide!)).2.1 12 (by decide)⟩

/-- Witness of C32: node 12, the first of the two nodes of Ready slot 3 of the
sample state, is removed. -/
theorem remove_by_node_member_witness :
    ∃ s', os_utilsRemoveFromListByTaskNode 12 ListId.ready.code demoState = .ok (12, s') ∧
      s'.node 12 = { prev := 0, next := 0, pTcb := (demoState.node 12).pTcb } ∧
      WF s' (demoShape.set .ready 3 ([] ++ [15])) ∧
      (demoState.getList .ready).TaskRriorityBitMap.testBit (3 - 1) = true ∧
      ((s'.getList .ready).TaskRriorityBitMap.testBit (3 - 1) = false ↔ [] ++ [15] = []) ∧
      (∀ i, i ≠ 3 - 1 →
        (s'.getList .ready).TaskRriorityBitMap.testBit i
          = (demoState.getList .ready).TaskRriorityBitMap.testBit i) ∧
      (∀ q, q ≠ 3 → (s'.getList .ready).TaskList q = (demoState.getList .ready).TaskList q) ∧
      (∀ L', L' ≠ .ready → s'.getList L' = demoState.getList L') ∧
      (∀ k, k ∉ demoShape .ready 3 → s'.node k = demoState.node k) ∧ s'.tcb = demoState.tcb :=
  remove_by_node_member demoState demoShape .ready 3 12 [] [15] (by decide) (by decide)
    (by decide) (by decide)

/-- Witness of C33: the scan of Waiting of the sample state for the event ECB 1
(node 13 of TCB 3 waits on it in slot 5), with fuel 20. -/
theorem remove_highest_waiter_witness :
    ((∀ q, q < MAX_TASKS_IN_LIST → ∀ k ∈ demoShape .waiting q, ¬ waitsOn demoState 1 k) →
      os_utilsRemoveFromWaitingListHPT 20 1 demoState = .ok (0, demoState)) ∧
    ((∃ q k, q < MAX_TASKS_IN_LIST ∧ k ∈ demoShape .waiting q ∧ waitsOn demoState 1 k) →
      ∃ p l1 n l2 s', p < MAX_TASKS_IN_LIST ∧
        demoShape .waiting p = l1 ++ n :: l2 ∧ waitsOn demoState 1 n ∧
        (∀ k ∈ l1, ¬ waitsOn demoState 1 k) ∧
        (∀ q, p < q → q < MAX_TASKS_IN_LIST → ∀ k ∈ demoShape .waiting q,
          ¬ waitsOn demoState 1 k) ∧
        os_utilsRemoveFromWaitingListHPT 20 1 demoState = .ok (n, s') ∧ n ≠ 0 ∧
        s'.node n = { prev := 0, next := 0, pTcb := (demoState.node n).pTcb } ∧
        WF s' (demoShape.set .waiting p (l1 ++ l2)) ∧
        demoState.WaitingTaskList.TaskRriorityBitMap.testBit (p - 1) = true ∧
        (s'.WaitingTaskList.TaskRriorityBitMap.testBit (p - 1) = false ↔ l1 ++ l2 = []) ∧
        (∀ i, i ≠ p - 1 → s'.WaitingTaskList.TaskRriorityBitMap.testBit i
          = demoState.WaitingTaskList.TaskRriorityBitMap.testBit i) ∧
        (∀ q, q ≠ p → s'.WaitingTaskList.TaskList q = demoState.WaitingTaskList.TaskList q) ∧
        s'.ReadyTaskList = demoState.ReadyTaskList ∧
        s'.DelayedTaskList = demoState.DelayedTaskList ∧
        (∀ k, k ∉ demoShape .waiting p → s'.node k = demoState.node k) ∧
        s'.tcb = demoState.tcb) :=
  remove_highest_waiter demoState demoShape 1 20 (by decide) (by decide) (by decide)

/-- Witness of C35: the bitmap 20 (bits 2 and 4, the priorities 3 and 5). -/
theorem LOG2_highest_slot_witness :
    LOG2 20 = 32 - builtin_clz 20 ∧ 1 ≤ LOG2 20 ∧ LOG2 20 ≤ 32 ∧
      2 ^ (LOG2 20 - 1) ≤ 20 ∧ 20 < 2 ^ LOG2 20 ∧
      (∀ p, 1 ≤ p → 2 ^ (p - 1) ≤ 20 → 20 < 2 ^ p → p = LOG2 20) ∧
      PRIORITY_TO_BIT (LOG2 20) = 2 ^ (LOG2 20 - 1) ∧
      (20 : Nat).testBit (LOG2 20 - 1) = true ∧
      (∀ p, 1 ≤ p → (20 : Nat).testBit (p - 1) = true → p ≤ LOG2 20) ∧
      (∀ l : Task_List, l.TaskRriorityBitMap = 20 → ListBitmapInv l →
        20 < 2 ^ MAX_TASK_PRIORITY →
        LOG2 20 ≤ MAX_TASK_PRIORITY ∧ l.TaskList (LOG2 20) ≠ 0 ∧
          ∀ q, LOG2 20 < q → q < MAX_TASKS_IN_LIST → l.TaskList q = 0) :=
  LOG2_highest_slot 20 (by decide) (by decide)

/-- Witness of C36: the three inserts of the detached node 15 (TCB 5, priority
3) in the state `spareState`, and the three removals in the sample state. -/
theorem list_operations_keep_WF_witness :
    (∃ s', os_utilsAddTaskToListByNode 20 15 ListId.waiting.code spareState = .ok s' ∧
      WF s' (spareShape.set .waiting 3 (spareShape .waiting 3 ++ [15]))) ∧
    (∃ s', os_utilsAddTaskToDelayedListByNode 20 15 spareState = .ok s' ∧
      WF s' (spareShape.set .delayed 3 (spareShape .delayed 3 ++ [15]))) ∧
    (∃ s', os_utilsAddTaskToReadyListByTcb 20 5 15 spareState = .ok (OS_ERR_NONE, s') ∧
      (s'.node 15).pTcb = 5 ∧ WF s' (spareShape.set .ready 3 (spareShape .ready 3 ++ [15]))) ∧
    (∃ s', os_utilsRemoveFromListByTaskTcb 20 5 ListId.ready.code demoState = .ok (15, s') ∧
      WF s' (demoShape.set .ready 3 ([12] ++ []))) ∧
    (∃ s', os_utilsRemoveFromListByTaskNode 13 ListId.waiting.code demoState = .ok (13, s') ∧
      WF s' (demoShape.set .waiting 5 ([] ++ [14]))) ∧
    (∃ n s' sh', os_utilsRemoveFromWaitingListHPT 20 1 demoState = .ok (n, s') ∧ WF s' sh') :=
  ⟨(list_operations_keep_WF spareState spareShape spare_WF).2.1 .waiting 20 15 3 (by decide)
      (by decide) (by decide!) (by decide!) (by decide!) (by decide!) (by decide) (by decide)
      (by decide),
    (list_operations_keep_WF spareState spareShape spare_WF).2.2.1 20 15 3 (by decide)
      (by decide) (by decide!) (by decide!) (by decide!) (by decide!) (by decide) (by decide)
      (by decide),
    (list_operations_keep_WF spareState spareShape spare_WF).2.2.2.1 20 5 15 3 (by decide)
      (by decide) (by decide) (by decide!) (by decide) (by decide),
    (list_operations_keep_WF demoState demoShape (by decide)).2.2.2.2.1 .ready 20 5 3 15 [12] []
      (by decide) (by decide) (by decide) (by decide) (by decide) (by decide) (by decide)
      (by decide),
    (list_operations_keep_WF demoState demoShape (by decide)).2.2.2.2.2.1 .waiting 5 13 [] [14]
      (by decide) (by decide) (by decide),
    (list_operations_keep_WF demoState demoShape (by decide)).2.2.2.2.2.2 20 1 (by decide)
      (by decide)⟩

/-- C34, failing input: in the reachable state `trace6` TCB 2 is parked on the
semaphore ECB 1 (node 12 in Waiting slot 3, event back-pointer 1, inbox 0,
pending result 0).  `OS_EventTaskReady(ECB 1, 77, OS_STAT_MQ, 2)` finds it,
returns `OS_TASK_PENDING` and moves node 12 to Ready slot 3; afterwards the
event back-pointer of TCB 2 is still 1, not null, its inbox is 0, not 77, and
its pending result is 0, not 2. -/
theorem OS_EventTaskReady_leaves_tcb :
    Reach true traceWorld6 ∧ timedShape .waiting 3 = [12] ∧ (trace6.node 12).pTcb = 2 ∧
      waitsOn trace6 1 12 ∧
      ∃ s', OS_EventTaskReady 100 1 77 OS_STAT_MQ 2 trace6 = .ok (OS_TASK_PENDING, s') ∧
        WF s' (timedShape.move .waiting .ready 3 [] 12 []) ∧
        (s'.tcb 2).OS_TcbEcbPtr = 1 ∧ (s'.tcb 2).OS_TcbMQMsg = 0 ∧
        (s'.tcb 2).OS_TcbStatePend = 0 := by
  refine ⟨trace_reach6 true, by decide, by decide!, by decide!, ?_⟩
  obtain ⟨s', h, hwf, ht, -⟩ := OS_EventTaskReady_found trace6 timedShape 1 77 OS_STAT_MQ 2 100 3
    12 [] [] (by decide!) (by decide) (by decide) (by decide) (by decide!) (by decide)
    (fun q h3 _ k hk => by
      have hq : q ≠ 3 := by omega
      simp [timedShape, hq] at hk)
    (by decide)
  refine ⟨s', h, hwf, ?_, ?_, ?_⟩
  · rw [ht]; decide!
  · rw [ht]; decide!
  · rw [ht]; decide!

/-- The wake-up on ECB 1 of the sample state, with the arguments `msg = 77`,
`msk = OS_STAT_MQ`, `pend = 2`. -/
theorem OS_EventTaskReady_moves_only_sample :
    ((∀ q, q < MAX_TASKS_IN_LIST → ∀ k ∈ demoShape .waiting q, ¬ waitsOn demoState 1 k) →
      OS_EventTaskReady 20 1 77 OS_STAT_MQ 2 demoState = .ok (OS_NO_TASK_PENDING, demoState)) ∧
    ((∃ q k, q < MAX_TASKS_IN_LIST ∧ k ∈ demoShape .waiting q ∧ waitsOn demoState 1 k) →
      ∃ p l1 n l2 s', demoShape .waiting p = l1 ++ n :: l2 ∧ waitsOn demoState 1 n ∧
        (∀ k ∈ l1, ¬ waitsOn demoState 1 k) ∧
        (∀ q, p < q → q < MAX_TASKS_IN_LIST → ∀ k ∈ demoShape .waiting q,
          ¬ waitsOn demoState 1 k) ∧
        OS_EventTaskReady 20 1 77 OS_STAT_MQ 2 demoState = .ok (OS_TASK_PENDING, s') ∧
        WF s' (demoShape.move .waiting .ready p l1 n l2) ∧
        (demoShape.move .waiting .ready p l1 n l2) .ready p = demoShape .ready p ++ [n] ∧
        (s'.node n).pTcb = (demoState.node n).pTcb ∧ s'.tcb = demoState.tcb ∧
        (s'.tcb (s'.node n).pTcb).OS_TcbEcbPtr = 1 ∧
        (s'.tcb (s'.node n).pTcb).OS_TcbMQMsg
          = (demoState.tcb (demoState.node n).pTcb).OS_TcbMQMsg ∧
        (s'.tcb (s'.node n).pTcb).OS_TcbStatePend
          = (demoState.tcb (demoState.node n).pTcb).OS_TcbStatePend) :=
  OS_EventTaskReady_moves_only demoState demoShape 1 77 OS_STAT_MQ 2 20 (by decide) (by decide)
    (by decide)

/-- Witness of C37: the state after `OS_Init` and one call of `OS_Sem_Create`. -/
theorem pools_in_step_witness :
    PoolReach poolState ∧
      (freeEcbs poolState).length ≤ (freeMqcbs poolState).length ∧
      (freeEcbs poolState).Nodup ∧ (freeMqcbs poolState).Nodup ∧
      (∀ a ∈ freeEcbs poolState, ∃ k, k < OS_MAX_EVENTS ∧ a = OSEventTbl k) ∧
      (∀ a ∈ freeMqcbs poolState, ∃ k, k < OS_MAX_MQ ∧ a = OS_MQcb_Tbl k) ∧
      ¬ (poolState.OSEventFreeList ≠ 0 ∧ poolState.OS_MQcb_FreeList = 0) ∧
      ∀ start size pe s', OS_MsgQ_Create start size poolState = .ok (pe, s') →
        pe ≠ 0 ∧ (s'.ecb pe).OS_EventType = OS_EVENT_TYPE_MQ ∧
          (s'.ecb pe).OS_EventPtr = poolState.OS_MQcb_FreeList ∧
          poolState.OS_MQcb_FreeList ≠ 0 :=
  ⟨PoolReach.sem bootState 0 "S" (PoolReach.init 100 1000 200 1 500 11 zeroState bootState
      bootState_spec),
    pools_in_step poolState (PoolReach.sem bootState 0 "S"
      (PoolReach.init 100 1000 200 1 500 11 zeroState bootState bootState_spec))⟩

/-- The run `OS_Init`; create TCB 2 (priority 3, node 12); `OS_sched`; context
switch; `OS_Delay(5)`. -/
theorem nap_reach (once : Bool) : ReachPos once napWorld4 := by
  have h0 : ReachPos once traceWorld0 :=
    ReachPos.init _ ⟨100, 1000, 200, 1, 500, 11, zeroState, rfl, bootState_spec, rfl, rfl, rfl⟩
  have h1 : ReachPos once traceWorld1 :=
    reachPos_create once bootState trace1 _ _ _ 100 2 3 600 2000 200 12 h0 (by decide)
      (fun _ => by decide) (stateOf_spec _ (by decide))
  have h2 : ReachPos once traceWorld2 :=
    reachPos_sched once trace1 trace2 _ _ _ 100 h1 (stateOf_spec _ (by decide))
  have h3 : ReachPos once traceWorld3 := reachPos_pendSV once trace2 _ _ _ 0 h2 (by decide)
  exact reachPos_delay once trace3 nap4 _ _ _ 100 5 h3 (by decide) (stateOf_spec _ (by decide!))

/-- C39, counterexample: the run `OS_Init`; create TCB 2 (priority 3, node 12);
`OS_sched`; context switch; `OS_Delay(5)`; context switch to the idle task;
TCB 2 is passed to `OS_Task_Create` again (priority 3, node 13); `OS_sched`;
context switch; `OS_Delay(1)`; context switch; `OS_tick`.  Every call of
`OS_Delay` has `ticks > 0`.  The tick decrements the timeout of TCB 2 to 0 at
node 12 and moves node 12 to Ready; node 13 of the same TCB stays on Delayed, so
a task on Delayed has timeout 0, and the next call of `OS_tick` stops at the
assertion at the top of its loop. -/
theorem delayed_timeout_zero_recreated :
    ReachPos false twiceWorld11 ∧ twice11.DelayedTaskList.TaskList 3 = 13 ∧
      (twice11.node 13).pTcb = 2 ∧ (twice11.tcb 2).OS_TcbTimeout = 0 ∧
      OS_tick 100 twice11 = .error .assertion := by
  have h5 : ReachPos false ⟨twice5, [12, 11], [2, 1], true⟩ :=
    reachPos_pendSV false nap4 _ _ _ 0 (nap_reach false) (by decide!)
  have h6 : ReachPos false ⟨twice6, [13, 12, 11], [2, 2, 1], true⟩ :=
    reachPos_create false twice5 twice6 _ _ _ 100 2 3 600 2000 200 13 h5 (by decide)
      (fun h => Bool.noConfusion h) (stateOf_spec _ (by decide!))
  have h7 : ReachPos false ⟨twice7, [13, 12, 11], [2, 2, 1], true⟩ :=
    reachPos_sched false twice6 twice7 _ _ _ 100 h6 (stateOf_spec _ (by decide!))
  have h8 : ReachPos false ⟨twice8, [13, 12, 11], [2, 2, 1], true⟩ :=
    reachPos_pendSV false twice7 _ _ _ 0 h7 (by decide!)
  have h9 : ReachPos false ⟨twice9, [13, 12, 11], [2, 2, 1], true⟩ :=
    reachPos_delay false twice8 twice9 _ _ _ 100 1 h8 (by decide) (stateOf_spec _ (by decide!))
  have h10 : ReachPos false ⟨twice10, [13, 12, 11], [2, 2, 1], true⟩ :=
    reachPos_pendSV false twice9 _ _ _ 0 h9 (by decide!)
  have h11 : ReachPos false twiceWorld11 :=
    reachPos_tick false twice10 twice11 _ _ _ 100 h10 (stateOf_spec _ (by decide!))
  exact ⟨h11, by decide!, by decide!, by decide!, faultOf_spec _ _ (by decide!)⟩

/-- Witness of C39 (amended): the state after `OS_Init`, the creation of TCB 2,
its dispatch and `OS_Delay(5)`, in which node 12 of TCB 2 is on Delayed with
timeout 5. -/
theorem delayed_timeouts_nonzero_witness :
    ReachPos true napWorld4 ∧ nap4.DelayedTaskList.TaskList 3 = 12 ∧
      (nap4.tcb (nap4.node 12).pTcb).OS_TcbTimeout = 5 ∧
      (∃ sh, WF napWorld4.k sh ∧ DelayedPos napWorld4.k sh) ∧
      (∀ fuel k', OS_tick fuel napWorld4.k = .ok k' → ∃ sh', WF k' sh' ∧ DelayedPos k' sh') ∧
      ∀ inner ws s, TickAt inner napWorld4.k ws s → ws ≠ 0 → tickAssertion ws s :=
  ⟨nap_reach true, by decide!, by decide!, delayed_timeouts_nonzero napWorld4 (nap_reach true)⟩

/-- Witness of C40: the state `trio5`, with node 12 on Delayed slot 3 and two
nodes on Ready slot 3; 4 nodes are on the lists. -/
theorem scan_loops_terminate_witness :
    (tickOuter 5 9 trio5.DelayedTaskList.TaskRriorityBitMap trio5 = .error .assertion ∨
      ∃ s' sh', tickOuter 5 9 trio5.DelayedTaskList.TaskRriorityBitMap trio5 = .ok s' ∧
        WF s' sh') ∧
    (∃ n s' sh', hptOuter 5 1 trio5 9 trio5.WaitingTaskList.TaskRriorityBitMap = .ok (n, s') ∧
      WF s' sh') ∧
    (∀ ws, ws ≠ 0 →
      (∀ i, ws.testBit i = true → trio5.DelayedTaskList.TaskRriorityBitMap.testBit i = true) →
      ∀ ws1 s1, tickPass 5 ws trio5 = .ok (ws1, s1) →
        ws1 = ws &&& not32 (2 ^ (LOG2 ws - 1)) ∧ ws1 < ws ∧
          ws.testBit (LOG2 ws - 1) = true ∧ ws1.testBit (LOG2 ws - 1) = false ∧
          ∀ i, LOG2 ws ≤ i → ws.testBit i = false) ∧
    (∀ fuel, (allNodes trioShape).length < fuel → MAX_TASK_PRIORITY < fuel →
      (OS_tick fuel trio5 = .error .assertion ∨
        ∃ s' sh', OS_tick fuel trio5 = .ok s' ∧ WF s' sh') ∧
      ∃ n s' sh', os_utilsRemoveFromWaitingListHPT fuel 1 trio5 = .ok (n, s') ∧ WF s' sh') :=
  scan_loops_terminate trio5 trioShape 1 5 9 trio_WF (by decide) (by decide)

/-! ## Sample runs: a post before the context switch, and a queue with two receivers -/

/-- C28, failing input: in the reachable state `trace5` the semaphore ECB 1 has
counter 0 and TCB 2 (priority 3, node 12) is parked on it, the only waiter; the
only task on Ready is the idle task, of priority 0.  TCB 2 parked itself a
moment ago: it is still `OS_Tcb_Curr`, and the context switch to the idle task
is requested but not yet taken.  `OS_Sem_Post(ECB 1)` returns `OS_ERR_NONE`
and node 12 is the only node of Ready slot 3, but `OS_Tcb_Next` is still the
idle TCB 1, not TCB 2, and the request that is pending is the old one: the
PendSV handler then makes the idle task current while TCB 2 is on Ready, the
task that a call of `OS_sched` selects. -/
theorem OS_Sem_Post_stale_switch :
    Reach true earlyWorld2 ∧ WF trace5 timedShape ∧
      (trace5.ecb 1).OS_EventType = OS_EVENT_TYPE_SEM ∧ (trace5.ecb 1).OS_EventCnt = 0 ∧
      timedShape .waiting 3 = [12] ∧ waitsOn trace5 1 12 ∧
      (trace5.node 12).pTcb = 2 ∧ (trace5.tcb 2).OS_TcbPrio = 3 ∧
      (∀ q, q < MAX_TASKS_IN_LIST → ∀ k ∈ timedShape .waiting q, waitsOn trace5 1 k → k = 12) ∧
      (∀ q, q < MAX_TASKS_IN_LIST → ∀ k ∈ timedShape .ready q,
        (trace5.tcb (trace5.node k).pTcb).OS_TcbPrio
          < (trace5.tcb (trace5.node 12).pTcb).OS_TcbPrio) ∧
      trace5.OS_Tcb_Curr = 2 ∧ trace5.OS_Tcb_Next = 1 ∧ trace5.pendSV = true ∧
      OS_Sem_Post 100 1 trace5 = .ok (OS_ERR_NONE, early1) ∧
      WF early1 (timedShape.move .waiting .ready 3 [] 12 []) ∧
      (timedShape.move .waiting .ready 3 [] 12 []) .ready 3 = [12] ∧
      (early1.node 12).pTcb = 2 ∧
      early1.OS_Tcb_Next = 1 ∧ early1.OS_Tcb_Next ≠ (trace5.node 12).pTcb ∧
      early1.pendSV = true ∧
      early2 = PendSV_Handler 0 early1 ∧ early2.OS_Tcb_Curr = 1 ∧
      (early2.tcb early2.OS_Tcb_Curr).OS_TcbPrio = 0 ∧
      early2.ReadyTaskList.TaskList 3 = 12 ∧ (early2.node 12).pTcb = 2 ∧
      (early2.tcb 2).OS_TcbPrio = 3 ∧ early2.pendSV = false ∧
      ∃ s, OS_sched 100 early2 = .ok s ∧ s.OS_Tcb_Next = 2 ∧ s.pendSV = true := by
  have hpost : OS_Sem_Post 100 1 trace5 = .ok (OS_ERR_NONE, early1) :=
    valueOf_spec _ _ (by decide!)
  have h1 : Reach true earlyWorld1 :=
    Reach.step _ _ (trace_reach5 true) (Step.semPost traceWorld5 100 1 OS_ERR_NONE early1 hpost)
  have h2 : Reach true earlyWorld2 :=
    Reach.step _ _ h1 (Step.pendSV earlyWorld1 0 (by decide!))
  exact ⟨h2, by decide!, by decide!, by decide!, by decide, by decide!, by decide!, by decide!,
    by decide!, by decide!, by decide!, by decide!, by decide!, hpost, by decide!, by decide,
    by decide!, by decide!, by decide!, by decide!, rfl, by decide!, by decide!, by decide!,
    by decide!, by decide!, by decide!,
    ⟨stateOf (OS_sched 100 early2), stateOf_spec _ (by decide!), by decide!, by decide!⟩⟩

/-- The run in which TCB 2 parks on the queue ECB 1 and TCB 3, created later
with priority 5, sends 77, receives it and calls `OS_Delay(1)`; then TCB 2 runs
again and goes through the wait loop once more. -/
theorem relay_reach (once : Bool) : Reach once relayWorld13 := by
  have hc : OS_MsgQ_Create 5000 2 trace1 = .ok (1, relay1) := valueOf_spec _ _ (by decide!)
  have h1 : Reach once relayWorld1 :=
    Reach.step _ _ (trace_reach1 once) (Step.mqCreate traceWorld1 5000 2 1 relay1 hc)
  have h2 : Reach once relayWorld2 :=
    Reach.step _ _ h1 (Step.sched relayWorld1 100 relay2 (stateOf_spec _ (by decide!)))
  have h3 : Reach once relayWorld3 := Reach.step _ _ h2 (Step.pendSV relayWorld2 0 (by decide!))
  have hw : OS_MsgQ_Wait 100 1 NO_TIMEOUT relay3 = .ok (.parked, relay4) :=
    valueOf_spec _ _ (by decide!)
  have h4 : Reach once relayWorld4 :=
    Reach.step _ _ h3 (Step.mqWait relayWorld3 100 1 NO_TIMEOUT .parked relay4 hw)
  have h5 : Reach once relayWorld5 := Reach.step _ _ h4 (Step.pendSV relayWorld4 0 (by decide!))
  have h6 : Reach once relayWorld6 :=
    Reach.step _ _ h5 (Step.create relayWorld5 100 3 5 700 3000 200 13 relay6 (by decide)
      (fun _ => by decide) (stateOf_spec _ (by decide!)))
  have h7 : Reach once relayWorld7 :=
    Reach.step _ _ h6 (Step.sched relayWorld6 100 relay7 (stateOf_spec _ (by decide!)))
  have h8 : Reach once relayWorld8 := Reach.step _ _ h7 (Step.pendSV relayWorld7 0 (by decide!))
  have hs : OS_MsgQ_Send 100 1 77 relay8 = .ok (OS_ERR_NONE, relay9) :=
    valueOf_spec _ _ (by decide!)
  have h9 : Reach once relayWorld9 :=
    Reach.step _ _ h8 (Step.mqSend relayWorld8 100 1 77 OS_ERR_NONE relay9 hs)
  have hr : OS_MsgQ_Wait 100 1 NO_TIMEOUT relay9 = .ok (.returned 77 OS_ERR_NONE, relay10) :=
    valueOf_spec _ _ (by decide!)
  have h10 : Reach once relayWorld10 :=
    Reach.step _ _ h9
      (Step.mqWait relayWorld9 100 1 NO_TIMEOUT (.returned 77 OS_ERR_NONE) relay10 hr)
  have h11 : Reach once relayWorld11 :=
    Reach.step _ _ h10 (Step.delay relayWorld10 100 1 relay11 (stateOf_spec _ (by decide!)))
  have h12 : Reach once relayWorld12 :=
    Reach.step _ _ h11 (Step.pendSV relayWorld11 0 (by decide!))
  have hp : OS_MsgQ_Wait 100 1 NO_TIMEOUT relay12 = .ok (.parked, relay13) :=
    valueOf_spec _ _ (by decide!)
  exact Reach.step _ _ h12 (Step.mqWait relayWorld12 100 1 NO_TIMEOUT .parked relay13 hp)

/-- The run in which TCB 3 (priority 5) and then TCB 2 (priority 3) park on the
queue ECB 1 and the message 77 is sent while the idle task runs. -/
theorem duo_reach (once : Bool) : Reach once duoWorld9 := by
  have h1 : Reach once duoWorld1 :=
    Reach.step _ _ (trace_reach1 once) (Step.create traceWorld1 100 3 5 700 3000 200 13 duo1
      (by decide) (fun _ => by decide) (stateOf_spec _ (by decide!)))
  have hc : OS_MsgQ_Create 5000 2 duo1 = .ok (1, duo2) := valueOf_spec _ _ (by decide!)
  have h2 : Reach once duoWorld2 :=
    Reach.step _ _ h1 (Step.mqCreate duoWorld1 5000 2 1 duo2 hc)
  have h3 : Reach once duoWorld3 :=
    Reach.step _ _ h2 (Step.sched duoWorld2 100 duo3 (stateOf_spec _ (by decide!)))
  have h4 : Reach once duoWorld4 := Reach.step _ _ h3 (Step.pendSV duoWorld3 0 (by decide!))
  have hw : OS_MsgQ_Wait 100 1 NO_TIMEOUT duo4 = .ok (.parked, duo5) :=
    valueOf_spec _ _ (by decide!)
  have h5 : Reach once duoWorld5 :=
    Reach.step _ _ h4 (Step.mqWait duoWorld4 100 1 NO_TIMEOUT .parked duo5 hw)
  have h6 : Reach once duoWorld6 := Reach.step _ _ h5 (Step.pendSV duoWorld5 0 (by decide!))
  have hw2 : OS_MsgQ_Wait 100 1 NO_TIMEOUT duo6 = .ok (.parked, duo7) :=
    valueOf_spec _ _ (by decide!)
  have h7 : Reach once duoWorld7 :=
    Reach.step _ _ h6 (Step.mqWait duoWorld6 100 1 NO_TIMEOUT .parked duo7 hw2)
  have h8 : Reach once duoWorld8 := Reach.step _ _ h7 (Step.pendSV duoWorld7 0 (by decide!))
  have hs : OS_MsgQ_Send 100 1 77 duo8 = .ok (OS_ERR_NONE, duo9) :=
    valueOf_spec _ _ (by decide!)
  exact Reach.step _ _ h8 (Step.mqSend duoWorld8 100 1 77 OS_ERR_NONE duo9 hs)

end MiniRTOS
